import Mathlib

/-!
# Riichi Mahjong rules kernel: hand decomposer, waits, scoring

A shallow embedding of parts of the Go package `mahjong`
(`tile.go`, `rule.go`, `action.go`, `player.go`, `player_advanced.go`,
`gameplay.go`, `yaku.go`, `score_counter.go`, `score_counter_yakus.go`,
`game_result.go`, `game_log.go`, `round_to_win.go`, `tenhou.go`,
`tenhou_mt19937.go`, and of `table.go` the set-up of the wall, the draws,
`GetPhase`, `MakeSelection` and `isAbaortedFourWind`).

Modelling conventions.

* `BaseTile` (a Go `int` holding a tile kind) is a natural number; the kinds
  are `0..33`.  The arithmetic on tile kinds is `tile + 1`, `tile + 2`, the
  suit `tile / 9`, the rank `tile % 9`, and one difference of two kinds taken
  after the larger has been put second.
* The field `TileGroup.Type` is called `GroupType` here, `Type` being reserved.
* `TileSplitter.completedTiles.Body` is a Go slice `[]TileGroup` that the
  recursive search extends with `append` and shortens by re-slicing, and whose
  header is copied into every result.  A slice header is a pointer, a length
  and a capacity; the backing arrays live in an explicit heap (`Heap`), so
  that the sharing of a backing array between the results and the splitter is
  part of the model.
* Go `int` arithmetic in the scoring code wraps in 64-bit two's complement
  (`wrapInt`).  The fu of `calculateFuForVariant` is 20 plus at most 32 for each
  group and is computed without wrapping.
* A nil pointer or nil slice result is `none` or the empty list; a `*Tile` is
  the tile it points to, physical tiles being told apart by their `ID`.
* The struct `ScoreCounter` is held in two records: `ScoreCounter` has the
  field `Player`, which the payment functions read, and `FullScoreCounter`
  extends it by the fields that the yaku and fu code reads.
* A map that is only searched or counted (`seen`, `tileCount`, `seqCount`) is
  the list of its keys; the results do not depend on the iteration order.
* The struct `Table` is held in two records as well: `Table` has the field that
  the scoring code reads, `FullTable` extends it by the fields of the game
  state.  The array `Players` is a function on `Fin 4`: four different players,
  none of them nil.  A method that changes a player through the pointer returns
  the table with that player replaced.
* The numbers drawn from the random generator are arguments of the functions
  that draw them.
* A function that can end in a run-time panic returns an `Option`, `none`
  being the panic.
* The struct `GameResult` is held in two records: `GameResult` has the fields
  that the score changes are computed from, `FullGameResult` extends it by the
  field `Type`, called `ResultType`.
* The package variables of the Mersenne Twister are a state that the functions
  take and return; `uint32` arithmetic is arithmetic modulo `2^32`.  The
  functions of the Go library that decode base64 and compute SHA-512 are
  arguments of the function that calls them, and so is the table that
  `GetSyanten` reads from a file.
* The loop of `SimulateToCompletion` has a budget of iterations; that a budget
  suffices is proved.
-/

namespace Mahjong

/-! ## Tiles (tile.go) -/

/-- A tile kind, `type BaseTile int`; the 34 kinds are `0..33`. -/
abbrev BaseTile := Nat

def _1m : BaseTile := 0
def _2m : BaseTile := 1
def _3m : BaseTile := 2
def _4m : BaseTile := 3
def _5m : BaseTile := 4
def _6m : BaseTile := 5
def _7m : BaseTile := 6
def _8m : BaseTile := 7
def _9m : BaseTile := 8
def _1p : BaseTile := 9
def _2p : BaseTile := 10
def _3p : BaseTile := 11
def _4p : BaseTile := 12
def _5p : BaseTile := 13
def _6p : BaseTile := 14
def _7p : BaseTile := 15
def _8p : BaseTile := 16
def _9p : BaseTile := 17
def _1s : BaseTile := 18
def _2s : BaseTile := 19
def _3s : BaseTile := 20
def _4s : BaseTile := 21
def _5s : BaseTile := 22
def _6s : BaseTile := 23
def _7s : BaseTile := 24
def _8s : BaseTile := 25
def _9s : BaseTile := 26
def _1z : BaseTile := 27
def _2z : BaseTile := 28
def _3z : BaseTile := 29
def _4z : BaseTile := 30
def _5z : BaseTile := 31
def _6z : BaseTile := 32
def _7z : BaseTile := 33

set_option linter.dupNamespace false in
/-- A physical tile: `type Tile struct { Tile BaseTile; RedDora bool; ID int }`. -/
structure Tile where
  Tile : BaseTile
  RedDora : Bool
  ID : Nat
deriving DecidableEq, Repr

/-- The function `IsIn` of tile.go: linear membership test. -/
def IsIn : List BaseTile → BaseTile → Bool
  | [], _ => false
  | tile :: rest, t => if tile = t then true else IsIn rest t

/-- Ascending sort of tile kinds, the effect of
`sort.Slice(s, func(i, j int) bool { return s[i] < s[j] })`. -/
def sortTiles (tiles : List BaseTile) : List BaseTile :=
  tiles.insertionSort (fun a b => a ≤ b)

/-- The function `ConvertTilesToBaseTiles` of gameplay.go: the kinds of the
tiles, sorted ascending. -/
def ConvertTilesToBaseTiles (tiles : List Tile) : List BaseTile :=
  sortTiles (tiles.map (fun t => t.Tile))

/-! ## Tile groups and the splitter (rule.go) -/

/-- The enumeration `TileGroupType` (values 0..3 in this order). -/
inductive TileGroupType where
  | Toitsu
  | Shuntsu
  | Koutsu
  | Kantsu
deriving DecidableEq, Repr

/-- The struct `TileGroup`. -/
structure TileGroup where
  GroupType : TileGroupType
  Tiles : List BaseTile
deriving DecidableEq, Repr

/-- The zero value `TileGroup{}`. -/
def TileGroup.zero : TileGroup := ⟨TileGroupType.Toitsu, []⟩

/-- A Go slice header for `[]TileGroup`: backing array, length, capacity.
The nil slice has length and capacity 0. -/
structure GroupSlice where
  ptr : Nat
  len : Nat
  cap : Nat
deriving DecidableEq, Repr

/-- The nil slice. -/
def GroupSlice.nil : GroupSlice := ⟨0, 0, 0⟩

/-- The backing arrays allocated so far; a slice header's `ptr` indexes them. -/
abbrev Heap := List (List TileGroup)

/-- The capacity chosen by the Go runtime (`nextslicecap` in runtime/slice.go)
when `append` has to grow a slice of capacity `oldCap` to hold `newLen`
elements, for capacities below 256: the capacity doubles unless that is not
enough.  For a `TileGroup` the rounding to allocation size classes leaves the
capacities 1, 2 and 4 reached here unchanged. -/
def nextslicecap (newLen oldCap : Nat) : Nat :=
  if newLen > oldCap + oldCap then newLen else oldCap + oldCap

/-- The builtin `append(s, g)` on a `[]TileGroup`: when the capacity suffices the
element is written into the shared backing array at index `len(s)`; otherwise
a new array is allocated, the old elements are copied and `g` is added. -/
def appendGroup (heap : Heap) (s : GroupSlice) (g : TileGroup) : Heap × GroupSlice :=
  if s.len < s.cap then
    (heap.set s.ptr ((heap.getD s.ptr []).set s.len g), ⟨s.ptr, s.len + 1, s.cap⟩)
  else
    let newcap := nextslicecap (s.len + 1) s.cap
    let arr := (heap.getD s.ptr []).take s.len ++ [g]
      ++ List.replicate (newcap - (s.len + 1)) TileGroup.zero
    (heap ++ [arr], ⟨heap.length, s.len + 1, newcap⟩)

/-- The elements `s[0], ..., s[len(s)-1]` of a slice, read from the heap. -/
def readSlice (heap : Heap) (s : GroupSlice) : List TileGroup :=
  (heap.getD s.ptr []).take s.len

/-- The struct `CompletedTiles` as it is held in memory: the body is a slice
header. -/
structure CompletedTilesRef where
  Head : TileGroup
  Body : GroupSlice
deriving DecidableEq, Repr

/-- The struct `CompletedTiles` as a caller reads it: head and body groups. -/
structure CompletedTiles where
  Head : TileGroup
  Body : List TileGroup
deriving DecidableEq, Repr

/-- The struct `TileSplitter` (the field `allCompleted` is never used), together
with the heap holding the backing arrays of the body slices. -/
structure TileSplitter where
  completedTiles : CompletedTilesRef
  hasHead : Bool
  heap : Heap
deriving DecidableEq, Repr

/-- The method `Reset`: empty head, nil body, no head chosen. -/
def TileSplitter.Reset (ts : TileSplitter) : TileSplitter :=
  { completedTiles := ⟨TileGroup.zero, GroupSlice.nil⟩, hasHead := false, heap := ts.heap }

/-- The function `isShuntsuBadHead`: 8 and 9 of each suit and the honours cannot
start a sequence. -/
def isShuntsuBadHead (tile : BaseTile) : Bool :=
  IsIn [_8m, _9m, _8p, _9p, _8s, _9s, _1z, _2z, _3z, _4z, _5z, _6z, _7z] tile

/-- The function `countInSlice`. -/
def countInSlice : List BaseTile → BaseTile → Nat
  | [], _ => 0
  | t :: rest, tile => (if t = tile then 1 else 0) + countInSlice rest tile

/-- The loop of `removeFromSlice`, with the number still to be removed. -/
def removeFromSlice : List BaseTile → BaseTile → Nat → List BaseTile
  | [], _, _ => []
  | t :: rest, tile, count =>
    if t = tile ∧ 0 < count then removeFromSlice rest tile (count - 1)
    else t :: removeFromSlice rest tile count

/-- The result of a search call: the entries found and the splitter afterwards. -/
abbrev SearchResult := List CompletedTilesRef × TileSplitter

/-- Branch 1 of the loop body of `getAllCompletedTilesRecursive`: the tile as the
head pair. -/
def tryHead (recur : List BaseTile → TileSplitter → SearchResult)
    (tiles : List BaseTile) (tile : BaseTile) (acc : SearchResult) : SearchResult :=
  let ts := acc.2
  if !ts.hasHead && decide (countInSlice tiles tile ≥ 2) then
    let tmpTiles := removeFromSlice tiles tile 2
    let ts1 : TileSplitter :=
      { ts with completedTiles := ⟨⟨TileGroupType.Toitsu, [tile, tile]⟩, ts.completedTiles.Body⟩,
                hasHead := true }
    let sub := recur tmpTiles ts1
    let ts2 := sub.2
    (acc.1 ++ sub.1,
      { ts2 with hasHead := false,
                 completedTiles := ⟨TileGroup.zero, ts2.completedTiles.Body⟩ })
  else acc

/-- The common part of branches 2 and 3: append the group to the body, search
the remaining tiles, cut the body back by one. -/
def tryGroup (recur : List BaseTile → TileSplitter → SearchResult)
    (tmpTiles : List BaseTile) (grp : TileGroup) (acc : SearchResult) : SearchResult :=
  let ts := acc.2
  let hb := appendGroup ts.heap ts.completedTiles.Body grp
  let ts1 : TileSplitter :=
    { ts with completedTiles := ⟨ts.completedTiles.Head, hb.2⟩, heap := hb.1 }
  let sub := recur tmpTiles ts1
  let ts2 := sub.2
  let b := ts2.completedTiles.Body
  (acc.1 ++ sub.1,
    { ts2 with completedTiles := ⟨ts2.completedTiles.Head, ⟨b.ptr, b.len - 1, b.cap⟩⟩ })

/-- Branch 2: the tile as a triplet. -/
def tryKoutsu (recur : List BaseTile → TileSplitter → SearchResult)
    (tiles : List BaseTile) (tile : BaseTile) (acc : SearchResult) : SearchResult :=
  if countInSlice tiles tile ≥ 3 then
    tryGroup recur (removeFromSlice tiles tile 3)
      ⟨TileGroupType.Koutsu, [tile, tile, tile]⟩ acc
  else acc

/-- Branch 3: the tile as the start of a sequence. -/
def tryShuntsu (recur : List BaseTile → TileSplitter → SearchResult)
    (tiles : List BaseTile) (tile : BaseTile) (acc : SearchResult) : SearchResult :=
  if !isShuntsuBadHead tile && IsIn tiles (tile + 1) && IsIn tiles (tile + 2) then
    tryGroup recur
      (removeFromSlice (removeFromSlice (removeFromSlice tiles tile 1) (tile + 1) 1) (tile + 2) 1)
      ⟨TileGroupType.Shuntsu, [tile, tile + 1, tile + 2]⟩ acc
  else acc

/-- The loop `for _, tile := range tiles` of `getAllCompletedTilesRecursive`:
`rest` are the tiles still to visit, `processed` the kinds already handled. -/
def searchLoop (recur : List BaseTile → TileSplitter → SearchResult)
    (tiles : List BaseTile) :
    List BaseTile → List BaseTile → SearchResult → SearchResult
  | [], _, acc => acc
  | tile :: rest, processed, acc =>
    if IsIn processed tile then searchLoop recur tiles rest processed acc
    else
      searchLoop recur tiles rest (tile :: processed)
        (tryShuntsu recur tiles tile (tryKoutsu recur tiles tile (tryHead recur tiles tile acc)))

/-- The method `getAllCompletedTilesRecursive`, with a recursion budget: every
recursive call is on a strictly shorter list, so a budget above the number of
tiles is never used up. -/
def getAllCompletedTilesRecursive : Nat → List BaseTile → TileSplitter → SearchResult
  | 0, _, ts => ([], ts)
  | fuel + 1, tiles, ts =>
    if tiles.length = 0 then ([ts.completedTiles], ts)
    else searchLoop (getAllCompletedTilesRecursive fuel) tiles tiles [] ([], ts)

/-- What the caller of the splitter sees of an entry: its head and the body
groups its slice header points to. -/
def derefCompleted (heap : Heap) (r : CompletedTilesRef) : CompletedTiles :=
  ⟨r.Head, readSlice heap r.Body⟩

/-- The method `GetAllCompletedTiles`, called on a fresh splitter state: the
entries are read in the heap as it is when the call returns. -/
def GetAllCompletedTiles (tiles : List BaseTile) : List CompletedTiles :=
  let ts := TileSplitter.Reset ⟨⟨TileGroup.zero, GroupSlice.nil⟩, false, []⟩
  if tiles.length = 0 then [derefCompleted ts.heap ts.completedTiles]
  else
    let res := getAllCompletedTilesRecursive (tiles.length + 1) (sortTiles tiles) ts
    res.1.map (derefCompleted res.2.heap)

/-- The function `CanWinWithTiles` of player.go. -/
def CanWinWithTiles (tiles : List BaseTile) : Bool :=
  if tiles.length ≠ 14 then false
  else decide ((GetAllCompletedTiles tiles).length > 0)

/-! ## Players and waits (player.go) -/

/-- The struct `CallGroup` of rule.go. -/
structure CallGroup where
  GroupType : TileGroupType
  Tiles : List BaseTile
  IsOpen : Bool
deriving DecidableEq, Repr

/-- The enumeration `Wind` of tile.go (`East`, `South`, `West`, `North`, the
values 0..3); other values of the underlying `int` are not modelled. -/
inductive Wind where
  | East
  | South
  | West
  | North
deriving DecidableEq, Repr

/-- The struct `RiverTile` of player.go: a discarded tile and what is recorded
with it. -/
structure RiverTile where
  Tile : Tile
  Number : Int
  Riichi : Bool
  Remain : Bool
  FromHand : Bool
deriving DecidableEq, Repr

set_option linter.dupNamespace false in
/-- The struct `River` of player.go: the discards of a player in order. -/
structure River where
  River : List RiverTile
deriving DecidableEq, Repr

/-- The fields of the struct `Player` read or written by the functions below.
The fields after `AtariTiles` default to their Go zero values. -/
structure Player where
  Oya : Bool
  Score : Int
  Hand : List Tile
  CallGroups : List CallGroup
  AtariTiles : List BaseTile
  DoubleRiichi : Bool := false
  Riichi : Bool := false
  Menzen : Bool := false
  Wind : Wind := Mahjong.Wind.East
  FuritenRound : Bool := false
  FuritenRiver : Bool := false
  FuritenRiichi : Bool := false
  FirstRound : Bool := false
  Ippatsu : Bool := false
  River : River := ⟨[]⟩
deriving DecidableEq, Repr

/-- The method `UpdateAtariTiles`: the list is emptied, then every kind from 0 to
33 is added to the sorted kinds of the hand and kept when `CanWinWithTiles`
accepts the result. -/
def Player.UpdateAtariTiles (p : Player) : Player :=
  let baseTiles := ConvertTilesToBaseTiles p.Hand
  let atariTiles := (List.range 34).foldl
    (fun atari tile =>
      if CanWinWithTiles (sortTiles (baseTiles ++ [tile])) then atari ++ [tile] else atari)
    []
  { p with AtariTiles := atariTiles }

/-! ## Yaku table (yaku.go) -/

/-- The type `Yaku` (`uint16`). -/
abbrev Yaku := Nat

def Tanyao : Yaku := 0
def Pinfu : Yaku := 1
def Iipeikou : Yaku := 2
def Ryanpeikou : Yaku := 3
def Sanshokusequence : Yaku := 4
def Ittsu : Yaku := 5
def Chanta : Yaku := 6
def Honchanta : Yaku := 7
def Sanshokudoukou : Yaku := 8
def Toitoi : Yaku := 9
def Sanankou : Yaku := 10
def Sangantu : Yaku := 11
def Sanputsu : Yaku := 12
def Yakuhai : Yaku := 13
def YakuhaiWind : Yaku := 14
def YakuhaiWhiteBoard : Yaku := 15
def YakuhaiGreenBoard : Yaku := 16
def YakuhaiRedBoard : Yaku := 17
def Honitsu : Yaku := 18
def Junchan : Yaku := 19
def Chinitsu : Yaku := 20
def Kokushi : Yaku := 21
def Suankou : Yaku := 22
def Daisangen : Yaku := 23
def Shosuushi : Yaku := 24
def Daisuushi : Yaku := 25
def Tsuisou : Yaku := 26
def Ryuuisou : Yaku := 27
def Chinroutou : Yaku := 28
def Honroutou : Yaku := 29
def Chiitoitsu : Yaku := 30
def Kazoe : Yaku := 31
def Tenhou : Yaku := 32
def Chihou : Yaku := 33
def Churen : Yaku := 34
def Menzentsumo : Yaku := 35
def Dabururiichi : Yaku := 36
def MaxYaku : Yaku := 37

/-- The struct `YakuInfo`. -/
structure YakuInfo where
  Name : String
  Fan : Int
  IsOpen : Bool
  IsYakuman : Bool
deriving DecidableEq, Repr

/-- The map `yakuInfoTable`; a key that is absent gives `none`. -/
def yakuInfoTable (yaku : Yaku) : Option YakuInfo :=
  match yaku with
  | 0 => some ⟨"断幺", 1, true, false⟩
  | 1 => some ⟨"平和", 1, false, false⟩
  | 2 => some ⟨"一对对", 1, false, false⟩
  | 3 => some ⟨"二对对", 3, false, false⟩
  | 4 => some ⟨"三色同顺", 2, true, false⟩
  | 5 => some ⟨"一通贯", 2, true, false⟩
  | 6 => some ⟨"全带幺", 2, true, false⟩
  | 7 => some ⟨"混全带幺", 2, true, false⟩
  | 8 => some ⟨"三色同刻", 2, true, false⟩
  | 9 => some ⟨"对对和", 2, true, false⟩
  | 10 => some ⟨"三暗刻", 2, false, false⟩
  | 11 => some ⟨"三杆子", 2, true, false⟩
  | 12 => some ⟨"三副露", 2, true, false⟩
  | 13 => some ⟨"役牌", 1, true, false⟩
  | 14 => some ⟨"役牌（风）", 1, true, false⟩
  | 15 => some ⟨"役牌（白板）", 1, true, false⟩
  | 16 => some ⟨"役牌（绿板）", 1, true, false⟩
  | 17 => some ⟨"役牌（红板）", 1, true, false⟩
  | 18 => some ⟨"混一色", 3, true, false⟩
  | 19 => some ⟨"纯全带幺", 3, true, false⟩
  | 20 => some ⟨"清一色", 6, true, false⟩
  | 21 => some ⟨"国士无双", 13, false, true⟩
  | 22 => some ⟨"四暗刻", 13, false, true⟩
  | 23 => some ⟨"大三元", 13, true, true⟩
  | 24 => some ⟨"小四喜", 13, true, true⟩
  | 25 => some ⟨"大四喜", 13, true, true⟩
  | 26 => some ⟨"字一色", 13, true, true⟩
  | 27 => some ⟨"绿一色", 13, true, true⟩
  | 28 => some ⟨"清老头", 13, true, true⟩
  | 29 => some ⟨"混老头", 13, true, true⟩
  | 30 => some ⟨"七对子", 25, false, true⟩
  | 31 => some ⟨"数役满", 13, true, false⟩
  | 32 => some ⟨"天胡", 13, false, true⟩
  | 33 => some ⟨"地胡", 13, false, true⟩
  | 34 => some ⟨"九莲宝灯", 13, false, true⟩
  | 35 => some ⟨"门清自摸", 1, false, false⟩
  | 36 => some ⟨"双立直", 2, false, false⟩
  | _ => none

/-- The function `GetFanCount`. -/
def GetFanCount (yaku : Yaku) : Int :=
  match yakuInfoTable yaku with
  | some info => info.Fan
  | none => 0

/-! ## Scoring (score_counter.go) -/

/-- A Go `int` result: 64-bit two's complement wrap-around
(9223372036854775808 is `2^63`, 18446744073709551616 is `2^64`). -/
def wrapInt (x : Int) : Int :=
  (x + 9223372036854775808) % 18446744073709551616 - 9223372036854775808

/-- The struct `ScoreCounterResult`; `TsumoScore` is the array `[3]int`. -/
structure ScoreCounterResult where
  Fan : Int
  Fu : Int
  BaseScore : Int
  TsumoScore : Int × Int × Int
  RonScore : Int
  IsYakuman : Bool
  Yakus : List Yaku
deriving DecidableEq, Repr

/-- The fields of the struct `ScoreCounter` read by the scoring functions. -/
structure ScoreCounter where
  Player : Player
deriving DecidableEq, Repr

/-- The method `CalculateFan`. -/
def ScoreCounter.CalculateFan (_s : ScoreCounter) (yakus : List Yaku) : Int :=
  let counts := yakus.foldl
    (fun (c : Int × Int) yaku =>
      let fanVal := GetFanCount yaku
      if fanVal ≥ 13 then (c.1, wrapInt (c.2 + 1)) else (wrapInt (c.1 + fanVal), c.2))
    ((0 : Int), (0 : Int))
  let fanCount := counts.1
  let yakumanCount := counts.2
  if yakumanCount > 0 then wrapInt (13 * yakumanCount) else fanCount

/-- The method `CalculateBaseScore`. -/
def ScoreCounter.CalculateBaseScore (_s : ScoreCounter) (fan fu : Int) : Int :=
  if fan ≥ 13 then 8000
  else if fan ≥ 11 then 6000
  else if fan ≥ 8 then 4000
  else if fan ≥ 6 then 3000
  else if fan ≥ 5 then 2000
  else if fan = 4 then
    let baseScore := wrapInt (fu * 1000)
    if baseScore > 2000 then 2000 else baseScore
  else if fan = 3 then
    let baseScore := wrapInt (fu * 500)
    if baseScore > 2000 then 2000 else baseScore
  else if fan = 2 then
    let baseScore := wrapInt (fu * 250)
    if baseScore > 2000 then 2000 else baseScore
  else
    let baseScore := wrapInt (fu * 100)
    if baseScore > 2000 then 2000 else baseScore

/-- The method `CalculateRonScore`. -/
def ScoreCounter.CalculateRonScore (s : ScoreCounter) (baseScore : Int) : Int :=
  if s.Player.Oya then wrapInt (baseScore * 6) else wrapInt (baseScore * 4)

/-- The method `CalculateTsumoScore`. -/
def ScoreCounter.CalculateTsumoScore (s : ScoreCounter) (baseScore : Int) : Int × Int × Int :=
  if s.Player.Oya then
    (wrapInt (baseScore * 2), wrapInt (baseScore * 2), wrapInt (baseScore * 2))
  else
    (wrapInt (baseScore * 2), baseScore, baseScore)

/-- The method `evaluateVariant` from the point where the yaku have been
collected: `yakus` is the list of yaku for which `CheckYaku` holds and `fu` the
value of `calculateFuForVariant`; `none` is the nil result for no yaku. -/
def ScoreCounter.evaluateVariant (s : ScoreCounter) (yakus : List Yaku) (fu : Int) :
    Option ScoreCounterResult :=
  if yakus.length = 0 then none
  else
    let fan := s.CalculateFan yakus
    if fan ≥ 13 then
      some { Fan := fan, Fu := fu, Yakus := yakus, IsYakuman := true,
             BaseScore := 8000, RonScore := 12000, TsumoScore := (4000, 4000, 4000) }
    else
      let base := s.CalculateBaseScore fan fu
      some { Fan := fan, Fu := fu, Yakus := yakus, IsYakuman := false,
             BaseScore := base, RonScore := s.CalculateRonScore base,
             TsumoScore := s.CalculateTsumoScore base }

/-- The test by which the loop of `GetBestResult` replaces `best` by `result`. -/
def replacesBest (result best : ScoreCounterResult) : Bool :=
  if result.Fan > best.Fan then true
  else if result.Fan = best.Fan ∧ result.Fu > best.Fu then true
  else if result.Fan = best.Fan ∧ result.Fu = best.Fu ∧ result.RonScore > best.RonScore then true
  else false

/-- The method `GetBestResult`; `none` is the nil pointer. -/
def GetBestResult : List ScoreCounterResult → Option ScoreCounterResult
  | [] => none
  | first :: rest =>
    some (rest.foldl (fun best result => if replacesBest result best then result else best) first)

/-! ## Game results (game_result.go) -/

/-- The fields of `GameResult` written by `SetTsumoAgari`; `ScoreChanges` is the
array `[4]int`, held as a list of length 4. -/
structure GameResult where
  WinnerIdx : Int
  LoserIdx : Int
  Score : Option ScoreCounterResult
  ScoreChanges : List Int
  Yakus : List Yaku
  Fan : Int
  Fu : Int
deriving DecidableEq, Repr

/-- The function `NewGameResult`. -/
def NewGameResult : GameResult :=
  { WinnerIdx := -1, LoserIdx := -1, Score := none, ScoreChanges := [0, 0, 0, 0],
    Yakus := [], Fan := 0, Fu := 0 }

/-- The method `SetTsumoAgari`; `none` stands for the run-time panic of an index
outside `0..3`. -/
def GameResult.SetTsumoAgari (r : GameResult) (winnerIdx : Int) (score : ScoreCounterResult) :
    Option GameResult :=
  let t0 := score.TsumoScore.1
  let t1 := score.TsumoScore.2.1
  let t2 := score.TsumoScore.2.2
  let zero : List Int := [0, 0, 0, 0]
  if winnerIdx = 0 then
    let c := ((zero.set 1 (wrapInt (-t0))).set 2 (wrapInt (-t1))).set 3 (wrapInt (-t2))
    let c := c.set 0
      (wrapInt (wrapInt (t0 * 3) -
        wrapInt (wrapInt (c.getD 1 0 + c.getD 2 0) + c.getD 3 0)))
    some { r with WinnerIdx := winnerIdx, LoserIdx := -1, Score := some score, ScoreChanges := c,
                  Yakus := score.Yakus, Fan := score.Fan, Fu := score.Fu }
  else
    let c := zero.set 0 (wrapInt (-t0))
    let c := [1, 2, 3].foldl
      (fun (c : List Int) (i : Nat) =>
        if (i : Int) = winnerIdx then c
        else if i = 0 then c.set i (wrapInt (-t0))
        else c.set i (wrapInt (-t1)))
      c
    let total := [0, 1, 2, 3].foldl
      (fun (total : Int) (i : Nat) =>
        if (i : Int) ≠ winnerIdx then wrapInt (total + wrapInt (-(c.getD i 0))) else total)
      (0 : Int)
    if 0 ≤ winnerIdx ∧ winnerIdx < 4 then
      some { r with WinnerIdx := winnerIdx, LoserIdx := -1, Score := some score,
                    ScoreChanges := c.set winnerIdx.toNat total,
                    Yakus := score.Yakus, Fan := score.Fan, Fu := score.Fu }
    else none

/-- The method `ApplyScoreChanges` on the four players' scores. -/
def GameResult.ApplyScoreChanges (r : GameResult) (players : List Player) : List Player :=
  (List.range 4).foldl
    (fun (ps : List Player) (i : Nat) =>
      match ps.get? i with
      | some p => ps.set i { p with Score := wrapInt (p.Score + r.ScoreChanges.getD i 0) }
      | none => ps)
    players

/-! ## Notions used to state the properties -/

/-- All tiles of a decomposition: the head tiles followed by the body tiles. -/
def tilesOf (ct : CompletedTiles) : List BaseTile :=
  ct.Head.Tiles ++ ct.Body.foldr (fun g acc => g.Tiles ++ acc) []

/-- A head: a pair of two equal kinds. -/
def isPairGroup (g : TileGroup) : Bool :=
  match g.Tiles with
  | [a, b] => decide (g.GroupType = TileGroupType.Toitsu ∧ a = b)
  | _ => false

/-- A body group: a triplet of three equal kinds, or a sequence `k, k+1, k+2`
inside one number suit (so `k` is below 27 and of rank at most 7). -/
def isMeldGroup (g : TileGroup) : Bool :=
  match g.Tiles with
  | [a, b, c] =>
    decide ((g.GroupType = TileGroupType.Koutsu ∧ a = b ∧ b = c) ∨
      (g.GroupType = TileGroupType.Shuntsu ∧ b = a + 1 ∧ c = a + 2 ∧ a < 27 ∧ a % 9 ≤ 6))
  | _ => false

/-- A regular decomposition of `tiles`: a pair, four melds, and together exactly
the given tiles. -/
def isDecompositionOf (ct : CompletedTiles) (tiles : List BaseTile) : Prop :=
  isPairGroup ct.Head = true ∧ ct.Body.length = 4 ∧ (∀ g ∈ ct.Body, isMeldGroup g = true) ∧
    (tilesOf ct).Perm tiles

/-- The score table of the specification: limits from five han up, otherwise
`fu * 2^(han+2)` capped at 2000. -/
def specTableBaseScore (han fu : Int) : Int :=
  if han ≥ 13 then 8000
  else if han ≥ 11 then 6000
  else if han ≥ 8 then 4000
  else if han ≥ 6 then 3000
  else if han = 5 then 2000
  else min (fu * 2 ^ (han + 2).toNat) 2000

/-- Rounding up to the next multiple of 100. -/
def roundUpHundred (x : Int) : Int := (x + 99) / 100 * 100

/-- Strict lexicographic order on the triples `(Fan, Fu, RonScore)`. -/
def tripleLt (a b : ScoreCounterResult) : Prop :=
  a.Fan < b.Fan ∨ (a.Fan = b.Fan ∧ (a.Fu < b.Fu ∨ (a.Fu = b.Fu ∧ a.RonScore < b.RonScore)))

/-- A player for the examples: 25000 points, no tiles. -/
def examplePlayer (oya : Bool) : Player :=
  { Oya := oya, Score := 25000, Hand := [], CallGroups := [], AtariTiles := [] }

/-- A score result for the examples with the given tsumo payments. -/
def exampleTsumoResult (t0 t1 t2 : Int) : ScoreCounterResult :=
  { Fan := 2, Fu := 20, BaseScore := 320, TsumoScore := (t0, t1, t2), RonScore := 0,
    IsYakuman := false, Yakus := [Menzentsumo, Pinfu] }

/-- A candidate result for the examples with the given triple. -/
def exampleCandidate (fan fu ron : Int) : ScoreCounterResult :=
  { Fan := fan, Fu := fu, BaseScore := 0, TsumoScore := (0, 0, 0), RonScore := ron,
    IsYakuman := false, Yakus := [] }

/-- The function `IsSevenPairPattern` of gameplay.go: 14 tiles, every kind that
occurs occurs exactly twice, and there are seven such kinds. -/
def IsSevenPairPattern (tiles : List BaseTile) : Bool :=
  if tiles.length ≠ 14 then false
  else
    let kinds := tiles.eraseDups
    if kinds.all (fun k => countInSlice tiles k == 2) then
      decide ((kinds.filter (fun k => countInSlice tiles k == 2)).length = 7)
    else false

/-- No two entries with the same head and the same multiset of body groups. -/
def noDuplicateEntries (l : List CompletedTiles) : Prop :=
  ∀ (i j : Nat) (a b : CompletedTiles), i < j → l[i]? = some a → l[j]? = some b →
    ¬ (a.Head = b.Head ∧ a.Body.Perm b.Body)

/-- The hand 1m1m 2m2m 3m3m 5m5m 1p1p 2p2p 3p3p. -/
def twoSuitHand : List BaseTile :=
  [_1m, _1m, _2m, _2m, _3m, _3m, _5m, _5m, _1p, _1p, _2p, _2p, _3p, _3p]

/-- The only regular partition of `twoSuitHand`: head 5m5m, twice 1m2m3m and
twice 1p2p3p. -/
def twoSuitPartition : CompletedTiles :=
  ⟨⟨TileGroupType.Toitsu, [_5m, _5m]⟩,
   [⟨TileGroupType.Shuntsu, [_1m, _2m, _3m]⟩, ⟨TileGroupType.Shuntsu, [_1m, _2m, _3m]⟩,
    ⟨TileGroupType.Shuntsu, [_1p, _2p, _3p]⟩, ⟨TileGroupType.Shuntsu, [_1p, _2p, _3p]⟩]⟩

/-- The entry returned for `twoSuitHand`: head 5m5m and four times 1m2m3m. -/
def twoSuitReturned : CompletedTiles :=
  ⟨⟨TileGroupType.Toitsu, [_5m, _5m]⟩,
   [⟨TileGroupType.Shuntsu, [_1m, _2m, _3m]⟩, ⟨TileGroupType.Shuntsu, [_1m, _2m, _3m]⟩,
    ⟨TileGroupType.Shuntsu, [_1m, _2m, _3m]⟩, ⟨TileGroupType.Shuntsu, [_1m, _2m, _3m]⟩]⟩

/-- The hand 1m1m 2m2m 3m3m 1p1p 2p2p 3p3p 5z5z. -/
def honorHeadHand : List BaseTile :=
  [_1m, _1m, _2m, _2m, _3m, _3m, _1p, _1p, _2p, _2p, _3p, _3p, _5z, _5z]

/-- The entry returned for `honorHeadHand`. -/
def honorHeadReturned : CompletedTiles :=
  ⟨⟨TileGroupType.Toitsu, [_5z, _5z]⟩,
   [⟨TileGroupType.Shuntsu, [_1p, _2p, _3p]⟩, ⟨TileGroupType.Shuntsu, [_1p, _2p, _3p]⟩,
    ⟨TileGroupType.Shuntsu, [_1m, _2m, _3m]⟩, ⟨TileGroupType.Shuntsu, [_1m, _2m, _3m]⟩]⟩

/-- The seven pairs 1m1m 4m4m 7p7p 2s2s 5s5s 6z6z 9p9p. -/
def sevenPairsHand : List BaseTile :=
  [_1m, _1m, _4m, _4m, _7p, _7p, _2s, _2s, _5s, _5s, _6z, _6z, _9p, _9p]

/-- The thirteen orphans of the test `TestCheckKokushi_Valid`. -/
def thirteenOrphansHand : List BaseTile :=
  [_1m, _9m, _1s, _9s, _1p, _9p, _1z, _2z, _3z, _4z, _5z, _6z, _7z, _1m]

/-- A player with the ten concealed tiles 1m2m3m 7m8m9m 1p2p3p 9s and a called
pon of 1z. -/
def openHandPlayer : Player :=
  { Oya := false, Score := 25000,
    Hand := [⟨_1m, false, 0⟩, ⟨_2m, false, 4⟩, ⟨_3m, false, 8⟩, ⟨_7m, false, 24⟩,
             ⟨_8m, false, 28⟩, ⟨_9m, false, 32⟩, ⟨_1p, false, 36⟩, ⟨_2p, false, 40⟩,
             ⟨_3p, false, 44⟩, ⟨_9s, false, 104⟩],
    CallGroups := [⟨TileGroupType.Koutsu, [_1z, _1z, _1z], true⟩],
    AtariTiles := [] }

/-! ## The heads found by the search, without the splitter state -/

/-- The heads of the entries that one pass of the loop body adds for `tile`:
those of the head branch, of the triplet branch and of the sequence branch. -/
def headsOfTile (recur : List BaseTile → Bool → TileGroup → List TileGroup)
    (tiles : List BaseTile) (tile : BaseTile) (hasHead : Bool) (head : TileGroup) :
    List TileGroup :=
  (if !hasHead && decide (countInSlice tiles tile ≥ 2) then
      recur (removeFromSlice tiles tile 2) true ⟨TileGroupType.Toitsu, [tile, tile]⟩
    else []) ++
  ((if countInSlice tiles tile ≥ 3 then recur (removeFromSlice tiles tile 3) hasHead head
    else []) ++
   (if !isShuntsuBadHead tile && IsIn tiles (tile + 1) && IsIn tiles (tile + 2) then
      recur
        (removeFromSlice (removeFromSlice (removeFromSlice tiles tile 1) (tile + 1) 1)
          (tile + 2) 1) hasHead head
    else []))

/-- The heads of the entries added by the loop over `rest`. -/
def headsLoop (recur : List BaseTile → Bool → TileGroup → List TileGroup)
    (tiles : List BaseTile) :
    List BaseTile → List BaseTile → Bool → TileGroup → List TileGroup
  | [], _, _, _ => []
  | tile :: rest, processed, hasHead, head =>
    if IsIn processed tile then headsLoop recur tiles rest processed hasHead head
    else headsOfTile recur tiles tile hasHead head ++
      headsLoop recur tiles rest (tile :: processed) hasHead head

/-- The heads of the entries found by `getAllCompletedTilesRecursive`, as a
function of the tiles, of `hasHead` and of the current head alone. -/
def searchHeads : Nat → List BaseTile → Bool → TileGroup → List TileGroup
  | 0, _, _, _ => []
  | fuel + 1, tiles, hasHead, head =>
    if tiles.length = 0 then [head]
    else headsLoop (searchHeads fuel) tiles tiles [] hasHead head

/-- What holds of the splitter when a search call on `tiles` starts, for a
search that began with 14 tiles: the body length is within the capacity, the
tiles placed and the tiles left add up to 14, and the head is empty as long as
none is chosen. -/
def SearchInv (tiles : List BaseTile) (ts : TileSplitter) : Prop :=
  ts.completedTiles.Body.len ≤ ts.completedTiles.Body.cap ∧
  3 * ts.completedTiles.Body.len + tiles.length + (if ts.hasHead then 2 else 0) = 14 ∧
  (ts.hasHead = false → ts.completedTiles.Head = TileGroup.zero)

/-- What holds of the entries `acc.1` collected so far and of the splitter
`acc.2`, relative to the splitter `ts0` at the start of the call: head, flag
and body length are those of `ts0`; the body slice is that of `ts0` once its
capacity is 4; and every entry collected carries the current body slice with
length 4, the heads being `H`. -/
def AccOk (ts0 : TileSplitter) (H : List TileGroup) (acc : SearchResult) : Prop :=
  acc.2.hasHead = ts0.hasHead ∧
  acc.2.completedTiles.Head = ts0.completedTiles.Head ∧
  acc.2.completedTiles.Body.len = ts0.completedTiles.Body.len ∧
  acc.2.completedTiles.Body.len ≤ acc.2.completedTiles.Body.cap ∧
  (4 ≤ ts0.completedTiles.Body.cap → acc.2.completedTiles.Body = ts0.completedTiles.Body) ∧
  (H ≠ [] → 4 ≤ acc.2.completedTiles.Body.cap) ∧
  acc.1 = H.map (fun h =>
    ⟨h, ⟨acc.2.completedTiles.Body.ptr, 4, acc.2.completedTiles.Body.cap⟩⟩)

/-- The specification of a search function `recur` with heads function `hrec`. -/
def SearchSpec (hrec : List BaseTile → Bool → TileGroup → List TileGroup)
    (recur : List BaseTile → TileSplitter → SearchResult) : Prop :=
  ∀ tiles ts, SearchInv tiles ts →
    AccOk ts (hrec tiles ts.hasHead ts.completedTiles.Head) (recur tiles ts)


/-- A body group as the loop body picks it: the triplet of a tile, or the
sequence starting at a tile. -/
inductive GroupPick where
  | koutsu (tile : Nat)
  | shuntsu (tile : Nat)

/-- The tile at which the loop body makes the pick. -/
def GroupPick.tile : GroupPick → Nat
  | GroupPick.koutsu t => t
  | GroupPick.shuntsu t => t

/-- The condition under which the loop body, visiting the tile, makes the pick. -/
def GroupPick.avail : GroupPick → List BaseTile → Bool
  | GroupPick.koutsu t, l => decide (countInSlice l t ≥ 3)
  | GroupPick.shuntsu t, l =>
    IsIn l t && (!isShuntsuBadHead t && IsIn l (t + 1) && IsIn l (t + 2))

/-- The tiles left after the pick. -/
def GroupPick.remove : GroupPick → List BaseTile → List BaseTile
  | GroupPick.koutsu t, l => removeFromSlice l t 3
  | GroupPick.shuntsu t, l =>
    removeFromSlice (removeFromSlice (removeFromSlice l t 1) (t + 1) 1) (t + 2) 1

/-- How many copies of a tile the pick uses. -/
def GroupPick.uses : GroupPick → Nat → Nat
  | GroupPick.koutsu t, x => if t = x then 3 else 0
  | GroupPick.shuntsu t, x => if t = x ∨ t + 1 = x ∨ t + 2 = x then 1 else 0


/-- A sequence pick is well formed when it does not start at a bad head. -/
def GroupPick.valid : GroupPick → Bool
  | GroupPick.koutsu _ => true
  | GroupPick.shuntsu t => !isShuntsuBadHead t

/-- How many copies of a tile a list of picks uses. -/
def usesOf : List GroupPick → Nat → Nat
  | [], _ => 0
  | g :: gs, x => g.uses x + usesOf gs x

/-- The body group made by a pick. -/
def GroupPick.toGroup : GroupPick → TileGroup
  | GroupPick.koutsu t => ⟨TileGroupType.Koutsu, ([t, t, t] : List Nat)⟩
  | GroupPick.shuntsu t => ⟨TileGroupType.Shuntsu, ([t, t + 1, t + 2] : List Nat)⟩

/-- The pick that makes a body group: by its type and its first tile. -/
def pickOfGroup (g : TileGroup) : GroupPick :=
  match g.GroupType with
  | TileGroupType.Shuntsu => GroupPick.shuntsu (g.Tiles.headD 0)
  | _ => GroupPick.koutsu (g.Tiles.headD 0)

/-! ## Tile predicates (tile.go, score_counter_yakus.go) -/

/-- The function `Is1hai`: the 1 of a number suit. -/
def Is1hai (t : BaseTile) : Bool := t == _1m || t == _1p || t == _1s

/-- The function `Is9hai`: the 9 of a number suit. -/
def Is9hai (t : BaseTile) : Bool := t == _9m || t == _9p || t == _9s

/-- The function `Is19hai`. -/
def Is19hai (t : BaseTile) : Bool := Is1hai t || Is9hai t

/-- The function `IsWindMatch`. -/
def IsWindMatch (tile : BaseTile) (gameWind : Wind) : Bool :=
  match gameWind with
  | Wind.East => tile == _1z
  | Wind.South => tile == _2z
  | Wind.West => tile == _3z
  | Wind.North => tile == _4z

/-- The function `Is567z`: the three dragons. -/
def Is567z (tile : BaseTile) : Bool := tile == _5z || tile == _6z || tile == _7z

/-- The function `IsYakuhai`: round wind, seat wind or dragon. -/
def IsYakuhai (tile : BaseTile) (gameWind selfWind : Wind) : Bool :=
  if IsWindMatch tile gameWind then true
  else if IsWindMatch tile selfWind then true
  else if Is567z tile then true
  else false

/-- The function `CountTile`: how often the kind occurs. -/
def CountTile : List BaseTile → BaseTile → Nat
  | [], _ => 0
  | tile :: rest, t => (if tile = t then 1 else 0) + CountTile rest t

/-- The function `IsTerminalOrHonor`. -/
def IsTerminalOrHonor (tile : BaseTile) : Bool :=
  let tileType := tile / 9
  let tileNum := tile % 9
  if tileType = 3 then true
  else tileNum == 0 || tileNum == 8

/-- The function `CountTileType`: the array `[4]int` of the numbers of man, pin,
sou and honour tiles, as a list of length 4. -/
def CountTileType (tiles : List BaseTile) : List Nat :=
  (List.range 4).map (fun tileType => (tiles.filter (fun tile => tile / 9 == tileType)).length)

/-! ## Actions (action.go) -/

/-- The enumeration `BaseAction`. -/
inductive BaseAction where
  | Pass
  | Chi
  | Pon
  | Kan
  | Ron
  | ChanAnKan
  | ChanKan
  | AnKan
  | KaKan
  | Discard
  | Ippatsu
  | Tsumo
  | Kyushukyuhai
  | Riichi
deriving DecidableEq, Repr

set_option linter.dupNamespace false in
/-- The struct `Action`: an action kind and the tiles it names (the pointers
`*Tile` are the tiles themselves). -/
structure Action where
  Action : BaseAction
  CorrespondTiles : List Tile
deriving DecidableEq, Repr

/-- The struct `SelfAction`, which embeds `Action`. -/
structure SelfAction extends Action
deriving DecidableEq, Repr

/-- The struct `ResponseAction`, which embeds `Action`. -/
structure ResponseAction extends Action
deriving DecidableEq, Repr

/-! ## Action generators of a player (player.go) -/

/-- The method `IsRiichi`. -/
def Player.IsRiichi (p : Player) : Bool := p.Riichi || p.DoubleRiichi

/-- The method `IsFuriten`. -/
def Player.IsFuriten (p : Player) : Bool := p.FuritenRound || p.FuritenRiver || p.FuritenRiichi

/-- The method `IsMenzen`. -/
def Player.IsMenzen (p : Player) : Bool := p.Menzen

/-- The method `IsTenpai`: the stored wait list is not empty. -/
def Player.IsTenpai (p : Player) : Bool := decide (p.AtariTiles.length > 0)

/-- The function `FindInTiles` of gameplay.go: the first index whose tile has
the ID of `target`; `none` is the result -1. -/
def FindInTiles : List Tile → Tile → Option Nat
  | [], _ => none
  | tile :: rest, target =>
    if tile.ID = target.ID then some 0
    else (FindInTiles rest target).map (fun i => i + 1)

/-- The method `GetKakan`.  The probe handed to `FindInTiles` is the literal
`&Tile{Tile: group.Tiles[0]}`, whose fields `RedDora` and `ID` are the zero
values. -/
def Player.GetKakan (p : Player) : List SelfAction :=
  p.CallGroups.filterMap (fun group =>
    if group.GroupType = TileGroupType.Koutsu ∧ group.Tiles.length = 3 then
      match FindInTiles p.Hand ⟨group.Tiles.headD 0, false, 0⟩ with
      | some idx => (p.Hand.get? idx).map (fun t => ⟨⟨BaseAction.KaKan, [t]⟩⟩)
      | none => none
    else none)

/-- The comparison passed to `sort.Slice` in `GetDiscard`: by kind, and within
a kind the red tile first. -/
def discardLess (a b : Tile) : Bool :=
  if a.Tile ≠ b.Tile then decide (a.Tile < b.Tile)
  else a.RedDora && !b.RedDora

/-- The sorted copy `handTiles` of `GetDiscard`.  `sort.Slice` is not stable: the
order it leaves among tiles of the same kind and colour is not specified; the
order of the stable insertion sort is taken here. -/
def sortHandTiles (hand : List Tile) : List Tile :=
  hand.insertionSort (fun a b => discardLess b a = false)

/-- The loop of `GetDiscard` over the sorted copy: a discard of the tile for
every tile whose kind has not been seen. -/
def discardLoop : List Tile → List BaseTile → List SelfAction
  | [], _ => []
  | tile :: rest, seen =>
    if IsIn seen tile.Tile then discardLoop rest seen
    else ⟨⟨BaseAction.Discard, [tile]⟩⟩ :: discardLoop rest (tile.Tile :: seen)

/-- The method `GetDiscard`: the actions returned and the player after the call
(the method sorts a copy of the hand and writes no field of the player). -/
def Player.GetDiscard (p : Player) (_afterChipon : Bool) : List SelfAction × Player :=
  (discardLoop (sortHandTiles p.Hand) [], p)

/-- The loop of `GetRiichi` over the discards. -/
def riichiLoop : List SelfAction → List BaseTile → List SelfAction
  | [], _ => []
  | d :: rest, seen =>
    match d.CorrespondTiles with
    | [] => riichiLoop rest seen
    | tile :: _ =>
      if IsIn seen tile.Tile then riichiLoop rest seen
      else ⟨⟨BaseAction.Riichi, [tile]⟩⟩ :: riichiLoop rest (tile.Tile :: seen)

/-- The method `GetRiichi`; the nil result is the empty list. -/
def Player.GetRiichi (p : Player) : List SelfAction :=
  if p.IsRiichi || !p.IsMenzen then []
  else if !p.IsTenpai then []
  else riichiLoop (p.GetDiscard false).1 []

/-- The table fields read by the scoring code. -/
structure Table where
  GameWind : Wind
deriving DecidableEq, Repr

/-- The method `GetRon`; the nil result is the empty list. -/
def Player.GetRon (p : Player) (_table : Option Table) (tile : Tile) : List ResponseAction :=
  if !p.IsFuriten then [⟨⟨BaseAction.Ron, [tile]⟩⟩]
  else []

/-- The method `GetChi`. -/
def Player.GetChi (_p : Player) (tile : Tile) : List ResponseAction :=
  let baseTile := tile.Tile
  if baseTile ≥ _1m ∧ baseTile ≤ _7m then [⟨⟨BaseAction.Chi, [tile]⟩⟩]
  else []

/-! ## Yaku predicates (score_counter.go, score_counter_yakus.go) -/

/-- The struct `ScoreCounter` with all the fields that the yaku and fu code
reads: `Player` (held by `ScoreCounter` above), `Tiles`, `CallGroups`,
`WinTile`, `IsSevenPair` and `Table` (`none` is the nil pointer). -/
structure FullScoreCounter extends ScoreCounter where
  Tiles : List BaseTile
  CallGroups : List CallGroup
  WinTile : BaseTile
  IsSevenPair : Bool
  Table : Option Table
deriving DecidableEq, Repr

/-- The method `CheckTanyao`: no 1 and no 9 of a number suit among the tiles. -/
def FullScoreCounter.CheckTanyao (s : FullScoreCounter) : Bool :=
  s.Tiles.all (fun tile => !(Is1hai tile || Is9hai tile))

/-- The body of the last loop of `CheckPinfu` for one body group: the group is a
sequence holding the winning tile, and the two other tiles are neither 1 nor 9
and differ by one. -/
def pinfuTwoSided (winTile : BaseTile) (g : TileGroup) : Bool :=
  if g.GroupType ≠ TileGroupType.Shuntsu then false
  else
    let idx := g.Tiles.indexOf winTile
    if idx ≥ g.Tiles.length then false
    else
      match g.Tiles.eraseIdx idx with
      | [a, b] =>
        let rem0 := if a > b then b else a
        let rem1 := if a > b then a else b
        if Is19hai rem0 || Is19hai rem1 then false
        else decide (rem1 - rem0 = 1)
      | _ => false

/-- The method `CheckPinfu`. -/
def FullScoreCounter.CheckPinfu (s : FullScoreCounter) : Bool :=
  if !s.Player.IsMenzen then false
  else if s.IsSevenPair then false
  else
    (GetAllCompletedTiles s.Tiles).any (fun ct =>
      if ct.Head.Tiles.length = 0 then false
      else
        let headTile := ct.Head.Tiles.headD 0
        let headIsYakuhai :=
          match s.Table with
          | some table => IsYakuhai headTile table.GameWind s.Player.Wind
          | none => false
        if headIsYakuhai then false
        else if !ct.Body.all (fun g => g.GroupType == TileGroupType.Shuntsu) then false
        else ct.Body.any (pinfuTwoSided s.WinTile))

/-- The keys of the map `seqCount` of `CheckIipeikou` and `CheckRyanpeikou`, one
for every sequence of the body: the three tiles of the group stand for the
string built from their names. -/
def seqKeys (ct : CompletedTiles) : List (List BaseTile) :=
  (ct.Body.filter (fun g => g.GroupType == TileGroupType.Shuntsu)).map (fun g => g.Tiles.take 3)

/-- The method `CheckIipeikou`: some decomposition has a sequence twice. -/
def FullScoreCounter.CheckIipeikou (s : FullScoreCounter) : Bool :=
  if !s.Player.IsMenzen then false
  else if s.IsSevenPair then false
  else
    (GetAllCompletedTiles s.Tiles).any (fun ct =>
      (seqKeys ct).any (fun key => decide ((seqKeys ct).count key ≥ 2)))

/-- The method `CheckRyanpeikou`: some decomposition has two different sequences
twice each. -/
def FullScoreCounter.CheckRyanpeikou (s : FullScoreCounter) : Bool :=
  if !s.Player.IsMenzen then false
  else if s.IsSevenPair then false
  else
    (GetAllCompletedTiles s.Tiles).any (fun ct =>
      let dup := ((seqKeys ct).eraseDups.filter
        (fun key => decide ((seqKeys ct).count key ≥ 2))).length
      decide (dup ≥ 2))

/-- The method `CheckYakuhai`: some kind that occurs at least twice among the
tiles is a valued kind (a dragon when there is no table). -/
def FullScoreCounter.CheckYakuhai (s : FullScoreCounter) : Bool :=
  s.Tiles.any (fun tile =>
    if CountTile s.Tiles tile ≥ 2 then
      match s.Table with
      | some table => IsYakuhai tile table.GameWind s.Player.Wind
      | none => tile == _5z || tile == _6z || tile == _7z
    else false)

/-- The count `numberTypes` of `CheckHonitsu` and `CheckChinitsu`: how many of
the three number suits occur. -/
def numberTypes (types : List Nat) : Nat :=
  ((List.range 3).filter (fun i => decide (types.getD i 0 > 0))).length

/-- The method `CheckHonitsu`. -/
def FullScoreCounter.CheckHonitsu (s : FullScoreCounter) : Bool :=
  if s.IsSevenPair then false
  else
    let types := CountTileType s.Tiles
    decide (numberTypes types = 1 ∧ types.getD 3 0 > 0)

/-- The method `CheckChinitsu`. -/
def FullScoreCounter.CheckChinitsu (s : FullScoreCounter) : Bool :=
  if s.IsSevenPair then false
  else
    let types := CountTileType s.Tiles
    decide (numberTypes types = 1 ∧ types.getD 3 0 = 0)

/-- The method `CheckIkkitsuukan`: each of 1m to 9m occurs. -/
def FullScoreCounter.CheckIkkitsuukan (s : FullScoreCounter) : Bool :=
  (List.range 9).all (fun i => s.Tiles.any (fun tile => tile / 9 == 0 && tile % 9 == i))

/-- The function `CheckCompletedTilesHasYaochu`. -/
def CheckCompletedTilesHasYaochu (ct : CompletedTiles) : Bool :=
  if ct.Head.Tiles.length > 0 ∧ IsTerminalOrHonor (ct.Head.Tiles.headD 0) = false then false
  else
    ct.Body.all (fun group =>
      if group.Tiles.length = 0 then true
      else
        match group.GroupType with
        | TileGroupType.Shuntsu => group.Tiles.any (fun tile => Is1hai tile || Is9hai tile)
        | _ => IsTerminalOrHonor (group.Tiles.headD 0))

/-- The method `CheckChanta`. -/
def FullScoreCounter.CheckChanta (s : FullScoreCounter) : Bool :=
  if s.IsSevenPair then false
  else (GetAllCompletedTiles s.Tiles).any CheckCompletedTilesHasYaochu

/-- The method `CheckHonchanta`: it returns what `CheckChanta` returns. -/
def FullScoreCounter.CheckHonchanta (s : FullScoreCounter) : Bool :=
  if s.IsSevenPair then false
  else s.CheckChanta

/-- The method `CheckSanshokudoukou`: some rank occurs three times in each of
the three suits. -/
def FullScoreCounter.CheckSanshokudoukou (s : FullScoreCounter) : Bool :=
  if s.IsSevenPair then false
  else
    (List.range 9).any (fun num =>
      decide (CountTile s.Tiles (0 * 9 + num) ≥ 3 ∧ CountTile s.Tiles (1 * 9 + num) ≥ 3 ∧
        CountTile s.Tiles (2 * 9 + num) ≥ 3))

/-- The method `CheckToitoi`. -/
def FullScoreCounter.CheckToitoi (s : FullScoreCounter) : Bool :=
  if s.IsSevenPair then true
  else
    (GetAllCompletedTiles s.Tiles).any (fun ct =>
      ct.Head.GroupType == TileGroupType.Toitsu &&
        ct.Body.all (fun group =>
          group.GroupType == TileGroupType.Koutsu || group.GroupType == TileGroupType.Kantsu))

/-- The count `nAnkou` of `CheckSanankou` and `CheckSiiankou`: the triplets and
quads of the body and the closed quads among the called groups. -/
def FullScoreCounter.nAnkou (s : FullScoreCounter) (ct : CompletedTiles) : Nat :=
  (ct.Body.filter (fun g =>
      g.GroupType == TileGroupType.Koutsu || g.GroupType == TileGroupType.Kantsu)).length +
    (s.CallGroups.filter (fun cg => cg.GroupType == TileGroupType.Kantsu && !cg.IsOpen)).length

/-- The method `CheckSanankou`. -/
def FullScoreCounter.CheckSanankou (s : FullScoreCounter) : Bool :=
  (GetAllCompletedTiles s.Tiles).any (fun ct => decide (s.nAnkou ct ≥ 3))

/-- The method `CheckTsuisou`. -/
def FullScoreCounter.CheckTsuisou (s : FullScoreCounter) : Bool :=
  s.Tiles.all (fun tile => tile / 9 == 3) && decide (s.Tiles.length > 0)

/-- The method `CheckRyuuisou`. -/
def FullScoreCounter.CheckRyuuisou (s : FullScoreCounter) : Bool :=
  s.Tiles.all (fun tile => IsIn [_2s, _3s, _4s, _6s, _8s, _5z] tile) &&
    decide (s.Tiles.length > 0)

/-- The method `CheckChinroutou`. -/
def FullScoreCounter.CheckChinroutou (s : FullScoreCounter) : Bool :=
  s.Tiles.all (fun tile => Is1hai tile || Is9hai tile) && decide (s.Tiles.length > 0)

/-- The method `CheckHonroutou`. -/
def FullScoreCounter.CheckHonroutou (s : FullScoreCounter) : Bool :=
  s.Tiles.all (fun tile =>
      let tileType := tile / 9
      let tileNum := tile % 9
      !(decide (tileType < 3) && tileNum != 0 && tileNum != 8)) &&
    decide (s.Tiles.length > 0)

/-- The method `CheckChiitoitsu`. -/
def FullScoreCounter.CheckChiitoitsu (s : FullScoreCounter) : Bool :=
  if !s.IsSevenPair then false
  else if !s.Tiles.all (fun tile => CountTile s.Tiles tile == 2) then false
  else decide (s.Tiles.eraseDups.length = 7)

/-- The slice `terminalHonors` of `CheckKokushi`. -/
def terminalHonors : List BaseTile :=
  [_1m, _9m, _1s, _9s, _1p, _9p, _1z, _2z, _3z, _4z, _5z, _6z, _7z]

/-- The method `CheckKokushi`. -/
def FullScoreCounter.CheckKokushi (s : FullScoreCounter) : Bool :=
  if !s.Player.IsMenzen then false
  else if s.Tiles.length ≠ 14 then false
  else if !s.Tiles.all (fun tile => IsIn terminalHonors tile) then false
  else terminalHonors.all (fun t => decide (CountTile s.Tiles t ≠ 0))

/-- The method `CheckChuren`. -/
def FullScoreCounter.CheckChuren (s : FullScoreCounter) : Bool :=
  if !s.Player.IsMenzen then false
  else if s.Tiles.length ≠ 14 then false
  else
    let firstType := s.Tiles.headD 0 / 9
    if firstType ≥ 3 then false
    else if !s.Tiles.all (fun tile => tile / 9 == firstType) then false
    else
      (List.range 9).all (fun k =>
        let i := k + 1
        let baseTile := firstType * 9 + i - 1
        if i = 1 ∨ i = 9 then decide (CountTile s.Tiles baseTile ≥ 2)
        else decide (CountTile s.Tiles baseTile ≥ 1))

/-- The method `CheckTenhou`. -/
def FullScoreCounter.CheckTenhou (s : FullScoreCounter) : Bool :=
  s.Player.Oya && s.Player.FirstRound

/-- The method `CheckChihou`. -/
def FullScoreCounter.CheckChihou (s : FullScoreCounter) : Bool :=
  !s.Player.Oya && s.Player.FirstRound

/-- The method `CheckDaisangen`. -/
def FullScoreCounter.CheckDaisangen (s : FullScoreCounter) : Bool :=
  decide (CountTile s.Tiles _5z ≥ 3 ∧ CountTile s.Tiles _6z ≥ 3 ∧ CountTile s.Tiles _7z ≥ 3)

/-- The method `CheckSiiankou`. -/
def FullScoreCounter.CheckSiiankou (s : FullScoreCounter) : Bool :=
  if !s.Player.IsMenzen then false
  else (GetAllCompletedTiles s.Tiles).any (fun ct => decide (s.nAnkou ct ≥ 4))

/-- The method `CheckSuankou`. -/
def FullScoreCounter.CheckSuankou (s : FullScoreCounter) : Bool :=
  s.CheckSiiankou

/-- The method `CheckDaisuushi`. -/
def FullScoreCounter.CheckDaisuushi (s : FullScoreCounter) : Bool :=
  [_1z, _2z, _3z, _4z].all (fun tile => decide (CountTile s.Tiles tile ≥ 3))

/-- The method `CheckShousuushi`. -/
def FullScoreCounter.CheckShousuushi (s : FullScoreCounter) : Bool :=
  let windTiles := [_1z, _2z, _3z, _4z]
  let kokakuCount := (windTiles.filter (fun tile => CountTile s.Tiles tile == 3)).length
  let pairCount := (windTiles.filter (fun tile => CountTile s.Tiles tile == 2)).length
  decide (kokakuCount = 3 ∧ pairCount = 1)

/-- The method `CheckDabururiichi`. -/
def FullScoreCounter.CheckDabururiichi (s : FullScoreCounter) : Bool :=
  s.Player.DoubleRiichi

/-- The method `CheckMenzentsumo`. -/
def FullScoreCounter.CheckMenzentsumo (s : FullScoreCounter) : Bool :=
  s.Player.IsMenzen

/-- The method `CheckYaku`: the switch over the yaku; the yaku without a case
(`Sanshokusequence`, `Sangantu`, `Sanputsu`, `Junchan`, `Kazoe`) give false. -/
def FullScoreCounter.CheckYaku (s : FullScoreCounter) (yaku : Yaku) : Bool :=
  if yaku = Tanyao then s.CheckTanyao
  else if yaku = Pinfu then s.CheckPinfu
  else if yaku = Iipeikou then s.CheckIipeikou
  else if yaku = Ryanpeikou then s.CheckRyanpeikou
  else if yaku = Yakuhai ∨ yaku = YakuhaiWind ∨ yaku = YakuhaiWhiteBoard ∨
      yaku = YakuhaiGreenBoard ∨ yaku = YakuhaiRedBoard then s.CheckYakuhai
  else if yaku = Honitsu then s.CheckHonitsu
  else if yaku = Chinitsu then s.CheckChinitsu
  else if yaku = Chanta then s.CheckChanta
  else if yaku = Honchanta then s.CheckHonchanta
  else if yaku = Ittsu then s.CheckIkkitsuukan
  else if yaku = Sanshokudoukou then s.CheckSanshokudoukou
  else if yaku = Toitoi then s.CheckToitoi
  else if yaku = Sanankou then s.CheckSanankou
  else if yaku = Tsuisou then s.CheckTsuisou
  else if yaku = Ryuuisou then s.CheckRyuuisou
  else if yaku = Chinroutou then s.CheckChinroutou
  else if yaku = Honroutou then s.CheckHonroutou
  else if yaku = Chiitoitsu then s.CheckChiitoitsu
  else if yaku = Kokushi then s.CheckKokushi
  else if yaku = Daisangen then s.CheckDaisangen
  else if yaku = Suankou then s.CheckSuankou
  else if yaku = Daisuushi then s.CheckDaisuushi
  else if yaku = Shosuushi then s.CheckShousuushi
  else if yaku = Tenhou then s.CheckTenhou
  else if yaku = Chihou then s.CheckChihou
  else if yaku = Churen then s.CheckChuren
  else if yaku = Dabururiichi then s.CheckDabururiichi
  else if yaku = Menzentsumo then s.CheckMenzentsumo
  else false

/-! ## Fu and the scoring of a win (score_counter.go) -/

/-- The fu that `calculateFuForVariant` adds for a called group. -/
def callGroupFu (cg : CallGroup) : Int :=
  match cg.GroupType with
  | TileGroupType.Koutsu =>
    if cg.Tiles.length = 0 then 0
    else
      let tile := cg.Tiles.headD 0
      if cg.IsOpen then (if IsTerminalOrHonor tile then 4 else 2)
      else (if IsTerminalOrHonor tile then 8 else 4)
  | TileGroupType.Kantsu =>
    if cg.Tiles.length = 0 then 0
    else
      let tile := cg.Tiles.headD 0
      if cg.IsOpen then (if IsTerminalOrHonor tile then 16 else 8)
      else (if IsTerminalOrHonor tile then 32 else 16)
  | _ => 0

/-- The fu that `calculateFuForVariant` adds for a group of the body (the
groups made by the splitter have three tiles, `g.Tiles[0]` is their first). -/
def bodyGroupFu (g : TileGroup) : Int :=
  match g.GroupType with
  | TileGroupType.Koutsu => if IsTerminalOrHonor (g.Tiles.headD 0) then 8 else 4
  | TileGroupType.Kantsu => if IsTerminalOrHonor (g.Tiles.headD 0) then 32 else 16
  | _ => 0

/-- The fu that `calculateFuForVariant` adds for the shape of the wait when the
winning tile lies in the body group `g`, a sequence, at position `shuntsuPos`
(looked up in the group when negative). -/
def waitShapeFu (winTile : BaseTile) (g : TileGroup) (shuntsuPos : Int) : Int :=
  let pos : Int :=
    if shuntsuPos < 0 then
      (if g.Tiles.indexOf winTile < g.Tiles.length then (g.Tiles.indexOf winTile : Int)
       else shuntsuPos)
    else shuntsuPos
  (if pos = 1 then 2 else 0) +
    (if pos = 2 then (if Is1hai (g.Tiles.headD 0) then 2 else 0) else 0) +
    (if pos = 0 then (if g.Tiles.headD 0 % 9 = 6 then 2 else 0) else 0)

/-- The method `calculateFuForVariant`. -/
def FullScoreCounter.calculateFuForVariant (s : FullScoreCounter) (ct : CompletedTiles)
    (callGroups : List CallGroup) (tsumo : Bool) (_hasHead : Bool)
    (bodyOffset combinedIndex : Nat) (shuntsuPos : Int) : Int :=
  if ct.Body.length = 7 ∧ ct.Head.Tiles.length = 0 then 25
  else
    let fu : Int := 20
    let fu :=
      if ct.Head.Tiles.length > 0 then
        let head := ct.Head.Tiles.headD 0
        match s.Table with
        | some table => if IsYakuhai head table.GameWind s.Player.Wind then fu + 2 else fu
        | none => if Is567z head then fu + 2 else fu
      else fu
    let fu := callGroups.foldl (fun fu cg => fu + callGroupFu cg) fu
    let fu := ct.Body.foldl (fun fu g => fu + bodyGroupFu g) fu
    let fu :=
      if ct.Head.Tiles.length > 0 ∧ combinedIndex = 0 ∧ IsIn ct.Head.Tiles s.WinTile = true
      then fu + 2 else fu
    let fu :=
      if combinedIndex ≥ bodyOffset ∧ combinedIndex - bodyOffset < ct.Body.length then
        let g := ct.Body.getD (combinedIndex - bodyOffset) TileGroup.zero
        if g.GroupType = TileGroupType.Shuntsu then fu + waitShapeFu s.WinTile g shuntsuPos
        else fu
      else fu
    let fu :=
      if tsumo then fu + 2
      else if s.Player.IsMenzen then fu + 10
      else fu
    let fu :=
      if !s.Player.IsMenzen then (if fu = 20 then 30 else fu)
      else fu
    let fu := if s.CheckPinfu && tsumo then 20 else fu
    if fu % 10 ≠ 0 then (fu / 10 + 1) * 10 else fu

/-- The method `evaluateVariant` in full: the context is set, the win counts
as self-drawn when the winning kind occurs among `s.Tiles`, the yaku from 0
below `MaxYaku` that `CheckYaku` accepts are collected, and fu, han and
payments are computed (the last step is `ScoreCounter.evaluateVariant`). -/
def FullScoreCounter.evaluateVariant (s0 : FullScoreCounter) (ct : CompletedTiles)
    (callGroups : List CallGroup) (hasHead : Bool) (bodyOffset combinedIndex : Nat)
    (shuntsuPos : Int) : Option ScoreCounterResult :=
  let isSevenPair := decide (ct.Body.length = 7 ∧ ct.Head.Tiles.length = 0)
  let s : FullScoreCounter := { s0 with CallGroups := callGroups, IsSevenPair := isSevenPair }
  let tsumo := decide (CountTile s.Tiles s.WinTile > 0)
  let yakus := (List.range MaxYaku).filter (fun y => s.CheckYaku y)
  if yakus.length = 0 then none
  else
    let fu := s.calculateFuForVariant ct callGroups tsumo hasHead bodyOffset combinedIndex
      shuntsuPos
    s.toScoreCounter.evaluateVariant yakus fu

/-- The slice `combined` of `CalculateScore`: the head when there is one, the
called groups, the body. -/
def combinedGroups (ct : CompletedTiles) (callGroups : List CallGroup) : List TileGroup :=
  (if ct.Head.Tiles.length > 0 then [ct.Head] else []) ++
    callGroups.map (fun cg => ⟨cg.GroupType, cg.Tiles⟩) ++ ct.Body

/-- The candidates that `CalculateScore` collects at the group `g` of index `i`
in `combined`: for a sequence one per position holding the winning tile, for
another group one when it holds the winning tile. -/
def FullScoreCounter.variantsAt (s : FullScoreCounter) (ct : CompletedTiles)
    (callGroups : List CallGroup) (hasHead : Bool) (bodyOffset i : Nat) (g : TileGroup) :
    List ScoreCounterResult :=
  match g.GroupType with
  | TileGroupType.Shuntsu =>
    (List.range (min g.Tiles.length 3)).filterMap (fun pos =>
      if g.Tiles.getD pos 0 ≠ s.WinTile then none
      else s.evaluateVariant ct callGroups hasHead bodyOffset i pos)
  | _ =>
    if IsIn g.Tiles s.WinTile then
      (s.evaluateVariant ct callGroups hasHead bodyOffset i (-1)).toList
    else []

/-- The candidates that `CalculateScore` collects for one decomposition. -/
def FullScoreCounter.variantsOf (s : FullScoreCounter) (callGroups : List CallGroup)
    (ct : CompletedTiles) : List ScoreCounterResult :=
  let combined := combinedGroups ct callGroups
  let hasHead := decide (ct.Head.Tiles.length > 0)
  let bodyOffset := (if hasHead then 1 else 0) + callGroups.length
  (combined.enum.map (fun ig => s.variantsAt ct callGroups hasHead bodyOffset ig.1 ig.2)).flatten

/-- The method `CalculateScore`: every field of the receiver is overwritten at
entry, so the result depends on the arguments only; `none` is the nil
result. -/
def CalculateScore (table : Option Table) (player : Player) (tiles : List BaseTile)
    (callGroups : List CallGroup) (winTile : BaseTile) (isSevenPair : Bool) :
    Option ScoreCounterResult :=
  let s : FullScoreCounter :=
    { Player := player, Table := table, Tiles := tiles, CallGroups := callGroups,
      WinTile := winTile, IsSevenPair := isSevenPair }
  let completedList := GetAllCompletedTiles s.Tiles
  let candidates := (completedList.map (fun ct => s.variantsOf callGroups ct)).flatten
  GetBestResult candidates

/-! ## Worked hands -/

/-- The score that the `Ron` case of `Table.MakeSelection` computes for the
winner and the discarded tile: the sorted kinds of the hand with the discarded
kind appended, the discarded kind as the winning tile. -/
def ronScore (table : Table) (winnerP : Player) (discarded : Tile) : Option ScoreCounterResult :=
  let baseTiles := ConvertTilesToBaseTiles winnerP.Hand ++ [discarded.Tile]
  let isSeven := IsSevenPairPattern baseTiles
  CalculateScore (some table) winnerP baseTiles winnerP.CallGroups discarded.Tile isSeven

/-- A table in the east round. -/
def eastTable : Table := ⟨Wind.East⟩

/-- The tiles scored when `openHandPlayer` wins on 9s: 1m2m3m 7m8m9m 1p2p3p 9s9s. -/
def openHandTiles : List BaseTile :=
  [_1m, _2m, _3m, _7m, _8m, _9m, _1p, _2p, _3p, _9s, _9s]

/-- The entry returned for `openHandTiles`. -/
def openHandReturned : CompletedTiles :=
  ⟨⟨TileGroupType.Toitsu, [_9s, _9s]⟩,
   [⟨TileGroupType.Shuntsu, [_1p, _2p, _3p]⟩, ⟨TileGroupType.Shuntsu, [_7m, _8m, _9m]⟩,
    ⟨TileGroupType.Shuntsu, [_1m, _2m, _3m]⟩]⟩

/-- A south-seat player after two called sequences (2m3m4m and 4p5p6p), not in
the first round, with the given concealed tiles. -/
def twoChiPlayer (hand : List Tile) : Player :=
  { Oya := false, Score := 25000, Hand := hand,
    CallGroups := [⟨TileGroupType.Shuntsu, [_2m, _3m, _4m], true⟩,
                   ⟨TileGroupType.Shuntsu, [_4p, _5p, _6p], true⟩],
    AtariTiles := [], Menzen := false, Wind := Wind.South }

/-- The seven concealed tiles 1p2p3p 4s 5z5z5z: a triplet of white dragons. -/
def dragonTripletHand : List Tile :=
  [⟨_1p, false, 36⟩, ⟨_2p, false, 40⟩, ⟨_3p, false, 44⟩, ⟨_4s, false, 84⟩,
   ⟨_5z, false, 124⟩, ⟨_5z, false, 125⟩, ⟨_5z, false, 126⟩]

/-- The seven concealed tiles 1p2p3p 6s7s8s 5z: one white dragon. -/
def dragonPairHand : List Tile :=
  [⟨_1p, false, 36⟩, ⟨_2p, false, 40⟩, ⟨_3p, false, 44⟩, ⟨_6s, false, 92⟩,
   ⟨_7s, false, 96⟩, ⟨_8s, false, 100⟩, ⟨_5z, false, 124⟩]

/-- The thirteen concealed tiles 1m1m 4m4m 7p7p 9p 2s2s 5s5s 6z6z. -/
def sevenPairsWaitHand : List Tile :=
  [⟨_1m, false, 0⟩, ⟨_1m, false, 1⟩, ⟨_4m, false, 12⟩, ⟨_4m, false, 13⟩,
   ⟨_7p, false, 60⟩, ⟨_7p, false, 61⟩, ⟨_9p, false, 68⟩, ⟨_2s, false, 76⟩,
   ⟨_2s, false, 77⟩, ⟨_5s, false, 88⟩, ⟨_5s, false, 89⟩, ⟨_6z, false, 128⟩,
   ⟨_6z, false, 129⟩]

/-- A south-seat player with a closed hand, not in riichi and not in the first
round. -/
def closedPlayer (hand : List Tile) : Player :=
  { Oya := false, Score := 25000, Hand := hand, CallGroups := [], AtariTiles := [],
    Menzen := true, Wind := Wind.South }

/-- The thirteen concealed tiles 2m2m 3m3m 4m4m 6p6p 7p7p 8p 5s5s, waiting for
5p and 8p. -/
def pinfuWaitHand : List Tile :=
  [⟨_2m, false, 4⟩, ⟨_2m, false, 5⟩, ⟨_3m, false, 8⟩, ⟨_3m, false, 9⟩,
   ⟨_4m, false, 12⟩, ⟨_4m, false, 13⟩, ⟨_6p, false, 56⟩, ⟨_6p, false, 57⟩,
   ⟨_7p, false, 60⟩, ⟨_7p, false, 61⟩, ⟨_8p, false, 64⟩, ⟨_5s, false, 88⟩,
   ⟨_5s, false, 89⟩]

/-- The entry returned for the tiles of `pinfuWaitHand` with a second 8p. -/
def pinfuReturned : CompletedTiles :=
  ⟨⟨TileGroupType.Toitsu, [_5s, _5s]⟩,
   [⟨TileGroupType.Shuntsu, [_6p, _7p, _8p]⟩, ⟨TileGroupType.Shuntsu, [_6p, _7p, _8p]⟩,
    ⟨TileGroupType.Shuntsu, [_2m, _3m, _4m]⟩, ⟨TileGroupType.Shuntsu, [_2m, _3m, _4m]⟩]⟩

/-- The scoring context of the ron of `openHandPlayer` on 9s. -/
def openHandCounter : FullScoreCounter :=
  { Player := openHandPlayer, Tiles := ConvertTilesToBaseTiles openHandPlayer.Hand ++ [_9s],
    CallGroups := openHandPlayer.CallGroups, WinTile := _9s, IsSevenPair := false,
    Table := some eastTable }

/-- The result computed for the ron of `openHandPlayer` on 9s. -/
def openHandResult : ScoreCounterResult :=
  { Fan := 4, Fu := 30, BaseScore := 2000, TsumoScore := (4000, 2000, 2000),
    RonScore := 8000, IsYakuman := false, Yakus := [Chanta, Honchanta] }

/-- The five yakuhai entries of the yaku table. -/
def yakuhaiEntries : List Yaku :=
  [Yakuhai, YakuhaiWind, YakuhaiWhiteBoard, YakuhaiGreenBoard, YakuhaiRedBoard]

/-- The scoring context of the ron of `closedPlayer pinfuWaitHand` on 8p. -/
def pinfuCounter : FullScoreCounter :=
  { Player := closedPlayer pinfuWaitHand,
    Tiles := ConvertTilesToBaseTiles pinfuWaitHand ++ [_8p],
    CallGroups := [], WinTile := _8p, IsSevenPair := false, Table := some eastTable }

/-- The tiles named by the actions of `discardLoop`: every tile whose kind has
not been seen. -/
def discardPicks : List Tile → List BaseTile → List Tile
  | [], _ => []
  | tile :: rest, seen =>
    if IsIn seen tile.Tile then discardPicks rest seen
    else tile :: discardPicks rest (tile.Tile :: seen)

/-- Whether the hand holds two tiles that with the kind `t` make three
consecutive ranks of one number suit: for some start `k` of rank at most 7 with
`k ≤ t ≤ k + 2`, the two kinds among `k, k+1, k+2` other than `t` are in the
hand. -/
def formsSequenceWith (hand : List Tile) (t : BaseTile) : Bool :=
  decide (t < 27) &&
    (List.range 27).any (fun k =>
      decide (k % 9 ≤ 6 ∧ k ≤ t ∧ t ≤ k + 2) &&
        ([k, k + 1, k + 2].filter (fun x => x != t)).all (fun x =>
          hand.any (fun h => h.Tile == x)))

/-- A player who has called a pon of white dragons (5z). -/
def ponPlayer (hand : List Tile) : Player :=
  { Oya := false, Score := 25000, Hand := hand,
    CallGroups := [⟨TileGroupType.Koutsu, [_5z, _5z, _5z], true⟩],
    AtariTiles := [], Menzen := false, Wind := Wind.South }

/-- The eleven concealed tiles 2m3m4m 5p6p7p 2s3s4s 9s 5z: the fourth white dragon
is in the hand. -/
def fourthDragonHand : List Tile :=
  [⟨_2m, false, 4⟩, ⟨_3m, false, 8⟩, ⟨_4m, false, 12⟩, ⟨_5p, false, 52⟩,
   ⟨_6p, false, 56⟩, ⟨_7p, false, 60⟩, ⟨_2s, false, 76⟩, ⟨_3s, false, 80⟩,
   ⟨_4s, false, 84⟩, ⟨_9s, false, 104⟩, ⟨_5z, false, 127⟩]

/-- The eleven concealed tiles 1m2m3m 5p6p7p 2s3s4s 9s9s: no white dragon, and
the 1m is the tile with ID 0. -/
def noDragonHand : List Tile :=
  [⟨_1m, false, 0⟩, ⟨_2m, false, 4⟩, ⟨_3m, false, 8⟩, ⟨_5p, false, 52⟩,
   ⟨_6p, false, 56⟩, ⟨_7p, false, 60⟩, ⟨_2s, false, 76⟩, ⟨_3s, false, 80⟩,
   ⟨_4s, false, 84⟩, ⟨_9s, false, 104⟩, ⟨_9s, false, 105⟩]

/-- A closed player with 900 points who holds the tiles of `pinfuWaitHand` and
a drawn east wind, with the stored waits 5p and 8p. -/
def poorPlayer : Player :=
  { Oya := false, Score := 900, Hand := pinfuWaitHand ++ [⟨_1z, false, 108⟩],
    CallGroups := [], AtariTiles := [_5p, _8p], Menzen := true, Wind := Wind.South }

/-- A closed player with 25000 points who holds the tiles of `pinfuWaitHand` and
a drawn east wind, with the stored waits 5p and 8p. -/
def waitingPlayer : Player := { poorPlayer with Score := 25000 }

/-- The hand of `poorPlayer` without its first 2m. -/
def poorHandWithoutTwoMan : List Tile := poorPlayer.Hand.eraseIdx 0

/-- The thirteen tiles 1m4m7m 1p4p7p 1s4s7s 1z2z3z4z, far from any win. -/
def scatteredHand : List Tile :=
  [⟨_1m, false, 0⟩, ⟨_4m, false, 12⟩, ⟨_7m, false, 24⟩, ⟨_1p, false, 36⟩,
   ⟨_4p, false, 48⟩, ⟨_7p, false, 60⟩, ⟨_1s, false, 72⟩, ⟨_4s, false, 84⟩,
   ⟨_7s, false, 96⟩, ⟨_1z, false, 108⟩, ⟨_2z, false, 112⟩, ⟨_3z, false, 116⟩,
   ⟨_4z, false, 120⟩]

/-! ## Rivers, furiten and the remaining action generators (player.go) -/

/-- The method `River.ToBaseTile`: the kinds of the discards in order. -/
def River.ToBaseTile (r : Mahjong.River) : List BaseTile := r.River.map (fun tile => tile.Tile.Tile)

/-- The method `River.Size`. -/
def River.Size (r : Mahjong.River) : Nat := r.River.length

/-- The method `River.PushBack`. -/
def River.PushBack (r : Mahjong.River) (rt : RiverTile) : Mahjong.River := ⟨r.River ++ [rt]⟩

/-- The assignment `r.River[len(r.River)-1].Remain = false` on a list of river
tiles; nothing is done to the empty list. -/
def clearLastRemain : List RiverTile → List RiverTile
  | [] => []
  | [rt] => [{ rt with Remain := false }]
  | rt :: rt2 :: rest => rt :: clearLastRemain (rt2 :: rest)

/-- The method `River.SetNotRemain`. -/
def River.SetNotRemain (r : Mahjong.River) : Mahjong.River := ⟨clearLastRemain r.River⟩

/-- The method `UpdateFuritenRiver`: the flag is set when some wait is the kind
of a river tile whose `Remain` is true; otherwise the player is left as it is. -/
def Player.UpdateFuritenRiver (p : Player) : Player :=
  if p.AtariTiles.any (fun atariTile =>
      p.River.River.any (fun riverTile => riverTile.Tile.Tile == atariTile && riverTile.Remain))
  then { p with FuritenRiver := true }
  else p

/-- The method `Minogashi`. -/
def Player.Minogashi (p : Player) : Player :=
  if p.IsRiichi then { p with FuritenRiichi := true }
  else { p with FuritenRound := true }

/-- The function `GetNCopies` of gameplay.go: the first `n` tiles of the kind. -/
def GetNCopies (tiles : List Tile) (baseTile : BaseTile) (n : Nat) : List Tile :=
  (tiles.filter (fun tile => tile.Tile == baseTile)).take n

/-- The method `GetAnkan`.  The Go loop ranges over the map `tileCount`, whose
iteration order is not specified; the kinds are taken here in the order of their
first occurrence in the hand. -/
def Player.GetAnkan (p : Player) : List SelfAction :=
  ((p.Hand.map (fun tile => tile.Tile)).eraseDups).filterMap (fun baseTile =>
    if (p.Hand.filter (fun tile => tile.Tile == baseTile)).length ≥ 4 then
      let tiles := GetNCopies p.Hand baseTile 4
      if tiles.length = 4 then some ⟨⟨BaseAction.AnKan, tiles⟩⟩ else none
    else none)

/-- The method `GetTsumo`.  `none` stands for the run-time panic of
`baseTiles[len(baseTiles)-1]` on an empty hand; the nil result is the empty
list. -/
def Player.GetTsumo (p : Player) (table : Option Table) : Option (List SelfAction) :=
  if p.IsTenpai then
    let baseTiles := ConvertTilesToBaseTiles p.Hand
    let isSevenPair := IsSevenPairPattern baseTiles
    match baseTiles.getLast? with
    | none => none
    | some winTile =>
      match CalculateScore table p baseTiles p.CallGroups winTile isSevenPair with
      | some _ => some [⟨⟨BaseAction.Tsumo, []⟩⟩]
      | none => some []
  else some []

/-- The function `IsTsuhai` of tile.go. -/
def IsTsuhai (t : BaseTile) : Bool := decide (t ≥ _1z ∧ t ≤ _7z)

/-- The function `IsYaochuhai` of tile.go. -/
def IsYaochuhai (t : BaseTile) : Bool := Is19hai t || IsTsuhai t

/-- The method `GetKyushukyuhai`; the map `yaochuTiles` is the list of its
keys. -/
def Player.GetKyushukyuhai (p : Player) : List SelfAction :=
  let yaochuTiles := ((p.Hand.map (fun tile => tile.Tile)).filter IsYaochuhai).eraseDups
  if yaochuTiles.length ≥ 9 then [⟨⟨BaseAction.Kyushukyuhai, p.Hand⟩⟩]
  else []

/-- The method `GetPon`. -/
def Player.GetPon (p : Player) (tile : Tile) : List ResponseAction :=
  let count := (p.Hand.filter (fun handTile => handTile.Tile == tile.Tile)).length
  if count ≥ 2 then [⟨⟨BaseAction.Pon, [tile]⟩⟩]
  else []

/-- The method `GetKan`. -/
def Player.GetKan (p : Player) (tile : Tile) : List ResponseAction :=
  let count := (p.Hand.filter (fun handTile => handTile.Tile == tile.Tile)).length
  if count ≥ 3 then [⟨⟨BaseAction.Kan, [tile]⟩⟩]
  else []

/-- The method `GetChanAnkan`. -/
def Player.GetChanAnkan (p : Player) (tile : Tile) : List ResponseAction :=
  if !p.IsFuriten then [⟨⟨BaseAction.ChanAnKan, [tile]⟩⟩]
  else []

/-- The method `GetChankan`. -/
def Player.GetChankan (p : Player) (tile : Tile) : List ResponseAction :=
  if !p.IsFuriten then [⟨⟨BaseAction.ChanKan, [tile]⟩⟩]
  else []

/-- The loop of `RemoveFromHand`: the first tile with the ID is taken out. -/
def removeByID : List Tile → Nat → List Tile
  | [], _ => []
  | t :: rest, id => if t.ID = id then rest else t :: removeByID rest id

/-- The method `RemoveFromHand`. -/
def Player.RemoveFromHand (p : Player) (tile : Tile) : Player :=
  { p with Hand := removeByID p.Hand tile.ID }

/-- The method `ExecuteAnkan`. -/
def Player.ExecuteAnkan (p : Player) (tile : BaseTile) : Player :=
  let tiles := GetNCopies p.Hand tile 4
  let p := tiles.foldl (fun p t => p.RemoveFromHand t) p
  { p with CallGroups := p.CallGroups ++ [⟨TileGroupType.Kantsu, [tile, tile, tile, tile], false⟩] }

/-- The loop of `ExecuteKakan` over the called groups: the first triplet of the
kind becomes an open quad. -/
def kakanGroups : List CallGroup → BaseTile → List CallGroup
  | [], _ => []
  | g :: rest, tile =>
    if g.GroupType = TileGroupType.Koutsu ∧ g.Tiles.length = 3 ∧ g.Tiles.headD 0 = tile then
      ⟨TileGroupType.Kantsu, [tile, tile, tile, tile], true⟩ :: rest
    else g :: kakanGroups rest tile

/-- The method `ExecuteKakan`. -/
def Player.ExecuteKakan (p : Player) (tile : Tile) : Player :=
  let p := p.RemoveFromHand tile
  { p with CallGroups := kakanGroups p.CallGroups tile.Tile }

/-- The method `ExecuteChiSimple` of player_advanced.go. -/
def Player.ExecuteChiSimple (p : Player) (tile : Tile) : Player :=
  { (p.RemoveFromHand tile) with Menzen := false }

/-- The method `ExecutePonSimple` of player_advanced.go. -/
def Player.ExecutePonSimple (p : Player) (tile : Tile) : Player :=
  { ((p.RemoveFromHand tile).RemoveFromHand tile) with Menzen := false }

/-- The method `ExecuteKanSimple` of player_advanced.go. -/
def Player.ExecuteKanSimple (p : Player) (tile : Tile) : Player :=
  { (((p.RemoveFromHand tile).RemoveFromHand tile).RemoveFromHand tile) with Menzen := false }

/-- The method `ExecuteNaki` of player_advanced.go. -/
def Player.ExecuteNaki (p : Player) (tile : Tile) (actionType : BaseAction) : Player :=
  match actionType with
  | BaseAction.Chi => p.ExecuteChiSimple tile
  | BaseAction.Pon => p.ExecutePonSimple tile
  | BaseAction.Kan => p.ExecuteKanSimple tile
  | _ => p

/-- The function `BaseTileInSlice` of gameplay.go. -/
def BaseTileInSlice (tile : BaseTile) (slice : List BaseTile) : Bool :=
  slice.any (fun t => t == tile)

/-- The function `NewPlayer`. -/
def NewPlayer (wind : Wind) (oya : Bool) : Player :=
  { Wind := wind, Oya := oya, Menzen := true, Score := 25000, FirstRound := true,
    Ippatsu := false, Hand := [], CallGroups := [], AtariTiles := [] }

/-! ## The game log (game_log.go) -/

/-- The enumeration `LogAction`. -/
inductive LogAction where
  | LogAnKan
  | LogPon
  | LogChi
  | LogKan
  | LogKaKan
  | LogDiscardFromHand
  | LogDiscardFromTsumo
  | LogRiichiDiscardFromHand
  | LogRiichiDiscardFromTsumo
  | LogRiichiSuccess
  | LogDrawNormal
  | LogDrawRinshan
  | LogDoraReveal
  | LogKyushukyuhai
  | LogRon
  | LogTsumo
  | LogInvalidAction
deriving DecidableEq, Repr

/-- The struct `BaseGameLog`; the nil tile is `none`, `Scores` is the array
`[NPlayers]int` as a list of length 4. -/
structure BaseGameLog where
  Player : Int
  Player2 : Int
  Action : LogAction
  Tile : Option Mahjong.Tile
  CallTiles : List Mahjong.Tile
  Scores : List Int
deriving DecidableEq, Repr

/-- The struct `GameLogRecord`. -/
structure GameLogRecord where
  Logs : List BaseGameLog
deriving DecidableEq, Repr

/-- The method `AddActionLog`. -/
def GameLogRecord.AddActionLog (g : GameLogRecord) (p1 p2 : Int) (action : LogAction)
    (tile : Option Tile) (callGroup : List Tile) : GameLogRecord :=
  ⟨g.Logs ++ [⟨p1, p2, action, tile, callGroup, [0, 0, 0, 0]⟩]⟩

/-- The method `AddScoreLog`. -/
def GameLogRecord.AddScoreLog (g : GameLogRecord) (scores : List Int) : GameLogRecord :=
  ⟨g.Logs ++ [⟨-1, -1, LogAction.LogInvalidAction, none, [], scores⟩]⟩

/-! ## The table (table.go) -/

/-- The constant `NBaseTiles`. -/
def NBaseTiles : Nat := 34

/-- The constant `NTiles`. -/
def NTiles : Nat := NBaseTiles * 4

/-- The constant `NPlayers`. -/
def NPlayers : Nat := 4

/-- The struct `Table` with the fields of the game state; `Table` above holds
the field read by the scoring code.  `Tiles` is the array `[NTiles]*Tile` once
`InitTiles` has filled it, and the empty list before; the functions that index
the array are modelled for the filled array.  `Players` is the array of the four
players that `NewTable` makes (four different players, none of them nil).
`Turn` is never negative, `Oya` is the index of a player.  The random generator
and the two fields of its seed are not part of the record: the functions that
draw from the generator take the drawn numbers as an argument. -/
structure FullTable extends Table where
  Tiles : List Tile
  NActiveDora : Int
  DoraIndicator : List Tile
  UraDoraIndicator : List Tile
  Yama : List Tile
  Players : Fin 4 → Player
  Turn : Nat
  LastAction : BaseAction
  Oya : Fin 4
  Honba : Int
  Kyoutaku : Int
  YamaLog : List Nat
  SelectionLog : List Int
  GameLog : Option GameLogRecord
  LastActor : Int

/-- The index `i % NPlayers` as an index of the array `Players`. -/
def seatOf (i : Nat) : Fin 4 := ⟨i % 4, Nat.mod_lt i (by decide)⟩

/-- The function `NewTable`. -/
def NewTable : FullTable :=
  { GameWind := Wind.East, Tiles := [], NActiveDora := 1, DoraIndicator := [],
    UraDoraIndicator := [], Yama := [],
    Players := fun i =>
      NewPlayer (match i.val with
        | 0 => Wind.East
        | 1 => Wind.South
        | 2 => Wind.West
        | _ => Wind.North) (decide (i.val = 0)),
    Turn := 0, LastAction := BaseAction.Pass, Oya := 0, Honba := 0, Kyoutaku := 0,
    YamaLog := [], SelectionLog := [], GameLog := some ⟨[]⟩, LastActor := -1 }

/-- The method `NewDora`. -/
def FullTable.NewDora (t : FullTable) : FullTable :=
  { t with NActiveDora := t.NActiveDora + 1 }

/-- The method `GetRemainTile`. -/
def FullTable.GetRemainTile (t : FullTable) : Int := (t.Yama.length : Int) - 14

/-- The tiles that `InitTiles` makes: four of every kind, numbered in order. -/
def initialTiles : List Tile :=
  ((List.range NBaseTiles).map (fun baseTile =>
    (List.range 4).map (fun i => (⟨baseTile, false, baseTile * 4 + i⟩ : Tile)))).flatten

/-- The method `InitTiles`. -/
def FullTable.InitTiles (t : FullTable) : FullTable :=
  { t with Tiles := initialTiles }

/-- The loop of `InitRedDora3` over the three suits; `intn4 color` is the number
that `Rand.Intn(4)` returns for the suit. -/
def redDoraLoop (intn4 : Nat → Nat) (colors : List Nat) (tiles : List Tile) : List Tile :=
  colors.foldl (fun tiles color =>
    let baseTile := _5m + color * 9
    let idx := intn4 color % 4
    match tiles.get? (baseTile * 4 + idx) with
    | some tile => tiles.set (baseTile * 4 + idx) { tile with RedDora := true }
    | none => tiles) tiles

/-- The method `InitRedDora3`. -/
def FullTable.InitRedDora3 (t : FullTable) (intn4 : Nat → Nat) : FullTable :=
  { t with Tiles := redDoraLoop intn4 (List.range 3) t.Tiles }

/-- The exchange `tiles[i], tiles[j] = tiles[j], tiles[i]`. -/
def swapAt (tiles : List Tile) (i j : Nat) : List Tile :=
  match tiles.get? i, tiles.get? j with
  | some a, some b => (tiles.set i b).set j a
  | _, _ => tiles

/-- The values of `i` in the loop of `ShuffleTiles`: from `NTiles - 1` down to 1. -/
def shuffleOrder : List Nat := (List.range (NTiles - 1)).map (fun k => NTiles - 1 - k)

/-- The loop of `ShuffleTiles`: the entries `i` and `j` are exchanged,
`j = intn i % (i + 1)` being the number that `Rand.Intn(i + 1)` returns. -/
def shuffleLoop (intn : Nat → Nat) (order : List Nat) (tiles : List Tile) : List Tile :=
  order.foldl (fun tiles i => swapAt tiles i (intn i % (i + 1))) tiles

/-- The method `ShuffleTiles`. -/
def FullTable.ShuffleTiles (t : FullTable) (intn : Nat → Nat) : FullTable :=
  { t with Tiles := shuffleLoop intn shuffleOrder t.Tiles }

/-- The method `InitYama`. -/
def FullTable.InitYama (t : FullTable) : FullTable :=
  { t with Yama := t.Tiles.take NTiles }

/-- The method `InitDora`. -/
def FullTable.InitDora (t : FullTable) : FullTable :=
  let pick := fun (positions : List Nat) =>
    positions.filterMap (fun pos =>
      if t.Yama.length > pos then t.Yama.get? (t.Yama.length - pos - 1) else none)
  { t with DoraIndicator := pick [5, 7, 9, 11, 13], UraDoraIndicator := pick [4, 6, 8, 10, 12],
           NActiveDora := 1 }

/-- The method `InitBeforePlaying`, with the numbers drawn by `InitRedDora3` and
by `ShuffleTiles`. -/
def FullTable.InitBeforePlaying (t : FullTable) (intn4 intn : Nat → Nat) : FullTable :=
  ((((t.InitTiles).InitRedDora3 intn4).ShuffleTiles intn).InitYama).InitDora

/-- The method `ImportYama`: the entries outside `0..NTiles-1` are skipped. -/
def FullTable.ImportYama (t : FullTable) (yamaLog : List Int) : FullTable :=
  { t with Yama := yamaLog.filterMap (fun idx =>
      if 0 ≤ idx ∧ idx < (NTiles : Int) then t.Tiles.get? idx.toNat else none) }

/-- The method `ExportYama`: `fmt.Sprintf("%d,", tile.ID)` for every tile of the
wall in order. -/
def FullTable.ExportYama (t : FullTable) : String :=
  t.Yama.foldl (fun out tile => out ++ (toString tile.ID ++ ",")) ""

/-- The record of an action in the game log, when there is a log. -/
def FullTable.logAction (t : FullTable) (p1 p2 : Int) (action : LogAction)
    (tile : Option Tile) : FullTable :=
  match t.GameLog with
  | some g => { t with GameLog := some (g.AddActionLog p1 p2 action tile []) }
  | none => t

/-- The assignment `t.Players[idx].Hand = append(t.Players[idx].Hand, tile)`. -/
def FullTable.giveTile (t : FullTable) (idx : Fin 4) (tile : Tile) : FullTable :=
  let player := t.Players idx
  { t with Players := Function.update t.Players idx { player with Hand := player.Hand ++ [tile] } }

/-- One draw of `DrawTenhouStyle`: the last tile of the wall goes to the player
and its ID to `YamaLog`; nothing happens when the wall is empty. -/
def FullTable.drawLogged (t : FullTable) (idx : Fin 4) : FullTable :=
  match t.Yama.getLast? with
  | some tile =>
    let t := { t with Yama := t.Yama.dropLast }
    let t := t.giveTile idx tile
    { t with YamaLog := t.YamaLog ++ [tile.ID] }
  | none => t

/-- The method `DrawTenhouStyle`. -/
def FullTable.DrawTenhouStyle (t : FullTable) : FullTable :=
  let t := (List.range 3).foldl (fun t _round =>
    (List.range NPlayers).foldl (fun t i => t.drawLogged (seatOf (t.Oya.val + i))) t) t
  t.drawLogged t.Oya

/-- The method `DrawNormal`; the index is one of a player. -/
def FullTable.DrawNormal (t : FullTable) (playerIndex : Fin 4) : FullTable :=
  match t.Yama.getLast? with
  | some tile =>
    (t.drawLogged playerIndex).logAction playerIndex (-1) LogAction.LogDrawNormal (some tile)
  | none => t

/-- The method `DrawNormalNoRecord`. -/
def FullTable.DrawNormalNoRecord (t : FullTable) (playerIndex : Fin 4) : FullTable :=
  match t.Yama.getLast? with
  | some tile => { t with Yama := t.Yama.dropLast }.giveTile playerIndex tile
  | none => t

/-- The method `DrawNNormal`. -/
def FullTable.DrawNNormal (t : FullTable) (playerIndex : Fin 4) (nTiles : Nat) : FullTable :=
  (List.range nTiles).foldl (fun t _i => t.DrawNormalNoRecord playerIndex) t

/-- The method `DrawRinshan`: the first tile of the wall, when more than 14
tiles are left. -/
def FullTable.DrawRinshan (t : FullTable) (playerIndex : Fin 4) : FullTable :=
  if t.Yama.length > 14 then
    match t.Yama with
    | tile :: rest =>
      ({ t with Yama := rest }.giveTile playerIndex tile).logAction playerIndex (-1)
        LogAction.LogDrawRinshan (some tile)
    | [] => t
  else t

/-- The method `NextTurn`. -/
def FullTable.NextTurn (t : FullTable) (nextTurn : Nat) : FullTable :=
  { t with Turn := nextTurn }

/-- The method `GetPhase`. -/
def FullTable.GetPhase (t : FullTable) : Nat :=
  if t.GetRemainTile ≤ 0 then 16
  else if t.LastAction = BaseAction.Discard then 4 + (t.Turn + 1) % NPlayers
  else if t.LastAction = BaseAction.Kan ∨ t.LastAction = BaseAction.AnKan ∨
      t.LastAction = BaseAction.KaKan then 8 + (t.Turn + 1) % NPlayers
  else t.Turn

/-- The method `isAbaortedFourWind`. -/
def FullTable.isAbaortedFourWind (t : FullTable) : Bool :=
  if (t.Players 0).River.River.length = 1 ∧ (t.Players 1).River.River.length = 1 ∧
      (t.Players 2).River.River.length = 1 ∧ (t.Players 3).River.River.length = 1 ∧
      (t.Players 0).CallGroups.length = 0 ∧ (t.Players 1).CallGroups.length = 0 ∧
      (t.Players 2).CallGroups.length = 0 ∧ (t.Players 3).CallGroups.length = 0 then
    match (t.Players 0).River.River, (t.Players 1).River.River, (t.Players 2).River.River,
      (t.Players 3).River.River with
    | r0 :: _, r1 :: _, r2 :: _, r3 :: _ =>
      let t0 := r0.Tile.Tile
      let t1 := r1.Tile.Tile
      let t2 := r2.Tile.Tile
      let t3 := r3.Tile.Tile
      decide (t0 = t1 ∧ t0 = t2 ∧ t0 = t3 ∧ t0 ≥ _1z ∧ t0 ≤ _4z)
    | _, _, _, _ => false
  else false

/-! ## `Table.MakeSelection` (table.go) -/

/-- The method `SetRonAgari` of game_result.go on a new result; `none` stands
for the run-time panic of an index outside `0..3`. -/
def GameResult.SetRonAgari (r : GameResult) (winnerIdx loserIdx : Int)
    (score : ScoreCounterResult) : Option GameResult :=
  if 0 ≤ winnerIdx ∧ winnerIdx < 4 ∧ 0 ≤ loserIdx ∧ loserIdx < 4 then
    let c : List Int := [0, 0, 0, 0]
    let c := c.set winnerIdx.toNat score.RonScore
    let c := c.set loserIdx.toNat (wrapInt (-score.RonScore))
    some { r with WinnerIdx := winnerIdx, LoserIdx := loserIdx, Score := some score,
                  ScoreChanges := c, Yakus := score.Yakus, Fan := score.Fan, Fu := score.Fu }
  else none

/-- The method `SetRyukyokuKyushukyuhai` of game_result.go. -/
def GameResult.SetRyukyokuKyushukyuhai (r : GameResult) (playerIdx : Int) : GameResult :=
  { r with WinnerIdx := playerIdx, LoserIdx := -1 }

/-- The helper `actionPriority` of `MakeSelection`. -/
def actionPriority (a : BaseAction) : Nat :=
  match a with
  | BaseAction.Ron => 4
  | BaseAction.Kan => 3
  | BaseAction.Pon => 2
  | BaseAction.Chi => 1
  | _ => 0

/-- The record of the four scores in the game log, when there is a log. -/
def FullTable.logScores (t : FullTable) : FullTable :=
  match t.GameLog with
  | some g =>
    { t with GameLog := some (g.AddScoreLog ((List.finRange 4).map (fun i => (t.Players i).Score))) }
  | none => t

/-- The call `gameResult.ApplyScoreChanges(playersArr)` on the four players of
the table. -/
def FullTable.applyScoreChanges (t : FullTable) (r : GameResult) : FullTable :=
  let players := r.ApplyScoreChanges (List.ofFn t.Players)
  { t with Players := fun i => players.getD i.val (t.Players i) }

/-- The list `actions` that the self-action phase of `MakeSelection` builds for
the player to move; `none` stands for the panic of `GetTsumo`. -/
def FullTable.selfActions (t : FullTable) (player : Player) : Option (List SelfAction) :=
  let actions := (player.GetDiscard false).1 ++ player.GetAnkan ++ player.GetKakan
  let withTsumo : Option (List SelfAction) :=
    if player.IsTenpai then (player.GetTsumo (some t.toTable)).map (fun a => actions ++ a)
    else some actions
  withTsumo.map (fun actions =>
    let actions := if player.IsMenzen && !player.IsRiichi then actions ++ player.GetRiichi
      else actions
    if player.FirstRound then actions ++ player.GetKyushukyuhai else actions)

/-- The `switch` of the self-action phase, entered after `t.LastActor` has been
set: the result of `MakeSelection` and the table it leaves; `none` stands for a
run-time panic. -/
def FullTable.execSelfAction (t : FullTable) (playerIdx : Fin 4) (act : SelfAction) :
    Option (Bool × FullTable) :=
  let player := t.Players playerIdx
  match act.Action with
  | BaseAction.Discard =>
    match act.CorrespondTiles with
    | [] => none
    | tile :: _ =>
      let rt : RiverTile :=
        { Tile := tile, Number := 0, Riichi := player.IsRiichi, Remain := true, FromHand := true }
      let player := { player with River := player.River.PushBack rt }
      let player := player.RemoveFromHand tile
      let player :=
        if player.IsRiichi && player.IsTenpai then
          if BaseTileInSlice tile.Tile player.AtariTiles then player.Minogashi else player
        else player
      let t := { t with Players := Function.update t.Players playerIdx player }
      let actionLog :=
        if player.IsRiichi then LogAction.LogRiichiDiscardFromHand
        else LogAction.LogDiscardFromHand
      let t := t.logAction playerIdx.val (-1) actionLog (some tile)
      some (true, { t with LastAction := BaseAction.Discard })
  | BaseAction.AnKan =>
    match act.CorrespondTiles with
    | [] => some (false, t)
    | tile :: _ =>
      let t := { t with Players := Function.update t.Players playerIdx (player.ExecuteAnkan tile.Tile) }
      let t := t.NewDora
      let t := t.DrawRinshan playerIdx
      let t := t.logAction playerIdx.val (-1) LogAction.LogAnKan none
      some (true, { t with LastAction := BaseAction.AnKan })
  | BaseAction.KaKan =>
    match act.CorrespondTiles with
    | [] => some (false, t)
    | tile :: _ =>
      let t := { t with Players := Function.update t.Players playerIdx (player.ExecuteKakan tile) }
      let t := t.NewDora
      let t := t.DrawRinshan playerIdx
      let t := t.logAction playerIdx.val (-1) LogAction.LogKan none
      some (true, { t with LastAction := BaseAction.KaKan })
  | BaseAction.Tsumo =>
    if player.IsTenpai then
      let baseTiles := ConvertTilesToBaseTiles player.Hand
      let isSevenPair := IsSevenPairPattern baseTiles
      match baseTiles.getLast? with
      | none => none
      | some winTile =>
        match CalculateScore (some t.toTable) player baseTiles player.CallGroups winTile
            isSevenPair with
        | some result =>
          match NewGameResult.SetTsumoAgari playerIdx.val result with
          | some gameResult =>
            let t := t.applyScoreChanges gameResult
            let t := t.logAction playerIdx.val (-1) LogAction.LogTsumo player.Hand.getLast?
            some (true, t.logScores)
          | none => none
        | none => some (true, t)
    else some (true, t)
  | BaseAction.Riichi =>
    let player := { player with Riichi := true, Ippatsu := true }
    let t := { t with Players := Function.update t.Players playerIdx player }
    some (true, t.logAction playerIdx.val (-1) LogAction.LogRiichiSuccess none)
  | BaseAction.Kyushukyuhai =>
    let gameResult := NewGameResult.SetRyukyokuKyushukyuhai playerIdx.val
    let t := t.applyScoreChanges gameResult
    some (true, t.logAction playerIdx.val (-1) LogAction.LogKyushukyuhai none)
  | _ => some (false, t)

/-- The self-action phase of `MakeSelection` (phases 0 to 3). -/
def FullTable.selfActionPhase (t : FullTable) (selection : Int) : Option (Bool × FullTable) :=
  if h : t.Turn < 4 then
    let playerIdx : Fin 4 := ⟨t.Turn, h⟩
    let player := t.Players playerIdx
    match t.selfActions player with
    | none => none
    | some actions =>
      if selection < 0 ∨ selection ≥ actions.length then some (false, t)
      else
        match actions.get? selection.toNat with
        | none => none
        | some act => { t with LastActor := playerIdx.val }.execSelfAction playerIdx act
  else none

/-- The list `candidateActions` of the response phase for one player and the
discarded tile. -/
def candidateActions (table : Table) (p : Player) (discarded : Tile) : List BaseAction :=
  (if (p.GetRon (some table) discarded).length > 0 then [BaseAction.Ron] else []) ++
  (if (p.GetKan discarded).length > 0 then [BaseAction.Kan] else []) ++
  (if (p.GetPon discarded).length > 0 then [BaseAction.Pon] else []) ++
  (if (p.GetChi discarded).length > 0 then [BaseAction.Chi] else [])

/-- The loop that picks the response of the highest priority of one player:
`best` and `bestPri` start as `Pass` and 0 and are replaced by an action of a
strictly higher priority. -/
def bestResponse (candidates : List BaseAction) : BaseAction :=
  (candidates.foldl
    (fun (b : BaseAction × Nat) a => if actionPriority a > b.2 then (a, actionPriority a) else b)
    (BaseAction.Pass, 0)).1

/-- The local struct `resp` of `MakeSelection`. -/
structure resp where
  player : Nat
  action : BaseAction
deriving DecidableEq, Repr

/-- The list `responses`: for the three players after the discarder, in seat
order, the best response of the player. -/
def FullTable.responses (t : FullTable) (lastActor : Nat) (discarded : Tile) : List resp :=
  [1, 2, 3].map (fun d =>
    let idx := (lastActor + d) % NPlayers
    ⟨idx, bestResponse (candidateActions t.toTable (t.Players (seatOf idx)) discarded)⟩)

/-- The loop that computes `finalAction`. -/
def finalResponse (responses : List resp) : BaseAction :=
  (responses.foldl
    (fun (b : BaseAction × Nat) r =>
      if actionPriority r.action > b.2 then (r.action, actionPriority r.action) else b)
    (BaseAction.Pass, 0)).1

/-- The loop that finds `winner`: the first of the three players after the
discarder whose response is `finalAction`; `none` is the value -1. -/
def findWinner (lastActor : Nat) (responses : List resp) (finalAction : BaseAction) :
    Option Nat :=
  [1, 2, 3].findSome? (fun d =>
    let idx := (lastActor + d) % NPlayers
    if responses.any (fun r => r.player = idx ∧ r.action = finalAction) then some idx else none)

/-- The branch `finalAction == Pass` of the response phase. -/
def FullTable.allPass (t : FullTable) (lastActor : Nat) : FullTable :=
  let la := t.Players (seatOf lastActor)
  let la := { la with River := la.River.SetNotRemain }
  let t := { t with Players := Function.update t.Players (seatOf lastActor) la }
  { t with LastAction := BaseAction.Pass }.NextTurn ((lastActor + 1) % NPlayers)

/-- The case `Ron` of the response phase. -/
def FullTable.execRon (t : FullTable) (lastActor winner : Nat) (discarded : Tile) :
    Option (Bool × FullTable) :=
  let winnerP := t.Players (seatOf winner)
  match ronScore t.toTable winnerP discarded with
  | some result =>
    match NewGameResult.SetRonAgari winner lastActor result with
    | some gameResult =>
      let t := t.applyScoreChanges gameResult
      let t := (t.logAction winner lastActor LogAction.LogRon (some discarded)).logScores
      some (true, { t with LastAction := BaseAction.Ron })
    | none => none
  | none => some (false, t)

/-- The case `Chi, Pon, Kan` of the response phase. -/
def FullTable.execNaki (t : FullTable) (lastActor winner : Nat) (discarded : Tile)
    (finalAction : BaseAction) : FullTable :=
  let la := t.Players (seatOf lastActor)
  let la := { la with River := la.River.SetNotRemain }
  let t := { t with Players := Function.update t.Players (seatOf lastActor) la }
  let caller := (t.Players (seatOf winner)).ExecuteNaki discarded finalAction
  let t := { t with Players := Function.update t.Players (seatOf winner) caller }
  let logAction :=
    match finalAction with
    | BaseAction.Chi => LogAction.LogChi
    | BaseAction.Pon => LogAction.LogPon
    | BaseAction.Kan => LogAction.LogKan
    | _ => LogAction.LogAnKan
  let t := t.logAction winner lastActor logAction (some discarded)
  let t := { t with Players := fun i => { (t.Players i) with FirstRound := false, Ippatsu := false } }
  { t with Turn := winner, LastAction := finalAction }

/-- The `switch finalAction` of the response phase for the player `winner`. -/
def FullTable.execResponse (t : FullTable) (lastActor winner : Nat) (discarded : Tile)
    (finalAction : BaseAction) : Option (Bool × FullTable) :=
  match finalAction with
  | BaseAction.Ron => t.execRon lastActor winner discarded
  | BaseAction.Chi => some (true, t.execNaki lastActor winner discarded finalAction)
  | BaseAction.Pon => some (true, t.execNaki lastActor winner discarded finalAction)
  | BaseAction.Kan => some (true, t.execNaki lastActor winner discarded finalAction)
  | _ => some (false, t)

/-- The response phase of `MakeSelection` (phases 4 to 15). -/
def FullTable.responsePhase (t : FullTable) : Option (Bool × FullTable) :=
  if t.LastActor < 0 ∨ t.LastActor ≥ NPlayers then some (false, t)
  else
    let lastActor := t.LastActor.toNat
    let la := t.Players (seatOf lastActor)
    match la.River.River.getLast? with
    | none => some (false, t)
    | some last =>
      let discarded := last.Tile
      let responses := t.responses lastActor discarded
      let finalAction := finalResponse responses
      if finalAction = BaseAction.Pass then some (true, t.allPass lastActor)
      else
        match findWinner lastActor responses finalAction with
        | none => some (false, t)
        | some winner => t.execResponse lastActor winner discarded finalAction

/-- The method `MakeSelection`: the Boolean returned and the table after the
call; `none` stands for a run-time panic. -/
def FullTable.MakeSelection (t : FullTable) (selection : Int) : Option (Bool × FullTable) :=
  let phase := t.GetPhase
  if phase ≤ 3 then t.selfActionPhase selection
  else if phase ≥ 4 ∧ phase ≤ 15 then t.responsePhase
  else some (false, t)

/-! ## The table of meld and pair counts (round_to_win.go) -/

/-- The struct `Syanten`.  The map `syanten_map` from a `uint32` code to an array
`[4]int` is a list of keys and entries, searched from the front; it is empty
exactly when the map is.  The four counts of an entry are added and compared
without wrapping. -/
structure Syanten where
  syanten_map : List (Nat × (Int × Int × Int × Int))
  is_loaded : Bool
deriving DecidableEq, Repr

/-- The number `(code >> (i * 3)) & 0x7`: the count stored at position `i`. -/
def codeCount (code i : Nat) : Nat := (code >>> (i * 3)) &&& 7

/-- The first loop of the adjustment: `for ptm+ptt > maxFuShou && ptt > 0 { ptt-- }`.
The loop runs at most `ptt` times; the first argument counts the turns left. -/
def dropPairs (maxFuShou ptm : Int) : Nat → Int → Int
  | 0, ptt => ptt
  | k + 1, ptt =>
    if ptm + ptt > maxFuShou ∧ ptt > 0 then dropPairs maxFuShou ptm k (ptt - 1) else ptt

/-- The second loop of the adjustment: `for ptm+ptt > maxFuShou { ptm-- }`.  The
loop runs at most `ptm + ptt - maxFuShou` times; the first argument counts the
turns left. -/
def dropMelds (maxFuShou ptt : Int) : Nat → Int → Int
  | 0, ptm => ptm
  | k + 1, ptm => if ptm + ptt > maxFuShou then dropMelds maxFuShou ptt k (ptm - 1) else ptm

/-- The end of `CheckNormal` and of `checkNormalWithoutMap`: the two loops of
the adjustment and the returned number. -/
def adjustAndCount (ptm ptt nCallGroups : Int) : Int :=
  let maxFuShou := 4 - nCallGroups
  let ptt := dropPairs maxFuShou ptm ptt.toNat ptt
  let ptm := dropMelds maxFuShou ptt (ptm + ptt - maxFuShou).toNat ptm
  9 - ptm * 2 - ptt - nCallGroups * 2

/-- The body of the loop of `CheckNormal` and of `checkNormalWithoutMap` over the
seven honour kinds; `pair` is what the loop does to the pair count (`ptt++` in
the one, `ptt = 1` in the other). -/
def honorStep (code : Nat) (pair : Int → Int) (c : Int × Int) (i : Nat) : Int × Int :=
  let num := codeCount code i
  if num ≥ 3 then (c.1 + 1, c.2)
  else if num ≥ 2 then (c.1, pair c.2)
  else c

/-- The loop of `CheckNormal` and of `checkNormalWithoutMap` over the seven
honour kinds. -/
def honorCounts (code : Nat) (ptm ptt : Int) (pair : Int → Int) : Int × Int :=
  (List.range 7).foldl (honorStep code pair) (ptm, ptt)

/-- The method `checkNormalWithoutMap`. -/
def Syanten.checkNormalWithoutMap (_s : Syanten) (handCode : Fin 4 → Nat) (nCallGroups : Int) :
    Int :=
  let suits := ([0, 1, 2] : List (Fin 4)).foldl (fun (c : Int × Int) j =>
    let code := handCode j
    let group := (List.range 9).foldl (fun (g : Int × Int) i =>
      let count : Int := codeCount code i
      let g1 := if count ≥ 3 then (g.1 + count / 3, count % 3) else (g.1, count)
      let groupPtm := g1.1
      let count := g1.2
      if count ≥ 2 then (groupPtm, g.2 + count / 2) else (groupPtm, g.2)) ((0 : Int), (0 : Int))
    (c.1 + group.1, if group.2 > 0 then group.2 else c.2)) ((0 : Int), (0 : Int))
  let all := honorCounts (handCode 3) suits.1 suits.2 (fun _ => 1)
  adjustAndCount all.1 all.2 nCallGroups

/-- The body of the loop of `CheckNormal` over the three number suits: the entry
of the table for the code, if there is one, adds the better of its two
alternatives to the counts `ptm` and `ptt`. -/
def Syanten.addSuit (s : Syanten) (c : Int × Int) (code : Nat) : Int × Int :=
  match s.syanten_map.lookup code with
  | some (pt1m, pt1t, pt2m, pt2t) =>
    if pt1m * 2 + pt1t ≥ pt2m * 2 + pt2t then (c.1 + pt1m, c.2 + pt1t)
    else (c.1 + pt2m, c.2 + pt2t)
  | none => c

/-- The method `CheckNormal`. -/
def Syanten.CheckNormal (s : Syanten) (handCode : Fin 4 → Nat) (nCallGroups : Int) : Int :=
  if !s.is_loaded || s.syanten_map.length = 0 then s.checkNormalWithoutMap handCode nCallGroups
  else
    let suits := ([0, 1, 2] : List (Fin 4)).foldl (fun (c : Int × Int) j =>
      s.addSuit c (handCode j)) ((0 : Int), (0 : Int))
    let all := honorCounts (handCode 3) suits.1 suits.2 (fun ptt => ptt + 1)
    adjustAndCount all.1 all.2 nCallGroups

/-! ## Notions used to state the properties of the table -/

/-- The tile that the response phase takes as the discarded one: the tile of the
last river entry of the last actor. -/
def FullTable.discardedTile (t : FullTable) : Option Tile :=
  ((t.Players (seatOf t.LastActor.toNat)).River.River.getLast?).map (fun rt => rt.Tile)

/-- The responses that the response phase collects for the player `d` seats
after the last actor. -/
def FullTable.available (t : FullTable) (discarded : Tile) (d : Nat) : List BaseAction :=
  candidateActions t.toTable (t.Players (seatOf ((t.LastActor.toNat + d) % NPlayers))) discarded

/-- The tiles held in the wall and in the four hands. -/
def FullTable.heldTiles (t : FullTable) : List Tile :=
  t.Yama ++ (t.Players 0).Hand ++ (t.Players 1).Hand ++ (t.Players 2).Hand ++ (t.Players 3).Hand

/-- The number of tiles held in the wall and in the four hands. -/
def FullTable.heldCount (t : FullTable) : Nat :=
  t.Yama.length + (t.Players 0).Hand.length + (t.Players 1).Hand.length +
    (t.Players 2).Hand.length + (t.Players 3).Hand.length

/-- The table `t2` comes from `t1` by draws: the tiles of the wall and the hands
are the same tiles, every hand begins with what it held, and the rivers, the
called melds, the array of all tiles and the indicators are the same. -/
def FullTable.drawnFrom (t2 t1 : FullTable) : Prop :=
  t2.heldTiles.Perm t1.heldTiles ∧
  (∀ i, (t1.Players i).Hand <+: (t2.Players i).Hand) ∧
  (∀ i, (t2.Players i).River = (t1.Players i).River) ∧
  (∀ i, (t2.Players i).CallGroups = (t1.Players i).CallGroups) ∧
  t2.Tiles = t1.Tiles ∧ t2.DoraIndicator = t1.DoraIndicator ∧
  t2.UraDoraIndicator = t1.UraDoraIndicator ∧ t2.Oya = t1.Oya

/-- A wall log that lists the 136 tile IDs in order. -/
def identityWall : List Int := (List.range 136).map (fun i => (i : Int))

/-- Numbers for `ShuffleTiles` that exchange the last entry of the array with
the first and leave every other entry in its place. -/
def swapFirstLast (i : Nat) : Nat := if i = 135 then 0 else i

/-- The text that the specification gives for the export of an imported wall:
every entry printed in decimal and followed by a comma. -/
def wallText (w : List Int) : String :=
  String.join (w.map (fun idx => toString idx ++ ","))

/-- The better of the two alternatives of a table entry: the first one, unless
twice the melds plus the pairs of the second is larger. -/
def betterAlternative (e : Int × Int × Int × Int) : Int × Int :=
  if e.1 * 2 + e.2.1 ≥ e.2.2.1 * 2 + e.2.2.2 then (e.1, e.2.1) else (e.2.2.1, e.2.2.2)

/-- The melds and pairs that the table gives for one suit; nothing for a code
that is not in the table. -/
def Syanten.suitCounts (s : Syanten) (code : Nat) : Int × Int :=
  match s.syanten_map.lookup code with
  | some e => betterAlternative e
  | none => (0, 0)

/-- The number of honour kinds held at least three times. -/
def honorTriplets (code : Nat) : Nat :=
  ((List.range 7).filter (fun i => decide (codeCount code i ≥ 3))).length

/-- The number of honour kinds held exactly twice. -/
def honorPairs (code : Nat) : Nat :=
  ((List.range 7).filter (fun i => decide (codeCount code i = 2))).length

/-- The melds summed over the three number suits and the honours. -/
def Syanten.summedMelds (s : Syanten) (handCode : Fin 4 → Nat) : Int :=
  (s.suitCounts (handCode 0)).1 + (s.suitCounts (handCode 1)).1 + (s.suitCounts (handCode 2)).1 +
    honorTriplets (handCode 3)

/-- The pairs summed over the three number suits and the honours. -/
def Syanten.summedPairs (s : Syanten) (handCode : Fin 4 → Nat) : Int :=
  (s.suitCounts (handCode 0)).2 + (s.suitCounts (handCode 1)).2 + (s.suitCounts (handCode 2)).2 +
    honorPairs (handCode 3)

/-- The pairs kept when melds plus pairs are brought down to `limit` by dropping
pairs first. -/
def clampedPairs (melds pairs limit : Int) : Int := min pairs (max 0 (limit - melds))

/-- The melds kept when melds plus pairs are brought down to `limit` by dropping
pairs first. -/
def clampedMelds (melds pairs limit : Int) : Int :=
  min melds (limit - clampedPairs melds pairs limit)

/-- The number that the specification gives for `CheckNormal`:
`8 − 2·melds − pairs − 2·called_melds` on the clamped counts. -/
def specCheckNormal (s : Syanten) (handCode : Fin 4 → Nat) (n : Int) : Int :=
  let melds := s.summedMelds handCode
  let pairs := s.summedPairs handCode
  8 - 2 * clampedMelds melds pairs (4 - n) - clampedPairs melds pairs (4 - n) - 2 * n

/-- A loaded table with the entry of the empty suit. -/
def emptySuitTable : Syanten := { syanten_map := [(0, (0, 0, 0, 0))], is_loaded := true }

/-- A loaded table with the entries of the empty suit and of the suit 111 222
(one of each of the ranks 1, 2, 3 is the code 73, two of each the code 146). -/
def smallSuitTable : Syanten :=
  { syanten_map := [(0, (0, 0, 0, 0)), (73, (1, 0, 0, 1)), (146, (2, 0, 0, 3))],
    is_loaded := true }

/-! ## Worked tables and players -/

/-- A wall of twenty tiles. -/
def shortWall : List Tile := (List.range 20).map (fun i => (⟨i / 4, false, i⟩ : Tile))

/-- The river entry of a tile discarded from the hand and still in the river. -/
def freshDiscard (tile : Tile) : RiverTile :=
  { Tile := tile, Number := 0, Riichi := false, Remain := true, FromHand := true }

/-- A new player whose river holds the one tile. -/
def discarderOf (tile : Tile) : Player :=
  { NewPlayer Wind.East true with River := ⟨[freshDiscard tile]⟩ }

/-- A new player with the hand, flagged furiten for the round. -/
def passingPlayer (wind : Wind) (hand : List Tile) : Player :=
  { NewPlayer wind false with Hand := hand, FuritenRound := true }

/-- A table in the response phase: player 0 has discarded the tile and the
three other players are given. -/
def responseTable (tile : Tile) (p1 p2 p3 : Player) : FullTable :=
  { NewTable with
    Yama := shortWall, LastAction := BaseAction.Discard, LastActor := 0, Turn := 0,
    Players := fun i =>
      match i.val with
      | 0 => discarderOf tile
      | 1 => p1
      | 2 => p2
      | _ => p3 }

/-- The table after a discard of 9p by player 0, the three other players
furiten and without 9p in hand: nobody has a response. -/
def allPassTable : FullTable :=
  responseTable ⟨_9p, false, 68⟩ (passingPlayer Wind.South [⟨_1z, false, 108⟩])
    (passingPlayer Wind.West [⟨_2z, false, 112⟩]) (passingPlayer Wind.North [⟨_3z, false, 116⟩])

/-- The table after a discard of 3m by player 0: the three other players are
furiten, player 2 holds two 3m. -/
def ponTable : FullTable :=
  responseTable ⟨_3m, false, 8⟩ (passingPlayer Wind.South [⟨_1z, false, 108⟩])
    (passingPlayer Wind.West [⟨_3m, false, 9⟩, ⟨_3m, false, 10⟩, ⟨_2z, false, 112⟩])
    (passingPlayer Wind.North [⟨_3z, false, 116⟩])

/-- A table in the self-action phase of player 0, who holds 1m and 9p. -/
def twoTileTable : FullTable :=
  { NewTable with
    Yama := shortWall,
    Players := fun i =>
      match i.val with
      | 0 => { NewPlayer Wind.East true with Hand := [⟨_1m, false, 0⟩, ⟨_9p, false, 68⟩] }
      | 1 => NewPlayer Wind.South false
      | 2 => NewPlayer Wind.West false
      | _ => NewPlayer Wind.North false }

/-- A player with the flag `FuritenRiver` set. -/
def furitenPlayer : Player :=
  { Oya := false, Score := 25000, Hand := [], CallGroups := [], AtariTiles := [_3p, _6p],
    Menzen := true, FuritenRiver := true }

/-- A player waiting on 3p and 6p whose river holds one 6p that has been marked
as taken. -/
def takenWaitPlayer : Player :=
  { Oya := false, Score := 25000, Hand := [], CallGroups := [], AtariTiles := [_3p, _6p],
    Menzen := true,
    River := ⟨[{ Tile := ⟨_6p, false, 56⟩, Number := 0, Riichi := false, Remain := false,
                 FromHand := true }]⟩ }

/-- A player waiting on 3p and 6p whose river holds one 6p that is still there. -/
def visibleWaitPlayer : Player :=
  { Oya := false, Score := 25000, Hand := [], CallGroups := [], AtariTiles := [_3p, _6p],
    Menzen := true,
    River := ⟨[{ Tile := ⟨_6p, false, 56⟩, Number := 0, Riichi := false, Remain := true,
                 FromHand := true }]⟩ }

/-! ## Sequences and tenpai after a discard (tile.go, player_advanced.go) -/

/-- The function `IsShuntsu` of tile.go.  The two differences are taken in the
sorted copy, where the larger kind comes second. -/
def IsShuntsu (tiles : List BaseTile) : Bool :=
  if tiles.length ≠ 3 then false
  else
    match sortTiles tiles with
    | [s0, s1, s2] =>
      if s1 - s0 ≠ 1 ∨ s2 - s1 ≠ 1 then false
      else if s2 ≥ _1z ∨ s2 = _8m ∨ s2 = _9m ∨ s2 = _8p ∨ s2 = _9p ∨ s2 = _8s ∨ s2 = _9s then
        false
      else true
    | _ => false

/-- The method `IsTenpaiAfterDiscard` of player_advanced.go: the kinds of the
hand without the first copy of `tile` are handed to `GetAllCompletedTiles` of a
new splitter. -/
def Player.IsTenpaiAfterDiscard (p : Player) (tile : BaseTile) : Bool :=
  let tempHand := (p.Hand.map (fun t => t.Tile)).erase tile
  decide ((GetAllCompletedTiles tempHand).length > 0)

/-! ## Notions used to state the properties of the yaku tests and of the calls -/

/-- A kind is a terminal or an honour: one of the kinds `0..33` that is a wind
or a dragon, or the rank 1 or 9 of a number suit. -/
def isTerminalOrHonorKind (k : BaseTile) : Bool :=
  decide (k < 34) && (decide (27 ≤ k) || k % 9 == 0 || k % 9 == 8)

/-- Three kinds in ascending order are three consecutive ranks of one number
suit. -/
def isRun (a b c : BaseTile) : Bool :=
  decide (c < 27) && decide (b = a + 1) && decide (c = a + 2) && decide (a / 9 = c / 9)

/-- A scoring context of a closed player with the tiles. -/
def closedCounter (tiles : List BaseTile) : FullScoreCounter :=
  { Player := closedPlayer [], Tiles := tiles, CallGroups := [], WinTile := tiles.getLastD 0,
    IsSevenPair := false, Table := some eastTable }

/-- The fourteen tiles 2m3m4m 4p5p6p 6s7s8s 5z5z5z 5s5s: a triplet of white
dragons and no 1 or 9. -/
def dragonTripletTiles : List BaseTile :=
  [_2m, _3m, _4m, _4p, _5p, _6p, _5s, _5s, _6s, _7s, _8s, _5z, _5z, _5z]

/-- The thirteen orphans with 2m in the place of the second 1m. -/
def brokenOrphansHand : List BaseTile :=
  [_1m, _9m, _1s, _9s, _1p, _9p, _1z, _2z, _3z, _4z, _5z, _6z, _7z, _2m]

/-- A closed player holding 3m 3m 2z and an earlier meld: a concealed quad of
north winds. -/
def ponCaller : Player :=
  { NewPlayer Wind.West false with
    Hand := [⟨_3m, false, 9⟩, ⟨_3m, false, 10⟩, ⟨_2z, false, 112⟩],
    CallGroups := [⟨TileGroupType.Kantsu, [_4z, _4z, _4z, _4z], false⟩] }

/-- A wall of twenty tiles, the winds from the second south wind on and the
dragons. -/
def lateWall : List Tile := (List.range 20).map (fun i => (⟨(116 + i) / 4, false, 116 + i⟩ : Tile))

/-- A table in the self-action phase of player 0, a closed player with 25000
points who holds the tiles of `pinfuWaitHand` and a drawn east wind, with the
stored waits 5p and 8p. -/
def riichiTable : FullTable :=
  { NewTable with
    Yama := lateWall,
    Players := fun i =>
      match i.val with
      | 0 => { poorPlayer with Score := 25000, Wind := Wind.East, Oya := true }
      | 1 => NewPlayer Wind.South false
      | 2 => NewPlayer Wind.West false
      | _ => NewPlayer Wind.North false }

/-- The sixteen self-actions of player 0 of `riichiTable`: a discard and a
riichi for each of the eight kinds of the hand. -/
def riichiTableActions : List SelfAction :=
  let tiles : List Tile :=
    [⟨_2m, false, 4⟩, ⟨_3m, false, 8⟩, ⟨_4m, false, 12⟩, ⟨_6p, false, 56⟩, ⟨_7p, false, 60⟩,
      ⟨_8p, false, 64⟩, ⟨_5s, false, 88⟩, ⟨_1z, false, 108⟩]
  tiles.map (fun t => ⟨⟨BaseAction.Discard, [t]⟩⟩) ++
    tiles.map (fun t => ⟨⟨BaseAction.Riichi, [t]⟩⟩)

/-! ## The number of steps to a win (round_to_win.go) -/

/-- The body of the loop of `HandToCode` for one tile; `none` stands for the
run-time panic of `code[groupIdx]` for a kind from 36 on. -/
def handToCodeStep (acc : Option (Fin 4 → Nat)) (tile : Tile) : Option (Fin 4 → Nat) :=
  match acc with
  | none => none
  | some code =>
    let baseTile := tile.Tile
    let groupIdx := baseTile / 9
    let tileIdx := baseTile % 9
    let bitPos := tileIdx * 3
    if h : groupIdx < 4 then
      some (Function.update code ⟨groupIdx, h⟩
        ((code ⟨groupIdx, h⟩ + (1 <<< bitPos)) % 4294967296))
    else none

/-- The method `HandToCode`: for every tile the count at three bits per rank is
raised by one in the `uint32` of the suit. -/
def Syanten.HandToCode (_s : Syanten) (hand : List Tile) : Option (Fin 4 → Nat) :=
  hand.foldl handToCodeStep (some (fun _ => 0))

/-- The method `NormalRoundToWin`. -/
def Syanten.NormalRoundToWin (s : Syanten) (hand : List Tile) (nCallGroups : Int) :
    Option Int :=
  (s.HandToCode hand).map (fun code => s.CheckNormal code nCallGroups)

/-- The function `CalculateRoundToWin`.  The value `syanten` that `GetSyanten`
returns is an argument: its table is read from the file `resource/syanten.dat`. -/
def CalculateRoundToWin (syanten : Syanten) (hand : List Tile) (callGroupCount : Int) :
    Option Int :=
  syanten.NormalRoundToWin hand callGroupCount

/-- All four counts of every entry of the table are non-negative. -/
def Syanten.nonNegative (s : Syanten) : Prop :=
  ∀ e ∈ s.syanten_map, 0 ≤ e.2.1 ∧ 0 ≤ e.2.2.1 ∧ 0 ≤ e.2.2.2.1 ∧ 0 ≤ e.2.2.2.2

/-- The hand of the test `TestLoadSyanten`: 1m1m 2m3m4m 1p1p1p 2s3s4s 5s6s7s. -/
def loadTestHand : List Tile :=
  [⟨_1m, false, 0⟩, ⟨_1m, false, 1⟩, ⟨_2m, false, 4⟩, ⟨_3m, false, 8⟩, ⟨_4m, false, 12⟩,
   ⟨_1p, false, 36⟩, ⟨_1p, false, 37⟩, ⟨_1p, false, 38⟩, ⟨_2s, false, 76⟩, ⟨_3s, false, 80⟩,
   ⟨_4s, false, 84⟩, ⟨_5s, false, 88⟩, ⟨_6s, false, 92⟩, ⟨_7s, false, 96⟩]

/-- A loaded table with entries for the three suits of `loadTestHand`: the codes
586 (1m1m 2m3m4m), 3 (1p1p1p) and 299592 (2s to 7s). -/
def loadTestTable : Syanten :=
  { syanten_map := [(586, (1, 1, 1, 1)), (3, (1, 0, 0, 1)), (299592, (2, 0, 2, 0))],
    is_loaded := true }

/-! ## The Mersenne Twister of the Tenhou wall (tenhou_mt19937.go) -/

/-- The constant `mtN`. -/
def mtN : Nat := 624

/-- The constant `mtM`. -/
def mtM : Nat := 397

/-- The package variables `mt` and `mtIdx`.  The array `[mtN]uint32` is a list
of `mtN` numbers below `2^32`; `mtIdx` is only ever set to `mtN + 1`, to `mtN`
and to 0 and raised by one. -/
structure MTState where
  mt : List Nat
  mtIdx : Nat
deriving DecidableEq, Repr

/-- The values of the package variables when the program starts. -/
def MTState.initial : MTState := ⟨List.replicate mtN 0, mtN + 1⟩

/-- The body of the loop of `initGenrand` for the index `i`. -/
def initGenrandStep (mt : List Nat) (i : Nat) : List Nat :=
  let prev := mt.getD (i - 1) 0
  mt.set i (((1812433253 * (prev ^^^ (prev >>> 30)) + i) % 4294967296) &&& 0xffffffff)

/-- The function `initGenrand`. -/
def initGenrand (st : MTState) (s : Nat) : MTState :=
  let mt := st.mt.set 0 s
  let mt := (List.range' 1 (mtN - 1)).foldl initGenrandStep mt
  { mt := mt, mtIdx := mtN }

/-- The body of the first loop of `initByArray` on `mt`, `i` and `j`. -/
def initByArrayMix (initKey : List Nat) (c : List Nat × Nat × Nat) : List Nat × Nat × Nat :=
  let mt := c.1
  let i := c.2.1
  let j := c.2.2
  let prev := mt.getD (i - 1) 0
  let mt := mt.set i
    ((((mt.getD i 0 ^^^ (((prev ^^^ (prev >>> 30)) * 1664525) % 4294967296)) +
        initKey.getD j 0 + j) % 4294967296) &&& 0xffffffff)
  let i := i + 1
  let j := j + 1
  let mt := if i ≥ mtN then mt.set 0 (mt.getD (mtN - 1) 0) else mt
  let i := if i ≥ mtN then 1 else i
  let j := if j ≥ initKey.length then 0 else j
  (mt, i, j)

/-- The body of the second loop of `initByArray` on `mt` and `i`; the
subtraction of `uint32(i)` wraps. -/
def initByArrayFinish (c : List Nat × Nat) : List Nat × Nat :=
  let mt := c.1
  let i := c.2
  let prev := mt.getD (i - 1) 0
  let mt := mt.set i
    ((((mt.getD i 0 ^^^ (((prev ^^^ (prev >>> 30)) * 1566083941) % 4294967296)) +
        (4294967296 - i % 4294967296)) % 4294967296) &&& 0xffffffff)
  let i := i + 1
  let mt := if i ≥ mtN then mt.set 0 (mt.getD (mtN - 1) 0) else mt
  let i := if i ≥ mtN then 1 else i
  (mt, i)

/-- The function `initByArray`, for a key that is not empty (the one caller
passes `mtN` entries). -/
def initByArray (st : MTState) (initKey : List Nat) : MTState :=
  let st := initGenrand st 19650218
  let k := if initKey.length > mtN then initKey.length else mtN
  let c := (List.range k).foldl (fun c _k => initByArrayMix initKey c) (st.mt, 1, 0)
  let c := (List.range (mtN - 1)).foldl (fun c _k => initByArrayFinish c) (c.1, c.2.1)
  { st with mt := c.1.set 0 0x80000000 }

/-- The entry `mag01[y&0x1]`. -/
def mag01 (y : Nat) : Nat := if y &&& 1 = 0 then 0 else 0x9908b0df

/-- The body of the two loops of `genrandInt32` that renew the array: the entry
`kk` is made from the entries `kk`, `kk + 1` and `src`. -/
def twistStep (src : Nat → Nat) (mt : List Nat) (kk : Nat) : List Nat :=
  let y := (mt.getD kk 0 &&& 0x80000000) ||| (mt.getD (kk + 1) 0 &&& 0x7fffffff)
  mt.set kk (mt.getD (src kk) 0 ^^^ (y >>> 1) ^^^ mag01 y)

/-- The function `genrandInt32`: the number returned and the package variables
after the call. -/
def genrandInt32 (st : MTState) : Nat × MTState :=
  let st :=
    if st.mtIdx ≥ mtN then
      let st := if st.mtIdx = mtN + 1 then initGenrand st 5489 else st
      let mt := (List.range' 0 (mtN - mtM)).foldl (twistStep (fun kk => kk + mtM)) st.mt
      let mt := (List.range' (mtN - mtM) (mtM - 1)).foldl
        (twistStep (fun kk => kk + mtM - mtN)) mt
      let y := (mt.getD (mtN - 1) 0 &&& 0x80000000) ||| (mt.getD 0 0 &&& 0x7fffffff)
      let mt := mt.set (mtN - 1) (mt.getD (mtM - 1) 0 ^^^ (y >>> 1) ^^^ mag01 y)
      { mt := mt, mtIdx := 0 }
    else st
  let y := st.mt.getD st.mtIdx 0
  let st := { st with mtIdx := st.mtIdx + 1 }
  let y := y ^^^ (y >>> 11)
  let y := y ^^^ (((y <<< 7) % 4294967296) &&& 0x9d2c5680)
  let y := y ^^^ (((y <<< 15) % 4294967296) &&& 0xefc60000)
  let y := y ^^^ (y >>> 18)
  (y, st)

/-! ## The Tenhou wall (tenhou.go) -/

/-- The loop `src[i] = genrandInt32()` for `n` entries. -/
def genrandLoop : Nat → MTState → List Nat × MTState
  | 0, st => ([], st)
  | n + 1, st =>
    let r := genrandInt32 st
    let rest := genrandLoop n r.2
    (r.1 :: rest.1, rest.2)

/-- The entry `rtseed[i]`: four bytes of the seed are put together and the byte
order is reversed. -/
def rtseedEntry (seedBytes : List Nat) (i : Nat) : Nat :=
  let byteAt := fun k => seedBytes.getD k 0 % 256
  let v := (byteAt (4 * i) <<< 24) ||| (byteAt (4 * i + 1) <<< 16) |||
    (byteAt (4 * i + 2) <<< 8) ||| byteAt (4 * i + 3)
  let b0 := (v >>> 24) &&& 0xff
  let b1 := (v >>> 16) &&& 0xff
  let b2 := (v >>> 8) &&& 0xff
  let b3 := v &&& 0xff
  (b3 <<< 24) ||| (b2 <<< 16) ||| (b1 <<< 8) ||| b0

/-- The four bytes that `binary.LittleEndian.PutUint32` writes. -/
def putUint32 (v : Nat) : List Nat :=
  [v % 256, (v >>> 8) % 256, (v >>> 16) % 256, (v >>> 24) % 256]

/-- The number that `binary.LittleEndian.Uint32` reads from the four bytes at
`k`. -/
def getUint32 (b : List Nat) (k : Nat) : Nat :=
  let byteAt := fun i => b.getD i 0 % 256
  byteAt k ||| (byteAt (k + 1) <<< 8) ||| (byteAt (k + 2) <<< 16) ||| (byteAt (k + 3) <<< 24)

/-- The body of the loop over the nine blocks: 32 entries of `src` are hashed
and the 16 numbers of the digest are written to `rnd`.  `sum512` is the function
`sha512.Sum512` of the Go library, from bytes to the 64 bytes of the digest. -/
def rndBlock (sum512 : List Nat → List Nat) (src : List Nat) (rnd : List Nat) (bi : Nat) :
    List Nat :=
  let chunk := ((List.range 32).map (fun j => putUint32 (src.getD (bi * 32 + j) 0))).flatten
  let sum := sum512 chunk
  (List.range 16).foldl (fun rnd k => rnd.set (bi * 16 + k) (getUint32 sum (k * 4))) rnd

/-- The slice `rnd` of `TenhouYamaFromSeed`. -/
def tenhouRnd (sum512 : List Nat → List Nat) (src : List Nat) : List Nat :=
  (List.range 9).foldl (rndBlock sum512 src) (List.replicate 144 0)

/-- The body of the shuffle loop for the index `i`; `none` stands for the
run-time panic of an index out of range. -/
def tenhouSwap (rnd : List Nat) (yama : List Int) (i : Nat) : Option (List Int) :=
  match rnd.get? i with
  | none => none
  | some r =>
    let tmpIndex := i + r % ((136 - i) % 4294967296)
    match yama.get? i, yama.get? tmpIndex with
    | some a, some b => some ((yama.set i b).set tmpIndex a)
    | _, _ => none

/-- The shuffle loop of `TenhouYamaFromSeed`, for the indices in `order`. -/
def tenhouShuffle (rnd : List Nat) (order : List Nat) (yama : List Int) : Option (List Int) :=
  order.foldl (fun acc i => acc.bind (fun yama => tenhouSwap rnd yama i)) (some yama)

/-- The function `TenhouYamaFromSeed`: the wall returned and the package
variables after the call.  `decodeString` is the function
`base64.StdEncoding.DecodeString` of the Go library (`none` is its error) and
`sum512` the function `sha512.Sum512`; bytes are numbers below 256.  The result
`none` stands for a returned error as well as for a run-time panic. -/
def TenhouYamaFromSeed (decodeString : String → Option (List Nat))
    (sum512 : List Nat → List Nat) (st : MTState) (mtseedB64 : String) :
    Option (List Int) × MTState :=
  match decodeString mtseedB64 with
  | none => (none, st)
  | some seedBytes =>
    if seedBytes.length < 4 * mtN then (none, st)
    else
      let rtseed := (List.range mtN).map (rtseedEntry seedBytes)
      let st := initByArray st rtseed
      let src := genrandLoop 288 st
      let rnd := tenhouRnd sum512 src.1
      let yama := (List.range 136).map (fun (i : Nat) => (i : Int))
      (tenhouShuffle rnd (List.range 135) yama, src.2)

/-! ## The replayer (game_result.go, gameplay.go) -/

/-- The enumeration `ResultType` of game_result.go. -/
inductive ResultType where
  | RonAgari
  | TsumoAgari
  | NagashiMangan
  | RyukyokuNotile
  | RyukyokuSuzukaflush
  | RyukyokuSufonrenda
  | RyukyokuSuuchahan
  | RyukyokuKyushukyuhai
  | RyukyokuFourWind
  | NoResult
deriving DecidableEq, Repr

/-- The struct `GameResult` with its field `Type`, called `ResultType` here;
`GameResult` above holds the fields that `SetTsumoAgari` computes. -/
structure FullGameResult extends GameResult where
  ResultType : ResultType
deriving DecidableEq, Repr

/-- The function `GenerateResultNotile`. -/
def GenerateResultNotile : FullGameResult :=
  { toGameResult := { NewGameResult with WinnerIdx := -1, LoserIdx := -1 },
    ResultType := ResultType.RyukyokuNotile }

/-- The function `GenerateResultKyushukyuhai`. -/
def GenerateResultKyushukyuhai (playerIdx : Int) : FullGameResult :=
  { toGameResult := NewGameResult.SetRyukyokuKyushukyuhai playerIdx,
    ResultType := ResultType.RyukyokuKyushukyuhai }

/-- The function `GenerateResultTsumo`; `none` stands for the run-time panic of
`SetTsumoAgari`. -/
def GenerateResultTsumo (winnerIdx : Int) (score : ScoreCounterResult) : Option FullGameResult :=
  (NewGameResult.SetTsumoAgari winnerIdx score).map (fun r =>
    { toGameResult := r, ResultType := ResultType.TsumoAgari })

/-- The comparison passed to `sort.Slice` in `SortHand`: by kind, and within a
kind the red tile last. -/
def sortHandLess (a b : Tile) : Bool :=
  if a.Tile ≠ b.Tile then decide (a.Tile < b.Tile)
  else !a.RedDora && b.RedDora

/-- The method `SortHand` of player.go.  `sort.Slice` is not stable; the order
of the stable insertion sort is taken here. -/
def Player.SortHand (p : Player) : Player :=
  { p with Hand := p.Hand.insertionSort (fun a b => sortHandLess b a = false) }

/-- The method `SortPlayerHands` of table.go. -/
def FullTable.SortPlayerHands (t : FullTable) : FullTable :=
  { t with Players := fun i => (t.Players i).SortHand }

/-- The struct `PaipuReplayer`; the table it points to is held in the record. -/
structure PaipuReplayer where
  Table : FullTable
  Paipu : List BaseAction
  SelectionLog : List Int
  ResultLog : List FullGameResult
  CurrentRound : Int
  GameState : Int
  DebugMode : Bool
  RoundStartIdx : Int

/-- The function `NewPaipuReplayer`. -/
def NewPaipuReplayer (table : FullTable) : PaipuReplayer :=
  { Table := table, Paipu := [], SelectionLog := [], ResultLog := [], CurrentRound := 0,
    GameState := 0, DebugMode := false, RoundStartIdx := 0 }

/-- The method `Init`, with the numbers drawn by `InitBeforePlaying`. -/
def PaipuReplayer.Init (pr : PaipuReplayer) (intn4 intn : Nat → Nat) : PaipuReplayer :=
  let table := ((pr.Table.InitBeforePlaying intn4 intn).DrawTenhouStyle).SortPlayerHands
  { pr with Table := table, CurrentRound := 0, GameState := 0, RoundStartIdx := 0, Paipu := [],
            SelectionLog := [], ResultLog := [] }

/-- The method `GetSelfActions` of the replayer; `none` stands for the panic of
`GetTsumo`. -/
def PaipuReplayer.GetSelfActions (pr : PaipuReplayer) (playerIdx : Fin 4) :
    Option (List SelfAction) :=
  let player := pr.Table.Players playerIdx
  let actions := (player.GetDiscard false).1 ++ player.GetAnkan ++ player.GetKakan
  let withTsumo : Option (List SelfAction) :=
    if player.IsTenpai then
      (player.GetTsumo (some pr.Table.toTable)).map (fun a => actions ++ a)
    else some actions
  withTsumo.map (fun actions =>
    let actions := if player.IsMenzen && !player.IsRiichi then actions ++ player.GetRiichi
      else actions
    if pr.CurrentRound = 0 then actions ++ player.GetKyushukyuhai else actions)

/-- The case `Discard` of `ExecuteAction` for the tile of the action. -/
def PaipuReplayer.executeDiscard (pr : PaipuReplayer) (playerIdx : Fin 4) (tile : Tile) :
    PaipuReplayer :=
  let player := pr.Table.Players playerIdx
  let rt : RiverTile :=
    { Tile := tile, Number := pr.CurrentRound, Riichi := player.IsRiichi, Remain := true,
      FromHand := true }
  let player := { player with River := player.River.PushBack rt }
  let player := player.RemoveFromHand tile
  let player :=
    if player.IsRiichi && player.IsTenpai then
      if BaseTileInSlice tile.Tile player.AtariTiles then player.Minogashi else player
    else player
  let t := { pr.Table with Players := Function.update pr.Table.Players playerIdx player }
  let actionLog :=
    if player.IsRiichi then LogAction.LogRiichiDiscardFromHand
    else LogAction.LogDiscardFromHand
  { pr with Table := t.logAction playerIdx.val (-1) actionLog (some tile) }

/-- The cases `AnKan, Kan` of `ExecuteAction` for the tile of the action. -/
def PaipuReplayer.executeKan (pr : PaipuReplayer) (playerIdx : Fin 4) (action : BaseAction)
    (tile : Tile) : PaipuReplayer :=
  let player := pr.Table.Players playerIdx
  let player := if action = BaseAction.AnKan then player.ExecuteAnkan tile.Tile
    else player.ExecuteKakan tile
  let t := { pr.Table with Players := Function.update pr.Table.Players playerIdx player }
  let t := t.NewDora
  let t := t.DrawRinshan playerIdx
  let t := if action = BaseAction.AnKan then t.logAction playerIdx.val (-1) LogAction.LogAnKan none
    else t.logAction playerIdx.val (-1) LogAction.LogKan none
  { pr with Table := t }

/-- The case `Tsumo` of `ExecuteAction`; `none` stands for a run-time panic. -/
def PaipuReplayer.executeTsumo (pr : PaipuReplayer) (playerIdx : Fin 4) : Option PaipuReplayer :=
  let player := pr.Table.Players playerIdx
  if player.IsTenpai then
    let baseTiles := ConvertTilesToBaseTiles player.Hand
    let isSevenPair := IsSevenPairPattern baseTiles
    match baseTiles.getLast? with
    | none => none
    | some winTile =>
      match CalculateScore (some pr.Table.toTable) player baseTiles player.CallGroups winTile
          isSevenPair with
      | some result =>
        match GenerateResultTsumo playerIdx.val result with
        | some gameResult =>
          let t := pr.Table.applyScoreChanges gameResult.toGameResult
          let t := t.logAction playerIdx.val (-1) LogAction.LogTsumo player.Hand.getLast?
          some { pr with ResultLog := pr.ResultLog ++ [gameResult], Table := t.logScores,
                         GameState := 1 }
        | none => none
      | none => some pr
  else some pr

/-- The method `ExecuteAction`; `none` stands for a run-time panic. -/
def PaipuReplayer.ExecuteAction (pr : PaipuReplayer) (playerIdx : Fin 4) (action : Action) :
    Option PaipuReplayer :=
  let done : Option PaipuReplayer :=
    match action.Action with
    | BaseAction.Discard =>
      match action.CorrespondTiles with
      | tile :: _ => some (pr.executeDiscard playerIdx tile)
      | [] => some pr
    | BaseAction.AnKan =>
      match action.CorrespondTiles with
      | tile :: _ => some (pr.executeKan playerIdx BaseAction.AnKan tile)
      | [] => some pr
    | BaseAction.Kan =>
      match action.CorrespondTiles with
      | tile :: _ => some (pr.executeKan playerIdx BaseAction.Kan tile)
      | [] => some pr
    | BaseAction.Tsumo => pr.executeTsumo playerIdx
    | BaseAction.Ron => some pr
    | BaseAction.Riichi =>
      let player := pr.Table.Players playerIdx
      let player := { player with Riichi := true, Ippatsu := true }
      some { pr with
        Table := { pr.Table with Players := Function.update pr.Table.Players playerIdx player } }
    | BaseAction.Kyushukyuhai =>
      let gameResult := GenerateResultKyushukyuhai playerIdx.val
      some { pr with ResultLog := pr.ResultLog ++ [gameResult], GameState := 1,
                     Table := pr.Table.logAction playerIdx.val (-1) LogAction.LogKyushukyuhai none }
    | _ => some pr
  done.map (fun pr => { pr with Paipu := pr.Paipu ++ [action.Action] })

/-- The draw at the start of the loop body of `SimulateToCompletion`: from the
second iteration on the player to move draws a tile and the waits are
computed. -/
def PaipuReplayer.drawForTurn (pr : PaipuReplayer) (turn : Fin 4) : PaipuReplayer :=
  if pr.CurrentRound > 0 then
    let t := pr.Table.DrawNormal turn
    { pr with
      Table := { t with Players := Function.update t.Players turn (t.Players turn).UpdateAtariTiles } }
  else pr

/-- The choice in the loop body of `SimulateToCompletion`: the first of the
self-actions, if there is one, is executed; `none` stands for a run-time
panic. -/
def PaipuReplayer.actForTurn (pr : PaipuReplayer) (turn : Fin 4) : Option PaipuReplayer :=
  match pr.GetSelfActions turn with
  | none => none
  | some (selectedAction :: _) => pr.ExecuteAction turn selectedAction.toAction
  | some [] => some pr

/-- The body of the loop of `SimulateToCompletion`; `none` stands for a run-time
panic (of `Players[Turn]` for a turn outside 0..3, or of a function called).
None of the functions called changes `Turn` before `NextTurn` does. -/
def PaipuReplayer.simulateStep (pr : PaipuReplayer) : Option PaipuReplayer :=
  if h : pr.Table.Turn < 4 then
    let turn : Fin 4 := ⟨pr.Table.Turn, h⟩
    let pr := pr.drawForTurn turn
    let pr := { pr with CurrentRound := pr.CurrentRound + 1 }
    (pr.actForTurn turn).map (fun pr =>
      { pr with Table := pr.Table.NextTurn ((pr.Table.Turn + 1) % 4) })
  else none

/-- The loop of `SimulateToCompletion` with a budget of iterations; `none`
stands for a run-time panic or a budget that is used up. -/
def PaipuReplayer.simulateLoop : Nat → PaipuReplayer → Option PaipuReplayer
  | 0, _ => none
  | fuel + 1, pr =>
    if pr.GameState = 0 ∧ pr.Table.Yama.length > 14 then
      match pr.simulateStep with
      | some pr => simulateLoop fuel pr
      | none => none
    else some pr

/-- The method `SimulateToCompletion` with a budget of iterations for its loop:
the result returned (`none` is the nil pointer) and the replayer after the
call. -/
def PaipuReplayer.SimulateToCompletion (pr : PaipuReplayer) (fuel : Nat) :
    Option (Option FullGameResult × PaipuReplayer) :=
  (pr.simulateLoop fuel).map (fun pr =>
    if pr.GameState = 0 then
      let gameResult := GenerateResultNotile
      (some gameResult, { pr with ResultLog := pr.ResultLog ++ [gameResult], GameState := 1 })
    else (pr.ResultLog.getLast?, pr))

/-! ## Scoring: base score, payments, yakuman -/

/-- Within the 64-bit range `wrapInt` is the identity. -/
theorem wrapInt_of_range (x : Int) (h1 : -9223372036854775808 ≤ x)
    (h2 : x < 9223372036854775808) : wrapInt x = x := by
  unfold wrapInt
  omega

/-- For one to four han and every fu from 20 up the base score computed by
`CalculateBaseScore` is the cap 2000. -/
theorem CalculateBaseScore_low_han (s : ScoreCounter) (han fu : Int)
    (h1 : 1 ≤ han) (h4 : han ≤ 4) (hfu : 20 ≤ fu) (hfu2 : fu < 1000000000000) :
    s.CalculateBaseScore han fu = 2000 := by
  have e1 : wrapInt (fu * 1000) = fu * 1000 := wrapInt_of_range _ (by omega) (by omega)
  have e2 : wrapInt (fu * 500) = fu * 500 := wrapInt_of_range _ (by omega) (by omega)
  have e3 : wrapInt (fu * 250) = fu * 250 := wrapInt_of_range _ (by omega) (by omega)
  have e4 : wrapInt (fu * 100) = fu * 100 := wrapInt_of_range _ (by omega) (by omega)
  have hcases : han = 1 ∨ han = 2 ∨ han = 3 ∨ han = 4 := by omega
  rcases hcases with rfl | rfl | rfl | rfl <;>
    simp only [ScoreCounter.CalculateBaseScore, e1, e2, e3, e4] <;>
    clear e1 e2 e3 e4 <;> norm_num <;> intro h <;> omega

/-- C6: at han 2 and fu 20 `CalculateBaseScore` gives 2000 where the table of the
specification gives 320, and at han 1 and fu 30 it gives 2000 instead of 240. -/
theorem CalculateBaseScore_departs_from_table (s : ScoreCounter) :
    s.CalculateBaseScore 2 20 = 2000 ∧ specTableBaseScore 2 20 = 320 ∧
    s.CalculateBaseScore 1 30 = 2000 ∧ specTableBaseScore 1 30 = 240 := by
  refine ⟨?_, by decide, ?_, by decide⟩
  · exact CalculateBaseScore_low_han s 2 20 (by decide) (by decide) (by decide) (by decide)
  · exact CalculateBaseScore_low_han s 1 30 (by decide) (by decide) (by decide) (by decide)

/-- C7 as stated fails: for base 240 a non-dealer ron is 960, not 960 rounded up
to 1000, and for base 320 a non-dealer tsumo is (640, 320, 320), not
(700, 400, 400). -/
theorem payments_not_rounded_up :
    (ScoreCounter.mk (examplePlayer false)).CalculateRonScore 240 = 960 ∧
    (ScoreCounter.mk (examplePlayer false)).CalculateRonScore 240 ≠ roundUpHundred (4 * 240) ∧
    (ScoreCounter.mk (examplePlayer false)).CalculateTsumoScore 320 = (640, 320, 320) ∧
    (ScoreCounter.mk (examplePlayer false)).CalculateTsumoScore 320 ≠
      (roundUpHundred (2 * 320), roundUpHundred 320, roundUpHundred 320) := by
  decide

/-- C7 amended: for a base score `b` with `0 ≤ b < 268435456` (that is `2^28`),
`CalculateRonScore` is exactly `6 * b` for a dealer and `4 * b` for a non-dealer, and
`CalculateTsumoScore` is exactly `(2b, 2b, 2b)` for a dealer and `(2b, b, b)`
for a non-dealer; nothing is rounded. -/
theorem payments_exact_multiples (s : ScoreCounter) (b : Int) (h0 : 0 ≤ b)
    (h1 : b < 268435456) :
    s.CalculateRonScore b = (if s.Player.Oya then 6 * b else 4 * b) ∧
    s.CalculateTsumoScore b =
      (if s.Player.Oya then (2 * b, 2 * b, 2 * b) else (2 * b, b, b)) := by
  have e6 : wrapInt (b * 6) = 6 * b := by
    rw [wrapInt_of_range _ (by omega) (by omega)]; omega
  have e4 : wrapInt (b * 4) = 4 * b := by
    rw [wrapInt_of_range _ (by omega) (by omega)]; omega
  have e2 : wrapInt (b * 2) = 2 * b := by
    rw [wrapInt_of_range _ (by omega) (by omega)]; omega
  unfold ScoreCounter.CalculateRonScore ScoreCounter.CalculateTsumoScore
  simp only [e6, e4, e2, and_self]

/-- The amended C7 at base 240 for a non-dealer: ron 960 and tsumo (480, 240, 240). -/
theorem payments_exact_multiples_witness :
    (ScoreCounter.mk (examplePlayer false)).CalculateRonScore 240 = 4 * 240 ∧
    (ScoreCounter.mk (examplePlayer false)).CalculateTsumoScore 240 = (2 * 240, 240, 240) := by
  have h := payments_exact_multiples (ScoreCounter.mk (examplePlayer false)) 240
    (by decide) (by decide)
  simpa [examplePlayer] using h

/-- C8: for a single yakuman (`Daisangen`, han 13) `evaluateVariant` gives a
non-dealer the ron score 12000 and the tsumo payments (4000, 4000, 4000), and a
dealer the same ron score 12000; for two yakuman (han 26) the base score
stays 8000. -/
theorem evaluateVariant_yakuman_fixed_scores :
    (ScoreCounter.mk (examplePlayer false)).evaluateVariant [Daisangen] 40 =
      some { Fan := 13, Fu := 40, BaseScore := 8000, TsumoScore := (4000, 4000, 4000),
             RonScore := 12000, IsYakuman := true, Yakus := [Daisangen] } ∧
    (ScoreCounter.mk (examplePlayer true)).evaluateVariant [Daisangen] 40 =
      some { Fan := 13, Fu := 40, BaseScore := 8000, TsumoScore := (4000, 4000, 4000),
             RonScore := 12000, IsYakuman := true, Yakus := [Daisangen] } ∧
    (ScoreCounter.mk (examplePlayer false)).evaluateVariant [Daisangen, Tsuisou] 40 =
      some { Fan := 26, Fu := 40, BaseScore := 8000, TsumoScore := (4000, 4000, 4000),
             RonScore := 12000, IsYakuman := true, Yakus := [Daisangen, Tsuisou] } := by
  decide

/-- Whatever the yaku, as soon as `CalculateFan` reaches 13 the result of
`evaluateVariant` carries the fixed scores 8000, 12000 and (4000, 4000, 4000). -/
theorem evaluateVariant_yakuman_constants (s : ScoreCounter) (yakus : List Yaku) (fu : Int)
    (hne : yakus ≠ []) (hfan : s.CalculateFan yakus ≥ 13) :
    ∃ r, s.evaluateVariant yakus fu = some r ∧ r.BaseScore = 8000 ∧ r.RonScore = 12000 ∧
      r.TsumoScore = (4000, 4000, 4000) := by
  unfold ScoreCounter.evaluateVariant
  have hl : ¬ yakus.length = 0 := fun h => hne (List.length_eq_zero.1 h)
  rw [if_neg hl]
  simp only [hfan, if_true]
  exact ⟨_, rfl, rfl, rfl, rfl⟩

/-! ## Score changes of a self-drawn win -/

/-- For a winner in seat 1, 2 or 3 the four score changes set by `SetTsumoAgari`
sum to zero. -/
theorem SetTsumoAgari_child_sum_zero (r : GameResult) (w : Int) (score : ScoreCounterResult)
    (hw : 1 ≤ w ∧ w ≤ 3)
    (h0 : -1000000000000 < score.TsumoScore.1 ∧ score.TsumoScore.1 < 1000000000000)
    (h1 : -1000000000000 < score.TsumoScore.2.1 ∧ score.TsumoScore.2.1 < 1000000000000) :
    ∃ r', r.SetTsumoAgari w score = some r' ∧ r'.ScoreChanges.sum = 0 := by
  rcases hts : score.TsumoScore with ⟨t0, t1, t2⟩
  rw [hts] at h0 h1
  simp only at h0 h1
  have hcases : w = 1 ∨ w = 2 ∨ w = 3 := by omega
  rcases hcases with rfl | rfl | rfl <;>
    simp [GameResult.SetTsumoAgari, hts, wrapInt] <;> omega

/-- For the winner in seat 0 the four score changes set by `SetTsumoAgari` sum
to three times the first tsumo payment. -/
theorem SetTsumoAgari_seat0_sum (r : GameResult) (score : ScoreCounterResult)
    (h0 : -1000000000000 < score.TsumoScore.1 ∧ score.TsumoScore.1 < 1000000000000)
    (h1 : -1000000000000 < score.TsumoScore.2.1 ∧ score.TsumoScore.2.1 < 1000000000000)
    (h2 : -1000000000000 < score.TsumoScore.2.2 ∧ score.TsumoScore.2.2 < 1000000000000) :
    ∃ r', r.SetTsumoAgari 0 score = some r' ∧ r'.ScoreChanges.sum = 3 * score.TsumoScore.1 := by
  rcases hts : score.TsumoScore with ⟨t0, t1, t2⟩
  rw [hts] at h0 h1 h2
  simp only at h0 h1 h2
  have w0 : wrapInt (-t0) = -t0 := wrapInt_of_range _ (by omega) (by omega)
  have w1 : wrapInt (-t1) = -t1 := wrapInt_of_range _ (by omega) (by omega)
  have w2 : wrapInt (-t2) = -t2 := wrapInt_of_range _ (by omega) (by omega)
  have w3 : wrapInt (t0 * 3) = t0 * 3 := wrapInt_of_range _ (by omega) (by omega)
  have w4 : wrapInt (-t0 + -t1) = -t0 + -t1 := wrapInt_of_range _ (by omega) (by omega)
  have w5 : wrapInt (-t0 + -t1 + -t2) = -t0 + -t1 + -t2 :=
    wrapInt_of_range _ (by omega) (by omega)
  have w6 : wrapInt (t0 * 3 - (-t0 + -t1 + -t2)) = t0 * 3 - (-t0 + -t1 + -t2) :=
    wrapInt_of_range _ (by omega) (by omega)
  simp only [GameResult.SetTsumoAgari, hts, if_true, List.set, List.getD_cons_succ,
    List.getD_cons_zero, w0, w1, w2, w3, w4, w5, w6]
  refine ⟨_, rfl, ?_⟩
  simp only [List.sum_cons, List.sum_nil]
  omega

/-- C9: for the winner in seat 0 and tsumo payments (640, 640, 640) the score
changes set by `SetTsumoAgari` are (3840, -640, -640, -640), which sum to 1920,
and applying them to four players of 25000 points raises the total of the
four scores from 100000 to 101920. -/
theorem SetTsumoAgari_seat0_sum_not_zero :
    (NewGameResult.SetTsumoAgari 0 (exampleTsumoResult 640 640 640)).map
        (fun r => r.ScoreChanges) = some [3840, -640, -640, -640] ∧
    ([3840, -640, -640, -640] : List Int).sum = 1920 ∧
    (NewGameResult.SetTsumoAgari 0 (exampleTsumoResult 640 640 640)).map
        (fun r => ((r.ApplyScoreChanges
          [examplePlayer true, examplePlayer false, examplePlayer false,
            examplePlayer false]).map (fun p => p.Score)).sum) = some 101920 := by
  decide

/-! ## Choice of the best candidate -/

/-- The loop test of `GetBestResult` is the strict lexicographic order. -/
theorem replacesBest_iff (result best : ScoreCounterResult) :
    replacesBest result best = true ↔ tripleLt best result := by
  unfold replacesBest tripleLt
  split_ifs <;> simp <;> omega

/-- The loop of `GetBestResult` keeps the first greatest candidate: with `pre`
strictly below the current best `b` and nothing in `mid` above it, the loop over
`rest` ends on a candidate that splits the whole list in the same way. -/
theorem bestLoop_first_maximum (rest : List ScoreCounterResult) :
    ∀ (b : ScoreCounterResult) (pre mid : List ScoreCounterResult),
      (∀ x ∈ pre, tripleLt x b) → (∀ x ∈ mid, ¬ tripleLt b x) →
      ∃ pre' post',
        pre ++ b :: (mid ++ rest) =
          pre' ++ rest.foldl (fun best result =>
            if replacesBest result best then result else best) b :: post' ∧
        (∀ x ∈ pre', tripleLt x (rest.foldl (fun best result =>
            if replacesBest result best then result else best) b)) ∧
        (∀ x ∈ post', ¬ tripleLt (rest.foldl (fun best result =>
            if replacesBest result best then result else best) b) x) := by
  induction rest with
  | nil =>
    intro b pre mid hpre hmid
    exact ⟨pre, mid, by simp, hpre, hmid⟩
  | cons r rest ih =>
    intro b pre mid hpre hmid
    simp only [List.foldl_cons]
    by_cases hr : replacesBest r b = true
    · rw [if_pos hr]
      have hlt : tripleLt b r := (replacesBest_iff r b).1 hr
      obtain ⟨pre', post', heq, h1, h2⟩ := ih r (pre ++ b :: mid) [] (by
        intro x hx
        rcases List.mem_append.1 hx with hx | hx
        · have := hpre x hx
          unfold tripleLt at *
          omega
        · rcases List.mem_cons.1 hx with hx | hx
          · subst hx; exact hlt
          · have := hmid x hx
            unfold tripleLt at *
            omega) (by simp)
      refine ⟨pre', post', ?_, h1, h2⟩
      rw [← heq]
      simp
    · rw [if_neg hr]
      have hnlt : ¬ tripleLt b r := fun h => hr ((replacesBest_iff r b).2 h)
      obtain ⟨pre', post', heq, h1, h2⟩ := ih b pre (mid ++ [r]) hpre (by
        intro x hx
        rcases List.mem_append.1 hx with hx | hx
        · exact hmid x hx
        · simp at hx
          subst hx
          exact hnlt)
      refine ⟨pre', post', ?_, h1, h2⟩
      rw [← heq]
      simp

/-- C10: `GetBestResult` returns nil exactly for the empty list; for a non-empty
list it returns a member `best` such that every candidate before it in the list
has a strictly smaller triple `(Fan, Fu, RonScore)` in lexicographic order, no
candidate after it has a greater one, and so no candidate at all has a strictly
greater triple. -/
theorem GetBestResult_first_maximum (results : List ScoreCounterResult) :
    (GetBestResult results = none ↔ results = []) ∧
    (results ≠ [] →
      ∃ best pre post, GetBestResult results = some best ∧
        results = pre ++ best :: post ∧
        (∀ x ∈ pre, tripleLt x best) ∧
        (∀ x ∈ post, ¬ tripleLt best x) ∧
        (∀ x ∈ results, ¬ tripleLt best x)) := by
  cases results with
  | nil => simp [GetBestResult]
  | cons first rest =>
    refine ⟨by simp [GetBestResult], fun _ => ?_⟩
    obtain ⟨pre, post, heq, h1, h2⟩ :=
      bestLoop_first_maximum rest first [] [] (by simp) (by simp)
    refine ⟨_, pre, post, rfl, by simpa using heq, h1, h2, ?_⟩
    intro x hx
    have hx' : x ∈ pre ++ rest.foldl (fun best result =>
        if replacesBest result best then result else best) first :: post := by
      rw [← heq]; simpa using hx
    rcases List.mem_append.1 hx' with hx' | hx'
    · have := h1 x hx'
      unfold tripleLt at *
      omega
    · rcases List.mem_cons.1 hx' with hx' | hx'
      · subst hx'
        unfold tripleLt
        omega
      · exact h2 x hx'

/-- C10 on three candidates (2,30,·), (3,30,3900), (3,30,3900): the second is
returned, the first of the two greatest. -/
theorem GetBestResult_first_maximum_witness :
    [exampleCandidate 2 30 2000, exampleCandidate 3 30 3900, exampleCandidate 3 30 3900] ≠ [] ∧
    ∃ best pre post,
      GetBestResult
        [exampleCandidate 2 30 2000, exampleCandidate 3 30 3900, exampleCandidate 3 30 3900] =
          some best ∧
      [exampleCandidate 2 30 2000, exampleCandidate 3 30 3900, exampleCandidate 3 30 3900] =
        pre ++ best :: post ∧
      (∀ x ∈ pre, tripleLt x best) ∧
      (∀ x ∈ post, ¬ tripleLt best x) ∧
      (∀ x ∈ [exampleCandidate 2 30 2000, exampleCandidate 3 30 3900,
          exampleCandidate 3 30 3900], ¬ tripleLt best x) :=
  ⟨by simp, (GetBestResult_first_maximum
    [exampleCandidate 2 30 2000, exampleCandidate 3 30 3900, exampleCandidate 3 30 3900]).2
    (by simp)⟩

/-! ## The hand decomposer on concrete hands -/

/-- For `twoSuitHand` the decomposer returns thirty entries, each with head 5m5m
and a body of four times 1m2m3m. -/
theorem GetAllCompletedTiles_twoSuitHand :
    GetAllCompletedTiles twoSuitHand = List.replicate 30 twoSuitReturned := by
  set_option maxRecDepth 20000 in decide

/-- For `honorHeadHand` the decomposer returns thirty times the same entry. -/
theorem GetAllCompletedTiles_honorHeadHand :
    GetAllCompletedTiles honorHeadHand = List.replicate 30 honorHeadReturned := by
  set_option maxRecDepth 20000 in decide

/-- C1: for the hand 1m1m 2m2m 3m3m 5m5m 1p1p 2p2p 3p3p the decomposer returns
an entry (head 5m5m, body four times 1m2m3m) whose tiles are not the tiles of
the hand, so the entry is not a decomposition of the hand. -/
theorem GetAllCompletedTiles_entry_not_of_hand :
    twoSuitReturned ∈ GetAllCompletedTiles twoSuitHand ∧
    ¬ (tilesOf twoSuitReturned).Perm twoSuitHand ∧
    ¬ isDecompositionOf twoSuitReturned twoSuitHand := by
  have hperm : ¬ (tilesOf twoSuitReturned).Perm twoSuitHand := by decide
  refine ⟨?_, hperm, fun h => hperm h.2.2.2⟩
  rw [GetAllCompletedTiles_twoSuitHand]
  simp [List.mem_replicate]

/-- C2: the hand 1m1m 2m2m 3m3m 5m5m 1p1p 2p2p 3p3p has the partition head 5m5m,
twice 1m2m3m, twice 1p2p3p, and no entry of the returned list has that head
with a body that is a rearrangement of these four groups. -/
theorem GetAllCompletedTiles_misses_partition :
    isDecompositionOf twoSuitPartition twoSuitHand ∧
    GetAllCompletedTiles twoSuitHand ≠ [] ∧
    ∀ ct ∈ GetAllCompletedTiles twoSuitHand,
      ¬ (ct.Head = twoSuitPartition.Head ∧ ct.Body.Perm twoSuitPartition.Body) := by
  refine ⟨⟨by decide, by decide, by decide, by decide⟩, ?_, ?_⟩
  · rw [GetAllCompletedTiles_twoSuitHand]; decide
  · intro ct hct
    rw [GetAllCompletedTiles_twoSuitHand] at hct
    have hct' : ct = twoSuitReturned := (List.mem_replicate.1 hct).2
    subst hct'
    intro h
    exact absurd h.2 (by decide)

/-- C3 as stated fails: for the hand 1m1m 2m2m 3m3m 1p1p 2p2p 3p3p 5z5z the
entries at positions 0 and 1 of the returned list have the same head and the
same body groups. -/
theorem GetAllCompletedTiles_lists_partition_twice :
    ¬ noDuplicateEntries (GetAllCompletedTiles honorHeadHand) := by
  intro h
  refine h 0 1 honorHeadReturned honorHeadReturned (by decide) ?_ ?_ ⟨rfl, List.Perm.refl _⟩
  · rw [GetAllCompletedTiles_honorHeadHand]; rfl
  · rw [GetAllCompletedTiles_honorHeadHand]; rfl

/-- C4: `CanWinWithTiles` rejects the seven pairs 1m1m 4m4m 7p7p 2s2s 5s5s 6z6z
9p9p, which `IsSevenPairPattern` recognises, and the thirteen orphans of the
test `TestCheckKokushi_Valid`. -/
theorem CanWinWithTiles_rejects_special_hands :
    CanWinWithTiles sevenPairsHand = false ∧ IsSevenPairPattern sevenPairsHand = true ∧
    CanWinWithTiles thirteenOrphansHand = false := by
  decide

/-- A hand of other than 13 tiles gets no waits from `UpdateAtariTiles`. -/
theorem UpdateAtariTiles_not_thirteen (p : Player) (h : p.Hand.length ≠ 13) :
    p.UpdateAtariTiles.AtariTiles = [] := by
  have hno : ∀ tile, CanWinWithTiles
      (sortTiles (ConvertTilesToBaseTiles p.Hand ++ [tile])) = false := by
    intro tile
    unfold CanWinWithTiles
    rw [if_pos]
    simp only [sortTiles, ConvertTilesToBaseTiles, List.length_insertionSort,
      List.length_append, List.length_map, List.length_singleton]
    omega
  unfold Player.UpdateAtariTiles
  simp only [hno]
  induction List.range 34 with
  | nil => rfl
  | cons a l ih => simp

/-- C5: for the ten concealed tiles 1m2m3m 7m8m9m 1p2p3p 9s with a called pon of
1z, `UpdateAtariTiles` leaves `AtariTiles` empty; 9s is not in it. -/
theorem UpdateAtariTiles_open_hand_no_waits :
    openHandPlayer.UpdateAtariTiles.AtariTiles = [] ∧
    _9s ∉ openHandPlayer.UpdateAtariTiles.AtariTiles := by
  have h := UpdateAtariTiles_not_thirteen openHandPlayer (by decide)
  exact ⟨h, by rw [h]; simp⟩

/-! ## Lists of tiles: membership, counting, removal -/

theorem IsIn_cons (x : Nat) (l : List BaseTile) (t : Nat) :
    IsIn (x :: l) t = if x = t then true else IsIn l t := rfl

theorem countInSlice_cons (x : Nat) (l : List BaseTile) (t : Nat) :
    countInSlice (x :: l) t = (if x = t then 1 else 0) + countInSlice l t := rfl

theorem removeFromSlice_cons (x : Nat) (l : List BaseTile) (t : Nat) (n : Nat) :
    removeFromSlice (x :: l) t n =
      if x = t ∧ 0 < n then removeFromSlice l t (n - 1) else x :: removeFromSlice l t n := rfl

theorem IsIn_iff (l : List BaseTile) (t : Nat) : IsIn l t = true ↔ t ∈ l := by
  induction l with
  | nil => simp [IsIn]
  | cons x l ih =>
    rw [IsIn_cons]
    by_cases h : x = t
    · simp [h]
    · have h' : ¬ t = x := fun e => h e.symm
      simp [h, h', ih]

theorem countInSlice_pos_iff (l : List BaseTile) (t : Nat) :
    0 < countInSlice l t ↔ t ∈ l := by
  induction l with
  | nil => simp [countInSlice]
  | cons x l ih =>
    rw [countInSlice_cons]
    by_cases h : x = t
    · simp [h]
    · have h' : ¬ t = x := fun e => h e.symm
      simp [h, h', ih]

theorem countInSlice_le_length (l : List BaseTile) (t : Nat) :
    countInSlice l t ≤ l.length := by
  induction l with
  | nil => simp [countInSlice]
  | cons x l ih =>
    rw [countInSlice_cons, List.length_cons]
    split_ifs <;> omega

theorem removeFromSlice_length (l : List BaseTile) (t : Nat) (n : Nat) :
    (removeFromSlice l t n).length + min n (countInSlice l t) = l.length := by
  induction l generalizing n with
  | nil => simp [removeFromSlice, countInSlice]
  | cons x l ih =>
    rw [removeFromSlice_cons, countInSlice_cons]
    by_cases h : x = t ∧ 0 < n
    · rw [if_pos h, if_pos h.1]
      have := ih (n - 1)
      simp only [List.length_cons]
      omega
    · rw [if_neg h]
      have := ih n
      simp only [List.length_cons]
      by_cases hx : x = t
      · have hn : n = 0 := by
          by_contra hn
          exact h ⟨hx, Nat.pos_of_ne_zero hn⟩
        subst hn
        simp at this ⊢
        omega
      · rw [if_neg hx]; omega

theorem removeFromSlice_count (l : List BaseTile) (a b : Nat) (n : Nat) :
    countInSlice (removeFromSlice l a n) b =
      if a = b then countInSlice l b - n else countInSlice l b := by
  induction l generalizing n with
  | nil => simp [removeFromSlice, countInSlice]
  | cons x l ih =>
    rw [removeFromSlice_cons]
    by_cases h : x = a ∧ 0 < n
    · rw [if_pos h, ih (n - 1), countInSlice_cons]
      obtain ⟨rfl, hn⟩ := h
      by_cases hab : x = b
      · simp only [hab, if_true]; omega
      · simp [hab]
    · rw [if_neg h, countInSlice_cons, countInSlice_cons, ih n]
      by_cases hab : a = b
      · subst hab
        by_cases hx : x = a
        · have hn : n = 0 := by
            by_contra hn
            exact h ⟨hx, Nat.pos_of_ne_zero hn⟩
          simp [hx, hn]
        · simp [hx]
      · simp [hab]

theorem removeFromSlice_zero (l : List BaseTile) (a : Nat) : removeFromSlice l a 0 = l := by
  induction l with
  | nil => rfl
  | cons x l ih => simp [removeFromSlice_cons, ih]

theorem removeFromSlice_twice (l : List BaseTile) (a : Nat) (m n : Nat) :
    removeFromSlice (removeFromSlice l a m) a n = removeFromSlice l a (m + n) := by
  induction l generalizing m n with
  | nil => simp [removeFromSlice]
  | cons x l ih =>
    by_cases hx : x = a
    · subst hx
      rcases Nat.eq_zero_or_pos m with hm | hm
      · subst hm
        rw [removeFromSlice_zero, Nat.zero_add]
      · rw [removeFromSlice_cons x l x m, if_pos ⟨rfl, hm⟩, ih,
          removeFromSlice_cons x l x (m + n), if_pos ⟨rfl, by omega⟩]
        congr 1
        omega
    · have h1 : ∀ k, ¬ (x = a ∧ 0 < k) := fun k h => hx h.1
      rw [removeFromSlice_cons x l a m, if_neg (h1 m), removeFromSlice_cons, if_neg (h1 n), ih,
        removeFromSlice_cons x l a (m + n), if_neg (h1 _)]

theorem removeFromSlice_comm_ne (l : List BaseTile) (a b : Nat) (hab : a ≠ b) (m n : Nat) :
    removeFromSlice (removeFromSlice l a m) b n = removeFromSlice (removeFromSlice l b n) a m := by
  induction l generalizing m n with
  | nil => simp [removeFromSlice]
  | cons x l ih =>
    by_cases ha : x = a ∧ 0 < m
    · have hb : ∀ k, ¬ (x = b ∧ 0 < k) := fun k h => hab (ha.1.symm.trans h.1)
      rw [removeFromSlice_cons x l a m, if_pos ha, removeFromSlice_cons x l b n, if_neg (hb n),
        removeFromSlice_cons, if_pos ha, ih]
    · by_cases hb : x = b ∧ 0 < n
      · rw [removeFromSlice_cons x l a m, if_neg ha, removeFromSlice_cons, if_pos hb,
          removeFromSlice_cons x l b n, if_pos hb, ih]
      · rw [removeFromSlice_cons x l a m, if_neg ha, removeFromSlice_cons, if_neg hb,
          removeFromSlice_cons x l b n, if_neg hb, removeFromSlice_cons, if_neg ha, ih]

theorem removeFromSlice_comm (l : List BaseTile) (a b : Nat) (m n : Nat) :
    removeFromSlice (removeFromSlice l a m) b n = removeFromSlice (removeFromSlice l b n) a m := by
  by_cases hab : a = b
  · subst hab
    rw [removeFromSlice_twice, removeFromSlice_twice, Nat.add_comm]
  · exact removeFromSlice_comm_ne l a b hab m n

theorem removeFromSlice_mem (l : List BaseTile) (a b : Nat) (n : Nat) (hab : a ≠ b) :
    IsIn (removeFromSlice l a n) b = IsIn l b := by
  have h1 := removeFromSlice_count l a b n
  rw [if_neg hab] at h1
  have h2 := countInSlice_pos_iff (removeFromSlice l a n) b
  have h3 := countInSlice_pos_iff l b
  have h4 := IsIn_iff (removeFromSlice l a n) b
  have h5 := IsIn_iff l b
  rw [h1] at h2
  cases hA : IsIn (removeFromSlice l a n) b <;> cases hB : IsIn l b <;> simp_all


/-! ## The search and the sharing of the body slice -/

theorem appendGroup_len (heap : Heap) (s : GroupSlice) (g : TileGroup) :
    (appendGroup heap s g).2.len = s.len + 1 := by
  unfold appendGroup
  split_ifs <;> rfl

theorem appendGroup_wf (heap : Heap) (s : GroupSlice) (g : TileGroup) :
    (appendGroup heap s g).2.len ≤ (appendGroup heap s g).2.cap := by
  unfold appendGroup nextslicecap
  split_ifs <;> simp <;> omega

theorem appendGroup_inplace (heap : Heap) (s : GroupSlice) (g : TileGroup)
    (h : s.len < s.cap) : (appendGroup heap s g).2 = ⟨s.ptr, s.len + 1, s.cap⟩ := by
  unfold appendGroup
  rw [if_pos h]

/-- The group step on abstract data: `ts1` is the splitter after the append,
`sub` the outcome of the search below it. -/
theorem groupStep_ok (ts0 ts1 : TileSplitter) (H Hsub : List TileGroup)
    (acc sub : SearchResult) (heap : Heap) (grp : TileGroup)
    (hacc : AccOk ts0 H acc) (hsub : AccOk ts1 Hsub sub)
    (e1 : ts1.hasHead = acc.2.hasHead)
    (e2 : ts1.completedTiles.Head = acc.2.completedTiles.Head)
    (e3 : ts1.completedTiles.Body = (appendGroup heap acc.2.completedTiles.Body grp).2)
    (hlen3 : acc.2.completedTiles.Body.len ≤ 3) :
    AccOk ts0 (H ++ Hsub)
      (acc.1 ++ sub.1,
        { sub.2 with completedTiles := ⟨sub.2.completedTiles.Head,
            ⟨sub.2.completedTiles.Body.ptr, sub.2.completedTiles.Body.len - 1,
              sub.2.completedTiles.Body.cap⟩⟩ }) := by
  obtain ⟨h1, h2, h3, h4, h5, h6, h7⟩ := hacc
  obtain ⟨s1, s2, s3, s4, s5, s6, s7⟩ := hsub
  rw [e3, appendGroup_len] at s3
  have stable : 4 ≤ acc.2.completedTiles.Body.cap →
      sub.2.completedTiles.Body = ⟨acc.2.completedTiles.Body.ptr,
        acc.2.completedTiles.Body.len + 1, acc.2.completedTiles.Body.cap⟩ := by
    intro hcap
    have hin := appendGroup_inplace heap acc.2.completedTiles.Body grp (by omega)
    rw [e3, hin] at s5
    exact s5 hcap
  refine ⟨by rw [← h1, ← e1, ← s1], by rw [← h2, ← e2, ← s2], ?_, ?_, ?_, ?_, ?_⟩
  · simp only [s3]; omega
  · simp only; omega
  · intro hcap
    have e := h5 hcap
    have hcap' : 4 ≤ acc.2.completedTiles.Body.cap := by rw [e]; exact hcap
    simp only [stable hcap', Nat.add_sub_cancel]
    rw [← e]
  · intro hne
    simp only
    by_cases hH : H = []
    · subst hH
      simp only [List.nil_append] at hne
      exact s6 hne
    · have hcap' := h6 hH
      rw [stable hcap']
      exact hcap'
  · simp only [List.map_append]
    rw [s7]
    congr 1
    by_cases hH : H = []
    · subst hH
      rw [h7]
      rfl
    · have hcap' := h6 hH
      rw [h7, stable hcap']

theorem tryGroup_ok (hrec : List BaseTile → Bool → TileGroup → List TileGroup)
    (recur : List BaseTile → TileSplitter → SearchResult) (hspec : SearchSpec hrec recur)
    (ts0 : TileSplitter) (H : List TileGroup) (acc : SearchResult)
    (tmpTiles : List BaseTile) (grp : TileGroup) (hacc : AccOk ts0 H acc)
    (hcount : 3 * (ts0.completedTiles.Body.len + 1) + tmpTiles.length +
      (if ts0.hasHead then 2 else 0) = 14)
    (hhead : ts0.hasHead = false → ts0.completedTiles.Head = TileGroup.zero) :
    AccOk ts0 (H ++ hrec tmpTiles ts0.hasHead ts0.completedTiles.Head)
      (tryGroup recur tmpTiles grp acc) := by
  have h1 := hacc.1
  have h2 := hacc.2.1
  have h3 := hacc.2.2.1
  have hinv : SearchInv tmpTiles
      { acc.2 with
        completedTiles := ⟨acc.2.completedTiles.Head,
          (appendGroup acc.2.heap acc.2.completedTiles.Body grp).2⟩,
        heap := (appendGroup acc.2.heap acc.2.completedTiles.Body grp).1 } := by
    refine ⟨appendGroup_wf _ _ _, ?_, ?_⟩
    · simp only [appendGroup_len, h3, h1]
      exact hcount
    · simp only [h1, h2]
      exact hhead
  have hsub := hspec _ _ hinv
  have e : hrec tmpTiles acc.2.hasHead acc.2.completedTiles.Head =
      hrec tmpTiles ts0.hasHead ts0.completedTiles.Head := by rw [h1, h2]
  have hlen3 : acc.2.completedTiles.Body.len ≤ 3 := by
    rw [h3]; split_ifs at hcount <;> omega
  rw [← e]
  exact groupStep_ok ts0 _ H _ acc _ acc.2.heap grp hacc hsub rfl rfl rfl hlen3


/-- The head step on abstract data: `ts1` is the splitter with the head set,
`sub` the outcome of the search below it. -/
theorem headStep_ok (ts0 ts1 : TileSplitter) (H Hsub : List TileGroup)
    (acc sub : SearchResult)
    (hacc : AccOk ts0 H acc) (hsub : AccOk ts1 Hsub sub)
    (e3 : ts1.completedTiles.Body = acc.2.completedTiles.Body)
    (hno : ts0.hasHead = false)
    (hhead : ts0.hasHead = false → ts0.completedTiles.Head = TileGroup.zero) :
    AccOk ts0 (H ++ Hsub)
      (acc.1 ++ sub.1,
        { sub.2 with hasHead := false,
                     completedTiles := ⟨TileGroup.zero, sub.2.completedTiles.Body⟩ }) := by
  obtain ⟨h1, h2, h3, h4, h5, h6, h7⟩ := hacc
  obtain ⟨s1, s2, s3, s4, s5, s6, s7⟩ := hsub
  rw [e3] at s3 s5
  refine ⟨hno.symm, (hhead hno).symm, by simp only [s3, h3], s4, ?_, ?_, ?_⟩
  · intro hcap
    have e := h5 hcap
    have hcap' : 4 ≤ acc.2.completedTiles.Body.cap := by rw [e]; exact hcap
    simp only [s5 hcap']
    exact e
  · intro hne
    simp only
    by_cases hH : H = []
    · subst hH
      simp only [List.nil_append] at hne
      exact s6 hne
    · have hcap' := h6 hH
      rw [s5 hcap']
      exact hcap'
  · simp only [List.map_append]
    rw [s7]
    congr 1
    by_cases hH : H = []
    · subst hH
      rw [h7]
      rfl
    · have hcap' := h6 hH
      rw [h7, s5 hcap']

theorem tryHead_ok (hrec : List BaseTile → Bool → TileGroup → List TileGroup)
    (recur : List BaseTile → TileSplitter → SearchResult) (hspec : SearchSpec hrec recur)
    (ts0 : TileSplitter) (H : List TileGroup) (acc : SearchResult)
    (tiles : List BaseTile) (tile : Nat) (hacc : AccOk ts0 H acc)
    (hinv : SearchInv tiles ts0) :
    AccOk ts0
      (H ++ (if !ts0.hasHead && decide (countInSlice tiles tile ≥ 2) then
          hrec (removeFromSlice tiles tile 2) true ⟨TileGroupType.Toitsu, [tile, tile]⟩
        else []))
      (tryHead recur tiles tile acc) := by
  have h1 := hacc.1
  have h3 := hacc.2.2.1
  have h4 := hacc.2.2.2.1
  unfold tryHead
  simp only [h1]
  by_cases hc : (!ts0.hasHead && decide (countInSlice tiles tile ≥ 2)) = true
  · rw [if_pos hc, if_pos hc]
    have hno : ts0.hasHead = false := by
      cases hh : ts0.hasHead <;> simp [hh] at hc ⊢
    have hcnt : 2 ≤ countInSlice tiles tile := by
      simp [hno] at hc; exact hc
    have hl := removeFromSlice_length tiles tile 2
    have hinv1 : SearchInv (removeFromSlice tiles tile 2)
        { acc.2 with
          completedTiles := ⟨⟨TileGroupType.Toitsu, [tile, tile]⟩, acc.2.completedTiles.Body⟩,
          hasHead := true } := by
      refine ⟨h4, ?_, ?_⟩
      · have := hinv.2.1
        simp only [hno, h3] at this ⊢
        simp at this ⊢
        omega
      · intro h; cases h
    have hsub := hspec _ _ hinv1
    exact headStep_ok ts0 _ H _ acc _ hacc hsub rfl hno hinv.2.2
  · rw [if_neg hc, if_neg hc, List.append_nil]
    exact hacc

theorem tryKoutsu_ok (hrec : List BaseTile → Bool → TileGroup → List TileGroup)
    (recur : List BaseTile → TileSplitter → SearchResult) (hspec : SearchSpec hrec recur)
    (ts0 : TileSplitter) (H : List TileGroup) (acc : SearchResult)
    (tiles : List BaseTile) (tile : Nat) (hacc : AccOk ts0 H acc)
    (hinv : SearchInv tiles ts0) :
    AccOk ts0
      (H ++ (if countInSlice tiles tile ≥ 3 then
          hrec (removeFromSlice tiles tile 3) ts0.hasHead ts0.completedTiles.Head
        else []))
      (tryKoutsu recur tiles tile acc) := by
  unfold tryKoutsu
  by_cases hc : countInSlice tiles tile ≥ 3
  · rw [if_pos hc, if_pos hc]
    have hl := removeFromSlice_length tiles tile 3
    refine tryGroup_ok hrec recur hspec ts0 H acc _ _ hacc ?_ hinv.2.2
    have := hinv.2.1
    omega
  · rw [if_neg hc, if_neg hc, List.append_nil]
    exact hacc

theorem removeFromSlice_sequence_length (tiles : List BaseTile) (tile : Nat)
    (h0 : tile ∈ tiles) (h1 : IsIn tiles (tile + 1) = true) (h2 : IsIn tiles (tile + 2) = true) :
    (removeFromSlice (removeFromSlice (removeFromSlice tiles tile 1) (tile + 1) 1)
      (tile + 2) 1).length + 3 = tiles.length := by
  have a := removeFromSlice_length tiles tile 1
  have b := removeFromSlice_length (removeFromSlice tiles tile 1) (tile + 1) 1
  have c := removeFromSlice_length
    (removeFromSlice (removeFromSlice tiles tile 1) (tile + 1) 1) (tile + 2) 1
  have ca := (countInSlice_pos_iff tiles tile).2 h0
  have cb := (countInSlice_pos_iff tiles (tile + 1)).2 ((IsIn_iff _ _).1 h1)
  have cc := (countInSlice_pos_iff tiles (tile + 2)).2 ((IsIn_iff _ _).1 h2)
  rw [removeFromSlice_count, if_neg (show ¬ tile = tile + 1 by simp)] at b
  rw [removeFromSlice_count, if_neg (show ¬ tile + 1 = tile + 2 by simp),
    removeFromSlice_count, if_neg (show ¬ tile = tile + 2 by simp)] at c
  omega

theorem tryShuntsu_ok (hrec : List BaseTile → Bool → TileGroup → List TileGroup)
    (recur : List BaseTile → TileSplitter → SearchResult) (hspec : SearchSpec hrec recur)
    (ts0 : TileSplitter) (H : List TileGroup) (acc : SearchResult)
    (tiles : List BaseTile) (tile : Nat) (hacc : AccOk ts0 H acc)
    (hinv : SearchInv tiles ts0) (hmem : tile ∈ tiles) :
    AccOk ts0
      (H ++ (if !isShuntsuBadHead tile && IsIn tiles (tile + 1) && IsIn tiles (tile + 2) then
          hrec
            (removeFromSlice (removeFromSlice (removeFromSlice tiles tile 1) (tile + 1) 1)
              (tile + 2) 1) ts0.hasHead ts0.completedTiles.Head
        else []))
      (tryShuntsu recur tiles tile acc) := by
  unfold tryShuntsu
  by_cases hc : (!isShuntsuBadHead tile && IsIn tiles (tile + 1) && IsIn tiles (tile + 2)) = true
  · rw [if_pos hc, if_pos hc]
    have hc' := hc
    simp only [Bool.and_eq_true] at hc'
    have hl := removeFromSlice_sequence_length tiles tile hmem hc'.1.2 hc'.2
    refine tryGroup_ok hrec recur hspec ts0 H acc _ _ hacc ?_ hinv.2.2
    have := hinv.2.1
    omega
  · rw [if_neg hc, if_neg hc, List.append_nil]
    exact hacc

theorem searchLoop_ok (hrec : List BaseTile → Bool → TileGroup → List TileGroup)
    (recur : List BaseTile → TileSplitter → SearchResult) (hspec : SearchSpec hrec recur)
    (ts0 : TileSplitter) (tiles : List BaseTile) (hinv : SearchInv tiles ts0)
    (rest : List BaseTile) :
    ∀ (processed : List BaseTile) (H : List TileGroup) (acc : SearchResult),
      (∀ t ∈ rest, t ∈ tiles) → AccOk ts0 H acc →
      AccOk ts0 (H ++ headsLoop hrec tiles rest processed ts0.hasHead ts0.completedTiles.Head)
        (searchLoop recur tiles rest processed acc) := by
  induction rest with
  | nil =>
    intro processed H acc _ hacc
    simpa [headsLoop, searchLoop] using hacc
  | cons tile rest ih =>
    intro processed H acc hmem hacc
    have hrest : ∀ t ∈ rest, t ∈ tiles := fun t ht => hmem t (List.mem_cons_of_mem _ ht)
    unfold headsLoop searchLoop
    by_cases hp : IsIn processed tile = true
    · rw [if_pos hp, if_pos hp]
      exact ih processed H acc hrest hacc
    · rw [if_neg hp, if_neg hp]
      have a1 := tryHead_ok hrec recur hspec ts0 H acc tiles tile hacc hinv
      have a2 := tryKoutsu_ok hrec recur hspec ts0 _ _ tiles tile a1 hinv
      have a3 := tryShuntsu_ok hrec recur hspec ts0 _ _ tiles tile a2 hinv
        (hmem tile (List.mem_cons_self _ _))
      have := ih (tile :: processed) _ _ hrest a3
      unfold headsOfTile
      simpa only [List.append_assoc] using this

theorem search_ok (fuel : Nat) :
    SearchSpec (searchHeads fuel) (getAllCompletedTilesRecursive fuel) := by
  induction fuel with
  | zero =>
    intro tiles ts hinv
    unfold searchHeads getAllCompletedTilesRecursive
    exact ⟨rfl, rfl, rfl, hinv.1, fun _ => rfl, fun h => absurd rfl h, rfl⟩
  | succ fuel ih =>
    intro tiles ts hinv
    unfold searchHeads getAllCompletedTilesRecursive
    by_cases h0 : tiles.length = 0
    · rw [if_pos h0, if_pos h0]
      have hc := hinv.2.1
      have hlen : ts.completedTiles.Body.len = 4 := by
        rw [h0] at hc; split_ifs at hc <;> omega
      refine ⟨rfl, rfl, rfl, hinv.1, fun _ => rfl, fun _ => ?_, ?_⟩
      · show 4 ≤ ts.completedTiles.Body.cap
        have := hinv.1; omega
      · simp only [List.map_cons, List.map_nil]
        rw [← hlen]
    · rw [if_neg h0, if_neg h0]
      have hacc0 : AccOk ts [] ([], ts) :=
        ⟨rfl, rfl, rfl, hinv.1, fun _ => rfl, fun h => absurd rfl h, rfl⟩
      have := searchLoop_ok (searchHeads fuel) (getAllCompletedTilesRecursive fuel) ih ts tiles
        hinv tiles [] [] ([], ts) (fun t ht => ht) hacc0
      simpa using this


/-! ## Picks of body groups -/

theorem IsIn_eq_true_iff_count (l : List BaseTile) (t : Nat) :
    IsIn l t = true ↔ 0 < countInSlice l t := by
  rw [IsIn_iff, countInSlice_pos_iff]

theorem GroupPick.remove_count (g : GroupPick) (l : List BaseTile) (x : Nat) :
    countInSlice (g.remove l) x = countInSlice l x - g.uses x := by
  cases g with
  | koutsu t =>
    simp only [GroupPick.remove, GroupPick.uses, removeFromSlice_count]
    split_ifs <;> omega
  | shuntsu t =>
    simp only [GroupPick.remove, GroupPick.uses, removeFromSlice_count]
    split_ifs <;> omega

theorem GroupPick.avail_uses_le (g : GroupPick) (l : List BaseTile) (x : Nat)
    (h : g.avail l = true) : g.uses x ≤ countInSlice l x := by
  cases g with
  | koutsu t =>
    simp only [GroupPick.avail, decide_eq_true_eq] at h
    simp only [GroupPick.uses]
    split_ifs with e
    · subst e; exact h
    · omega
  | shuntsu t =>
    simp only [GroupPick.avail, Bool.and_eq_true, IsIn_eq_true_iff_count] at h
    simp only [GroupPick.uses]
    split_ifs with e
    · rcases e with e | e | e <;> subst e <;> omega
    · omega

theorem GroupPick.avail_of_count (g : GroupPick) (l l' : List BaseTile)
    (h : g.avail l = true)
    (hc : ∀ x, g.uses x ≤ countInSlice l' x) : g.avail l' = true := by
  cases g with
  | koutsu t =>
    have := hc t
    simp only [GroupPick.uses, if_true] at this
    simp only [GroupPick.avail, decide_eq_true_eq]
    omega
  | shuntsu t =>
    simp only [GroupPick.avail, Bool.and_eq_true, IsIn_eq_true_iff_count] at h ⊢
    have h0 := hc t
    have h1 := hc (t + 1)
    have h2 := hc (t + 2)
    simp only [GroupPick.uses] at h0 h1 h2
    simp at h0 h1 h2
    exact ⟨h0, ⟨h.2.1.1, h1⟩, h2⟩

theorem GroupPick.remove_length (g : GroupPick) (l : List BaseTile) (h : g.avail l = true) :
    (g.remove l).length + 3 = l.length := by
  cases g with
  | koutsu t =>
    simp only [GroupPick.avail, decide_eq_true_eq] at h
    have := removeFromSlice_length l t 3
    simp only [GroupPick.remove]
    omega
  | shuntsu t =>
    simp only [GroupPick.avail, Bool.and_eq_true] at h
    exact removeFromSlice_sequence_length l t ((IsIn_iff _ _).1 h.1) h.2.1.2 h.2.2

theorem GroupPick.remove_comm (g : GroupPick) (l : List BaseTile) (t : Nat) (n : Nat) :
    g.remove (removeFromSlice l t n) = removeFromSlice (g.remove l) t n := by
  cases g with
  | koutsu u =>
    simp only [GroupPick.remove]
    exact removeFromSlice_comm l t u n 3
  | shuntsu u =>
    simp only [GroupPick.remove]
    rw [removeFromSlice_comm l t u n 1, removeFromSlice_comm _ t (u + 1) n 1,
      removeFromSlice_comm _ t (u + 2) n 1]


theorem GroupPick.tile_mem (g : GroupPick) (l : List BaseTile) (h : g.avail l = true) :
    g.tile ∈ l := by
  cases g with
  | koutsu t =>
    simp only [GroupPick.avail, decide_eq_true_eq] at h
    exact (countInSlice_pos_iff l t).1 (by omega)
  | shuntsu t =>
    simp only [GroupPick.avail, Bool.and_eq_true] at h
    exact (IsIn_iff _ _).1 h.1

/-! ## The heads of the entries: every head is listed at least twice -/

theorem mem_headsOfTile (recur : List BaseTile → Bool → TileGroup → List TileGroup)
    (l : List BaseTile) (u : Nat) (hh : Bool) (hd h : TileGroup) (hu : u ∈ l)
    (hm : h ∈ headsOfTile recur l u hh hd) :
    (hh = false ∧ 2 ≤ countInSlice l u ∧
      h ∈ recur (removeFromSlice l u 2) true ⟨TileGroupType.Toitsu, [u, u]⟩) ∨
    ∃ g : GroupPick, g.tile = u ∧ g.avail l = true ∧ h ∈ recur (g.remove l) hh hd := by
  unfold headsOfTile at hm
  rcases List.mem_append.1 hm with hm | hm
  · left
    split_ifs at hm with hc
    · simp only [Bool.and_eq_true, Bool.not_eq_true', decide_eq_true_eq] at hc
      exact ⟨hc.1, hc.2, hm⟩
    · simp at hm
  · right
    rcases List.mem_append.1 hm with hm | hm
    · split_ifs at hm with hc
      · exact ⟨GroupPick.koutsu u, rfl, by simpa [GroupPick.avail] using hc, hm⟩
      · simp at hm
    · split_ifs at hm with hc
      · refine ⟨GroupPick.shuntsu u, rfl, ?_, hm⟩
        simp only [GroupPick.avail, Bool.and_eq_true]
        simp only [Bool.and_eq_true] at hc
        exact ⟨(IsIn_iff _ _).2 hu, hc⟩
      · simp at hm

theorem count_head_le_headsOfTile
    (recur : List BaseTile → Bool → TileGroup → List TileGroup)
    (l : List BaseTile) (u : Nat) (hd h : TileGroup) (g : GroupPick) (hg : g.tile = u)
    (hc : 2 ≤ countInSlice l u) (ha : g.avail l = true) :
    List.count h (recur (removeFromSlice l u 2) true ⟨TileGroupType.Toitsu, [u, u]⟩) +
      List.count h (recur (g.remove l) false hd) ≤
    List.count h (headsOfTile recur l u false hd) := by
  unfold headsOfTile
  simp only [List.count_append]
  have hc' : (!false && decide (countInSlice l u ≥ 2)) = true := by simpa using hc
  rw [if_pos hc']
  cases g with
  | koutsu t =>
    simp only [GroupPick.tile] at hg
    subst hg
    simp only [GroupPick.avail, decide_eq_true_eq] at ha
    rw [if_pos ha]
    simp only [GroupPick.remove]
    omega
  | shuntsu t =>
    simp only [GroupPick.tile] at hg
    subst hg
    simp only [GroupPick.avail, Bool.and_eq_true] at ha
    have ha' : (!isShuntsuBadHead t && IsIn l (t + 1) && IsIn l (t + 2)) = true := by
      simp only [Bool.and_eq_true]; exact ha.2
    rw [if_pos ha']
    simp only [GroupPick.remove]
    omega

theorem count_pick_le_headsOfTile
    (recur : List BaseTile → Bool → TileGroup → List TileGroup)
    (l : List BaseTile) (hh : Bool) (hd h : TileGroup) (g : GroupPick)
    (ha : g.avail l = true) :
    List.count h (recur (g.remove l) hh hd) ≤
    List.count h (headsOfTile recur l g.tile hh hd) := by
  unfold headsOfTile
  simp only [List.count_append]
  cases g with
  | koutsu t =>
    simp only [GroupPick.avail, decide_eq_true_eq] at ha
    simp only [GroupPick.tile]
    rw [if_pos ha]
    simp only [GroupPick.remove]
    omega
  | shuntsu t =>
    simp only [GroupPick.avail, Bool.and_eq_true] at ha
    have ha' : (!isShuntsuBadHead t && IsIn l (t + 1) && IsIn l (t + 2)) = true := by
      simp only [Bool.and_eq_true]; exact ha.2
    simp only [GroupPick.tile]
    rw [if_pos ha']
    simp only [GroupPick.remove]
    omega

theorem mem_headsLoop (recur : List BaseTile → Bool → TileGroup → List TileGroup)
    (tiles : List BaseTile) (hh : Bool) (hd h : TileGroup) (rest : List BaseTile) :
    ∀ processed, h ∈ headsLoop recur tiles rest processed hh hd →
      ∃ t ∈ rest, h ∈ headsOfTile recur tiles t hh hd := by
  induction rest with
  | nil => intro processed hm; simp [headsLoop] at hm
  | cons x rest ih =>
    intro processed hm
    unfold headsLoop at hm
    split_ifs at hm
    · obtain ⟨t, ht, hmem⟩ := ih processed hm
      exact ⟨t, List.mem_cons_of_mem _ ht, hmem⟩
    · rcases List.mem_append.1 hm with hm | hm
      · exact ⟨x, List.mem_cons_self _ _, hm⟩
      · obtain ⟨t, ht, hmem⟩ := ih _ hm
        exact ⟨t, List.mem_cons_of_mem _ ht, hmem⟩

theorem count_headsLoop_one (recur : List BaseTile → Bool → TileGroup → List TileGroup)
    (tiles : List BaseTile) (hh : Bool) (hd h : TileGroup) (t : Nat) (rest : List BaseTile) :
    ∀ processed, t ∈ rest → IsIn processed t = false →
      List.count h (headsOfTile recur tiles t hh hd) ≤
        List.count h (headsLoop recur tiles rest processed hh hd) := by
  induction rest with
  | nil => intro processed ht; simp at ht
  | cons x rest ih =>
    intro processed ht hp
    unfold headsLoop
    by_cases hx : x = t
    · subst hx
      rw [if_neg (by simp [hp]), List.count_append]
      omega
    · have ht' : t ∈ rest := by
        rcases List.mem_cons.1 ht with e | e
        · exact absurd e.symm hx
        · exact e
      split_ifs
      · exact ih processed ht' hp
      · rw [List.count_append]
        have := ih (x :: processed) ht' (by rw [IsIn_cons, if_neg hx]; exact hp)
        omega

theorem count_headsLoop_two (recur : List BaseTile → Bool → TileGroup → List TileGroup)
    (tiles : List BaseTile) (hh : Bool) (hd h : TileGroup) (t u : Nat) (htu : t ≠ u)
    (rest : List BaseTile) :
    ∀ processed, t ∈ rest → u ∈ rest → IsIn processed t = false → IsIn processed u = false →
      List.count h (headsOfTile recur tiles t hh hd) +
          List.count h (headsOfTile recur tiles u hh hd) ≤
        List.count h (headsLoop recur tiles rest processed hh hd) := by
  induction rest with
  | nil => intro processed ht; simp at ht
  | cons x rest ih =>
    intro processed ht hu hpt hpu
    unfold headsLoop
    by_cases hxt : x = t
    · subst hxt
      have hu' : u ∈ rest := by
        rcases List.mem_cons.1 hu with e | e
        · exact absurd e.symm htu
        · exact e
      rw [if_neg (by simp [hpt]), List.count_append]
      have := count_headsLoop_one recur tiles hh hd h u rest (x :: processed) hu'
        (by rw [IsIn_cons, if_neg htu]; exact hpu)
      omega
    · have ht' : t ∈ rest := by
        rcases List.mem_cons.1 ht with e | e
        · exact absurd e.symm hxt
        · exact e
      by_cases hxu : x = u
      · subst hxu
        rw [if_neg (by simp [hpu]), List.count_append]
        have := count_headsLoop_one recur tiles hh hd h t rest (x :: processed) ht'
          (by rw [IsIn_cons, if_neg hxt]; exact hpt)
        omega
      · have hu' : u ∈ rest := by
          rcases List.mem_cons.1 hu with e | e
          · exact absurd e.symm hxu
          · exact e
        split_ifs
        · exact ih processed ht' hu' hpt hpu
        · rw [List.count_append]
          have := ih (x :: processed) ht' hu'
            (by rw [IsIn_cons, if_neg hxt]; exact hpt)
            (by rw [IsIn_cons, if_neg hxu]; exact hpu)
          omega


theorem count_headBranch_le_headsOfTile
    (recur : List BaseTile → Bool → TileGroup → List TileGroup)
    (l : List BaseTile) (t : Nat) (hd h : TileGroup) (hc : 2 ≤ countInSlice l t) :
    List.count h (recur (removeFromSlice l t 2) true ⟨TileGroupType.Toitsu, [t, t]⟩) ≤
      List.count h (headsOfTile recur l t false hd) := by
  unfold headsOfTile
  rw [if_pos (by simpa using hc), List.count_append]
  omega

theorem searchHeads_succ (fuel : Nat) (l : List BaseTile) (hh : Bool) (hd : TileGroup)
    (hl : l.length ≠ 0) :
    searchHeads (fuel + 1) l hh hd = headsLoop (searchHeads fuel) l l [] hh hd := by
  rw [searchHeads, if_neg hl]

theorem searchHeads_nil (fuel : Nat) (hh : Bool) (hd : TileGroup) :
    searchHeads (fuel + 1) [] hh hd = [hd] := by
  simp [searchHeads]

theorem mem_of_count_pos {h : TileGroup} {l : List TileGroup} (hc : 0 < List.count h l) :
    h ∈ l := List.count_pos_iff.1 hc

theorem count_pos_of_mem {h : TileGroup} {l : List TileGroup} (hm : h ∈ l) :
    0 < List.count h l := List.count_pos_iff.2 hm

/-- An entry found through the head branch at `t` and through the pick `g`
is listed at least twice. -/
theorem searchHeads_two_ways (fuel : Nat) (l : List BaseTile) (t : Nat) (g : GroupPick)
    (h : TileGroup) (hl : l.length ≠ 0) (hc : 2 ≤ countInSlice l t) (ha : g.avail l = true)
    (hA : h ∈ searchHeads fuel (removeFromSlice l t 2) true ⟨TileGroupType.Toitsu, [t, t]⟩)
    (hB : h ∈ searchHeads fuel (g.remove l) false TileGroup.zero) :
    2 ≤ List.count h (searchHeads (fuel + 1) l false TileGroup.zero) := by
  rw [searchHeads_succ fuel l false _ hl]
  have ht : t ∈ l := (countInSlice_pos_iff l t).1 (by omega)
  have hu : g.tile ∈ l := g.tile_mem l ha
  have cA := count_pos_of_mem hA
  have cB := count_pos_of_mem hB
  by_cases htu : t = g.tile
  · have h1 := count_head_le_headsOfTile (searchHeads fuel) l t TileGroup.zero h g htu.symm hc ha
    have h2 := count_headsLoop_one (searchHeads fuel) l false TileGroup.zero h t l [] ht rfl
    omega
  · have h1 := count_headBranch_le_headsOfTile (searchHeads fuel) l t TileGroup.zero h hc
    have h2 := count_pick_le_headsOfTile (searchHeads fuel) l false TileGroup.zero h g ha
    have h3 := count_headsLoop_two (searchHeads fuel) l false TileGroup.zero h t g.tile htu l []
      ht hu rfl rfl
    omega

/-- With two tiles left and no head yet, the only entry is the pair of the two. -/
theorem searchHeads_two_tiles (fuel : Nat) (l : List BaseTile) (h : TileGroup)
    (hl : l.length = 2) (hm : h ∈ searchHeads fuel l false TileGroup.zero) :
    ∃ (x : Nat) (fuel' : Nat), l = [x, x] ∧ fuel = fuel' + 2 ∧
      h = ⟨TileGroupType.Toitsu, [x, x]⟩ := by
  cases fuel with
  | zero => simp [searchHeads] at hm
  | succ f1 =>
    rw [searchHeads_succ f1 l false _ (by omega)] at hm
    obtain ⟨u, hu, hmem⟩ := mem_headsLoop _ _ _ _ _ _ _ hm
    rcases mem_headsOfTile _ _ _ _ _ _ hu hmem with ⟨_, hc, hrec⟩ | ⟨g, _, ha, _⟩
    · have hlen := removeFromSlice_length l u 2
      have hnil : removeFromSlice l u 2 = [] := List.length_eq_zero.1 (by omega)
      rw [hnil] at hrec
      cases f1 with
      | zero => simp [searchHeads] at hrec
      | succ f2 =>
        rw [searchHeads_nil] at hrec
        refine ⟨u, f2, ?_, rfl, List.mem_singleton.1 hrec⟩
        match l, hl with
        | [a, b], _ =>
          simp only [countInSlice_cons, countInSlice] at hc
          have ha : a = u := by
            by_contra hne
            rw [if_neg hne] at hc
            split_ifs at hc
            all_goals omega
          have hb : b = u := by
            by_contra hne
            rw [if_neg hne] at hc
            split_ifs at hc
            all_goals omega
          rw [ha, hb]
    · have := g.remove_length l ha
      omega


/-- Without a head chosen and with at least five tiles, every head in the list
of the search occurs in it at least twice: once through the head branch and
once through a branch that picks a body group first. -/
theorem searchHeads_count_two (fuel : Nat) :
    ∀ l : List BaseTile, 5 ≤ l.length → l.length % 3 = 2 →
      ∀ h ∈ searchHeads fuel l false TileGroup.zero,
        2 ≤ List.count h (searchHeads fuel l false TileGroup.zero) := by
  induction fuel with
  | zero => intro l _ _ h hm; simp [searchHeads] at hm
  | succ f ih =>
    intro l hl5 hmod h hm
    have hl0 : l.length ≠ 0 := by omega
    have hm' := hm
    rw [searchHeads_succ f l false _ hl0] at hm'
    obtain ⟨t, ht, hmem⟩ := mem_headsLoop _ _ _ _ _ _ _ hm'
    rcases mem_headsOfTile _ _ _ _ _ _ ht hmem with ⟨_, hc, hA⟩ | ⟨g, _, ha, hB⟩
    · -- found through the head branch at `t`: a pick made below can be made first
      have hlen := removeFromSlice_length l t 2
      cases f with
      | zero => simp [searchHeads] at hA
      | succ f' =>
        have hA' := hA
        rw [searchHeads_succ f' _ true _ (by omega)] at hA'
        obtain ⟨u, hu, hmem2⟩ := mem_headsLoop _ _ _ _ _ _ _ hA'
        rcases mem_headsOfTile _ _ _ _ _ _ hu hmem2 with ⟨hf, _, _⟩ | ⟨g, _, ha', hrec⟩
        · cases hf
        · have hcount : ∀ x : Nat,
              countInSlice (removeFromSlice l t 2) x ≤ countInSlice l x := by
            intro x
            rw [removeFromSlice_count]
            split_ifs <;> omega
          have ha : g.avail l = true :=
            g.avail_of_count _ l ha' (fun x => le_trans (g.avail_uses_le _ x ha') (hcount x))
          have huse := g.avail_uses_le _ t ha'
          rw [removeFromSlice_count, if_pos rfl] at huse
          have hc2 : 2 ≤ countInSlice (g.remove l) t := by
            rw [g.remove_count]; omega
          have hlenB := g.remove_length l ha
          have hB : h ∈ searchHeads (f' + 1) (g.remove l) false TileGroup.zero := by
            rw [searchHeads_succ f' _ false _ (by omega)]
            apply mem_of_count_pos
            have htm : t ∈ g.remove l := (countInSlice_pos_iff _ _).1 (by omega)
            have h1 := count_headsLoop_one (searchHeads f') (g.remove l) false TileGroup.zero h t
              (g.remove l) [] htm rfl
            have h2 := count_headBranch_le_headsOfTile (searchHeads f') (g.remove l) t
              TileGroup.zero h hc2
            rw [g.remove_comm] at hrec
            have h3 := count_pos_of_mem hrec
            omega
          exact searchHeads_two_ways (f' + 1) l t g h hl0 hc ha hA hB
    · -- found through a pick `g`: below it either twice already, or the head is the last step
      have hlenB := g.remove_length l ha
      by_cases h5 : 5 ≤ (g.remove l).length
      · have hrec := ih (g.remove l) h5 (by omega) h hB
        rw [searchHeads_succ f l false _ hl0]
        have h1 := count_pick_le_headsOfTile (searchHeads f) l false TileGroup.zero h g ha
        have h2 := count_headsLoop_one (searchHeads f) l false TileGroup.zero h g.tile l []
          (g.tile_mem l ha) rfl
        omega
      · have hl2 : (g.remove l).length = 2 := by omega
        obtain ⟨x, f'', hxx, hf, hh⟩ := searchHeads_two_tiles f _ h hl2 hB
        subst hf
        have hcx : countInSlice (g.remove l) x = 2 := by
          rw [hxx]; simp [countInSlice]
        rw [g.remove_count] at hcx
        have huse := g.avail_uses_le l x ha
        have hc : 2 ≤ countInSlice l x := by omega
        have ha' : g.avail (removeFromSlice l x 2) = true := by
          refine g.avail_of_count l _ ha (fun y => ?_)
          have huy := g.avail_uses_le l y ha
          rw [removeFromSlice_count]
          split_ifs with e
          · subst e; omega
          · exact huy
        have hA : h ∈ searchHeads (f'' + 2) (removeFromSlice l x 2) true
            ⟨TileGroupType.Toitsu, [x, x]⟩ := by
          have hlenA := removeFromSlice_length l x 2
          rw [searchHeads_succ (f'' + 1) _ true _ (by omega)]
          apply mem_of_count_pos
          have h1 := count_pick_le_headsOfTile (searchHeads (f'' + 1)) (removeFromSlice l x 2)
            true ⟨TileGroupType.Toitsu, [x, x]⟩ h g ha'
          have h2 := count_headsLoop_one (searchHeads (f'' + 1)) (removeFromSlice l x 2) true
            ⟨TileGroupType.Toitsu, [x, x]⟩ h g.tile _ [] (g.tile_mem _ ha') rfl
          have h3 : h ∈ searchHeads (f'' + 1) (g.remove (removeFromSlice l x 2)) true
              ⟨TileGroupType.Toitsu, [x, x]⟩ := by
            rw [g.remove_comm, hxx]
            have : removeFromSlice [x, x] x 2 = [] := by
              simp [removeFromSlice]
            rw [this, searchHeads_nil, hh]
            exact List.mem_singleton.2 rfl
          have h4 := count_pos_of_mem h3
          omega
        exact searchHeads_two_ways (f'' + 2) l x g h hl0 hc ha hA hB


/-! ## The recursion budget is never used up -/

theorem searchLoop_congr (r1 r2 : List BaseTile → TileSplitter → SearchResult)
    (tiles : List BaseTile)
    (hr : ∀ l ts, l.length < tiles.length → r1 l ts = r2 l ts) (rest : List BaseTile) :
    ∀ (processed : List BaseTile) (acc : SearchResult), (∀ t ∈ rest, t ∈ tiles) →
      searchLoop r1 tiles rest processed acc = searchLoop r2 tiles rest processed acc := by
  induction rest with
  | nil => intro processed acc _; rfl
  | cons tile rest ih =>
    intro processed acc hmem
    have hrest : ∀ t ∈ rest, t ∈ tiles := fun t ht => hmem t (List.mem_cons_of_mem _ ht)
    have htile : tile ∈ tiles := hmem tile (List.mem_cons_self _ _)
    have e1 : tryHead r1 tiles tile acc = tryHead r2 tiles tile acc := by
      unfold tryHead
      by_cases hc : (!acc.2.hasHead && decide (countInSlice tiles tile ≥ 2)) = true
      · have hcnt : 2 ≤ countInSlice tiles tile := by
          simp only [Bool.and_eq_true, decide_eq_true_eq] at hc; exact hc.2
        have hl := removeFromSlice_length tiles tile 2
        have e : ∀ ts, r1 (removeFromSlice tiles tile 2) ts = r2 (removeFromSlice tiles tile 2) ts :=
          fun ts => hr _ ts (by omega)
        rw [if_pos hc, if_pos hc]
        simp only [e]
      · rw [if_neg hc, if_neg hc]
    have e2 : ∀ a, tryKoutsu r1 tiles tile a = tryKoutsu r2 tiles tile a := by
      intro a
      unfold tryKoutsu tryGroup
      by_cases hc : countInSlice tiles tile ≥ 3
      · have hl := removeFromSlice_length tiles tile 3
        have e : ∀ ts, r1 (removeFromSlice tiles tile 3) ts = r2 (removeFromSlice tiles tile 3) ts :=
          fun ts => hr _ ts (by omega)
        rw [if_pos hc, if_pos hc]
        simp only [e]
      · rw [if_neg hc, if_neg hc]
    have e3 : ∀ a, tryShuntsu r1 tiles tile a = tryShuntsu r2 tiles tile a := by
      intro a
      unfold tryShuntsu tryGroup
      by_cases hc : (!isShuntsuBadHead tile && IsIn tiles (tile + 1) &&
          IsIn tiles (tile + 2)) = true
      · have hc' := hc
        simp only [Bool.and_eq_true] at hc'
        have hl := removeFromSlice_sequence_length tiles tile htile hc'.1.2 hc'.2
        have e : ∀ ts,
            r1 (removeFromSlice (removeFromSlice (removeFromSlice tiles tile 1) (tile + 1) 1)
              (tile + 2) 1) ts =
            r2 (removeFromSlice (removeFromSlice (removeFromSlice tiles tile 1) (tile + 1) 1)
              (tile + 2) 1) ts :=
          fun ts => hr _ ts (by omega)
        rw [if_pos hc, if_pos hc]
        simp only [e]
      · rw [if_neg hc, if_neg hc]
    unfold searchLoop
    split_ifs
    · exact ih processed acc hrest
    · rw [e1, e2, e3]
      exact ih _ _ hrest

/-- Any two budgets above the number of tiles give the same result: the search
never runs out of budget. -/
theorem getAllCompletedTilesRecursive_fuel (fuel1 : Nat) :
    ∀ (fuel2 : Nat) (tiles : List BaseTile) (ts : TileSplitter),
      tiles.length < fuel1 → tiles.length < fuel2 →
      getAllCompletedTilesRecursive fuel1 tiles ts =
        getAllCompletedTilesRecursive fuel2 tiles ts := by
  induction fuel1 with
  | zero => intro fuel2 tiles ts h1; omega
  | succ f1 ih =>
    intro fuel2 tiles ts h1 h2
    cases fuel2 with
    | zero => omega
    | succ f2 =>
      unfold getAllCompletedTilesRecursive
      split_ifs
      · rfl
      · exact searchLoop_congr _ _ tiles
          (fun l ts' hl => ih f2 l ts' (by omega) (by omega)) tiles [] _ (fun t ht => ht)

/-! ## The entries returned for 14 tiles -/

/-- For 14 tiles all entries returned have one and the same body: the entries
are the heads found by the search, each with the groups that the shared body
slice holds when the call returns. -/
theorem GetAllCompletedTiles_eq_map (tiles : List BaseTile) (hlen : tiles.length = 14) :
    ∃ body : List TileGroup,
      GetAllCompletedTiles tiles =
        (searchHeads 15 (sortTiles tiles) false TileGroup.zero).map (fun h => ⟨h, body⟩) := by
  have hinv : SearchInv (sortTiles tiles)
      (TileSplitter.Reset ⟨⟨TileGroup.zero, GroupSlice.nil⟩, false, []⟩) := by
    refine ⟨Nat.le_refl _, ?_, fun _ => rfl⟩
    simp [TileSplitter.Reset, GroupSlice.nil, sortTiles, List.length_insertionSort, hlen]
  obtain ⟨_, _, _, _, _, _, h7⟩ := search_ok 15 _ _ hinv
  refine ⟨readSlice
    (getAllCompletedTilesRecursive 15 (sortTiles tiles)
      (TileSplitter.Reset ⟨⟨TileGroup.zero, GroupSlice.nil⟩, false, []⟩)).2.heap
    ⟨(getAllCompletedTilesRecursive 15 (sortTiles tiles)
        (TileSplitter.Reset ⟨⟨TileGroup.zero, GroupSlice.nil⟩,
          false, []⟩)).2.completedTiles.Body.ptr, 4,
     (getAllCompletedTilesRecursive 15 (sortTiles tiles)
        (TileSplitter.Reset ⟨⟨TileGroup.zero, GroupSlice.nil⟩,
          false, []⟩)).2.completedTiles.Body.cap⟩, ?_⟩
  unfold GetAllCompletedTiles
  simp only [hlen]
  rw [if_neg (by decide), h7, List.map_map]
  rfl

theorem two_positions_of_count {α : Type} [DecidableEq α] (a : α) (l : List α)
    (h : 2 ≤ List.count a l) : ∃ i j : Nat, i < j ∧ l[i]? = some a ∧ l[j]? = some a := by
  induction l with
  | nil => simp at h
  | cons x l ih =>
    by_cases hx : x = a
    · subst hx
      rw [List.count_cons_self] at h
      have hm : x ∈ l := List.count_pos_iff.1 (by omega)
      obtain ⟨j, hj⟩ := List.mem_iff_getElem?.1 hm
      exact ⟨0, j + 1, by omega, by simp, by simpa using hj⟩
    · rw [List.count_cons_of_ne (Ne.symm hx)] at h
      obtain ⟨i, j, hij, hi, hj⟩ := ih h
      exact ⟨i + 1, j + 1, by omega, by simpa using hi, by simpa using hj⟩

/-- C3 amended: for 14 tiles, whenever `GetAllCompletedTiles` returns an entry,
the returned list has two entries at different positions with the same head
and the same body groups; nothing is de-duplicated. -/
theorem GetAllCompletedTiles_entry_listed_twice (tiles : List BaseTile)
    (hlen : tiles.length = 14) (hne : GetAllCompletedTiles tiles ≠ []) :
    ∃ (i j : Nat) (a b : CompletedTiles), i < j ∧
      (GetAllCompletedTiles tiles)[i]? = some a ∧ (GetAllCompletedTiles tiles)[j]? = some b ∧
      a.Head = b.Head ∧ a.Body.Perm b.Body := by
  obtain ⟨body, heq⟩ := GetAllCompletedTiles_eq_map tiles hlen
  rw [heq] at hne ⊢
  have hne' : searchHeads 15 (sortTiles tiles) false TileGroup.zero ≠ [] := by
    intro h; rw [h] at hne; exact hne rfl
  obtain ⟨h, hm⟩ := List.exists_mem_of_ne_nil _ hne'
  have hl : (sortTiles tiles).length = 14 := by
    simp [sortTiles, List.length_insertionSort, hlen]
  have hc := searchHeads_count_two 15 (sortTiles tiles) (by omega) (by omega) h hm
  obtain ⟨i, j, hij, hi, hj⟩ := two_positions_of_count h _ hc
  refine ⟨i, j, ⟨h, body⟩, ⟨h, body⟩, hij, ?_, ?_, rfl, List.Perm.refl _⟩
  · simp [List.getElem?_map, hi]
  · simp [List.getElem?_map, hj]


/-- The amended C3 on the hand 1m1m 2m2m 3m3m 5m5m 1p1p 2p2p 3p3p: 14 tiles, a
non-empty result, and two entries with the same head and body. -/
theorem GetAllCompletedTiles_entry_listed_twice_witness :
    twoSuitHand.length = 14 ∧ GetAllCompletedTiles twoSuitHand ≠ [] ∧
    ∃ (i j : Nat) (a b : CompletedTiles), i < j ∧
      (GetAllCompletedTiles twoSuitHand)[i]? = some a ∧
      (GetAllCompletedTiles twoSuitHand)[j]? = some b ∧
      a.Head = b.Head ∧ a.Body.Perm b.Body :=
  ⟨rfl, by rw [GetAllCompletedTiles_twoSuitHand]; decide,
    GetAllCompletedTiles_entry_listed_twice twoSuitHand rfl
      (by rw [GetAllCompletedTiles_twoSuitHand]; decide)⟩


/-! ## The search finds an entry exactly for the hands that have a partition -/

theorem usesOf_cons (g : GroupPick) (gs : List GroupPick) (x : Nat) :
    usesOf (g :: gs) x = g.uses x + usesOf gs x := rfl

theorem eq_nil_of_count_zero (l : List BaseTile) (h : ∀ x : Nat, countInSlice l x = 0) :
    l = [] := by
  cases l with
  | nil => rfl
  | cons a l =>
    have := h a
    rw [countInSlice_cons, if_pos rfl] at this
    omega

theorem GroupPick.avail_of_valid (g : GroupPick) (l : List BaseTile) (hv : g.valid = true)
    (hc : ∀ x, g.uses x ≤ countInSlice l x) : g.avail l = true := by
  cases g with
  | koutsu t =>
    have := hc t
    simp only [GroupPick.uses, if_true] at this
    simp only [GroupPick.avail, decide_eq_true_eq]
    omega
  | shuntsu t =>
    simp only [GroupPick.valid] at hv
    simp only [GroupPick.avail, Bool.and_eq_true, IsIn_eq_true_iff_count]
    have h0 := hc t
    have h1 := hc (t + 1)
    have h2 := hc (t + 2)
    simp only [GroupPick.uses] at h0 h1 h2
    simp at h0 h1 h2
    exact ⟨h0, ⟨hv, h1⟩, h2⟩

theorem GroupPick.valid_of_avail (g : GroupPick) (l : List BaseTile) (ha : g.avail l = true) :
    g.valid = true := by
  cases g with
  | koutsu t => rfl
  | shuntsu t =>
    simp only [GroupPick.avail, Bool.and_eq_true] at ha
    exact ha.2.1.1

/-- Every entry found comes from picks that, with the head, use up the tiles:
with a head already chosen the entry keeps it; without one the entry either
has no new head and the picks use all tiles, or its head is a pair `t t` and
the picks use the other tiles. -/
theorem searchHeads_sound (fuel : Nat) :
    ∀ (l : List BaseTile) (hh : Bool) (hd h : TileGroup), h ∈ searchHeads fuel l hh hd →
      ∃ gs : List GroupPick, (∀ g ∈ gs, g.valid = true) ∧
        ((h = hd ∧ l.length = 3 * gs.length ∧ ∀ x : Nat, countInSlice l x = usesOf gs x) ∨
         (hh = false ∧ ∃ t : Nat, h = ⟨TileGroupType.Toitsu, [t, t]⟩ ∧
            l.length = 3 * gs.length + 2 ∧
            ∀ x : Nat, countInSlice l x = (if t = x then 2 else 0) + usesOf gs x)) := by
  induction fuel with
  | zero => intro l hh hd h hm; simp [searchHeads] at hm
  | succ f ih =>
    intro l hh hd h hm
    by_cases hl : l.length = 0
    · have hnil : l = [] := List.length_eq_zero.1 hl
      subst hnil
      rw [searchHeads_nil] at hm
      exact ⟨[], by simp, Or.inl ⟨List.mem_singleton.1 hm, rfl, fun x => rfl⟩⟩
    · rw [searchHeads_succ f l hh hd hl] at hm
      obtain ⟨t, ht, hmem⟩ := mem_headsLoop _ _ _ _ _ _ _ hm
      rcases mem_headsOfTile _ _ _ _ _ _ ht hmem with ⟨hno, hc, hrec⟩ | ⟨g, _, ha, hrec⟩
      · obtain ⟨gs, hv, hcase⟩ := ih _ _ _ _ hrec
        have hlen := removeFromSlice_length l t 2
        refine ⟨gs, hv, Or.inr ⟨hno, t, ?_⟩⟩
        rcases hcase with ⟨he, hl3, hcnt⟩ | ⟨hf, _⟩
        · refine ⟨he, by omega, fun x => ?_⟩
          have := hcnt x
          rw [removeFromSlice_count] at this
          split_ifs at this ⊢ with e
          · subst e; omega
          · omega
        · cases hf
      · obtain ⟨gs, hv, hcase⟩ := ih _ _ _ _ hrec
        have hlen := g.remove_length l ha
        have hvg := g.valid_of_avail l ha
        refine ⟨g :: gs, ?_, ?_⟩
        · intro g' hg'
          rcases List.mem_cons.1 hg' with e | e
          · rw [e]; exact hvg
          · exact hv g' e
        · rcases hcase with ⟨he, hl3, hcnt⟩ | ⟨hf, t', he, hl3, hcnt⟩
          · refine Or.inl ⟨he, by simp only [List.length_cons]; omega, fun x => ?_⟩
            have := hcnt x
            have hu := g.avail_uses_le l x ha
            rw [g.remove_count] at this
            rw [usesOf_cons]
            omega
          · refine Or.inr ⟨hf, t', he, by simp only [List.length_cons]; omega, fun x => ?_⟩
            have := hcnt x
            have hu := g.avail_uses_le l x ha
            rw [g.remove_count] at this
            rw [usesOf_cons]
            omega

theorem searchHeads_ne_nil_of_pick (fuel : Nat) (l : List BaseTile) (hh : Bool)
    (hd : TileGroup) (g : GroupPick) (ha : g.avail l = true)
    (hrec : searchHeads fuel (g.remove l) hh hd ≠ []) :
    searchHeads (fuel + 1) l hh hd ≠ [] := by
  have hlen := g.remove_length l ha
  rw [searchHeads_succ fuel l hh hd (by omega)]
  obtain ⟨h, hm⟩ := List.exists_mem_of_ne_nil _ hrec
  have h1 := count_pick_le_headsOfTile (searchHeads fuel) l hh hd h g ha
  have h2 := count_headsLoop_one (searchHeads fuel) l hh hd h g.tile l [] (g.tile_mem l ha) rfl
  have h3 := count_pos_of_mem hm
  have h4 : 0 < List.count h (headsLoop (searchHeads fuel) l l [] hh hd) := by omega
  exact List.ne_nil_of_mem (mem_of_count_pos h4)

/-- Picks that use up the tiles are found by the search. -/
theorem searchHeads_complete_body (gs : List GroupPick) :
    ∀ (l : List BaseTile) (fuel : Nat) (hh : Bool) (hd : TileGroup),
      (∀ g ∈ gs, g.valid = true) → l.length < fuel →
      (∀ x : Nat, countInSlice l x = usesOf gs x) → searchHeads fuel l hh hd ≠ [] := by
  induction gs with
  | nil =>
    intro l fuel hh hd _ hf hcnt
    have hnil : l = [] := eq_nil_of_count_zero l (fun x => by rw [hcnt x]; rfl)
    subst hnil
    obtain ⟨f, rfl⟩ : ∃ f, fuel = f + 1 := ⟨fuel - 1, by omega⟩
    rw [searchHeads_nil]
    simp
  | cons g gs ih =>
    intro l fuel hh hd hv hf hcnt
    have ha : g.avail l = true :=
      g.avail_of_valid l (hv g (List.mem_cons_self _ _))
        (fun x => by rw [hcnt x, usesOf_cons]; omega)
    have hlen := g.remove_length l ha
    obtain ⟨f, rfl⟩ : ∃ f, fuel = f + 1 := ⟨fuel - 1, by omega⟩
    refine searchHeads_ne_nil_of_pick f l hh hd g ha ?_
    refine ih _ f hh hd (fun g' hg' => hv g' (List.mem_cons_of_mem _ hg')) (by omega) ?_
    intro x
    rw [g.remove_count, hcnt x, usesOf_cons]
    omega

/-- A head pair and picks that use up the tiles are found by the search. -/
theorem searchHeads_complete (gs : List GroupPick) :
    ∀ (l : List BaseTile) (fuel : Nat) (hd : TileGroup) (t : Nat),
      (∀ g ∈ gs, g.valid = true) → l.length < fuel →
      (∀ x : Nat, countInSlice l x = (if t = x then 2 else 0) + usesOf gs x) →
      searchHeads fuel l false hd ≠ [] := by
  induction gs with
  | nil =>
    intro l fuel hd t _ hf hcnt
    have hc : 2 ≤ countInSlice l t := by rw [hcnt t]; simp [usesOf]
    have hlen := removeFromSlice_length l t 2
    have hnil : removeFromSlice l t 2 = [] := by
      apply eq_nil_of_count_zero
      intro x
      rw [removeFromSlice_count, hcnt x]
      split_ifs <;> simp [usesOf]
    obtain ⟨f, rfl⟩ : ∃ f, fuel = f + 1 := ⟨fuel - 1, by omega⟩
    obtain ⟨f', rfl⟩ : ∃ f', f = f' + 1 := ⟨f - 1, by omega⟩
    rw [searchHeads_succ (f' + 1) l false hd (by omega)]
    have ht : t ∈ l := (countInSlice_pos_iff l t).1 (by omega)
    have h1 := count_headBranch_le_headsOfTile (searchHeads (f' + 1)) l t hd
      ⟨TileGroupType.Toitsu, [t, t]⟩ hc
    have h2 := count_headsLoop_one (searchHeads (f' + 1)) l false hd
      ⟨TileGroupType.Toitsu, [t, t]⟩ t l [] ht rfl
    rw [hnil, searchHeads_nil] at h1
    simp only [List.count_singleton_self] at h1
    have h4 : 0 < List.count (⟨TileGroupType.Toitsu, [t, t]⟩ : TileGroup)
        (headsLoop (searchHeads (f' + 1)) l l [] false hd) := by omega
    exact List.ne_nil_of_mem (mem_of_count_pos h4)
  | cons g gs ih =>
    intro l fuel hd t hv hf hcnt
    have ha : g.avail l = true :=
      g.avail_of_valid l (hv g (List.mem_cons_self _ _))
        (fun x => by rw [hcnt x, usesOf_cons]; omega)
    have hlen := g.remove_length l ha
    obtain ⟨f, rfl⟩ : ∃ f, fuel = f + 1 := ⟨fuel - 1, by omega⟩
    refine searchHeads_ne_nil_of_pick f l false hd g ha ?_
    refine ih _ f hd t (fun g' hg' => hv g' (List.mem_cons_of_mem _ hg')) (by omega) ?_
    intro x
    rw [g.remove_count, hcnt x, usesOf_cons]
    omega


/-! ## Partitions and picks -/

theorem countInSlice_eq_count (l : List BaseTile) (x : Nat) :
    countInSlice l x = List.count x l := by
  induction l with
  | nil => rfl
  | cons a l ih =>
    rw [countInSlice_cons, ih]
    by_cases h : a = x
    · subst h
      rw [if_pos rfl, List.count_cons_self]; omega
    · rw [if_neg h, List.count_cons_of_ne (Ne.symm h)]; omega

theorem countInSlice_append (l1 l2 : List BaseTile) (x : Nat) :
    countInSlice (l1 ++ l2) x = countInSlice l1 x + countInSlice l2 x := by
  simp only [countInSlice_eq_count, List.count_append]

theorem countInSlice_perm {l1 l2 : List BaseTile} (h : l1.Perm l2) (x : Nat) :
    countInSlice l1 x = countInSlice l2 x := by
  simp only [countInSlice_eq_count]
  exact h.count_eq x

theorem sortTiles_perm (l : List BaseTile) : (sortTiles l).Perm l :=
  List.perm_insertionSort _ l

theorem sortTiles_length (l : List BaseTile) : (sortTiles l).length = l.length :=
  List.length_insertionSort _ l

theorem countInSlice_nil (x : Nat) : countInSlice [] x = 0 := rfl

theorem GroupPick.toGroup_count (g : GroupPick) (x : Nat) :
    countInSlice g.toGroup.Tiles x = g.uses x := by
  cases g with
  | koutsu t =>
    simp only [GroupPick.toGroup, GroupPick.uses]
    rw [countInSlice_cons, countInSlice_cons, countInSlice_cons, countInSlice_nil]
    split_ifs <;> rfl
  | shuntsu t =>
    simp only [GroupPick.toGroup, GroupPick.uses]
    rw [countInSlice_cons, countInSlice_cons, countInSlice_cons, countInSlice_nil]
    split_ifs <;> omega

theorem bodyTiles_count (gs : List GroupPick) (x : Nat) :
    countInSlice ((gs.map GroupPick.toGroup).foldr (fun g acc => g.Tiles ++ acc) []) x =
      usesOf gs x := by
  induction gs with
  | nil => rfl
  | cons g gs ih =>
    simp only [List.map_cons, List.foldr_cons, countInSlice_append, ih, g.toGroup_count,
      usesOf_cons]

theorem uses_le_usesOf (gs : List GroupPick) (g : GroupPick) (hg : g ∈ gs) (x : Nat) :
    g.uses x ≤ usesOf gs x := by
  induction gs with
  | nil => simp at hg
  | cons a gs ih =>
    rw [usesOf_cons]
    rcases List.mem_cons.1 hg with e | e
    · subst e; omega
    · have := ih e; omega

theorem goodHead_of_not_bad : ∀ t : Nat, t < 32 → isShuntsuBadHead t = false →
    t < 27 ∧ t % 9 ≤ 6 := by
  decide

theorem not_bad_of_goodHead : ∀ t : Nat, t < 27 → t % 9 ≤ 6 → isShuntsuBadHead t = false := by
  decide

theorem isPairGroup_iff (g : TileGroup) :
    isPairGroup g = true ↔ ∃ a : Nat, g = ⟨TileGroupType.Toitsu, [a, a]⟩ := by
  obtain ⟨ty, tiles⟩ := g
  constructor
  · intro h
    unfold isPairGroup at h
    match tiles, h with
    | [a, b], h =>
      simp only [decide_eq_true_eq] at h
      obtain ⟨h1, h2⟩ := h
      subst h1 h2
      exact ⟨a, rfl⟩
  · rintro ⟨a, h⟩
    cases h
    simp [isPairGroup]

theorem isMeldGroup_iff (g : TileGroup) :
    isMeldGroup g = true ↔ ∃ a : Nat, g = ⟨TileGroupType.Koutsu, [a, a, a]⟩ ∨
      (g = ⟨TileGroupType.Shuntsu, [a, a + 1, a + 2]⟩ ∧ a < 27 ∧ a % 9 ≤ 6) := by
  obtain ⟨ty, tiles⟩ := g
  constructor
  · intro h
    unfold isMeldGroup at h
    match tiles, h with
    | [a, b, c], h =>
      simp only [decide_eq_true_eq] at h
      rcases h with ⟨h1, h2, h3⟩ | ⟨h1, h2, h3, h4, h5⟩
      · subst h1 h2 h3
        exact ⟨a, Or.inl rfl⟩
      · subst h1 h2 h3
        exact ⟨a, Or.inr ⟨rfl, h4, h5⟩⟩
  · rintro ⟨a, h | ⟨h, h1, h2⟩⟩
    · cases h
      simp [isMeldGroup]
    · cases h
      simp [isMeldGroup, h1, h2]


theorem pickOfGroup_of_meld (g : TileGroup) (h : isMeldGroup g = true) :
    (pickOfGroup g).toGroup = g ∧ (pickOfGroup g).valid = true := by
  obtain ⟨a, h | ⟨h, h1, h2⟩⟩ := (isMeldGroup_iff g).1 h
  · subst h
    exact ⟨rfl, rfl⟩
  · subst h
    refine ⟨rfl, ?_⟩
    simp only [pickOfGroup, GroupPick.valid, List.headD_cons]
    rw [not_bad_of_goodHead a h1 h2]
    rfl

theorem isDecompositionOf_perm (ct : CompletedTiles) (l1 l2 : List BaseTile)
    (hp : l1.Perm l2) (h : isDecompositionOf ct l1) : isDecompositionOf ct l2 :=
  ⟨h.1, h.2.1, h.2.2.1, h.2.2.2.trans hp⟩

/-- For 14 tile kinds below 34, `GetAllCompletedTiles` returns a non-empty list
exactly when the tiles have a partition into a pair and four groups, each a
triplet or a sequence inside one number suit. -/
theorem GetAllCompletedTiles_ne_nil_iff (tiles : List BaseTile) (hlen : tiles.length = 14)
    (hrange : ∀ t ∈ tiles, t < 34) :
    GetAllCompletedTiles tiles ≠ [] ↔ ∃ ct, isDecompositionOf ct tiles := by
  obtain ⟨body, heq⟩ := GetAllCompletedTiles_eq_map tiles hlen
  have hS := sortTiles_length tiles
  have hperm := sortTiles_perm tiles
  rw [heq]
  constructor
  · intro hne
    have hne' : searchHeads 15 (sortTiles tiles) false TileGroup.zero ≠ [] := by
      intro h; rw [h] at hne; exact hne rfl
    obtain ⟨h, hm⟩ := List.exists_mem_of_ne_nil _ hne'
    obtain ⟨gs, hv, hcase⟩ := searchHeads_sound 15 _ _ _ _ hm
    rcases hcase with ⟨_, hl3, _⟩ | ⟨_, t, _, hl3, hcnt⟩
    · omega
    · have hgs : gs.length = 4 := by omega
      refine ⟨⟨⟨TileGroupType.Toitsu, [t, t]⟩, gs.map GroupPick.toGroup⟩,
        (isPairGroup_iff _).2 ⟨t, rfl⟩, by simp [hgs], ?_, ?_⟩
      · intro g hg
        obtain ⟨p, hp, rfl⟩ := List.mem_map.1 hg
        have hvp := hv p hp
        cases p with
        | koutsu u => exact (isMeldGroup_iff _).2 ⟨u, Or.inl rfl⟩
        | shuntsu u =>
          have hu := uses_le_usesOf gs _ hp (u + 2)
          have hu1 : (GroupPick.shuntsu u).uses (u + 2) = 1 := by
            simp [GroupPick.uses]
          rw [hu1] at hu
          have hc := hcnt (u + 2)
          have hmem : u + 2 ∈ sortTiles tiles := (countInSlice_pos_iff _ _).1 (by omega)
          have hlt : (u + 2 : Nat) < 34 := hrange _ (hperm.mem_iff.1 hmem)
          simp only [GroupPick.valid, Bool.not_eq_true'] at hvp
          obtain ⟨h1, h2⟩ := goodHead_of_not_bad u (by omega) hvp
          exact (isMeldGroup_iff _).2 ⟨u, Or.inr ⟨rfl, h1, h2⟩⟩
      · refine (List.perm_iff_count.2 (fun x => ?_)).trans hperm
        rw [← countInSlice_eq_count, ← countInSlice_eq_count, hcnt x]
        unfold tilesOf
        rw [countInSlice_append, bodyTiles_count, countInSlice_cons, countInSlice_cons,
          countInSlice_nil]
        split_ifs <;> omega
  · rintro ⟨ct, hpair, hlen4, hmeld, hp⟩
    obtain ⟨a, ha⟩ := (isPairGroup_iff _).1 hpair
    have hbody : (ct.Body.map pickOfGroup).map GroupPick.toGroup = ct.Body := by
      rw [List.map_map]
      conv_rhs => rw [← List.map_id ct.Body]
      exact List.map_congr_left (fun g hg => (pickOfGroup_of_meld g (hmeld g hg)).1)
    have hv : ∀ g ∈ ct.Body.map pickOfGroup, g.valid = true := by
      intro g hg
      obtain ⟨g', hg', rfl⟩ := List.mem_map.1 hg
      exact (pickOfGroup_of_meld g' (hmeld g' hg')).2
    have hcnt : ∀ x : Nat, countInSlice (sortTiles tiles) x =
        (if a = x then 2 else 0) + usesOf (ct.Body.map pickOfGroup) x := by
      intro x
      rw [countInSlice_perm hperm x, ← countInSlice_perm hp x]
      unfold tilesOf
      rw [countInSlice_append, ← hbody, bodyTiles_count, hbody, ha, countInSlice_cons,
        countInSlice_cons, countInSlice_nil]
      split_ifs <;> omega
    have := searchHeads_complete _ (sortTiles tiles) 15 TileGroup.zero a hv (by omega) hcnt
    intro hnil
    exact this (List.map_eq_nil_iff.1 hnil)

/-- `CanWinWithTiles` holds exactly for 14 tiles that have a partition into a
pair and four groups (for tile kinds below 34). -/
theorem CanWinWithTiles_iff (tiles : List BaseTile) (hrange : ∀ t ∈ tiles, t < 34) :
    CanWinWithTiles tiles = true ↔
      tiles.length = 14 ∧ ∃ ct, isDecompositionOf ct tiles := by
  unfold CanWinWithTiles
  by_cases hlen : tiles.length = 14
  · rw [if_neg (by simp [hlen])]
    simp only [decide_eq_true_eq, hlen, true_and]
    rw [← GetAllCompletedTiles_ne_nil_iff tiles hlen hrange]
    exact List.length_pos
  · rw [if_pos hlen]
    simp [hlen]


/-! ## Waits of a hand without called melds -/

theorem foldl_append_if (P : Nat → Bool) (l : List Nat) :
    ∀ acc : List Nat,
      l.foldl (fun a x => if P x then a ++ [x] else a) acc = acc ++ l.filter P := by
  induction l with
  | nil => intro acc; simp
  | cons x l ih =>
    intro acc
    rw [List.foldl_cons, ih, List.filter_cons]
    split_ifs <;> simp

theorem UpdateAtariTiles_eq_filter (p : Player) :
    p.UpdateAtariTiles.AtariTiles =
      (List.range 34).filter
        (fun tile => CanWinWithTiles (sortTiles (ConvertTilesToBaseTiles p.Hand ++ [tile]))) := by
  unfold Player.UpdateAtariTiles
  simp only
  rw [foldl_append_if]
  rfl

/-- For a hand of 13 concealed tiles (kinds below 34) `UpdateAtariTiles` leaves
in `AtariTiles`, in ascending order and without repetition, exactly the kinds
`k` in 0..33 for which the 13 kinds with `k` added have a partition into a pair
and four groups. -/
theorem UpdateAtariTiles_thirteen (p : Player) (h13 : p.Hand.length = 13)
    (hrange : ∀ t ∈ p.Hand, t.Tile < 34) :
    List.Sorted (fun a b => a < b) p.UpdateAtariTiles.AtariTiles ∧
    ∀ k : Nat, k ∈ p.UpdateAtariTiles.AtariTiles ↔
      k < 34 ∧ ∃ ct, isDecompositionOf ct (p.Hand.map (fun t => t.Tile) ++ [k]) := by
  rw [UpdateAtariTiles_eq_filter]
  refine ⟨List.Pairwise.filter _ (List.pairwise_lt_range 34), fun k => ?_⟩
  have hperm : (sortTiles (ConvertTilesToBaseTiles p.Hand ++ [k])).Perm
      (p.Hand.map (fun t => t.Tile) ++ [k]) :=
    (sortTiles_perm _).trans ((sortTiles_perm _).append_right _)
  rw [List.mem_filter, List.mem_range]
  constructor
  · rintro ⟨hk, hwin⟩
    refine ⟨hk, ?_⟩
    have hr : ∀ t ∈ sortTiles (ConvertTilesToBaseTiles p.Hand ++ [k]), t < 34 := by
      intro t ht
      rcases List.mem_append.1 (hperm.mem_iff.1 ht) with h | h
      · obtain ⟨t', ht', rfl⟩ := List.mem_map.1 h
        exact hrange t' ht'
      · rw [List.mem_singleton.1 h]; exact hk
    obtain ⟨_, ct, hct⟩ := (CanWinWithTiles_iff _ hr).1 hwin
    exact ⟨ct, isDecompositionOf_perm ct _ _ hperm hct⟩
  · rintro ⟨hk, ct, hct⟩
    refine ⟨hk, ?_⟩
    have hr : ∀ t ∈ sortTiles (ConvertTilesToBaseTiles p.Hand ++ [k]), t < 34 := by
      intro t ht
      rcases List.mem_append.1 (hperm.mem_iff.1 ht) with h | h
      · obtain ⟨t', ht', rfl⟩ := List.mem_map.1 h
        exact hrange t' ht'
      · rw [List.mem_singleton.1 h]; exact hk
    refine (CanWinWithTiles_iff _ hr).2 ⟨?_, ct, isDecompositionOf_perm ct _ _ hperm.symm hct⟩
    rw [hperm.length_eq]
    simp [h13]

/-! ## The han table -/

/-- The han values of `GetFanCount` that agree with the catalogue: 1 for tanyao,
pinfu, iipeikou, the yakuhai entries and menzen-tsumo; 2 for sanshoku, ittsu,
chanta, honchanta, sanshoku-doukou, toitoi, sanankou, sankantsu and double
riichi; 3 for honitsu, junchan and ryanpeikou; 6 for chinitsu; 13 for the
eleven yakuman of the catalogue. -/
theorem GetFanCount_catalogue_values :
    (∀ y ∈ [Tanyao, Pinfu, Iipeikou, Yakuhai, YakuhaiWind, YakuhaiWhiteBoard,
        YakuhaiGreenBoard, YakuhaiRedBoard, Menzentsumo], GetFanCount y = 1) ∧
    (∀ y ∈ [Sanshokusequence, Ittsu, Chanta, Honchanta, Sanshokudoukou, Toitoi, Sanankou,
        Sangantu, Dabururiichi], GetFanCount y = 2) ∧
    (∀ y ∈ [Honitsu, Junchan, Ryanpeikou], GetFanCount y = 3) ∧
    GetFanCount Chinitsu = 6 ∧
    (∀ y ∈ [Kokushi, Suankou, Daisangen, Shosuushi, Daisuushi, Tsuisou, Ryuuisou, Chinroutou,
        Churen, Tenhou, Chihou], GetFanCount y = 13) := by
  decide

/-- C11: `GetFanCount` gives seven pairs 25 han and honroutou 13 han, where the
catalogue has 2 han for each; with `Kazoe` they are three more yaku of at
least 13 han besides the eleven yakuman of the catalogue. -/
theorem GetFanCount_chiitoitsu_honroutou :
    GetFanCount Chiitoitsu = 25 ∧ GetFanCount Honroutou = 13 ∧ GetFanCount Kazoe = 13 ∧
    GetFanCount Chiitoitsu ≠ 2 ∧ GetFanCount Honroutou ≠ 2 := by
  decide

/-! ## Han of a scored variant -/

/-- Every han value of the table lies between 0 and 25. -/
theorem GetFanCount_range (y : Nat) : 0 ≤ GetFanCount y ∧ GetFanCount y ≤ 25 := by
  by_cases h : y < 37
  · interval_cases y <;> decide
  · have hnone : yakuInfoTable y = none := by
      unfold yakuInfoTable
      split <;> first | rfl | (exfalso; omega)
    simp [GetFanCount, hnone]

/-- The loop of `CalculateFan` over yaku below 13 han adds up their han. -/
theorem CalculateFan_loop_sum (yakus : List Yaku) :
    ∀ c : Int, 0 ≤ c → c + 13 * yakus.length < 1000000 →
      (∀ y ∈ yakus, GetFanCount y < 13) →
      yakus.foldl
        (fun (c : Int × Int) yaku =>
          let fanVal := GetFanCount yaku
          if fanVal ≥ 13 then (c.1, wrapInt (c.2 + 1)) else (wrapInt (c.1 + fanVal), c.2))
        (c, (0 : Int)) = (c + (yakus.map GetFanCount).sum, 0) := by
  induction yakus with
  | nil => intro c _ _ _; simp
  | cons y ys ih =>
    intro c hc0 hc hno
    have hy : GetFanCount y < 13 := hno y (List.mem_cons_self _ _)
    have hy0 := (GetFanCount_range y).1
    have hlen : ((y :: ys).length : Int) = ys.length + 1 := by simp
    rw [hlen] at hc
    have hw : wrapInt (c + GetFanCount y) = c + GetFanCount y :=
      wrapInt_of_range _ (by omega) (by omega)
    rw [List.foldl_cons]
    simp only [ge_iff_le, if_neg (not_le.mpr hy), hw]
    rw [ih (c + GetFanCount y) (by omega) (by omega)
      (fun z hz => hno z (List.mem_cons_of_mem _ hz))]
    simp only [List.map_cons, List.sum_cons]
    rw [add_assoc]

/-- For at most 37 yaku below 13 han `CalculateFan` is the sum of their table
values, whatever the player. -/
theorem CalculateFan_eq_sum (s : ScoreCounter) (yakus : List Yaku) (hlen : yakus.length ≤ 37)
    (hno : ∀ y ∈ yakus, GetFanCount y < 13) :
    s.CalculateFan yakus = (yakus.map GetFanCount).sum := by
  have h := CalculateFan_loop_sum yakus 0 (le_refl _) (by omega) hno
  unfold ScoreCounter.CalculateFan
  simp only [h, zero_add]
  simp

/-- For the tiles scored when `openHandPlayer` wins on 9s the decomposer returns
twenty-four times the same entry. -/
theorem GetAllCompletedTiles_openHandTiles :
    GetAllCompletedTiles (ConvertTilesToBaseTiles openHandPlayer.Hand ++ [_9s]) =
      List.replicate 24 openHandReturned := by
  set_option maxRecDepth 20000 in decide

/-- The score of the ron of `openHandPlayer` on 9s: chanta and honchanta, 4 han. -/
theorem ronScore_openHandPlayer :
    ronScore eastTable openHandPlayer ⟨_9s, false, 105⟩ =
      some openHandResult := by
  simp only [ronScore, CalculateScore, FullScoreCounter.variantsOf, FullScoreCounter.variantsAt,
    FullScoreCounter.evaluateVariant, FullScoreCounter.calculateFuForVariant,
    FullScoreCounter.CheckYaku, FullScoreCounter.CheckPinfu,
    FullScoreCounter.CheckIipeikou, FullScoreCounter.CheckRyanpeikou, FullScoreCounter.CheckChanta,
    FullScoreCounter.CheckHonchanta, FullScoreCounter.CheckToitoi, FullScoreCounter.CheckSanankou,
    FullScoreCounter.CheckSuankou, FullScoreCounter.CheckSiiankou,
    GetAllCompletedTiles_openHandTiles]
  set_option maxRecDepth 20000 in decide

/-- C12 (counterexample): for an open hand the yaku list `[Chanta]` has 2 han,
as for a closed hand, not 1; and the ron of the open hand 1m2m3m 7m8m9m 1p2p3p
9s with a called pon of 1z on 9s is scored with 4 han (chanta and honchanta at
2 han each), not with 1 han. -/
theorem CalculateFan_open_chanta_two_han :
    openHandPlayer.IsMenzen = false ∧
    (ScoreCounter.mk openHandPlayer).CalculateFan [Chanta] = 2 ∧
    (ScoreCounter.mk (closedPlayer [])).CalculateFan [Chanta] = 2 ∧
    (ronScore eastTable openHandPlayer ⟨_9s, false, 105⟩).map (fun r => r.Fan) = some 4 := by
  refine ⟨by decide, by decide, by decide, ?_⟩
  rw [ronScore_openHandPlayer]
  rfl

/-- C12 (amended): the han total of every scored variant without a yaku of 13
han or more is the sum of the table values of its yaku, for open and closed
hands alike: no yaku counts one han less in an open hand. -/
theorem evaluateVariant_han_is_table_sum (s0 : FullScoreCounter) (ct : CompletedTiles)
    (callGroups : List CallGroup) (hasHead : Bool) (bodyOffset combinedIndex : Nat)
    (shuntsuPos : Int) (r : ScoreCounterResult)
    (h : s0.evaluateVariant ct callGroups hasHead bodyOffset combinedIndex shuntsuPos = some r)
    (hno : ∀ y ∈ r.Yakus, GetFanCount y < 13) :
    r.Fan = (r.Yakus.map GetFanCount).sum := by
  unfold FullScoreCounter.evaluateVariant at h
  simp only [] at h
  split at h
  · exact absurd h (by simp)
  · unfold ScoreCounter.evaluateVariant at h
    simp only [] at h
    have hlen : ∀ (f : Yaku → Bool), ((List.range MaxYaku).filter f).length ≤ 37 := by
      intro f
      refine le_trans (List.length_filter_le _ _) ?_
      simp [MaxYaku]
    split at h
    · exact absurd h (by simp)
    · split at h
      · injection h with h
        subst h
        exact CalculateFan_eq_sum s0.toScoreCounter _ (hlen _) hno
      · injection h with h
        subst h
        exact CalculateFan_eq_sum s0.toScoreCounter _ (hlen _) hno

/-- The amended statement of C12 at the variant of the ron of `openHandPlayer`
in which 9s completes the head. -/
theorem evaluateVariant_han_is_table_sum_witness :
    openHandCounter.evaluateVariant openHandReturned openHandPlayer.CallGroups true 2 0 (-1) =
      some openHandResult ∧
    (∀ y ∈ openHandResult.Yakus, GetFanCount y < 13) ∧
    openHandResult.Fan = (openHandResult.Yakus.map GetFanCount).sum := by
  have h : openHandCounter.evaluateVariant openHandReturned openHandPlayer.CallGroups true 2 0
      (-1) = some openHandResult := by
    simp only [openHandCounter, FullScoreCounter.evaluateVariant,
      FullScoreCounter.calculateFuForVariant,
      FullScoreCounter.CheckYaku, FullScoreCounter.CheckPinfu,
      FullScoreCounter.CheckIipeikou, FullScoreCounter.CheckRyanpeikou,
      FullScoreCounter.CheckChanta, FullScoreCounter.CheckHonchanta,
      FullScoreCounter.CheckToitoi, FullScoreCounter.CheckSanankou,
      FullScoreCounter.CheckSuankou, FullScoreCounter.CheckSiiankou,
      GetAllCompletedTiles_openHandTiles]
    set_option maxRecDepth 20000 in decide
  exact ⟨h, by decide, evaluateVariant_han_is_table_sum _ _ _ _ _ _ _ _ h (by decide)⟩

/-! ## Yakuhai -/

/-- The five yakuhai entries of `CheckYaku` are one and the same test. -/
theorem CheckYaku_yakuhaiEntries (s : FullScoreCounter) :
    ∀ y ∈ yakuhaiEntries, s.CheckYaku y = s.CheckYakuhai := by
  intro y hy
  simp only [yakuhaiEntries, List.mem_cons, List.mem_singleton, List.not_mem_nil, or_false] at hy
  rcases hy with h | h | h | h | h <;> subst h <;> rfl

/-- For the tiles 1p2p3p 4s4s 5z5z5z the decomposer returns six times the same
entry. -/
theorem GetAllCompletedTiles_dragonTripletHand :
    GetAllCompletedTiles (ConvertTilesToBaseTiles dragonTripletHand ++ [_4s]) =
      List.replicate 6 ⟨⟨TileGroupType.Toitsu, [_4s, _4s]⟩,
        [⟨TileGroupType.Koutsu, [_5z, _5z, _5z]⟩, ⟨TileGroupType.Shuntsu, [_1p, _2p, _3p]⟩]⟩ := by
  set_option maxRecDepth 20000 in decide

/-- For the tiles 1p2p3p 6s7s8s 5z5z the decomposer returns six times the same
entry. -/
theorem GetAllCompletedTiles_dragonPairHand :
    GetAllCompletedTiles (ConvertTilesToBaseTiles dragonPairHand ++ [_5z]) =
      List.replicate 6 ⟨⟨TileGroupType.Toitsu, [_5z, _5z]⟩,
        [⟨TileGroupType.Shuntsu, [_6s, _7s, _8s]⟩, ⟨TileGroupType.Shuntsu, [_1p, _2p, _3p]⟩]⟩ := by
  set_option maxRecDepth 20000 in decide

/-- C13: a hand with one triplet of white dragons is scored with the five
yakuhai entries, 5 han, where the specification has 1 han; a hand with a mere
pair of white dragons and no triplet is scored with the same five entries, 5 han,
where the specification has none; and the called pon of the round and seat wind
of `openHandPlayer` adds no yakuhai entry. -/
theorem CalculateScore_yakuhai_five_han :
    ronScore eastTable (twoChiPlayer dragonTripletHand) ⟨_4s, false, 85⟩ =
      some { Fan := 5, Fu := 40, BaseScore := 2000, TsumoScore := (4000, 2000, 2000),
             RonScore := 8000, IsYakuman := false, Yakus := yakuhaiEntries } ∧
    ronScore eastTable (twoChiPlayer dragonPairHand) ⟨_5z, false, 125⟩ =
      some { Fan := 5, Fu := 30, BaseScore := 2000, TsumoScore := (4000, 2000, 2000),
             RonScore := 8000, IsYakuman := false, Yakus := yakuhaiEntries } ∧
    (ronScore eastTable openHandPlayer ⟨_9s, false, 105⟩).map (fun r => r.Yakus) =
      some [Chanta, Honchanta] := by
  refine ⟨?_, ?_, ?_⟩
  · simp only [ronScore, CalculateScore, FullScoreCounter.variantsOf,
      FullScoreCounter.variantsAt,
      FullScoreCounter.evaluateVariant, FullScoreCounter.calculateFuForVariant,
      FullScoreCounter.CheckYaku, FullScoreCounter.CheckPinfu,
      FullScoreCounter.CheckIipeikou, FullScoreCounter.CheckRyanpeikou,
      FullScoreCounter.CheckChanta, FullScoreCounter.CheckHonchanta,
      FullScoreCounter.CheckToitoi, FullScoreCounter.CheckSanankou,
      FullScoreCounter.CheckSuankou, FullScoreCounter.CheckSiiankou, twoChiPlayer,
      GetAllCompletedTiles_dragonTripletHand]
    set_option maxRecDepth 20000 in decide
  · simp only [ronScore, CalculateScore, FullScoreCounter.variantsOf,
      FullScoreCounter.variantsAt,
      FullScoreCounter.evaluateVariant, FullScoreCounter.calculateFuForVariant,
      FullScoreCounter.CheckYaku, FullScoreCounter.CheckPinfu,
      FullScoreCounter.CheckIipeikou, FullScoreCounter.CheckRyanpeikou,
      FullScoreCounter.CheckChanta, FullScoreCounter.CheckHonchanta,
      FullScoreCounter.CheckToitoi, FullScoreCounter.CheckSanankou,
      FullScoreCounter.CheckSuankou, FullScoreCounter.CheckSiiankou, twoChiPlayer,
      GetAllCompletedTiles_dragonPairHand]
    set_option maxRecDepth 20000 in decide
  · rw [ronScore_openHandPlayer]
    rfl

/-! ## Seven pairs -/

/-- Without a decomposition `CalculateScore` has no candidate and returns nil. -/
theorem CalculateScore_no_decomposition (table : Option Table) (player : Player)
    (tiles : List BaseTile) (callGroups : List CallGroup) (winTile : BaseTile)
    (isSevenPair : Bool) (h : GetAllCompletedTiles tiles = []) :
    CalculateScore table player tiles callGroups winTile isSevenPair = none := by
  simp [CalculateScore, h, GetBestResult]

/-- The decomposer finds nothing for the seven pairs 1m1m 4m4m 7p7p 9p9p 2s2s
5s5s 6z6z, in the order of the tiles of a ron on 9p and in sorted order. -/
theorem GetAllCompletedTiles_sevenPairs :
    GetAllCompletedTiles (ConvertTilesToBaseTiles sevenPairsWaitHand ++ [_9p]) = [] ∧
    GetAllCompletedTiles sevenPairsHand = [] := by
  decide

/-- C14: for the closed seven pairs 1m1m 4m4m 7p7p 2s2s 5s5s 6z6z 9p9p, which
`IsSevenPairPattern` recognises, `CalculateScore` returns nil, both when called
as for the ron on 9p and when called on the sorted tiles with the seven-pairs
flag set: there is no result with chiitoitsu, 2 han and 25 fu. -/
theorem CalculateScore_sevenPairs_nil :
    IsSevenPairPattern (ConvertTilesToBaseTiles sevenPairsWaitHand ++ [_9p]) = true ∧
    ronScore eastTable (closedPlayer sevenPairsWaitHand) ⟨_9p, false, 69⟩ = none ∧
    CalculateScore (some eastTable) (closedPlayer sevenPairsWaitHand) sevenPairsHand [] _9p
      true = none := by
  refine ⟨by decide, ?_, ?_⟩
  · unfold ronScore
    exact CalculateScore_no_decomposition (some eastTable) (closedPlayer sevenPairsWaitHand)
      (ConvertTilesToBaseTiles sevenPairsWaitHand ++ [_9p]) [] _9p _
      GetAllCompletedTiles_sevenPairs.1
  · exact CalculateScore_no_decomposition (some eastTable) (closedPlayer sevenPairsWaitHand)
      sevenPairsHand [] _9p true GetAllCompletedTiles_sevenPairs.2

/-- For 14 tiles every entry returned by the decomposer has a body of at most
four groups. -/
theorem GetAllCompletedTiles_body_le (tiles : List BaseTile) (hlen : tiles.length = 14) :
    ∀ ct ∈ GetAllCompletedTiles tiles, ct.Body.length ≤ 4 := by
  have hinv : SearchInv (sortTiles tiles)
      (TileSplitter.Reset ⟨⟨TileGroup.zero, GroupSlice.nil⟩, false, []⟩) := by
    refine ⟨Nat.le_refl _, ?_, fun _ => rfl⟩
    simp [TileSplitter.Reset, GroupSlice.nil, sortTiles, List.length_insertionSort, hlen]
  obtain ⟨_, _, _, _, _, _, h7⟩ := search_ok 15 _ _ hinv
  intro ct hct
  unfold GetAllCompletedTiles at hct
  simp only [hlen] at hct
  rw [if_neg (by decide), h7, List.map_map] at hct
  obtain ⟨h, _, rfl⟩ := List.mem_map.mp hct
  simp only [Function.comp, derefCompleted, readSlice]
  exact le_trans (List.length_take_le _ _) (le_refl 4)

/-- The result of `GetBestResult` is one of the candidates. -/
theorem GetBestResult_mem (l : List ScoreCounterResult) (r : ScoreCounterResult)
    (h : GetBestResult l = some r) : r ∈ l := by
  cases l with
  | nil => simp [GetBestResult] at h
  | cons first rest =>
    simp only [GetBestResult, Option.some.injEq] at h
    subst h
    have key : ∀ (rest : List ScoreCounterResult) (first : ScoreCounterResult),
        rest.foldl (fun best result => if replacesBest result best then result else best) first
          ∈ first :: rest := by
      intro rest
      induction rest with
      | nil => intro first; simp
      | cons x xs ih =>
        intro first
        rw [List.foldl_cons]
        by_cases hx : replacesBest x first = true
        · rw [if_pos hx]
          exact List.mem_cons_of_mem _ (ih x)
        · rw [if_neg hx]
          rcases List.mem_cons.mp (ih first) with e | hm
          · rw [e]; exact List.mem_cons_self _ _
          · exact List.mem_cons_of_mem _ (List.mem_cons_of_mem _ hm)
    exact key rest first

/-- Every candidate collected at a group comes from a call of `evaluateVariant`. -/
theorem variantsAt_mem (s : FullScoreCounter) (ct : CompletedTiles)
    (callGroups : List CallGroup) (hasHead : Bool) (bodyOffset i : Nat) (g : TileGroup)
    (r : ScoreCounterResult) (h : r ∈ s.variantsAt ct callGroups hasHead bodyOffset i g) :
    ∃ pos : Int, s.evaluateVariant ct callGroups hasHead bodyOffset i pos = some r := by
  unfold FullScoreCounter.variantsAt at h
  split at h
  · obtain ⟨pos, _, hpos⟩ := List.mem_filterMap.mp h
    split at hpos
    · exact absurd hpos (by simp)
    · exact ⟨_, hpos⟩
  · split at h
    · exact ⟨-1, by simpa using h⟩
    · exact absurd h (List.not_mem_nil r)

/-- The yaku and the fu of a scored variant: the yaku are those below `MaxYaku`
that `CheckYaku` accepts in the context of the variant, the fu is the value of
`calculateFuForVariant`. -/
theorem evaluateVariant_yakus_fu (s0 : FullScoreCounter) (ct : CompletedTiles)
    (callGroups : List CallGroup) (hasHead : Bool) (bodyOffset combinedIndex : Nat)
    (shuntsuPos : Int) (r : ScoreCounterResult)
    (h : s0.evaluateVariant ct callGroups hasHead bodyOffset combinedIndex shuntsuPos = some r) :
    ∃ s : FullScoreCounter,
      s.IsSevenPair = decide (ct.Body.length = 7 ∧ ct.Head.Tiles.length = 0) ∧
      r.Yakus = (List.range MaxYaku).filter (fun y => s.CheckYaku y) ∧
      ∃ tsumo, r.Fu = s.calculateFuForVariant ct callGroups tsumo hasHead bodyOffset
        combinedIndex shuntsuPos := by
  unfold FullScoreCounter.evaluateVariant at h
  simp only [] at h
  split at h
  · exact absurd h (by simp)
  · unfold ScoreCounter.evaluateVariant at h
    simp only [] at h
    split at h
    · exact absurd h (by simp)
    · split at h
      · injection h with h
        subst h
        exact ⟨_, rfl, rfl, _, rfl⟩
      · injection h with h
        subst h
        exact ⟨_, rfl, rfl, _, rfl⟩

/-- The rounding of the fu gives a multiple of ten. -/
theorem roundUpTen_mod_ten (x : Int) :
    (if x % 10 ≠ 0 then (x / 10 + 1) * 10 else x) % 10 = 0 := by
  split <;> omega

/-- Unless the body has seven groups and there is no head, the fu of a variant
is a multiple of ten. -/
theorem calculateFuForVariant_mod_ten (s : FullScoreCounter) (ct : CompletedTiles)
    (callGroups : List CallGroup) (tsumo hasHead : Bool) (bodyOffset combinedIndex : Nat)
    (shuntsuPos : Int) (h : ¬ (ct.Body.length = 7 ∧ ct.Head.Tiles.length = 0)) :
    s.calculateFuForVariant ct callGroups tsumo hasHead bodyOffset combinedIndex shuntsuPos
      % 10 = 0 := by
  unfold FullScoreCounter.calculateFuForVariant
  rw [if_neg h]
  exact roundUpTen_mod_ten _

/-- For every call of `CalculateScore` on 14 tiles: the result, if any, does
not list chiitoitsu and its fu is a multiple of ten, never 25. -/
theorem CalculateScore_never_chiitoitsu (table : Option Table) (player : Player)
    (tiles : List BaseTile) (callGroups : List CallGroup) (winTile : BaseTile)
    (isSevenPair : Bool) (hlen : tiles.length = 14) (r : ScoreCounterResult)
    (h : CalculateScore table player tiles callGroups winTile isSevenPair = some r) :
    Chiitoitsu ∉ r.Yakus ∧ r.Fu % 10 = 0 := by
  unfold CalculateScore at h
  simp only [] at h
  have hmem := GetBestResult_mem _ _ h
  obtain ⟨l, hl, hr⟩ := List.mem_flatten.mp hmem
  obtain ⟨ct, hct, rfl⟩ := List.mem_map.mp hl
  have hbody := GetAllCompletedTiles_body_le tiles hlen ct hct
  unfold FullScoreCounter.variantsOf at hr
  simp only [] at hr
  obtain ⟨l2, hl2, hr2⟩ := List.mem_flatten.mp hr
  obtain ⟨ig, _, rfl⟩ := List.mem_map.mp hl2
  obtain ⟨pos, hpos⟩ := variantsAt_mem _ _ _ _ _ _ _ _ hr2
  obtain ⟨s, hs, hy, tsumo, hfu⟩ := evaluateVariant_yakus_fu _ _ _ _ _ _ _ _ hpos
  have hnot : ¬ (ct.Body.length = 7 ∧ ct.Head.Tiles.length = 0) := fun h7 => by
    have := h7.1
    omega
  refine ⟨?_, ?_⟩
  · intro hc
    rw [hy] at hc
    have hcheck : s.CheckYaku Chiitoitsu = true := (List.mem_filter.mp hc).2
    have hchi : s.CheckYaku Chiitoitsu = s.CheckChiitoitsu := rfl
    rw [hchi] at hcheck
    unfold FullScoreCounter.CheckChiitoitsu at hcheck
    rw [hs, decide_eq_false hnot] at hcheck
    simp at hcheck
  · rw [hfu]
    exact calculateFuForVariant_mod_ten _ _ _ _ _ _ _ _ hnot

/-! ## Ron and the self-draw flag -/

/-- The step of `CountTile`. -/
theorem CountTile_cons (a : BaseTile) (l : List BaseTile) (t : BaseTile) :
    CountTile (a :: l) t = (if a = t then 1 else 0) + CountTile l t := rfl

/-- What `CountTile` counts in a concatenation. -/
theorem CountTile_append (l1 l2 : List BaseTile) (t : BaseTile) :
    CountTile (l1 ++ l2) t = CountTile l1 t + CountTile l2 t := by
  induction l1 with
  | nil => simp [CountTile]
  | cons a l ih => rw [List.cons_append, CountTile_cons, CountTile_cons, ih]; omega

/-- The tiles that the `Ron` case passes to `CalculateScore` always hold the
winning kind, so the test by which `evaluateVariant` recognises a self-drawn
win succeeds for every ron. -/
theorem ron_tiles_hold_winning_tile (hand : List Tile) (discarded : Tile) :
    decide (CountTile (ConvertTilesToBaseTiles hand ++ [discarded.Tile]) discarded.Tile > 0) =
      true := by
  rw [CountTile_append]
  simp [CountTile]

/-- For the tiles of `pinfuWaitHand` with a second 8p the decomposer returns
thirty times the same entry. -/
theorem GetAllCompletedTiles_pinfuWaitHand :
    GetAllCompletedTiles (ConvertTilesToBaseTiles pinfuWaitHand ++ [_8p]) =
      List.replicate 30 pinfuReturned := by
  set_option maxRecDepth 20000 in decide

/-- C15: the ron on 8p of the closed hand 2m2m 3m3m 4m4m 6p6p 7p7p 8p 5s5s, a
two-sided wait with all sequences and a valueless pair, is scored as a
self-drawn win: 20 fu, where the specification has 30 fu; with the self-draw
flag off `calculateFuForVariant` gives those 30 fu for the same variant. -/
theorem ronScore_pinfu_twenty_fu :
    ronScore eastTable (closedPlayer pinfuWaitHand) ⟨_8p, false, 65⟩ =
      some { Fan := 7, Fu := 20, BaseScore := 3000, TsumoScore := (6000, 3000, 3000),
             RonScore := 12000, IsYakuman := false,
             Yakus := [Tanyao, Pinfu, Iipeikou, Ryanpeikou, Menzentsumo] } ∧
    pinfuCounter.calculateFuForVariant pinfuReturned [] true true 1 1 2 = 20 ∧
    pinfuCounter.calculateFuForVariant pinfuReturned [] false true 1 1 2 = 30 := by
  refine ⟨?_, ?_, ?_⟩
  · simp only [ronScore, CalculateScore, FullScoreCounter.variantsOf,
      FullScoreCounter.variantsAt,
      FullScoreCounter.evaluateVariant, FullScoreCounter.calculateFuForVariant,
      FullScoreCounter.CheckYaku, FullScoreCounter.CheckPinfu,
      FullScoreCounter.CheckIipeikou, FullScoreCounter.CheckRyanpeikou,
      FullScoreCounter.CheckChanta, FullScoreCounter.CheckHonchanta,
      FullScoreCounter.CheckToitoi, FullScoreCounter.CheckSanankou,
      FullScoreCounter.CheckSuankou, FullScoreCounter.CheckSiiankou, closedPlayer,
      GetAllCompletedTiles_pinfuWaitHand]
    set_option maxRecDepth 20000 in decide
  · simp only [pinfuCounter, FullScoreCounter.calculateFuForVariant, FullScoreCounter.CheckPinfu,
      GetAllCompletedTiles_pinfuWaitHand]
    set_option maxRecDepth 20000 in decide
  · simp only [pinfuCounter, FullScoreCounter.calculateFuForVariant, FullScoreCounter.CheckPinfu,
      GetAllCompletedTiles_pinfuWaitHand]
    set_option maxRecDepth 20000 in decide

/-! ## Discards -/

/-- When `b` is not less than `a` in the order of `GetDiscard`: the kind of `a`
is smaller, or the kinds are equal and `a` is red if `b` is. -/
theorem discardLess_false_iff (a b : Tile) :
    discardLess b a = false ↔
      (a.Tile < b.Tile ∨ (a.Tile = b.Tile ∧ (b.RedDora = true → a.RedDora = true))) := by
  unfold discardLess
  by_cases h : b.Tile = a.Tile
  · have h' : ¬ (b.Tile ≠ a.Tile) := fun hn => hn h
    rw [if_neg h']
    have e : a.Tile = b.Tile := h.symm
    simp only [e, lt_self_iff_false, false_or, true_and]
    cases b.RedDora <;> cases a.RedDora <;> simp
  · have h' : b.Tile ≠ a.Tile := h
    rw [if_pos h']
    simp only [decide_eq_false_iff_not, not_lt]
    constructor
    · intro hle
      rcases lt_or_eq_of_le hle with hlt | heq
      · exact Or.inl hlt
      · exact absurd heq.symm h
    · rintro (hlt | ⟨heq, _⟩)
      · exact le_of_lt hlt
      · exact le_of_eq heq

/-- The sorted copy of `GetDiscard` is sorted: no tile is less than a tile
before it. -/
theorem sortHandTiles_sorted (hand : List Tile) :
    (sortHandTiles hand).Pairwise (fun a b => discardLess b a = false) := by
  haveI : IsTotal Tile (fun a b => discardLess b a = false) :=
    ⟨fun a b => by
      simp only [discardLess_false_iff]
      rcases lt_trichotomy a.Tile b.Tile with h | h | h
      · exact Or.inl (Or.inl h)
      · by_cases ha : a.RedDora = true
        · exact Or.inl (Or.inr ⟨h, fun _ => ha⟩)
        · exact Or.inr (Or.inr ⟨h.symm, fun h' => absurd h' ha⟩)
      · exact Or.inr (Or.inl h)⟩
  haveI : IsTrans Tile (fun a b => discardLess b a = false) :=
    ⟨fun a b c => by
      simp only [discardLess_false_iff]
      intro h1 h2
      rcases h1 with h1 | ⟨h1, r1⟩
      · rcases h2 with h2 | ⟨h2, _⟩
        · exact Or.inl (lt_trans h1 h2)
        · exact Or.inl (h2 ▸ h1)
      · rcases h2 with h2 | ⟨h2, r2⟩
        · exact Or.inl (h1 ▸ h2)
        · exact Or.inr ⟨h1.trans h2, fun hc => r1 (r2 hc)⟩⟩
  exact List.sorted_insertionSort (fun a b => discardLess b a = false) hand

/-- The sorted copy holds the tiles of the hand. -/
theorem sortHandTiles_perm (hand : List Tile) : (sortHandTiles hand).Perm hand :=
  List.perm_insertionSort _ hand

/-- The actions of `discardLoop` are the discards of the tiles of
`discardPicks`. -/
theorem discardLoop_eq_map (l : List Tile) :
    ∀ seen, discardLoop l seen =
      (discardPicks l seen).map (fun t => (⟨⟨BaseAction.Discard, [t]⟩⟩ : SelfAction)) := by
  induction l with
  | nil => intro seen; rfl
  | cons tile rest ih =>
    intro seen
    unfold discardLoop discardPicks
    by_cases h : IsIn seen tile.Tile = true
    · rw [if_pos h, if_pos h]; exact ih seen
    · rw [if_neg h, if_neg h, List.map_cons, ih]

/-- A tile picked by the loop is a tile of the list whose kind had not been
seen. -/
theorem discardPicks_mem (l : List Tile) :
    ∀ seen t, t ∈ discardPicks l seen → t ∈ l ∧ IsIn seen t.Tile = false := by
  induction l with
  | nil => intro seen t h; simp [discardPicks] at h
  | cons tile rest ih =>
    intro seen t h
    unfold discardPicks at h
    by_cases hs : IsIn seen tile.Tile = true
    · rw [if_pos hs] at h
      have := ih seen t h
      exact ⟨List.mem_cons_of_mem _ this.1, this.2⟩
    · rw [if_neg hs] at h
      rcases List.mem_cons.mp h with e | h
      · subst e
        exact ⟨List.mem_cons_self _ _, by simpa using hs⟩
      · have := ih (tile.Tile :: seen) t h
        refine ⟨List.mem_cons_of_mem _ this.1, ?_⟩
        have h2 := this.2
        rw [IsIn_cons] at h2
        by_cases e : tile.Tile = t.Tile
        · rw [if_pos e] at h2; exact absurd h2 (by simp)
        · rw [if_neg e] at h2; exact h2

/-- The kinds of the tiles picked are the kinds of the list that had not been
seen. -/
theorem discardPicks_kinds (l : List Tile) :
    ∀ (seen : List BaseTile) (k : Nat), k ∈ (discardPicks l seen).map (fun t => t.Tile) ↔
      (k ∈ l.map (fun t => t.Tile) ∧ IsIn seen k = false) := by
  induction l with
  | nil => intro seen k; simp [discardPicks]
  | cons tile rest ih =>
    intro seen k
    unfold discardPicks
    by_cases hs : IsIn seen tile.Tile = true
    · rw [if_pos hs, ih seen k, List.map_cons, List.mem_cons]
      constructor
      · rintro ⟨h1, h2⟩; exact ⟨Or.inr h1, h2⟩
      · rintro ⟨h1 | h1, h2⟩
        · rw [h1, hs] at h2; exact absurd h2 (by simp)
        · exact ⟨h1, h2⟩
    · rw [if_neg hs, List.map_cons, List.mem_cons, ih (tile.Tile :: seen) k, List.map_cons,
        List.mem_cons, IsIn_cons]
      have hs' : IsIn seen tile.Tile = false := by simpa using hs
      constructor
      · rintro (h1 | ⟨h1, h2⟩)
        · exact ⟨Or.inl h1, by rw [h1]; exact hs'⟩
        · by_cases e : tile.Tile = k
          · rw [if_pos e] at h2; exact absurd h2 (by simp)
          · rw [if_neg e] at h2; exact ⟨Or.inr h1, h2⟩
      · rintro ⟨h1 | h1, h2⟩
        · exact Or.inl h1
        · by_cases e : tile.Tile = k
          · exact Or.inl e.symm
          · exact Or.inr ⟨h1, by rw [if_neg e]; exact h2⟩

/-- In a sorted list the tile picked for a kind is red whenever the list holds
a red tile of that kind. -/
theorem discardPicks_red (l : List Tile)
    (hs : l.Pairwise (fun a b => discardLess b a = false)) :
    ∀ seen t, t ∈ discardPicks l seen →
      ∀ u ∈ l, u.Tile = t.Tile → u.RedDora = true → t.RedDora = true := by
  induction l with
  | nil => intro seen t h; simp [discardPicks] at h
  | cons tile rest ih =>
    obtain ⟨hhead, htail⟩ := List.pairwise_cons.mp hs
    intro seen t h u hu hk hr
    unfold discardPicks at h
    by_cases hseen : IsIn seen tile.Tile = true
    · rw [if_pos hseen] at h
      rcases List.mem_cons.mp hu with e | hu
      · have := (discardPicks_mem rest seen t h).2
        rw [← hk, e, hseen] at this
        exact absurd this (by simp)
      · exact ih htail seen t h u hu hk hr
    · rw [if_neg hseen] at h
      rcases List.mem_cons.mp h with e | h
      · subst e
        rcases List.mem_cons.mp hu with e | hu
        · rw [← e]; exact hr
        · rcases (discardLess_false_iff t u).mp (hhead u hu) with hlt | ⟨_, hred⟩
          · rw [hk] at hlt; exact absurd hlt (lt_irrefl _)
          · exact hred hr
      · rcases List.mem_cons.mp hu with e | hu
        · have := (discardPicks_mem rest (tile.Tile :: seen) t h).2
          rw [IsIn_cons, ← hk, e, if_pos rfl] at this
          exact absurd this (by simp)
        · exact ih htail (tile.Tile :: seen) t h u hu hk hr

/-- In a sorted list the kinds of the tiles picked are strictly ascending. -/
theorem discardPicks_ascending (l : List Tile)
    (hs : l.Pairwise (fun a b => discardLess b a = false)) :
    ∀ seen, ((discardPicks l seen).map (fun t => t.Tile)).Pairwise (fun a b => a < b) := by
  induction l with
  | nil => intro seen; simp [discardPicks]
  | cons tile rest ih =>
    obtain ⟨hhead, htail⟩ := List.pairwise_cons.mp hs
    intro seen
    unfold discardPicks
    by_cases hseen : IsIn seen tile.Tile = true
    · rw [if_pos hseen]; exact ih htail seen
    · rw [if_neg hseen, List.map_cons]
      refine List.pairwise_cons.mpr ⟨?_, ih htail _⟩
      intro k hk
      obtain ⟨t, ht, rfl⟩ := List.mem_map.mp hk
      obtain ⟨hmem, hnot⟩ := discardPicks_mem rest (tile.Tile :: seen) t ht
      rcases (discardLess_false_iff tile t).mp (hhead t hmem) with hlt | ⟨heq, _⟩
      · exact hlt
      · rw [IsIn_cons, if_pos heq] at hnot
        exact absurd hnot (by simp)

/-- Whatever order the sort leaves among equal tiles: for every sorted copy
`handTiles` of the hand the loop of `GetDiscard` returns the discards of tiles
of the hand, one for each kind of the hand, in strictly ascending order of
kind, the tile of a kind being red when the hand holds a red tile of that
kind. -/
theorem discardLoop_sorted_copy (hand handTiles : List Tile) (hperm : handTiles.Perm hand)
    (hs : handTiles.Pairwise (fun a b => discardLess b a = false)) :
    ∃ chosen : List Tile,
      discardLoop handTiles [] =
        chosen.map (fun t => (⟨⟨BaseAction.Discard, [t]⟩⟩ : SelfAction)) ∧
      (chosen.map (fun t => t.Tile)).Pairwise (fun a b => a < b) ∧
      (∀ k, k ∈ chosen.map (fun t => t.Tile) ↔ k ∈ hand.map (fun t => t.Tile)) ∧
      (∀ t ∈ chosen, t ∈ hand ∧
        ∀ u ∈ hand, u.Tile = t.Tile → u.RedDora = true → t.RedDora = true) := by
  refine ⟨discardPicks handTiles [], discardLoop_eq_map handTiles [],
    discardPicks_ascending handTiles hs [], ?_, ?_⟩
  · intro k
    rw [discardPicks_kinds handTiles [] k]
    have hp : (handTiles.map (fun t => t.Tile)).Perm (hand.map (fun t => t.Tile)) :=
      hperm.map _
    rw [hp.mem_iff]
    simp [IsIn]
  · intro t ht
    refine ⟨hperm.mem_iff.mp (discardPicks_mem handTiles [] t ht).1, ?_⟩
    intro u hu
    exact discardPicks_red handTiles hs [] t ht u (hperm.mem_iff.mpr hu)

/-- C16: `GetDiscard` returns the discards of tiles of the hand, exactly one
for each kind in the hand, in strictly ascending order of kind; the tile named
for a kind is red when the hand holds a red tile of that kind; and the player,
with the hand and its order, is as before the call. -/
theorem GetDiscard_one_per_kind (p : Player) (afterChipon : Bool) :
    ∃ chosen : List Tile,
      (p.GetDiscard afterChipon).1 =
        chosen.map (fun t => (⟨⟨BaseAction.Discard, [t]⟩⟩ : SelfAction)) ∧
      (chosen.map (fun t => t.Tile)).Pairwise (fun a b => a < b) ∧
      (∀ k, k ∈ chosen.map (fun t => t.Tile) ↔ k ∈ p.Hand.map (fun t => t.Tile)) ∧
      (∀ t ∈ chosen, t ∈ p.Hand ∧
        ∀ u ∈ p.Hand, u.Tile = t.Tile → u.RedDora = true → t.RedDora = true) ∧
      (p.GetDiscard afterChipon).2 = p := by
  obtain ⟨chosen, h1, h2, h3, h4⟩ :=
    discardLoop_sorted_copy p.Hand (sortHandTiles p.Hand) (sortHandTiles_perm p.Hand)
      (sortHandTiles_sorted p.Hand)
  exact ⟨chosen, h1, h2, h3, h4, rfl⟩

/-- For the hand 1m 5m 5m, the second 5m red, `GetDiscard` offers the 1m and the
red 5m. -/
theorem GetDiscard_red_five :
    ((closedPlayer [⟨_5m, false, 16⟩, ⟨_1m, false, 0⟩, ⟨_5m, true, 17⟩]).GetDiscard false).1 =
      [⟨⟨BaseAction.Discard, [⟨_1m, false, 0⟩]⟩⟩, ⟨⟨BaseAction.Discard, [⟨_5m, true, 17⟩]⟩⟩] := by
  decide

/-! ## Added quads -/

/-- When `FindInTiles` finds an index, the tile there has the ID looked for. -/
theorem FindInTiles_some (tiles : List Tile) (target : Tile) :
    ∀ idx, FindInTiles tiles target = some idx →
      ∃ t, tiles.get? idx = some t ∧ t.ID = target.ID := by
  induction tiles with
  | nil => intro idx h; simp [FindInTiles] at h
  | cons tile rest ih =>
    intro idx h
    unfold FindInTiles at h
    by_cases e : tile.ID = target.ID
    · rw [if_pos e] at h
      injection h with h
      subst h
      exact ⟨tile, rfl, e⟩
    · rw [if_neg e] at h
      cases hr : FindInTiles rest target with
      | none => rw [hr] at h; simp at h
      | some i =>
        rw [hr] at h
        simp only [Option.map_some'] at h
        injection h with h
        subst h
        obtain ⟨t, ht, hid⟩ := ih i hr
        exact ⟨t, by simpa using ht, hid⟩

/-- Every action of `GetKakan` names a tile of the hand with ID 0, whatever its
kind: without the tile of ID 0 in the hand there is no added quad. -/
theorem GetKakan_names_id_zero (p : Player) :
    ∀ a ∈ p.GetKakan, ∃ t ∈ p.Hand, t.ID = 0 ∧ a = ⟨⟨BaseAction.KaKan, [t]⟩⟩ := by
  intro a ha
  unfold Player.GetKakan at ha
  obtain ⟨group, _, hg⟩ := List.mem_filterMap.mp ha
  split at hg
  · split at hg
    · rename_i idx hidx
      obtain ⟨t, ht, hid⟩ := FindInTiles_some _ _ idx hidx
      rw [ht] at hg
      simp only [Option.map_some', Option.some.injEq] at hg
      exact ⟨t, List.get?_mem ht, hid, hg.symm⟩
    · exact absurd hg (by simp)
  · exact absurd hg (by simp)

/-- C17: with a called pon of white dragons and the fourth white dragon in the
hand `GetKakan` returns no action, where the specification has one; with the
same pon and no white dragon in the hand it returns an added quad naming the 1m
of ID 0, where the specification has none. -/
theorem GetKakan_looks_for_id_zero :
    (∃ t ∈ fourthDragonHand, t.Tile = _5z) ∧
    (ponPlayer fourthDragonHand).GetKakan = [] ∧
    (∀ t ∈ noDragonHand, t.Tile ≠ _5z) ∧
    (ponPlayer noDragonHand).GetKakan = [⟨⟨BaseAction.KaKan, [⟨_1m, false, 0⟩]⟩⟩] := by
  decide

/-! ## Riichi -/

/-- The hand of `poorPlayer` without the east wind waits for 8p. -/
theorem pinfuWaitHand_waits :
    _8p ∈ ({ poorPlayer with Hand := pinfuWaitHand } : Player).UpdateAtariTiles.AtariTiles := by
  have h := (UpdateAtariTiles_thirteen ({ poorPlayer with Hand := pinfuWaitHand } : Player)
    (by decide) (by decide)).2 _8p
  refine h.mpr ⟨by decide, pinfuReturned, by decide, by decide, by decide, ?_⟩
  decide

/-- C18 (counterexample).  A closed player not in riichi who holds 14 tiles,
whose hand without the east wind has a wait, and who has 900 points is offered
riichi.  The same player with 25000 points is offered nothing once the waits
have been computed for the 14 tiles (none is found), although the discard of the
east wind leaves a wait.  And with the stored waits 5p and 8p the list has an
entry for each of the eight kinds of the hand, the 2m among them, although the
13 tiles left after the discard of a 2m have no wait. -/
theorem GetRiichi_below_thousand_points :
    (poorPlayer.Hand.length = 14 ∧ poorPlayer.IsMenzen = true ∧ poorPlayer.IsRiichi = false ∧
      ({ poorPlayer with Hand := pinfuWaitHand } : Player).UpdateAtariTiles.AtariTiles ≠ [] ∧
      poorPlayer.Score < 1000 ∧ poorPlayer.GetRiichi ≠ []) ∧
    (waitingPlayer.UpdateAtariTiles.Hand.length = 14 ∧
      waitingPlayer.UpdateAtariTiles.IsMenzen = true ∧
      waitingPlayer.UpdateAtariTiles.IsRiichi = false ∧
      1000 ≤ waitingPlayer.UpdateAtariTiles.Score ∧
      pinfuWaitHand = waitingPlayer.UpdateAtariTiles.Hand.eraseIdx 13 ∧
      ({ waitingPlayer with Hand := pinfuWaitHand } : Player).UpdateAtariTiles.AtariTiles ≠ [] ∧
      waitingPlayer.UpdateAtariTiles.GetRiichi = []) ∧
    (waitingPlayer.GetRiichi.map (fun a => a.CorrespondTiles.map (fun t => t.Tile)) =
        [[_2m], [_3m], [_4m], [_6p], [_7p], [_8p], [_5s], [_1z]] ∧
      poorHandWithoutTwoMan = waitingPlayer.Hand.eraseIdx 0 ∧
      ({ waitingPlayer with Hand := poorHandWithoutTwoMan } : Player).UpdateAtariTiles.AtariTiles
        = []) := by
  have hw : ({ poorPlayer with Hand := pinfuWaitHand } : Player).UpdateAtariTiles.AtariTiles
      ≠ [] := List.ne_nil_of_mem pinfuWaitHand_waits
  have h0 : waitingPlayer.UpdateAtariTiles.AtariTiles = [] :=
    UpdateAtariTiles_not_thirteen waitingPlayer (by decide)
  refine ⟨⟨by decide, by decide, by decide, hw, by decide, by decide⟩,
    ⟨by decide, by decide, by decide, by decide, by decide, hw, ?_⟩,
    ⟨by decide, by decide, ?_⟩⟩
  · unfold Player.GetRiichi Player.IsTenpai
    rw [h0]
    simp
  · set_option maxRecDepth 100000 in decide

/-- The step of `riichiLoop` at an action naming one tile. -/
theorem riichiLoop_cons_single (a : BaseAction) (tile : Tile) (rest : List SelfAction)
    (seen : List BaseTile) :
    riichiLoop ((⟨⟨a, [tile]⟩⟩ : SelfAction) :: rest) seen =
      if IsIn seen tile.Tile then riichiLoop rest seen
      else ⟨⟨BaseAction.Riichi, [tile]⟩⟩ :: riichiLoop rest (tile.Tile :: seen) := rfl

/-- The step of `discardPicks`. -/
theorem discardPicks_cons (tile : Tile) (rest : List Tile) (seen : List BaseTile) :
    discardPicks (tile :: rest) seen =
      if IsIn seen tile.Tile then discardPicks rest seen
      else tile :: discardPicks rest (tile.Tile :: seen) := rfl

/-- The actions of `riichiLoop` over discards of single tiles are the riichi
actions of the tiles that `discardPicks` picks. -/
theorem riichiLoop_eq_map (l : List Tile) :
    ∀ seen,
      riichiLoop (l.map (fun t => (⟨⟨BaseAction.Discard, [t]⟩⟩ : SelfAction))) seen =
        (discardPicks l seen).map (fun t => (⟨⟨BaseAction.Riichi, [t]⟩⟩ : SelfAction)) := by
  induction l with
  | nil => intro seen; rfl
  | cons tile rest ih =>
    intro seen
    rw [List.map_cons, riichiLoop_cons_single, discardPicks_cons]
    by_cases h : IsIn seen tile.Tile = true
    · rw [if_pos h, if_pos h]; exact ih seen
    · rw [if_neg h, if_neg h, List.map_cons, ih]

/-- What `GetRiichi` returns for a player who is menzen, not in riichi and has
stored waits: the riichi actions of tiles of the hand, one for each kind of the
hand, in strictly ascending order of kind. -/
theorem GetRiichi_entries (p : Player) (hm : p.IsMenzen = true) (hr : p.IsRiichi = false)
    (ht : p.IsTenpai = true) :
    ∃ chosen : List Tile,
      p.GetRiichi = chosen.map (fun t => (⟨⟨BaseAction.Riichi, [t]⟩⟩ : SelfAction)) ∧
      (chosen.map (fun t => t.Tile)).Pairwise (fun a b => a < b) ∧
      (∀ k, k ∈ chosen.map (fun t => t.Tile) ↔ k ∈ p.Hand.map (fun t => t.Tile)) ∧
      ∀ t ∈ chosen, t ∈ p.Hand := by
  have hsorted := sortHandTiles_sorted p.Hand
  have hasc := discardPicks_ascending (sortHandTiles p.Hand) hsorted []
  have hs2 : (discardPicks (sortHandTiles p.Hand) []).Pairwise
      (fun a b => discardLess b a = false) := by
    rw [List.pairwise_map] at hasc
    exact hasc.imp (fun {a b} hab => (discardLess_false_iff a b).mpr (Or.inl hab))
  refine ⟨discardPicks (discardPicks (sortHandTiles p.Hand) []) [], ?_,
    discardPicks_ascending _ hs2 [], ?_, ?_⟩
  · unfold Player.GetRiichi
    rw [hm, hr, ht]
    simp only [Bool.not_true, Bool.or_false, Bool.false_eq_true, if_false, Player.GetDiscard]
    rw [discardLoop_eq_map, riichiLoop_eq_map]
  · intro k
    rw [discardPicks_kinds, discardPicks_kinds]
    have hp : ((sortHandTiles p.Hand).map (fun t => t.Tile)).Perm
        (p.Hand.map (fun t => t.Tile)) :=
      (sortHandTiles_perm p.Hand).map _
    constructor
    · rintro ⟨⟨h, _⟩, _⟩
      exact hp.mem_iff.mp h
    · intro h
      exact ⟨⟨hp.mem_iff.mpr h, rfl⟩, rfl⟩
  · intro t ht2
    have h1 := (discardPicks_mem _ [] t ht2).1
    have h2 := (discardPicks_mem _ [] t h1).1
    exact (sortHandTiles_perm p.Hand).mem_iff.mp h2

/-- `GetRiichi` returns a non-empty list exactly for a player who is menzen, not
in riichi, has stored waits and holds a tile. -/
theorem GetRiichi_ne_nil_iff (p : Player) :
    p.GetRiichi ≠ [] ↔
      p.IsMenzen = true ∧ p.IsRiichi = false ∧ p.IsTenpai = true ∧ p.Hand ≠ [] := by
  constructor
  · intro h
    have hmr : p.IsMenzen = true ∧ p.IsRiichi = false := by
      unfold Player.GetRiichi at h
      by_cases h1 : (p.IsRiichi || !p.IsMenzen) = true
      · rw [if_pos h1] at h; exact absurd rfl h
      · cases hm : p.IsMenzen <;> cases hr : p.IsRiichi <;> simp [hm, hr] at h1 ⊢
    have ht : p.IsTenpai = true := by
      unfold Player.GetRiichi at h
      rw [hmr.1, hmr.2] at h
      cases hten : p.IsTenpai with
      | true => rfl
      | false =>
        rw [hten] at h
        simp at h
    refine ⟨hmr.1, hmr.2, ht, ?_⟩
    intro hnil
    obtain ⟨chosen, hc, _, _, hmem⟩ := GetRiichi_entries p hmr.1 hmr.2 ht
    apply h
    rw [hc]
    cases chosen with
    | nil => rfl
    | cons t rest =>
      have := hmem t (List.mem_cons_self _ _)
      rw [hnil] at this
      cases this
  · rintro ⟨hm, hr, ht, hh⟩ hnil
    obtain ⟨chosen, hc, _, hk, _⟩ := GetRiichi_entries p hm hr ht
    rw [hnil] at hc
    have hcn : chosen = [] := by
      cases chosen with
      | nil => rfl
      | cons t rest => cases hc
    cases hhand : p.Hand with
    | nil => exact hh hhand
    | cons t rest =>
      have := (hk t.Tile).mpr (by rw [hhand]; exact List.mem_map_of_mem _ (List.mem_cons_self _ _))
      rw [hcn] at this
      cases this

/-- C18 (amended): `GetRiichi` returns a non-empty list exactly for a player who
is menzen, is not yet in riichi, has a stored wait (`IsTenpai`) and holds a
tile, in particular for such a player with 14 tiles; it does not read the score;
its entries are riichi actions naming tiles of the hand, in strictly ascending
order of kind; and when the list is not empty it has exactly one entry for each
kind of the hand. -/
theorem GetRiichi_menzen_not_riichi (p : Player) :
    (p.GetRiichi ≠ [] ↔
      p.IsMenzen = true ∧ p.IsRiichi = false ∧ p.IsTenpai = true ∧ p.Hand ≠ []) ∧
    (p.Hand.length = 14 →
      (p.GetRiichi ≠ [] ↔ p.IsMenzen = true ∧ p.IsRiichi = false ∧ p.IsTenpai = true)) ∧
    (∀ score : Int, ({ p with Score := score } : Player).GetRiichi = p.GetRiichi) ∧
    ∃ chosen : List Tile,
      p.GetRiichi = chosen.map (fun t => (⟨⟨BaseAction.Riichi, [t]⟩⟩ : SelfAction)) ∧
      (chosen.map (fun t => t.Tile)).Pairwise (fun a b => a < b) ∧
      (∀ t ∈ chosen, t ∈ p.Hand) ∧
      (p.GetRiichi ≠ [] →
        (∀ k, k ∈ chosen.map (fun t => t.Tile) ↔ k ∈ p.Hand.map (fun t => t.Tile)) ∧
        p.GetRiichi.length = (p.Hand.map (fun t => t.Tile)).dedup.length) := by
  refine ⟨GetRiichi_ne_nil_iff p, fun h14 => ?_, fun _ => rfl, ?_⟩
  · rw [GetRiichi_ne_nil_iff]
    have hh : p.Hand ≠ [] := by
      intro h
      rw [h] at h14
      cases h14
    constructor
    · rintro ⟨a, b, c, _⟩; exact ⟨a, b, c⟩
    · rintro ⟨a, b, c⟩; exact ⟨a, b, c, hh⟩
  · by_cases hne : p.GetRiichi ≠ []
    · obtain ⟨hm, hr, ht, _⟩ := (GetRiichi_ne_nil_iff p).1 hne
      obtain ⟨chosen, hc, hasc, hk, hmem⟩ := GetRiichi_entries p hm hr ht
      refine ⟨chosen, hc, hasc, hmem, fun _ => ⟨hk, ?_⟩⟩
      rw [hc, List.length_map, ← List.length_map chosen (fun t => t.Tile)]
      have hnd : (chosen.map (fun t => t.Tile)).Nodup :=
        hasc.imp (fun {a b} hab => Nat.ne_of_lt hab)
      have hperm : (chosen.map (fun t => t.Tile)).Perm (p.Hand.map (fun t => t.Tile)).dedup := by
        rw [List.perm_ext_iff_of_nodup hnd (List.nodup_dedup _)]
        intro k
        rw [List.mem_dedup]
        exact hk k
      exact hperm.length_eq
    · have hnil : p.GetRiichi = [] := by
        by_contra h
        exact hne h
      exact ⟨[], by rw [hnil]; rfl, List.Pairwise.nil,
        fun t ht => absurd ht (List.not_mem_nil t), fun h => absurd hnil h⟩

/-- The amended statement of C18 at `waitingPlayer`. -/
theorem GetRiichi_menzen_not_riichi_witness :
    waitingPlayer.Hand.length = 14 ∧
    (waitingPlayer.GetRiichi ≠ [] ↔
      waitingPlayer.IsMenzen = true ∧ waitingPlayer.IsRiichi = false ∧
        waitingPlayer.IsTenpai = true) :=
  ⟨by decide, (GetRiichi_menzen_not_riichi waitingPlayer).2.1 (by decide)⟩

/-! ## Chi and ron -/

/-- `GetChi` returns an action exactly for the kinds 1m to 7m, whatever the
hand. -/
theorem GetChi_ne_nil_iff (p : Player) (tile : Tile) :
    p.GetChi tile ≠ [] ↔ tile.Tile ≤ _7m := by
  unfold Player.GetChi
  simp only [_1m, ge_iff_le, Nat.zero_le, true_and]
  split <;> simp_all

/-- C19: for the discarded 5p and a hand holding 6p and 7p `GetChi` is empty,
where the specification has a chi; for the discarded 2m and a hand holding
neither 1m with 3m nor 3m with 4m it returns a chi, where the specification has
none. -/
theorem GetChi_ignores_hand :
    formsSequenceWith pinfuWaitHand _5p = true ∧
    (closedPlayer pinfuWaitHand).GetChi ⟨_5p, false, 52⟩ = [] ∧
    formsSequenceWith scatteredHand _2m = false ∧
    (closedPlayer scatteredHand).GetChi ⟨_2m, false, 4⟩ =
      [⟨⟨BaseAction.Chi, [⟨_2m, false, 4⟩]⟩⟩] := by
  decide

/-- `GetRon` returns an action exactly when the player is not furiten, whatever
the hand, the tile and the table. -/
theorem GetRon_ne_nil_iff (p : Player) (table : Option Table) (tile : Tile) :
    p.GetRon table tile ≠ [] ↔ p.IsFuriten = false := by
  unfold Player.GetRon
  cases p.IsFuriten <;> simp

/-- C20: for the hand 1m4m7m 1p4p7p 1s4s7s 1z2z3z4z and the discarded 5p `GetRon`
returns a ron, although the hand with 5p is no winning hand, 5p is not among
the waits, and the score of such a ron is nil. -/
theorem GetRon_without_win :
    (closedPlayer scatteredHand).IsFuriten = false ∧
    (closedPlayer scatteredHand).GetRon (some eastTable) ⟨_5p, false, 52⟩ =
      [⟨⟨BaseAction.Ron, [⟨_5p, false, 52⟩]⟩⟩] ∧
    CanWinWithTiles (sortTiles (ConvertTilesToBaseTiles scatteredHand ++ [_5p])) = false ∧
    (closedPlayer scatteredHand).UpdateAtariTiles.AtariTiles = [] ∧
    ronScore eastTable (closedPlayer scatteredHand) ⟨_5p, false, 52⟩ = none := by
  refine ⟨by decide, by decide, by decide, by decide, ?_⟩
  unfold ronScore
  exact CalculateScore_no_decomposition (some eastTable) (closedPlayer scatteredHand)
    (ConvertTilesToBaseTiles (closedPlayer scatteredHand).Hand ++ [_5p])
    (closedPlayer scatteredHand).CallGroups _5p _ (by decide)

/-! ## Furiten -/

theorem IsFuriten_of_flag (p : Player)
    (h : p.FuritenRound = true ∨ p.FuritenRiver = true ∨ p.FuritenRiichi = true) :
    p.IsFuriten = true := by
  unfold Player.IsFuriten
  rcases h with h | h | h <;> simp [h]

theorem candidateActions_ron_iff (table : Table) (p : Player) (discarded : Tile) :
    BaseAction.Ron ∈ candidateActions table p discarded ↔ p.IsFuriten = false := by
  unfold candidateActions Player.GetRon
  cases h : p.IsFuriten <;> simp

/-- C21: a player with a furiten flag set gets no action from `GetRon`,
`GetChankan` or `GetChanAnkan`, whatever the tile, and `Ron` is not among the
responses that `MakeSelection` collects for the player. -/
theorem furiten_no_ron_response (p : Player) (table : Table) (tile : Tile)
    (h : p.FuritenRound = true ∨ p.FuritenRiver = true ∨ p.FuritenRiichi = true) :
    p.GetRon (some table) tile = [] ∧ p.GetRon none tile = [] ∧ p.GetChankan tile = [] ∧
      p.GetChanAnkan tile = [] ∧ BaseAction.Ron ∉ candidateActions table p tile := by
  have hf := IsFuriten_of_flag p h
  refine ⟨?_, ?_, ?_, ?_, ?_⟩
  · simp [Player.GetRon, hf]
  · simp [Player.GetRon, hf]
  · simp [Player.GetChankan, hf]
  · simp [Player.GetChanAnkan, hf]
  · rw [candidateActions_ron_iff]; simp [hf]

theorem furiten_no_ron_response_witness :
    furitenPlayer.GetRon (some eastTable) ⟨_3p, false, 44⟩ = [] ∧
      furitenPlayer.GetRon none ⟨_3p, false, 44⟩ = [] ∧
      furitenPlayer.GetChankan ⟨_3p, false, 44⟩ = [] ∧
      furitenPlayer.GetChanAnkan ⟨_3p, false, 44⟩ = [] ∧
      BaseAction.Ron ∉ candidateActions eastTable furitenPlayer ⟨_3p, false, 44⟩ :=
  furiten_no_ron_response furitenPlayer eastTable ⟨_3p, false, 44⟩ (Or.inr (Or.inl rfl))

theorem UpdateFuritenRiver_test (p : Player) :
    (p.AtariTiles.any (fun atariTile =>
      p.River.River.any (fun riverTile => riverTile.Tile.Tile == atariTile && riverTile.Remain))
      = true) ↔
    ∃ rt ∈ p.River.River, rt.Remain = true ∧ rt.Tile.Tile ∈ p.AtariTiles := by
  simp only [List.any_eq_true, Bool.and_eq_true, beq_iff_eq]
  constructor
  · rintro ⟨a, ha, rt, hrt, he, hr⟩
    exact ⟨rt, hrt, hr, he ▸ ha⟩
  · rintro ⟨rt, hrt, hr, ha⟩
    exact ⟨rt.Tile.Tile, ha, rt, hrt, rfl, hr⟩

/-- The flag `FuritenRiver` after `UpdateFuritenRiver`: it was set before, or
some wait is the kind of a river tile whose `Remain` is true. -/
theorem UpdateFuritenRiver_flag (p : Player) :
    p.UpdateFuritenRiver.FuritenRiver = true ↔
      p.FuritenRiver = true ∨
        ∃ rt ∈ p.River.River, rt.Remain = true ∧ rt.Tile.Tile ∈ p.AtariTiles := by
  rw [← UpdateFuritenRiver_test]
  unfold Player.UpdateFuritenRiver
  split
  · rename_i h; simp [h]
  · rename_i h; simp [h]

/-- When no wait is the kind of a river tile whose `Remain` is true,
`UpdateFuritenRiver` leaves the player as it is. -/
theorem UpdateFuritenRiver_unchanged (p : Player)
    (h : ∀ rt ∈ p.River.River, rt.Tile.Tile ∈ p.AtariTiles → rt.Remain = false) :
    p.UpdateFuritenRiver = p := by
  unfold Player.UpdateFuritenRiver
  rw [if_neg]
  rw [UpdateFuritenRiver_test]
  rintro ⟨rt, hrt, hr, ha⟩
  rw [h rt hrt ha] at hr
  cases hr

/-- C22, counterexample: the player waits on 6p and the river of the player
holds a 6p, marked as taken by another player; after `UpdateFuritenRiver` the
flag `FuritenRiver` is not set and the player is not furiten. -/
theorem UpdateFuritenRiver_taken_tile :
    _6p ∈ takenWaitPlayer.AtariTiles ∧ _6p ∈ takenWaitPlayer.River.ToBaseTile ∧
      takenWaitPlayer.UpdateFuritenRiver.FuritenRiver = false ∧
      takenWaitPlayer.UpdateFuritenRiver.IsFuriten = false := by
  decide

/-- C22, as the code has it: when a wait of the player is the kind of a tile of
the player's own river whose `Remain` is true, then after `UpdateFuritenRiver`
the flag `FuritenRiver` is set and `IsFuriten` holds. -/
theorem UpdateFuritenRiver_visible_tile (p : Player)
    (h : ∃ rt ∈ p.River.River, rt.Remain = true ∧ rt.Tile.Tile ∈ p.AtariTiles) :
    p.UpdateFuritenRiver.FuritenRiver = true ∧ p.UpdateFuritenRiver.IsFuriten = true := by
  have hf : p.UpdateFuritenRiver.FuritenRiver = true :=
    (UpdateFuritenRiver_flag p).2 (Or.inr h)
  exact ⟨hf, IsFuriten_of_flag _ (Or.inr (Or.inl hf))⟩

theorem UpdateFuritenRiver_visible_tile_witness :
    visibleWaitPlayer.UpdateFuritenRiver.FuritenRiver = true ∧
      visibleWaitPlayer.UpdateFuritenRiver.IsFuriten = true :=
  UpdateFuritenRiver_visible_tile visibleWaitPlayer
    ⟨{ Tile := ⟨_6p, false, 56⟩, Number := 0, Riichi := false, Remain := true, FromHand := true },
      by decide, rfl, by decide⟩

/-! ## The four-wind abort -/

theorem length_one_iff {α : Type} (l : List α) : l.length = 1 ↔ ∃ a, l = [a] := by
  cases l with
  | nil => simp
  | cons a rest => cases rest <;> simp

theorem forall_fin_four (P : Fin 4 → Prop) : (∀ i, P i) ↔ P 0 ∧ P 1 ∧ P 2 ∧ P 3 := by
  constructor
  · intro h
    exact ⟨h 0, h 1, h 2, h 3⟩
  · rintro ⟨h0, h1, h2, h3⟩ i
    fin_cases i
    · exact h0
    · exact h1
    · exact h2
    · exact h3

/-- C29: `isAbaortedFourWind` holds exactly when each of the four players has
one river tile, no player has a called meld, and the four river tiles are of
one wind kind (1z to 4z); it is false when the four first discards are of one
kind that is not a wind, and when some player has a called meld. -/
theorem isAbaortedFourWind_iff (t : FullTable) :
    (t.isAbaortedFourWind = true ↔
      (∀ i, (t.Players i).River.River.length = 1) ∧ (∀ i, (t.Players i).CallGroups = []) ∧
        ∃ w : BaseTile, _1z ≤ w ∧ w ≤ _4z ∧ ∀ i, (t.Players i).River.ToBaseTile = [w]) ∧
    (∀ w : BaseTile, (∀ i, (t.Players i).River.ToBaseTile = [w]) → (w < _1z ∨ _4z < w) →
      t.isAbaortedFourWind = false) ∧
    ((∃ i, (t.Players i).CallGroups ≠ []) → t.isAbaortedFourWind = false) := by
  have key : t.isAbaortedFourWind = true ↔
      (∀ i, (t.Players i).River.River.length = 1) ∧ (∀ i, (t.Players i).CallGroups = []) ∧
        ∃ w : BaseTile, _1z ≤ w ∧ w ≤ _4z ∧ ∀ i, (t.Players i).River.ToBaseTile = [w] := by
    unfold FullTable.isAbaortedFourWind
    simp only [forall_fin_four, River.ToBaseTile, List.length_eq_zero]
    constructor
    · intro h
      split at h
      · rename_i hc
        obtain ⟨h0, h1, h2, h3, c0, c1, c2, c3⟩ := hc
        obtain ⟨a0, e0⟩ := (length_one_iff _).1 h0
        obtain ⟨a1, e1⟩ := (length_one_iff _).1 h1
        obtain ⟨a2, e2⟩ := (length_one_iff _).1 h2
        obtain ⟨a3, e3⟩ := (length_one_iff _).1 h3
        simp only [e0, e1, e2, e3, decide_eq_true_eq] at h
        obtain ⟨q1, q2, q3, g1, g2⟩ := h
        refine ⟨⟨h0, h1, h2, h3⟩, ⟨c0, c1, c2, c3⟩, a0.Tile.Tile, g1, g2, ?_⟩
        simp [e0, e1, e2, e3, ← q1, ← q2, ← q3]
      · cases h
    · rintro ⟨⟨h0, h1, h2, h3⟩, ⟨c0, c1, c2, c3⟩, w, g1, g2, r0, r1, r2, r3⟩
      rw [if_pos ⟨h0, h1, h2, h3, c0, c1, c2, c3⟩]
      obtain ⟨a0, e0⟩ := (length_one_iff _).1 h0
      obtain ⟨a1, e1⟩ := (length_one_iff _).1 h1
      obtain ⟨a2, e2⟩ := (length_one_iff _).1 h2
      obtain ⟨a3, e3⟩ := (length_one_iff _).1 h3
      simp only [e0, e1, e2, e3, List.map_cons, List.map_nil, List.cons.injEq, and_true] at r0 r1 r2 r3
      simp only [e0, e1, e2, e3, decide_eq_true_eq, r0, r1, r2, r3]
      exact ⟨trivial, trivial, trivial, g1, g2⟩
  refine ⟨key, ?_, ?_⟩
  · intro w hw hout
    cases hb : t.isAbaortedFourWind
    · rfl
    · obtain ⟨-, -, w2, g1, g2, hw2⟩ := key.1 hb
      have e : [w2] = [w] := (hw2 0).symm.trans (hw 0)
      have e2 : w2 = w := by simpa using e
      subst e2
      rcases hout with hlt | hgt
      · exact absurd g1 (Nat.not_le.2 hlt)
      · exact absurd g2 (Nat.not_le.2 hgt)
  · rintro ⟨i, hi⟩
    cases hb : t.isAbaortedFourWind
    · rfl
    · exact absurd ((key.1 hb).2.1 i) hi

/-! ## The regular-shape count of `CheckNormal` -/

theorem dropPairs_eq (maxFuShou ptm : Int) (k : Nat) (ptt : Int) (hk : ptt.toNat ≤ k) :
    dropPairs maxFuShou ptm k ptt = min ptt (max 0 (maxFuShou - ptm)) := by
  induction k generalizing ptt with
  | zero =>
    have : ptt ≤ 0 := by omega
    simp only [dropPairs]
    omega
  | succ k ih =>
    simp only [dropPairs]
    split
    · rename_i h
      rw [ih (ptt - 1) (by omega)]
      omega
    · rename_i h
      omega

theorem dropMelds_eq (maxFuShou ptt : Int) (k : Nat) (ptm : Int)
    (hk : (ptm + ptt - maxFuShou).toNat ≤ k) :
    dropMelds maxFuShou ptt k ptm = min ptm (maxFuShou - ptt) := by
  induction k generalizing ptm with
  | zero =>
    simp only [dropMelds]
    omega
  | succ k ih =>
    simp only [dropMelds]
    split
    · rename_i h
      rw [ih (ptm - 1) (by omega)]
      omega
    · rename_i h
      omega

/-- The two loops of the adjustment stop, and leave the clamped counts. -/
theorem adjustAndCount_eq (ptm ptt n : Int) :
    adjustAndCount ptm ptt n =
      9 - 2 * clampedMelds ptm ptt (4 - n) - clampedPairs ptm ptt (4 - n) - 2 * n := by
  unfold adjustAndCount clampedMelds clampedPairs
  simp only []
  rw [dropPairs_eq _ _ _ _ (le_refl _), dropMelds_eq _ _ _ _ (le_refl _)]
  ring

theorem honorLoop_eq (code : Nat) (l : List Nat) (ptm ptt : Int) :
    l.foldl (honorStep code (fun ptt => ptt + 1)) (ptm, ptt) =
      (ptm + ((l.filter (fun i => decide (codeCount code i ≥ 3))).length : Nat),
       ptt + ((l.filter (fun i => decide (codeCount code i = 2))).length : Nat)) := by
  induction l generalizing ptm ptt with
  | nil => simp
  | cons i rest ih =>
    rw [List.foldl_cons]
    have hs : honorStep code (fun ptt => ptt + 1) (ptm, ptt) i =
        if codeCount code i ≥ 3 then (ptm + 1, ptt)
        else if codeCount code i ≥ 2 then (ptm, ptt + 1) else (ptm, ptt) := rfl
    rw [hs]
    simp only [List.filter_cons]
    by_cases h3 : codeCount code i ≥ 3
    · have h2 : ¬ codeCount code i = 2 := by omega
      rw [if_pos h3, ih]
      simp only [h3, h2, decide_True, decide_False, if_true, Bool.false_eq_true, if_false,
        List.length_cons, Nat.cast_succ]
      ext <;> (simp only []; try ring)
    · by_cases h2 : codeCount code i ≥ 2
      · have h2e : codeCount code i = 2 := by omega
        rw [if_neg h3, if_pos h2, ih]
        simp only [h3, decide_False, Bool.false_eq_true, if_false]
        simp only [h2e, decide_True, if_true, List.length_cons, Nat.cast_succ]
        ext <;> (simp only []; try ring)
      · have h2e : ¬ codeCount code i = 2 := by omega
        rw [if_neg h3, if_neg h2, ih]
        simp only [h3, h2e, decide_False, Bool.false_eq_true, if_false]

theorem honorCounts_eq (code : Nat) (ptm ptt : Int) :
    honorCounts code ptm ptt (fun ptt => ptt + 1) =
      (ptm + honorTriplets code, ptt + honorPairs code) := by
  unfold honorCounts honorTriplets honorPairs
  exact honorLoop_eq code (List.range 7) ptm ptt

theorem addSuit_eq (s : Syanten) (c : Int × Int) (code : Nat) :
    s.addSuit c code = (c.1 + (s.suitCounts code).1, c.2 + (s.suitCounts code).2) := by
  unfold Syanten.addSuit Syanten.suitCounts betterAlternative
  cases hlk : s.syanten_map.lookup code with
  | none => simp
  | some e =>
    obtain ⟨a, b, c2, d⟩ := e
    simp only []
    split <;> rfl

/-- C30, as the code has it: with a loaded table, `CheckNormal` sums over the
three number suits the better of the two alternatives of the table and adds the
honour triplets and pairs, brings melds plus pairs down to `4 - n` by dropping
pairs first, and returns `9 - 2*melds - pairs - 2*n`. -/
theorem CheckNormal_nine_minus (s : Syanten) (handCode : Fin 4 → Nat) (n : Int)
    (hl : s.is_loaded = true) (hm : s.syanten_map ≠ []) :
    s.CheckNormal handCode n =
      9 - 2 * clampedMelds (s.summedMelds handCode) (s.summedPairs handCode) (4 - n) -
        clampedPairs (s.summedMelds handCode) (s.summedPairs handCode) (4 - n) - 2 * n := by
  unfold Syanten.CheckNormal
  have hlen : ¬ s.syanten_map.length = 0 := by
    intro h
    exact hm (List.length_eq_zero.1 h)
  simp only [hl, hlen, Bool.not_true, Bool.false_or, decide_False, Bool.false_eq_true, if_false]
  simp only [List.foldl_cons, List.foldl_nil, addSuit_eq]
  rw [honorCounts_eq, adjustAndCount_eq]
  unfold Syanten.summedMelds Syanten.summedPairs
  simp only [zero_add]

theorem CheckNormal_nine_minus_witness :
    smallSuitTable.CheckNormal (fun i => if i = 0 then 146 else 0) 1 =
      9 - 2 * clampedMelds (smallSuitTable.summedMelds (fun i => if i = 0 then 146 else 0))
            (smallSuitTable.summedPairs (fun i => if i = 0 then 146 else 0)) (4 - 1) -
        clampedPairs (smallSuitTable.summedMelds (fun i => if i = 0 then 146 else 0))
          (smallSuitTable.summedPairs (fun i => if i = 0 then 146 else 0)) (4 - 1) - 2 * 1 :=
  CheckNormal_nine_minus smallSuitTable (fun i => if i = 0 then 146 else 0) 1 rfl (by decide)

/-- C30, counterexample: for the empty hand and no called meld a loaded table
gives no meld and no pair; `CheckNormal` returns 9, the number of the
specification is 8. -/
theorem CheckNormal_empty_hand :
    emptySuitTable.summedMelds (fun _ => 0) = 0 ∧ emptySuitTable.summedPairs (fun _ => 0) = 0 ∧
      emptySuitTable.CheckNormal (fun _ => 0) 0 = 9 ∧
      specCheckNormal emptySuitTable (fun _ => 0) 0 = 8 := by
  decide

/-! ## Draws from the wall -/

theorem giveTile_hand (t : FullTable) (idx j : Fin 4) (tile : Tile) :
    ((t.giveTile idx tile).Players j).Hand =
      (t.Players j).Hand ++ (if j = idx then [tile] else []) := by
  unfold FullTable.giveTile
  by_cases h : j = idx
  · subst h
    simp
  · simp [Function.update_noteq h, h]

theorem giveTile_river (t : FullTable) (idx j : Fin 4) (tile : Tile) :
    ((t.giveTile idx tile).Players j).River = (t.Players j).River ∧
      ((t.giveTile idx tile).Players j).CallGroups = (t.Players j).CallGroups := by
  unfold FullTable.giveTile
  by_cases h : j = idx
  · subst h
    simp
  · simp [Function.update_noteq h]

theorem heldTiles_perm_of_hands (t2 t1 : FullTable) (idx : Fin 4) (tile : Tile)
    (hy : t1.Yama = t2.Yama ++ [tile] ∨ t1.Yama = tile :: t2.Yama)
    (hh : ∀ j, (t2.Players j).Hand = (t1.Players j).Hand ++ (if j = idx then [tile] else [])) :
    t2.heldTiles.Perm t1.heldTiles := by
  rw [List.perm_iff_count]
  intro a
  unfold FullTable.heldTiles
  have hc : t1.Yama.count a = t2.Yama.count a + [tile].count a := by
    rcases hy with hy | hy
    · rw [hy, List.count_append]
    · rw [hy, List.count_cons, List.count_cons, List.count_nil]
      omega
  simp only [List.count_append, hh, hc]
  fin_cases idx <;> simp <;> omega

/-- What a single draw does: the tile leaves one end of the wall and is added
to the end of one hand. -/
theorem drawnFrom_of_step (t2 t1 : FullTable) (idx : Fin 4) (tile : Tile)
    (hy : t1.Yama = t2.Yama ++ [tile] ∨ t1.Yama = tile :: t2.Yama)
    (hh : ∀ j, (t2.Players j).Hand = (t1.Players j).Hand ++ (if j = idx then [tile] else []))
    (hr : ∀ j, (t2.Players j).River = (t1.Players j).River)
    (hc : ∀ j, (t2.Players j).CallGroups = (t1.Players j).CallGroups)
    (h1 : t2.Tiles = t1.Tiles) (h2 : t2.DoraIndicator = t1.DoraIndicator)
    (h3 : t2.UraDoraIndicator = t1.UraDoraIndicator) (h4 : t2.Oya = t1.Oya) :
    t2.drawnFrom t1 := by
  refine ⟨heldTiles_perm_of_hands t2 t1 idx tile hy hh, ?_, hr, hc, h1, h2, h3, h4⟩
  intro i
  rw [hh i]
  exact List.prefix_append _ _

theorem drawnFrom_refl (t : FullTable) : t.drawnFrom t :=
  ⟨List.Perm.refl _, fun _ => List.prefix_refl _, fun _ => rfl, fun _ => rfl, rfl, rfl, rfl, rfl⟩

theorem drawnFrom_trans (t3 t2 t1 : FullTable) (h32 : t3.drawnFrom t2) (h21 : t2.drawnFrom t1) :
    t3.drawnFrom t1 := by
  obtain ⟨a1, a2, a3, a4, a5, a6, a7, a8⟩ := h32
  obtain ⟨b1, b2, b3, b4, b5, b6, b7, b8⟩ := h21
  exact ⟨a1.trans b1, fun i => (b2 i).trans (a2 i), fun i => (a3 i).trans (b3 i),
    fun i => (a4 i).trans (b4 i), a5.trans b5, a6.trans b6, a7.trans b7, a8.trans b8⟩

theorem logAction_players (t : FullTable) (p1 p2 : Int) (action : LogAction)
    (tile : Option Tile) :
    (t.logAction p1 p2 action tile).Players = t.Players ∧
      (t.logAction p1 p2 action tile).Yama = t.Yama ∧
      (t.logAction p1 p2 action tile).Tiles = t.Tiles ∧
      (t.logAction p1 p2 action tile).DoraIndicator = t.DoraIndicator ∧
      (t.logAction p1 p2 action tile).UraDoraIndicator = t.UraDoraIndicator ∧
      (t.logAction p1 p2 action tile).Oya = t.Oya := by
  unfold FullTable.logAction
  cases t.GameLog <;> simp

theorem drawLogged_drawnFrom (t : FullTable) (idx : Fin 4) : (t.drawLogged idx).drawnFrom t := by
  unfold FullTable.drawLogged
  cases h : t.Yama.getLast? with
  | none => exact drawnFrom_refl t
  | some tile =>
    have hy : t.Yama = t.Yama.dropLast ++ [tile] :=
      (List.dropLast_append_getLast? tile h).symm
    refine drawnFrom_of_step _ t idx tile (Or.inl hy) ?_ ?_ ?_ rfl rfl rfl rfl
    · intro j
      exact giveTile_hand _ idx j tile
    · intro j
      exact (giveTile_river _ idx j tile).1
    · intro j
      exact (giveTile_river _ idx j tile).2

theorem DrawNormalNoRecord_drawnFrom (t : FullTable) (idx : Fin 4) :
    (t.DrawNormalNoRecord idx).drawnFrom t := by
  unfold FullTable.DrawNormalNoRecord
  cases h : t.Yama.getLast? with
  | none => exact drawnFrom_refl t
  | some tile =>
    have hy : t.Yama = t.Yama.dropLast ++ [tile] :=
      (List.dropLast_append_getLast? tile h).symm
    refine drawnFrom_of_step _ t idx tile (Or.inl hy) ?_ ?_ ?_ rfl rfl rfl rfl
    · intro j
      exact giveTile_hand _ idx j tile
    · intro j
      exact (giveTile_river _ idx j tile).1
    · intro j
      exact (giveTile_river _ idx j tile).2

theorem drawnFrom_logAction (t2 t1 : FullTable) (p1 p2 : Int) (action : LogAction)
    (tile : Option Tile) (h : t2.drawnFrom t1) : (t2.logAction p1 p2 action tile).drawnFrom t1 := by
  obtain ⟨e1, e2, e3, e4, e5, e6⟩ := logAction_players t2 p1 p2 action tile
  unfold FullTable.drawnFrom FullTable.heldTiles at *
  rw [e1, e2, e3, e4, e5, e6]
  exact h

theorem DrawNormal_drawnFrom (t : FullTable) (idx : Fin 4) : (t.DrawNormal idx).drawnFrom t := by
  unfold FullTable.DrawNormal
  cases h : t.Yama.getLast? with
  | none => exact drawnFrom_refl t
  | some tile => exact drawnFrom_logAction _ _ _ _ _ _ (drawLogged_drawnFrom t idx)

theorem DrawRinshan_drawnFrom (t : FullTable) (idx : Fin 4) :
    (t.DrawRinshan idx).drawnFrom t := by
  unfold FullTable.DrawRinshan
  split
  · cases h : t.Yama with
    | nil => exact drawnFrom_refl t
    | cons tile rest =>
      refine drawnFrom_logAction _ _ _ _ _ _ ?_
      refine drawnFrom_of_step _ t idx tile (Or.inr h) ?_ ?_ ?_ rfl rfl rfl rfl
      · intro j
        exact giveTile_hand _ idx j tile
      · intro j
        exact (giveTile_river _ idx j tile).1
      · intro j
        exact (giveTile_river _ idx j tile).2
  · exact drawnFrom_refl t

theorem foldl_drawnFrom {α : Type} (f : FullTable → α → FullTable)
    (hf : ∀ t a, (f t a).drawnFrom t) (l : List α) (t : FullTable) :
    (l.foldl f t).drawnFrom t := by
  induction l generalizing t with
  | nil => exact drawnFrom_refl t
  | cons a rest ih =>
    rw [List.foldl_cons]
    exact drawnFrom_trans _ _ _ (ih (f t a)) (hf t a)

theorem DrawTenhouStyle_drawnFrom (t : FullTable) : t.DrawTenhouStyle.drawnFrom t := by
  unfold FullTable.DrawTenhouStyle
  refine drawnFrom_trans _ _ _ (drawLogged_drawnFrom _ _) ?_
  refine foldl_drawnFrom _ ?_ _ t
  intro t _
  refine foldl_drawnFrom _ ?_ _ t
  intro t i
  exact drawLogged_drawnFrom t _

theorem heldCount_eq_length (t : FullTable) : t.heldCount = t.heldTiles.length := by
  unfold FullTable.heldCount FullTable.heldTiles
  simp only [List.length_append]

theorem drawnFrom_heldCount (t2 t1 : FullTable) (h : t2.drawnFrom t1) :
    t2.heldCount = t1.heldCount := by
  rw [heldCount_eq_length, heldCount_eq_length]
  exact h.1.length_eq

/-! ## The wall after `InitBeforePlaying` and the deal of `DrawTenhouStyle` -/

set_option maxRecDepth 10000 in
theorem initialTiles_length : initialTiles.length = 136 := by
  decide

theorem redDoraLoop_length (intn4 : Nat → Nat) (l : List Nat) (tiles : List Tile) :
    (redDoraLoop intn4 l tiles).length = tiles.length := by
  unfold redDoraLoop
  induction l generalizing tiles with
  | nil => rfl
  | cons c rest ih =>
    rw [List.foldl_cons, ih]
    simp only []
    split <;> simp

theorem swapAt_length (tiles : List Tile) (i j : Nat) : (swapAt tiles i j).length = tiles.length := by
  unfold swapAt
  split <;> simp

theorem shuffleLoop_length (intn : Nat → Nat) (l : List Nat) (tiles : List Tile) :
    (shuffleLoop intn l tiles).length = tiles.length := by
  unfold shuffleLoop
  induction l generalizing tiles with
  | nil => rfl
  | cons c rest ih => rw [List.foldl_cons, ih, swapAt_length]

/-- After `InitBeforePlaying` the wall holds 136 tiles, whatever numbers were
drawn; the players are as before. -/
theorem InitBeforePlaying_wall (t : FullTable) (intn4 intn : Nat → Nat) :
    (t.InitBeforePlaying intn4 intn).Yama.length = 136 ∧
      (t.InitBeforePlaying intn4 intn).Players = t.Players ∧
      (t.InitBeforePlaying intn4 intn).Oya = t.Oya := by
  have e1 : ∀ t : FullTable, t.InitTiles.Players = t.Players ∧ t.InitTiles.Oya = t.Oya :=
    fun _ => ⟨rfl, rfl⟩
  have e2 : ∀ t : FullTable, (t.InitRedDora3 intn4).Players = t.Players ∧
      (t.InitRedDora3 intn4).Oya = t.Oya := fun _ => ⟨rfl, rfl⟩
  have e3 : ∀ t : FullTable, (t.ShuffleTiles intn).Players = t.Players ∧
      (t.ShuffleTiles intn).Oya = t.Oya := by
    intro t
    simp only [FullTable.ShuffleTiles, and_self]
  have e4 : ∀ t : FullTable, t.InitYama.Players = t.Players ∧ t.InitYama.Oya = t.Oya ∧
      t.InitYama.Yama = t.Tiles.take NTiles := fun _ => ⟨rfl, rfl, rfl⟩
  have e6 : (((t.InitTiles).InitRedDora3 intn4).ShuffleTiles intn).Tiles =
      shuffleLoop intn shuffleOrder (redDoraLoop intn4 (List.range 3) initialTiles) := by
    simp only [FullTable.ShuffleTiles, FullTable.InitRedDora3, FullTable.InitTiles]
  have e5 : ∀ t : FullTable, t.InitDora.Players = t.Players ∧ t.InitDora.Oya = t.Oya ∧
      t.InitDora.Yama = t.Yama := fun _ => ⟨rfl, rfl, rfl⟩
  unfold FullTable.InitBeforePlaying
  refine ⟨?_, ?_, ?_⟩
  · rw [(e5 _).2.2, (e4 _).2.2, List.length_take, e6, shuffleLoop_length, redDoraLoop_length,
      initialTiles_length]
    decide
  · rw [(e5 _).1, (e4 _).1, (e3 _).1, (e2 _).1, (e1 _).1]
  · rw [(e5 _).2.1, (e4 _).2.1, (e3 _).2, (e2 _).2, (e1 _).2]

theorem drawLogged_lengths (t : FullTable) (idx : Fin 4) (h : 0 < t.Yama.length) :
    (t.drawLogged idx).Yama.length = t.Yama.length - 1 ∧
      (∀ j, ((t.drawLogged idx).Players j).Hand.length =
        (t.Players j).Hand.length + (if j = idx then 1 else 0)) ∧
      (t.drawLogged idx).Oya = t.Oya := by
  unfold FullTable.drawLogged
  cases hl : t.Yama.getLast? with
  | none =>
    rw [List.getLast?_eq_none_iff] at hl
    rw [hl] at h
    cases h
  | some tile =>
    refine ⟨?_, ?_, rfl⟩
    · show (t.Yama.dropLast).length = t.Yama.length - 1
      simp
    · intro j
      simp only []
      rw [giveTile_hand]
      split <;> simp

/-- Draws for a list of players: the wall loses as many tiles as the list is
long, and every player gets one tile for every occurrence in the list. -/
theorem drawLogged_list (l : List (Fin 4)) (t : FullTable) (h : l.length ≤ t.Yama.length) :
    (l.foldl FullTable.drawLogged t).Yama.length = t.Yama.length - l.length ∧
      (∀ j, ((l.foldl FullTable.drawLogged t).Players j).Hand.length =
        (t.Players j).Hand.length + l.count j) ∧
      (l.foldl FullTable.drawLogged t).Oya = t.Oya := by
  induction l generalizing t with
  | nil => simp
  | cons i rest ih =>
    rw [List.foldl_cons]
    have hpos : 0 < t.Yama.length := by
      simp only [List.length_cons] at h
      omega
    obtain ⟨s1, s2, s3⟩ := drawLogged_lengths t i hpos
    have hrest : rest.length ≤ (t.drawLogged i).Yama.length := by
      simp only [List.length_cons] at h
      omega
    obtain ⟨r1, r2, r3⟩ := ih (t.drawLogged i) hrest
    refine ⟨?_, ?_, r3.trans s3⟩
    · rw [r1, s1, List.length_cons]
      omega
    · intro j
      rw [r2 j, s2 j, List.count_cons]
      by_cases hj : j = i
      · subst hj
        simp
        omega
      · have : ¬ (i == j) = true := by
          simp only [beq_iff_eq]
          exact fun e => hj e.symm
        simp [hj, this]

/-- The draws of `DrawTenhouStyle` in order: three rounds of one tile for each
player, starting with the dealer, and one more tile for the dealer. -/
theorem DrawTenhouStyle_eq_list (t : FullTable) :
    t.DrawTenhouStyle =
      ([seatOf (t.Oya.val + 0), seatOf (t.Oya.val + 1), seatOf (t.Oya.val + 2),
        seatOf (t.Oya.val + 3), seatOf (t.Oya.val + 0), seatOf (t.Oya.val + 1),
        seatOf (t.Oya.val + 2), seatOf (t.Oya.val + 3), seatOf (t.Oya.val + 0),
        seatOf (t.Oya.val + 1), seatOf (t.Oya.val + 2), seatOf (t.Oya.val + 3),
        t.Oya] : List (Fin 4)).foldl FullTable.drawLogged t := by
  have hOya : ∀ (t : FullTable) (i : Fin 4), (t.drawLogged i).Oya = t.Oya := by
    intro t i
    unfold FullTable.drawLogged
    cases t.Yama.getLast? <;> rfl
  unfold FullTable.DrawTenhouStyle
  simp only [List.range, List.range.loop, NPlayers, List.foldl_cons, List.foldl_nil, hOya]

/-- The deal of `DrawTenhouStyle` from a wall of at least 13 tiles: 13 tiles
leave the wall, four of them go to the dealer and three to each other player. -/
theorem DrawTenhouStyle_lengths (t : FullTable) (h : 13 ≤ t.Yama.length) :
    t.DrawTenhouStyle.Yama.length = t.Yama.length - 13 ∧
      (∀ j, (t.DrawTenhouStyle.Players j).Hand.length =
        (t.Players j).Hand.length + (if j = t.Oya then 4 else 3)) ∧
      t.DrawTenhouStyle.Oya = t.Oya := by
  rw [DrawTenhouStyle_eq_list]
  obtain ⟨r1, r2, r3⟩ := drawLogged_list
    [seatOf (t.Oya.val + 0), seatOf (t.Oya.val + 1), seatOf (t.Oya.val + 2),
      seatOf (t.Oya.val + 3), seatOf (t.Oya.val + 0), seatOf (t.Oya.val + 1),
      seatOf (t.Oya.val + 2), seatOf (t.Oya.val + 3), seatOf (t.Oya.val + 0),
      seatOf (t.Oya.val + 1), seatOf (t.Oya.val + 2), seatOf (t.Oya.val + 3), t.Oya] t h
  refine ⟨r1, ?_, r3⟩
  intro j
  rw [r2 j]
  congr 1
  generalize t.Oya = o
  revert o j
  decide

/-- C26: after `InitBeforePlaying` and `DrawTenhouStyle` on a new table, whatever
numbers the shuffle draws, the dealer holds 4 tiles, every other player holds 3
tiles, and the wall is left with 123 tiles: the hands are not 14 and 13 tiles,
and the wall is not left with 83. -/
theorem DrawTenhouStyle_deals_thirteen (intn4 intn : Nat → Nat) :
    ((NewTable.InitBeforePlaying intn4 intn).Yama.length = 136 ∧
      ∀ i, ((NewTable.InitBeforePlaying intn4 intn).Players i).Hand = []) ∧
    (((NewTable.InitBeforePlaying intn4 intn).DrawTenhouStyle.Players
        (NewTable.InitBeforePlaying intn4 intn).DrawTenhouStyle.Oya).Hand.length = 4 ∧
      (∀ i, i ≠ (NewTable.InitBeforePlaying intn4 intn).DrawTenhouStyle.Oya →
        ((NewTable.InitBeforePlaying intn4 intn).DrawTenhouStyle.Players i).Hand.length = 3) ∧
      (NewTable.InitBeforePlaying intn4 intn).DrawTenhouStyle.Yama.length = 123) := by
  obtain ⟨w1, w2, w3⟩ := InitBeforePlaying_wall NewTable intn4 intn
  have hhand : ∀ i, ((NewTable.InitBeforePlaying intn4 intn).Players i).Hand = [] := by
    intro i
    rw [w2]
    rfl
  obtain ⟨d1, d2, d3⟩ := DrawTenhouStyle_lengths (NewTable.InitBeforePlaying intn4 intn)
    (by rw [w1]; decide)
  refine ⟨⟨w1, hhand⟩, ?_, ?_, ?_⟩
  · rw [d2, hhand, d3]
    simp
  · intro i hi
    rw [d3] at hi
    rw [d2, hhand]
    simp [hi]
  · rw [d1, w1]

/-- C27: `DrawTenhouStyle`, `DrawNormal`, `DrawNormalNoRecord` and `DrawRinshan`
move tiles from the wall to the end of a hand and leave the rivers, the called
melds, the array of all tiles and the indicators as they are, so the number of
tiles in the wall and the four hands stays the same; after `InitBeforePlaying`
and `DrawTenhouStyle` on a table with four empty hands the wall and the hands
hold 136 tiles. -/
theorem draws_conserve_tiles (t : FullTable) (playerIndex : Fin 4) (intn4 intn : Nat → Nat) :
    (t.DrawTenhouStyle.drawnFrom t ∧ t.DrawTenhouStyle.heldCount = t.heldCount) ∧
    ((t.DrawNormal playerIndex).drawnFrom t ∧ (t.DrawNormal playerIndex).heldCount = t.heldCount) ∧
    ((t.DrawNormalNoRecord playerIndex).drawnFrom t ∧
      (t.DrawNormalNoRecord playerIndex).heldCount = t.heldCount) ∧
    ((t.DrawRinshan playerIndex).drawnFrom t ∧
      (t.DrawRinshan playerIndex).heldCount = t.heldCount) ∧
    ((∀ i, (t.Players i).Hand = []) →
      (t.InitBeforePlaying intn4 intn).DrawTenhouStyle.heldCount = 136) := by
  refine ⟨⟨DrawTenhouStyle_drawnFrom t, drawnFrom_heldCount _ _ (DrawTenhouStyle_drawnFrom t)⟩,
    ⟨DrawNormal_drawnFrom t _, drawnFrom_heldCount _ _ (DrawNormal_drawnFrom t _)⟩,
    ⟨DrawNormalNoRecord_drawnFrom t _, drawnFrom_heldCount _ _ (DrawNormalNoRecord_drawnFrom t _)⟩,
    ⟨DrawRinshan_drawnFrom t _, drawnFrom_heldCount _ _ (DrawRinshan_drawnFrom t _)⟩, ?_⟩
  intro hempty
  rw [drawnFrom_heldCount _ _ (DrawTenhouStyle_drawnFrom _)]
  obtain ⟨w1, w2, -⟩ := InitBeforePlaying_wall t intn4 intn
  unfold FullTable.heldCount
  rw [w1, w2, hempty 0, hempty 1, hempty 2, hempty 3]
  rfl

/-! ## Import and export of the wall -/

/-- The export of a wall is every ID in decimal, followed by a comma, in the
order of the wall. -/
theorem ExportYama_eq_join (t : FullTable) :
    t.ExportYama = String.join ((t.Yama.map (fun tile => tile.ID)).map
      (fun id => toString id ++ ",")) := by
  unfold FullTable.ExportYama String.join
  rw [List.foldl_map, List.foldl_map]

/-- The IDs of the imported wall: for every entry of the log in `0..135`, the ID
of the tile at that index of the array `Tiles`. -/
theorem ImportYama_ids (t : FullTable) (yamaLog : List Int) :
    (t.ImportYama yamaLog).Yama.map (fun tile => tile.ID) =
      yamaLog.filterMap (fun idx =>
        if 0 ≤ idx ∧ idx < (NTiles : Int) then (t.Tiles.get? idx.toNat).map (fun tile => tile.ID)
        else none) := by
  unfold FullTable.ImportYama
  simp only []
  rw [List.map_filterMap]
  congr 1
  funext idx
  split <;> simp

set_option maxRecDepth 10000 in
theorem initialTiles_ids : initialTiles.map (fun tile => tile.ID) = List.range 136 := by
  decide

theorem redDoraLoop_ids (intn4 : Nat → Nat) (l : List Nat) (tiles : List Tile) :
    (redDoraLoop intn4 l tiles).map (fun tile => tile.ID) = tiles.map (fun tile => tile.ID) := by
  unfold redDoraLoop
  induction l generalizing tiles with
  | nil => rfl
  | cons c rest ih =>
    rw [List.foldl_cons, ih]
    simp only []
    split
    · rename_i tile h
      rw [List.map_set]
      apply List.ext_get?
      intro n
      by_cases hn : n = (_5m + c * 9) * 4 + intn4 c % 4
      · subst hn
        rw [List.get?_eq_getElem?, List.get?_eq_getElem?, List.getElem?_set_self']
        rw [List.get?_eq_getElem?] at h
        simp [h]
      · rw [List.get?_eq_getElem?, List.get?_eq_getElem?, List.getElem?_set_ne (Ne.symm hn)]
    · rfl

/-- After `InitTiles` and `InitRedDora3` the tile at index `k` of the array has
the ID `k`. -/
theorem InitTiles_ids (t : FullTable) (intn4 : Nat → Nat) :
    ((t.InitTiles).InitRedDora3 intn4).Tiles.map (fun tile => tile.ID) = List.range 136 := by
  have h : ((t.InitTiles).InitRedDora3 intn4).Tiles =
      redDoraLoop intn4 (List.range 3) initialTiles := by
    simp only [FullTable.InitRedDora3, FullTable.InitTiles]
  rw [h, redDoraLoop_ids, initialTiles_ids]

/-- Where the round trip holds: when the index of every tile in the array
`Tiles` is its ID, as after `InitTiles` and `InitRedDora3`, a wall imported from
a log with entries in `0..135` is exported as the text of the log. -/
theorem ExportYama_ImportYama_InitTiles (t : FullTable) (intn4 : Nat → Nat) (w : List Int)
    (hw : ∀ idx ∈ w, 0 ≤ idx ∧ idx < 136) :
    (((t.InitTiles).InitRedDora3 intn4).ImportYama w).ExportYama = wallText w := by
  rw [ExportYama_eq_join, ImportYama_ids]
  unfold wallText
  congr 1
  have hget : ∀ idx ∈ w,
      (if 0 ≤ idx ∧ idx < (NTiles : Int) then
        (((t.InitTiles).InitRedDora3 intn4).Tiles.get? idx.toNat).map (fun tile => tile.ID)
      else none) = some idx.toNat := by
    intro idx hidx
    obtain ⟨h0, h1⟩ := hw idx hidx
    have hN : (NTiles : Int) = 136 := by decide
    rw [if_pos ⟨h0, by rw [hN]; exact h1⟩]
    rw [List.get?_eq_getElem?, ← List.getElem?_map, InitTiles_ids t intn4]
    rw [List.getElem?_range (by omega)]
  clear hw
  induction w with
  | nil => rfl
  | cons idx rest ih =>
    rw [List.filterMap_cons, hget idx (List.mem_cons_self _ _)]
    simp only [List.map_cons]
    rw [ih (fun i hi => hget i (List.mem_cons_of_mem _ hi))]
    congr 1
    have h0 : 0 ≤ idx := by
      by_contra hneg
      have := hget idx (List.mem_cons_self _ _)
      rw [if_neg (fun h => hneg h.1)] at this
      cases this
    obtain ⟨n, rfl⟩ := Int.eq_ofNat_of_zero_le h0
    rfl

set_option maxRecDepth 100000 in
/-- C28: on a table after `InitBeforePlaying`, where the shuffle has exchanged
the first and the last entry of the array `Tiles`, the wall imported from the
log `0, 1, ..., 135` begins with the tile of ID 135, and its export is not the
text of the log. -/
theorem ImportYama_after_shuffle :
    identityWall.length = 136 ∧ identityWall.Nodup ∧
      (∀ idx ∈ identityWall, 0 ≤ idx ∧ idx < 136) ∧
      (((NewTable.InitBeforePlaying (fun _ => 0) swapFirstLast).ImportYama identityWall).Yama.map
        (fun tile => tile.ID)).head? = some 135 ∧
      ((NewTable.InitBeforePlaying (fun _ => 0) swapFirstLast).ImportYama identityWall).ExportYama
        ≠ wallText identityWall := by
  decide

/-! ## The response phase: priority and seat order -/

theorem bestLoop_spec (l : List BaseAction) (b : BaseAction × Nat)
    (hb : b.2 = actionPriority b.1) :
    (l.foldl (fun (b : BaseAction × Nat) a =>
        if actionPriority a > b.2 then (a, actionPriority a) else b) b).2 =
      actionPriority (l.foldl (fun (b : BaseAction × Nat) a =>
        if actionPriority a > b.2 then (a, actionPriority a) else b) b).1 ∧
    b.2 ≤ (l.foldl (fun (b : BaseAction × Nat) a =>
        if actionPriority a > b.2 then (a, actionPriority a) else b) b).2 ∧
    (∀ a ∈ l, actionPriority a ≤ (l.foldl (fun (b : BaseAction × Nat) a =>
        if actionPriority a > b.2 then (a, actionPriority a) else b) b).2) ∧
    ((l.foldl (fun (b : BaseAction × Nat) a =>
        if actionPriority a > b.2 then (a, actionPriority a) else b) b).1 = b.1 ∨
      (l.foldl (fun (b : BaseAction × Nat) a =>
        if actionPriority a > b.2 then (a, actionPriority a) else b) b).1 ∈ l) := by
  induction l generalizing b with
  | nil => simp [hb]
  | cons x rest ih =>
    rw [List.foldl_cons]
    by_cases hx : actionPriority x > b.2
    · rw [if_pos hx]
      obtain ⟨i1, i2, i3, i4⟩ := ih (x, actionPriority x) rfl
      refine ⟨i1, ?_, ?_, ?_⟩
      · simp only [] at i2
        omega
      · intro a ha
        rcases List.mem_cons.1 ha with rfl | ha
        · exact i2
        · exact i3 a ha
      · rcases i4 with i4 | i4
        · right
          rw [i4]
          exact List.mem_cons_self _ _
        · right
          exact List.mem_cons_of_mem _ i4
    · rw [if_neg hx]
      obtain ⟨i1, i2, i3, i4⟩ := ih b hb
      refine ⟨i1, i2, ?_, ?_⟩
      · intro a ha
        rcases List.mem_cons.1 ha with rfl | ha
        · omega
        · exact i3 a ha
      · rcases i4 with i4 | i4
        · left
          exact i4
        · right
          exact List.mem_cons_of_mem _ i4

/-- The response picked for a player has the highest priority among the
candidates, and it is one of them unless it is `Pass`. -/
theorem bestResponse_spec (l : List BaseAction) :
    (∀ a ∈ l, actionPriority a ≤ actionPriority (bestResponse l)) ∧
      (bestResponse l = BaseAction.Pass ∨ bestResponse l ∈ l) := by
  obtain ⟨i1, -, i3, i4⟩ := bestLoop_spec l (BaseAction.Pass, 0) rfl
  unfold bestResponse
  refine ⟨?_, i4⟩
  intro a ha
  rw [← i1]
  exact i3 a ha

theorem finalResponse_eq (responses : List resp) :
    finalResponse responses = bestResponse (responses.map (fun r => r.action)) := by
  unfold finalResponse bestResponse
  rw [List.foldl_map]

theorem actionPriority_injective (a b : BaseAction) (h : actionPriority a = actionPriority b)
    (ha : 0 < actionPriority a) : a = b := by
  cases a <;> cases b <;> simp [actionPriority] at h ha ⊢

theorem candidateActions_pos (table : Table) (p : Player) (discarded : Tile) (a : BaseAction)
    (h : a ∈ candidateActions table p discarded) : 0 < actionPriority a := by
  unfold candidateActions at h
  simp only [List.mem_append] at h
  rcases h with ((h | h) | h) | h
  all_goals
    split at h
    · rw [List.mem_singleton] at h
      rw [h]
      decide
    · cases h

theorem findWinner_three (la : Nat) (b1 b2 b3 final : BaseAction) :
    findWinner la [⟨(la + 1) % NPlayers, b1⟩, ⟨(la + 2) % NPlayers, b2⟩, ⟨(la + 3) % NPlayers, b3⟩]
        final =
      if b1 = final then some ((la + 1) % NPlayers)
      else if b2 = final then some ((la + 2) % NPlayers)
      else if b3 = final then some ((la + 3) % NPlayers)
      else none := by
  have h12 : (la + 1) % 4 ≠ (la + 2) % 4 := by omega
  have h13 : (la + 1) % 4 ≠ (la + 3) % 4 := by omega
  have h23 : (la + 2) % 4 ≠ (la + 3) % 4 := by omega
  unfold findWinner NPlayers
  simp only [List.findSome?, List.any_cons, List.any_nil, Bool.or_false, decide_eq_true_eq,
    Bool.decide_and, Bool.and_eq_true, Bool.or_eq_true, true_and, h12, h13, h23, h12.symm,
    h13.symm, h23.symm, false_and, or_false, false_or]
  by_cases e1 : b1 = final
  · simp [e1]
  · by_cases e2 : b2 = final
    · simp [e1, e2]
    · by_cases e3 : b3 = final
      · simp [e1, e2, e3]
      · simp [e1, e2, e3]

theorem GetPhase_self (t : FullTable) (h : t.GetPhase ≤ 3) : t.Turn = t.GetPhase := by
  unfold FullTable.GetPhase at *
  unfold NPlayers at *
  split_ifs at h ⊢ <;> omega

/-- C23: in the response phase of `MakeSelection`, when some player other than
the discarder has a response, the response that is executed is one of the player
`d` seats after the discarder, no response of the three players has a higher
priority (Ron 4, Kan 3, Pon 2, Chi 1), and no player nearer after the discarder
has that response. -/
theorem MakeSelection_response_priority (t : FullTable) (selection : Int) (discarded : Tile)
    (hphase : 4 ≤ t.GetPhase ∧ t.GetPhase ≤ 15)
    (hactor : 0 ≤ t.LastActor ∧ t.LastActor < 4)
    (hdisc : t.discardedTile = some discarded)
    (hsome : ∃ d ∈ [1, 2, 3], t.available discarded d ≠ []) :
    ∃ d a, d ∈ [1, 2, 3] ∧ a ∈ t.available discarded d ∧
      (∀ d2 ∈ [1, 2, 3], ∀ a2 ∈ t.available discarded d2, actionPriority a2 ≤ actionPriority a) ∧
      (∀ d2 ∈ [1, 2, 3], d2 < d → a ∉ t.available discarded d2) ∧
      t.MakeSelection selection =
        t.execResponse t.LastActor.toNat ((t.LastActor.toNat + d) % NPlayers) discarded a := by
  -- the three picked responses and the final action
  obtain ⟨m1, p1⟩ := bestResponse_spec (t.available discarded 1)
  obtain ⟨m2, p2⟩ := bestResponse_spec (t.available discarded 2)
  obtain ⟨m3, p3⟩ := bestResponse_spec (t.available discarded 3)
  obtain ⟨mf, pf⟩ := bestResponse_spec
    [bestResponse (t.available discarded 1), bestResponse (t.available discarded 2),
      bestResponse (t.available discarded 3)]
  generalize hfin : bestResponse
    [bestResponse (t.available discarded 1), bestResponse (t.available discarded 2),
      bestResponse (t.available discarded 3)] = final at mf pf
  have hpos : ∀ d a, a ∈ t.available discarded d → 0 < actionPriority a := by
    intro d a ha
    exact candidateActions_pos _ _ _ a ha
  have hf1 := mf _ (List.mem_cons_self _ _)
  have hf2 := mf _ (List.mem_cons_of_mem _ (List.mem_cons_self _ _))
  have hf3 := mf _ (List.mem_cons_of_mem _ (List.mem_cons_of_mem _ (List.mem_cons_self _ _)))
  -- the final action is not Pass
  have hfpos : 0 < actionPriority final := by
    obtain ⟨d, hd, hne⟩ := hsome
    obtain ⟨a, ha⟩ := List.exists_mem_of_ne_nil _ hne
    have hap := hpos d a ha
    simp only [List.mem_cons, List.mem_singleton, List.not_mem_nil, or_false] at hd
    rcases hd with rfl | rfl | rfl
    · have := m1 a ha
      omega
    · have := m2 a ha
      omega
    · have := m3 a ha
      omega
  have hfne : final ≠ BaseAction.Pass := by
    intro h
    rw [h] at hfpos
    exact absurd hfpos (by decide)
  -- a picked response that is the final action is available to its player
  have hmem : ∀ l : List BaseAction, bestResponse l = final →
      (bestResponse l = BaseAction.Pass ∨ bestResponse l ∈ l) → final ∈ l := by
    intro l hl hp
    rcases hp with hp | hp
    · exact absurd (hl ▸ hp) hfne
    · exact hl ▸ hp
  -- a player to whom the final action is available has picked it
  have hpick : ∀ l : List BaseAction, (∀ a ∈ l, 0 < actionPriority a) →
      (∀ a ∈ l, actionPriority a ≤ actionPriority (bestResponse l)) →
      (bestResponse l = BaseAction.Pass ∨ bestResponse l ∈ l) →
      actionPriority (bestResponse l) ≤ actionPriority final → final ∈ l →
      bestResponse l = final := by
    intro l _ hmax _ hle hin
    have h1 := hmax final hin
    exact (actionPriority_injective final (bestResponse l) (by omega) hfpos).symm
  -- the run of MakeSelection
  have hla : ((t.LastActor.toNat : Nat) : Int) = t.LastActor := Int.toNat_of_nonneg hactor.1
  obtain ⟨last, hlast, hlt⟩ : ∃ last, (t.Players (seatOf t.LastActor.toNat)).River.River.getLast?
      = some last ∧ last.Tile = discarded := by
    unfold FullTable.discardedTile at hdisc
    cases hl : (t.Players (seatOf t.LastActor.toNat)).River.River.getLast? with
    | none => rw [hl] at hdisc; cases hdisc
    | some last =>
      rw [hl] at hdisc
      exact ⟨last, rfl, by simpa using hdisc⟩
  have hrun : ∀ w, findWinner t.LastActor.toNat (t.responses t.LastActor.toNat discarded) final
      = some w → t.MakeSelection selection =
        t.execResponse t.LastActor.toNat w discarded final := by
    intro w hw
    unfold FullTable.MakeSelection
    simp only []
    rw [if_neg (by omega), if_pos hphase]
    unfold FullTable.responsePhase
    rw [if_neg (by unfold NPlayers; omega)]
    simp only [hlast, hlt]
    have hfr : finalResponse (t.responses t.LastActor.toNat discarded) = final := by
      rw [finalResponse_eq, ← hfin]
      rfl
    rw [hfr, if_neg hfne, hw]
  have hresp : t.responses t.LastActor.toNat discarded =
      [⟨(t.LastActor.toNat + 1) % NPlayers, bestResponse (t.available discarded 1)⟩,
       ⟨(t.LastActor.toNat + 2) % NPlayers, bestResponse (t.available discarded 2)⟩,
       ⟨(t.LastActor.toNat + 3) % NPlayers, bestResponse (t.available discarded 3)⟩] := rfl
  rw [hresp, findWinner_three] at hrun
  have hall : ∀ d2 ∈ [1, 2, 3], ∀ a2 ∈ t.available discarded d2,
      actionPriority a2 ≤ actionPriority final := by
    intro d2 hd2 a2 ha2
    simp only [List.mem_cons, List.mem_singleton, List.not_mem_nil, or_false] at hd2
    rcases hd2 with rfl | rfl | rfl
    · exact le_trans (m1 a2 ha2) hf1
    · exact le_trans (m2 a2 ha2) hf2
    · exact le_trans (m3 a2 ha2) hf3
  by_cases e1 : bestResponse (t.available discarded 1) = final
  · refine ⟨1, final, by decide, hmem _ e1 p1, hall, ?_, ?_⟩
    · intro d2 hd2 hlt2
      simp only [List.mem_cons, List.mem_singleton, List.not_mem_nil, or_false] at hd2
      omega
    · exact hrun _ (by rw [if_pos e1])
  · by_cases e2 : bestResponse (t.available discarded 2) = final
    · refine ⟨2, final, by decide, hmem _ e2 p2, hall, ?_, ?_⟩
      · intro d2 hd2 hlt2 hin
        simp only [List.mem_cons, List.mem_singleton, List.not_mem_nil, or_false] at hd2
        have : d2 = 1 := by omega
        subst this
        exact e1 (hpick _ (hpos 1) m1 p1 hf1 hin)
      · exact hrun _ (by rw [if_neg e1, if_pos e2])
    · have e3 : bestResponse (t.available discarded 3) = final := by
        simp only [List.mem_cons, List.mem_singleton, List.not_mem_nil, or_false] at pf
        rcases pf with pf | pf | pf | pf
        · exact absurd pf hfne
        · exact absurd pf.symm e1
        · exact absurd pf.symm e2
        · exact pf.symm
      refine ⟨3, final, by decide, hmem _ e3 p3, hall, ?_, ?_⟩
      · intro d2 hd2 hlt2 hin
        simp only [List.mem_cons, List.mem_singleton, List.not_mem_nil, or_false] at hd2
        have : d2 = 1 ∨ d2 = 2 := by omega
        rcases this with rfl | rfl
        · exact e1 (hpick _ (hpos 1) m1 p1 hf1 hin)
        · exact e2 (hpick _ (hpos 2) m2 p2 hf2 hin)
      · exact hrun _ (by rw [if_neg e1, if_neg e2, if_pos e3])

theorem MakeSelection_response_priority_witness :
    (4 ≤ ponTable.GetPhase ∧ ponTable.GetPhase ≤ 15) ∧
      ponTable.available ⟨_3m, false, 8⟩ 1 = [BaseAction.Chi] ∧
      ponTable.available ⟨_3m, false, 8⟩ 2 = [BaseAction.Pon, BaseAction.Chi] ∧
      ∃ d a, d ∈ [1, 2, 3] ∧ a ∈ ponTable.available ⟨_3m, false, 8⟩ d ∧
        (∀ d2 ∈ [1, 2, 3], ∀ a2 ∈ ponTable.available ⟨_3m, false, 8⟩ d2,
          actionPriority a2 ≤ actionPriority a) ∧
        (∀ d2 ∈ [1, 2, 3], d2 < d → a ∉ ponTable.available ⟨_3m, false, 8⟩ d2) ∧
        ponTable.MakeSelection 0 =
          ponTable.execResponse ponTable.LastActor.toNat
            ((ponTable.LastActor.toNat + d) % NPlayers) ⟨_3m, false, 8⟩ a :=
  ⟨by decide, by decide, by decide,
    MakeSelection_response_priority ponTable 0 ⟨_3m, false, 8⟩ (by decide) (by decide)
      (by decide) ⟨1, by decide, by decide⟩⟩

/-! ## The response phase: the river of the discarder -/

theorem clearLastRemain_length (l : List RiverTile) : (clearLastRemain l).length = l.length := by
  induction l with
  | nil => rfl
  | cons rt rest ih =>
    cases rest with
    | nil => rfl
    | cons rt2 rest2 =>
      rw [clearLastRemain, List.length_cons, ih]
      rfl

/-- What `SetNotRemain` does to a river: the last entry gets `Remain = false`,
every other entry and the order stay. -/
theorem clearLastRemain_append (l : List RiverTile) (rt : RiverTile) :
    clearLastRemain (l ++ [rt]) = l ++ [{ rt with Remain := false }] := by
  induction l with
  | nil => rfl
  | cons a rest ih =>
    cases rest with
    | nil => rfl
    | cons b rest2 =>
      rw [List.cons_append, List.cons_append, clearLastRemain, ← List.cons_append, ih]
      rfl

theorem ExecuteNaki_river (p : Player) (tile : Tile) (a : BaseAction) :
    (p.ExecuteNaki tile a).River = p.River := by
  unfold Player.ExecuteNaki
  split <;> rfl

/-- The rivers after a call in the response phase: the river of the discarder
has gone through `SetNotRemain`, the other rivers are as before. -/
theorem execNaki_rivers (t : FullTable) (lastActor winner : Nat) (discarded : Tile)
    (a : BaseAction) (i : Fin 4) :
    ((t.execNaki lastActor winner discarded a).Players i).River =
      if i = seatOf lastActor then (t.Players i).River.SetNotRemain else (t.Players i).River := by
  unfold FullTable.execNaki
  simp only []
  have hlog : ∀ (t : FullTable) (p1 p2 : Int) (l : LogAction) (x : Option Tile),
      (t.logAction p1 p2 l x).Players = t.Players := fun t p1 p2 l x =>
    (logAction_players t p1 p2 l x).1
  rw [hlog]
  dsimp only
  by_cases hw : i = seatOf winner
  · subst hw
    rw [Function.update_same, ExecuteNaki_river]
    by_cases hl : seatOf winner = seatOf lastActor
    · rw [if_pos hl, hl, Function.update_same]
    · rw [if_neg hl, Function.update_noteq hl]
  · rw [Function.update_noteq hw]
    by_cases hl : i = seatOf lastActor
    · subst hl
      rw [if_pos rfl, Function.update_same]
    · rw [if_neg hl, Function.update_noteq hl]

/-- The rivers after the branch in which every player passes: the river of the
discarder has gone through `SetNotRemain` as well. -/
theorem allPass_rivers (t : FullTable) (lastActor : Nat) (i : Fin 4) :
    ((t.allPass lastActor).Players i).River =
      if i = seatOf lastActor then (t.Players i).River.SetNotRemain else (t.Players i).River := by
  unfold FullTable.allPass FullTable.NextTurn
  dsimp only
  by_cases hl : i = seatOf lastActor
  · subst hl
    rw [if_pos rfl, Function.update_same]
  · rw [if_neg hl, Function.update_noteq hl]

/-- The branch taken when none of the three other players has a response:
`MakeSelection` returns true and leaves the table of `allPass`, in which the
river of the discarder has gone through `SetNotRemain`. -/
theorem MakeSelection_all_pass (t : FullTable) (selection : Int) (discarded : Tile)
    (hphase : 4 ≤ t.GetPhase ∧ t.GetPhase ≤ 15)
    (hactor : 0 ≤ t.LastActor ∧ t.LastActor < 4)
    (hdisc : t.discardedTile = some discarded)
    (hnone : ∀ d ∈ [1, 2, 3], t.available discarded d = []) :
    t.MakeSelection selection = some (true, t.allPass t.LastActor.toNat) := by
  obtain ⟨last, hlast, hlt⟩ : ∃ last, (t.Players (seatOf t.LastActor.toNat)).River.River.getLast?
      = some last ∧ last.Tile = discarded := by
    unfold FullTable.discardedTile at hdisc
    cases hl : (t.Players (seatOf t.LastActor.toNat)).River.River.getLast? with
    | none => rw [hl] at hdisc; cases hdisc
    | some last =>
      rw [hl] at hdisc
      exact ⟨last, rfl, by simpa using hdisc⟩
  have hresp : t.responses t.LastActor.toNat discarded =
      [⟨(t.LastActor.toNat + 1) % NPlayers, bestResponse (t.available discarded 1)⟩,
       ⟨(t.LastActor.toNat + 2) % NPlayers, bestResponse (t.available discarded 2)⟩,
       ⟨(t.LastActor.toNat + 3) % NPlayers, bestResponse (t.available discarded 3)⟩] := rfl
  have hfr : finalResponse (t.responses t.LastActor.toNat discarded) = BaseAction.Pass := by
    rw [finalResponse_eq, hresp, hnone 1 (by decide), hnone 2 (by decide), hnone 3 (by decide)]
    rfl
  unfold FullTable.MakeSelection
  simp only []
  rw [if_neg (by omega), if_pos hphase]
  unfold FullTable.responsePhase
  rw [if_neg (by unfold NPlayers; omega)]
  simp only [hlast, hlt]
  rw [hfr, if_pos rfl]

/-- C24: player 0 has discarded 9p and none of the three other players has a
response; `MakeSelection` returns true, no hand and no called meld has changed,
and the river entry of the 9p has `Remain = false`, though nobody has claimed
the tile. -/
theorem MakeSelection_all_pass_clears_remain :
    (allPassTable.Players 0).River.River = [freshDiscard ⟨_9p, false, 68⟩] ∧
      (freshDiscard ⟨_9p, false, 68⟩).Remain = true ∧
      (∀ d ∈ [1, 2, 3], allPassTable.available ⟨_9p, false, 68⟩ d = []) ∧
      ∃ t2, allPassTable.MakeSelection 0 = some (true, t2) ∧
        (t2.Players 0).River.River = [{ freshDiscard ⟨_9p, false, 68⟩ with Remain := false }] ∧
        (∀ i, (t2.Players i).Hand = (allPassTable.Players i).Hand) ∧
        (∀ i, (t2.Players i).CallGroups = (allPassTable.Players i).CallGroups) ∧
        t2.LastAction = BaseAction.Pass := by
  refine ⟨by decide, by decide, by decide, allPassTable.allPass 0, by rfl, by decide, by decide,
    by decide, by decide⟩

/-! ## The self-action phase: a selection that is no legal action -/

theorem seatOf_of_lt (i : Nat) (h : i < 4) : seatOf i = ⟨i, h⟩ := by
  unfold seatOf
  exact Fin.ext (Nat.mod_eq_of_lt h)

/-- The list of self-actions exists (`GetTsumo` does not panic) when the hand is
not empty or the player has no waits. -/
theorem selfActions_isSome (t : FullTable) (p : Player) (h : p.Hand ≠ [] ∨ p.AtariTiles = []) :
    ∃ actions, t.selfActions p = some actions := by
  unfold FullTable.selfActions
  simp only []
  by_cases ht : p.IsTenpai = true
  · have hhand : p.Hand ≠ [] := by
      rcases h with h | h
      · exact h
      · unfold Player.IsTenpai at ht
        rw [h] at ht
        simp at ht
    have hlast : ∃ w, (ConvertTilesToBaseTiles p.Hand).getLast? = some w := by
      cases hl : (ConvertTilesToBaseTiles p.Hand).getLast? with
      | some w => exact ⟨w, rfl⟩
      | none =>
        rw [List.getLast?_eq_none_iff] at hl
        have hlen := congrArg List.length hl
        unfold ConvertTilesToBaseTiles sortTiles at hlen
        rw [List.length_insertionSort, List.length_map] at hlen
        exact absurd (List.length_eq_zero.1 hlen) hhand
    obtain ⟨w, hw⟩ := hlast
    rw [if_pos ht]
    unfold Player.GetTsumo
    rw [if_pos ht]
    simp only [hw]
    cases CalculateScore (some t.toTable) p (ConvertTilesToBaseTiles p.Hand) p.CallGroups w
      (IsSevenPairPattern (ConvertTilesToBaseTiles p.Hand)) <;> exact ⟨_, rfl⟩
  · rw [if_neg ht]
    exact ⟨_, rfl⟩

/-- C25: in a self-action phase, a selection that is negative or not less than
the number of self-actions of the player to move makes `MakeSelection` return
false and leave the table, with the four players, as it is. -/
theorem MakeSelection_invalid_index (t : FullTable) (selection : Int)
    (actions : List SelfAction) (hphase : t.GetPhase ≤ 3)
    (hactions : t.selfActions (t.Players (seatOf t.Turn)) = some actions)
    (hsel : selection < 0 ∨ (actions.length : Int) ≤ selection) :
    t.MakeSelection selection = some (false, t) := by
  have hturn : t.Turn < 4 := by
    rw [GetPhase_self t hphase]
    omega
  unfold FullTable.MakeSelection
  simp only []
  rw [if_pos hphase]
  unfold FullTable.selfActionPhase
  rw [dif_pos hturn]
  simp only []
  rw [← seatOf_of_lt t.Turn hturn, hactions]
  simp only []
  rw [if_pos]
  rcases hsel with h | h
  · exact Or.inl h
  · exact Or.inr h

theorem MakeSelection_invalid_index_witness :
    twoTileTable.GetPhase ≤ 3 ∧
      twoTileTable.selfActions (twoTileTable.Players (seatOf twoTileTable.Turn)) =
        some [⟨⟨BaseAction.Discard, [⟨_1m, false, 0⟩]⟩⟩, ⟨⟨BaseAction.Discard, [⟨_9p, false, 68⟩]⟩⟩] ∧
      twoTileTable.MakeSelection 2 = some (false, twoTileTable) :=
  ⟨by decide, by decide,
    MakeSelection_invalid_index twoTileTable 2
      [⟨⟨BaseAction.Discard, [⟨_1m, false, 0⟩]⟩⟩, ⟨⟨BaseAction.Discard, [⟨_9p, false, 68⟩]⟩⟩]
      (by decide) (by decide) (Or.inr (by decide))⟩

/-! ## Thirteen orphans, all simples and sequences -/

theorem IsIn_terminalHonors (k : BaseTile) :
    IsIn terminalHonors k = isTerminalOrHonorKind k := by
  by_cases h : k < 34
  · have hall : ∀ k, k < 34 → IsIn terminalHonors k = isTerminalOrHonorKind k := by decide
    exact hall k h
  · have h1 : isTerminalOrHonorKind k = false := by
      simp [isTerminalOrHonorKind, h]
    rw [h1, Bool.eq_false_iff]
    intro hin
    rw [IsIn_iff] at hin
    have hlt : ∀ x ∈ terminalHonors, x < 34 := by decide
    exact h (hlt k hin)

theorem CountTile_eq_count (l : List BaseTile) (t : BaseTile) : CountTile l t = l.count t := by
  induction l with
  | nil => rfl
  | cons a l ih =>
    rw [CountTile_cons, ih, List.count_cons]
    by_cases h : a = t
    · simp [h]; omega
    · simp [h]

theorem isTerminalOrHonorKind_cases (k : BaseTile) (h : isTerminalOrHonorKind k = true) :
    k = 0 ∨ k = 8 ∨ k = 9 ∨ k = 17 ∨ k = 18 ∨ k = 26 ∨ k = 27 ∨ k = 28 ∨ k = 29 ∨ k = 30 ∨
      k = 31 ∨ k = 32 ∨ k = 33 := by
  have hk : k < 34 := by
    simp only [isTerminalOrHonorKind, Bool.and_eq_true, decide_eq_true_eq] at h
    exact h.1
  revert h
  have hall : ∀ k, k < 34 → isTerminalOrHonorKind k = true →
      k = 0 ∨ k = 8 ∨ k = 9 ∨ k = 17 ∨ k = 18 ∨ k = 26 ∨ k = 27 ∨ k = 28 ∨ k = 29 ∨ k = 30 ∨
        k = 31 ∨ k = 32 ∨ k = 33 := by decide
  exact hall k hk

/-- A list of terminals and honours is as long as the counts of the thirteen
kinds add up to. -/
theorem length_eq_sum_counts (l : List BaseTile)
    (h : ∀ t ∈ l, isTerminalOrHonorKind t = true) :
    l.length = l.count 0 + l.count 8 + l.count 9 + l.count 17 + l.count 18 + l.count 26 +
      l.count 27 + l.count 28 + l.count 29 + l.count 30 + l.count 31 + l.count 32 +
      l.count 33 := by
  induction l with
  | nil => rfl
  | cons a l ih =>
    have ih1 := ih (fun t ht => h t (List.mem_cons_of_mem _ ht))
    have ha := isTerminalOrHonorKind_cases a (h a (List.mem_cons_self _ _))
    rcases ha with rfl | rfl | rfl | rfl | rfl | rfl | rfl | rfl | rfl | rfl | rfl | rfl | rfl <;>
      simp [List.count_cons] <;> omega

theorem CheckKokushi_eq_true_iff (s : FullScoreCounter) :
    s.CheckKokushi = true ↔
      s.Player.IsMenzen = true ∧ s.Tiles.length = 14 ∧
      (∀ t ∈ s.Tiles, isTerminalOrHonorKind t = true) ∧
      (∀ k, isTerminalOrHonorKind k = true → 1 ≤ s.Tiles.count k) := by
  unfold FullScoreCounter.CheckKokushi
  by_cases hm : s.Player.IsMenzen = true
  swap
  · simp [hm]
  by_cases hl : s.Tiles.length = 14
  swap
  · simp [hm, hl]
  by_cases ha : s.Tiles.all (fun tile => IsIn terminalHonors tile) = true
  · have ha2 : ∀ t ∈ s.Tiles, isTerminalOrHonorKind t = true := by
      intro t ht
      rw [← IsIn_terminalHonors]
      exact List.all_eq_true.1 ha t ht
    simp only [hm, hl, ha, Bool.not_true, Bool.false_eq_true, if_false, ne_eq, not_true_eq_false,
      true_and]
    rw [List.all_eq_true]
    constructor
    · intro h
      refine ⟨ha2, fun k hk => ?_⟩
      have hin : k ∈ terminalHonors := (IsIn_iff _ _).1 (by rw [IsIn_terminalHonors]; exact hk)
      have := h k hin
      rw [decide_eq_true_eq, CountTile_eq_count] at this
      omega
    · rintro ⟨_, h⟩ k hk
      have := h k (by rw [← IsIn_terminalHonors]; exact (IsIn_iff _ _).2 hk)
      rw [decide_eq_true_eq, CountTile_eq_count]
      omega
  · have ha2 : ¬ ∀ t ∈ s.Tiles, isTerminalOrHonorKind t = true := by
      intro h
      apply ha
      rw [List.all_eq_true]
      intro t ht
      rw [IsIn_terminalHonors]
      exact h t ht
    simp only [hm, hl, ha, Bool.not_true, Bool.not_false, Bool.false_eq_true, if_false, if_true,
      ne_eq, not_true_eq_false, true_and, false_iff]
    rintro ⟨h, _⟩
    exact ha2 h

/-- Thirteen counts that are at least 1 and add up to 14: a count of 2 or more
is 2, and the other counts are 1. -/
theorem kokushi_pair_of_two (c : Nat → Nat)
    (hcnt : ∀ k, isTerminalOrHonorKind k = true → 1 ≤ c k)
    (hsum : 14 = c 0 + c 8 + c 9 + c 17 + c 18 + c 26 + c 27 + c 28 + c 29 + c 30 + c 31 +
      c 32 + c 33)
    (d : Nat) (hd : isTerminalOrHonorKind d = true) (h2 : 2 ≤ c d) :
    c d = 2 ∧ ∀ k, isTerminalOrHonorKind k = true → k ≠ d → c k = 1 := by
  have c0 := hcnt 0 (by decide)
  have c8 := hcnt 8 (by decide)
  have c9 := hcnt 9 (by decide)
  have c17 := hcnt 17 (by decide)
  have c18 := hcnt 18 (by decide)
  have c26 := hcnt 26 (by decide)
  have c27 := hcnt 27 (by decide)
  have c28 := hcnt 28 (by decide)
  have c29 := hcnt 29 (by decide)
  have c30 := hcnt 30 (by decide)
  have c31 := hcnt 31 (by decide)
  have c32 := hcnt 32 (by decide)
  have c33 := hcnt 33 (by decide)
  clear hcnt
  rcases isTerminalOrHonorKind_cases d hd with
    rfl | rfl | rfl | rfl | rfl | rfl | rfl | rfl | rfl | rfl | rfl | rfl | rfl
  all_goals
    refine ⟨by omega, fun k hk hne => ?_⟩
    rcases isTerminalOrHonorKind_cases k hk with
      rfl | rfl | rfl | rfl | rfl | rfl | rfl | rfl | rfl | rfl | rfl | rfl | rfl <;>
      first
        | exact absurd rfl hne
        | omega

/-- Thirteen counts that are at least 1 and add up to 14: one of them is 2 and
the others are 1. -/
theorem kokushi_pair (c : Nat → Nat)
    (hcnt : ∀ k, isTerminalOrHonorKind k = true → 1 ≤ c k)
    (hsum : 14 = c 0 + c 8 + c 9 + c 17 + c 18 + c 26 + c 27 + c 28 + c 29 + c 30 + c 31 +
      c 32 + c 33) :
    ∃ d, isTerminalOrHonorKind d = true ∧ c d = 2 ∧
      ∀ k, isTerminalOrHonorKind k = true → k ≠ d → c k = 1 := by
  have key := kokushi_pair_of_two c hcnt hsum
  have htwo : 2 ≤ c 0 ∨ 2 ≤ c 8 ∨ 2 ≤ c 9 ∨ 2 ≤ c 17 ∨ 2 ≤ c 18 ∨ 2 ≤ c 26 ∨ 2 ≤ c 27 ∨
      2 ≤ c 28 ∨ 2 ≤ c 29 ∨ 2 ≤ c 30 ∨ 2 ≤ c 31 ∨ 2 ≤ c 32 ∨ 2 ≤ c 33 := by
    clear key hcnt
    omega
  rcases htwo with h2 | h2 | h2 | h2 | h2 | h2 | h2 | h2 | h2 | h2 | h2 | h2 | h2
  · exact ⟨0, by decide, key 0 (by decide) h2⟩
  · exact ⟨8, by decide, key 8 (by decide) h2⟩
  · exact ⟨9, by decide, key 9 (by decide) h2⟩
  · exact ⟨17, by decide, key 17 (by decide) h2⟩
  · exact ⟨18, by decide, key 18 (by decide) h2⟩
  · exact ⟨26, by decide, key 26 (by decide) h2⟩
  · exact ⟨27, by decide, key 27 (by decide) h2⟩
  · exact ⟨28, by decide, key 28 (by decide) h2⟩
  · exact ⟨29, by decide, key 29 (by decide) h2⟩
  · exact ⟨30, by decide, key 30 (by decide) h2⟩
  · exact ⟨31, by decide, key 31 (by decide) h2⟩
  · exact ⟨32, by decide, key 32 (by decide) h2⟩
  · exact ⟨33, by decide, key 33 (by decide) h2⟩

/-- C35: `CheckKokushi` returns true exactly when the player is menzen, there
are 14 tiles, every tile is a terminal or an honour and each of the thirteen
terminal and honour kinds occurs; one of the thirteen kinds then occurs twice
and the others once, and tiles among which there is a 2m are rejected. -/
theorem CheckKokushi_iff (s : FullScoreCounter) :
    (s.CheckKokushi = true ↔
      s.Player.IsMenzen = true ∧ s.Tiles.length = 14 ∧
      (∀ t ∈ s.Tiles, isTerminalOrHonorKind t = true) ∧
      (∀ k, isTerminalOrHonorKind k = true → 1 ≤ s.Tiles.count k)) ∧
    (s.CheckKokushi = true →
      ∃ d, isTerminalOrHonorKind d = true ∧ s.Tiles.count d = 2 ∧
        ∀ k, isTerminalOrHonorKind k = true → k ≠ d → s.Tiles.count k = 1) ∧
    (_2m ∈ s.Tiles → s.CheckKokushi = false) := by
  refine ⟨CheckKokushi_eq_true_iff s, fun h => ?_, fun h2 => ?_⟩
  · obtain ⟨_, hl, hall, hcnt⟩ := (CheckKokushi_eq_true_iff s).1 h
    have hsum := length_eq_sum_counts s.Tiles hall
    rw [hl] at hsum
    exact kokushi_pair (fun k => s.Tiles.count k) hcnt hsum
  · rw [Bool.eq_false_iff]
    intro h
    obtain ⟨_, _, hall, _⟩ := (CheckKokushi_eq_true_iff s).1 h
    have := hall _2m h2
    revert this
    decide

/-- The test of `CheckTanyao` is on the ranks 1 and 9 alone. -/
theorem CheckTanyao_eq_true_iff (s : FullScoreCounter) :
    s.CheckTanyao = true ↔ ∀ t ∈ s.Tiles, Is19hai t = false := by
  unfold FullScoreCounter.CheckTanyao Is19hai
  rw [List.all_eq_true]
  constructor
  · intro h t ht
    have := h t ht
    simpa using this
  · intro h t ht
    have := h t ht
    simpa using this

/-- C39: `CheckTanyao` accepts the fourteen tiles 2m3m4m 4p5p6p 5s5s 6s7s8s
5z5z5z, which hold a triplet of white dragons, and a hand of honour tiles only;
the yaku test for Tanyao succeeds on them. -/
theorem CheckTanyao_accepts_honors :
    _5z ∈ dragonTripletTiles ∧ isTerminalOrHonorKind _5z = true ∧
    (closedCounter dragonTripletTiles).CheckTanyao = true ∧
    (closedCounter dragonTripletTiles).CheckYaku Tanyao = true ∧
    (closedCounter [_1z, _1z, _1z, _2z, _2z, _2z, _3z, _3z, _3z, _5z, _5z, _5z, _7z,
      _7z]).CheckTanyao = true := by
  decide

theorem shuntsu_arith (s0 s1 s2 : Nat) :
    (¬(s1 - s0 ≠ 1 ∨ s2 - s1 ≠ 1) ∧
      ¬(s2 ≥ 27 ∨ s2 = 7 ∨ s2 = 8 ∨ s2 = 16 ∨ s2 = 17 ∨ s2 = 25 ∨ s2 = 26)) ↔
    (s1 = s0 + 1 ∧ s2 = s0 + 2 ∧ s0 + 2 < 27 ∧ (s0 + 2) % 9 ≠ 7 ∧ (s0 + 2) % 9 ≠ 8) := by
  omega

/-- What `IsShuntsu` tests: the sorted kinds are consecutive, and the largest is
no honour and neither the 8 nor the 9 of its suit. -/
theorem IsShuntsu_eq_true_iff (tiles : List BaseTile) :
    IsShuntsu tiles = true ↔
      ∃ a, sortTiles tiles = [a, a + 1, a + 2] ∧ a + 2 < 27 ∧ (a + 2) % 9 ≠ 7 ∧
        (a + 2) % 9 ≠ 8 := by
  unfold IsShuntsu
  by_cases hl : tiles.length = 3
  swap
  · rw [if_pos hl]
    simp only [Bool.false_eq_true, false_iff, not_exists]
    rintro a ⟨hs, _⟩
    have := sortTiles_length tiles
    rw [hs] at this
    exact hl this.symm
  rw [if_neg (by simpa using hl)]
  have hlen := sortTiles_length tiles
  rw [hl] at hlen
  match hst : sortTiles tiles, hlen with
  | [s0, s1, s2], _ =>
    simp only [_1z, _8m, _9m, _8p, _9p, _8s, _9s]
    constructor
    · intro h
      split_ifs at h with h1 h2
      obtain ⟨e1, e2, e3, e4, e5⟩ := (shuntsu_arith s0 s1 s2).1 ⟨h1, h2⟩
      exact ⟨s0, by rw [e1, e2], e3, e4, e5⟩
    · rintro ⟨a, ha, h1, h2, h3⟩
      simp only [List.cons.injEq, and_true] at ha
      obtain ⟨rfl, rfl, rfl⟩ := ha
      obtain ⟨k1, k2⟩ := (shuntsu_arith s0 (s0 + 1) (s0 + 2)).2 ⟨rfl, rfl, h1, h2, h3⟩
      rw [if_neg k1, if_neg k2]

/-- C36: `IsShuntsu` rejects 7m 8m 9m and 6m 7m 8m, three consecutive ranks of
one suit, and accepts 8m 9m 1p and 9m 1p 2p, which span two suits. -/
theorem IsShuntsu_tests_last_tile :
    isRun _7m _8m _9m = true ∧ IsShuntsu [_7m, _8m, _9m] = false ∧
    isRun _6m _7m _8m = true ∧ IsShuntsu [_6m, _7m, _8m] = false ∧
    isRun _8m _9m _1p = false ∧ IsShuntsu [_8m, _9m, _1p] = true ∧
    isRun _9m _1p _2p = false ∧ IsShuntsu [_9m, _1p, _2p] = true := by
  decide

/-! ## The pon of `ExecuteNaki` -/

theorem removeByID_absent (l : List Tile) (id : Nat) (h : ∀ t ∈ l, t.ID ≠ id) :
    removeByID l id = l := by
  induction l with
  | nil => rfl
  | cons t rest ih =>
    rw [removeByID, if_neg (h t (List.mem_cons_self _ _)),
      ih (fun x hx => h x (List.mem_cons_of_mem _ hx))]

/-- C37: the pon of `ExecuteNaki` is given the discarded tile; when no tile of
the hand has its ID, as for every tile taken from a river, the hand is left
as it is, and no meld is added to the called melds; `Menzen` becomes false. -/
theorem ExecuteNaki_pon_keeps_hand (p : Player) (tile : Tile)
    (hid : ∀ h ∈ p.Hand, h.ID ≠ tile.ID) :
    (p.ExecuteNaki tile BaseAction.Pon).Hand = p.Hand ∧
    (p.ExecuteNaki tile BaseAction.Pon).CallGroups = p.CallGroups ∧
    (p.ExecuteNaki tile BaseAction.Pon).Menzen = false := by
  have e : removeByID p.Hand tile.ID = p.Hand := removeByID_absent _ _ hid
  simp only [Player.ExecuteNaki, Player.ExecutePonSimple, Player.RemoveFromHand, e, and_self]

theorem ExecuteNaki_pon_keeps_hand_witness :
    (∀ h ∈ ponCaller.Hand, h.ID ≠ (⟨_3m, false, 8⟩ : Tile).ID) ∧
    (ponCaller.GetPon ⟨_3m, false, 8⟩).length = 1 ∧
    ((ponCaller.ExecuteNaki ⟨_3m, false, 8⟩ BaseAction.Pon).Hand = ponCaller.Hand ∧
     (ponCaller.ExecuteNaki ⟨_3m, false, 8⟩ BaseAction.Pon).CallGroups = ponCaller.CallGroups ∧
     (ponCaller.ExecuteNaki ⟨_3m, false, 8⟩ BaseAction.Pon).Menzen = false) :=
  ⟨by decide, by decide, ExecuteNaki_pon_keeps_hand ponCaller ⟨_3m, false, 8⟩ (by decide)⟩

/-! ## `IsTenpaiAfterDiscard` -/

theorem tryHead_no_entry (recur : List BaseTile → TileSplitter → SearchResult)
    (hrec : ∀ l ts, (l.length % 3 = 1 ∨ (ts.hasHead = true ∧ l.length % 3 = 2)) →
      (recur l ts).1 = [] ∧ (recur l ts).2.hasHead = ts.hasHead)
    (tiles : List BaseTile) (tile : BaseTile) (acc : SearchResult)
    (hbad : tiles.length % 3 = 1 ∨ (acc.2.hasHead = true ∧ tiles.length % 3 = 2)) :
    (tryHead recur tiles tile acc).1 = acc.1 ∧
      (tryHead recur tiles tile acc).2.hasHead = acc.2.hasHead := by
  unfold tryHead
  simp only []
  split_ifs with h
  · simp only [Bool.and_eq_true, Bool.not_eq_true', decide_eq_true_eq] at h
    obtain ⟨hh, hc⟩ := h
    have hlen := removeFromSlice_length tiles tile 2
    have hmin : min 2 (countInSlice tiles tile) = 2 := by omega
    rw [hmin] at hlen
    have h1 : tiles.length % 3 = 1 := by
      rcases hbad with h | ⟨h, _⟩
      · exact h
      · rw [hh] at h; cases h
    have := hrec (removeFromSlice tiles tile 2)
      { acc.2 with completedTiles := ⟨⟨TileGroupType.Toitsu, [tile, tile]⟩,
                     acc.2.completedTiles.Body⟩, hasHead := true }
      (Or.inr ⟨rfl, by omega⟩)
    rw [this.1, List.append_nil]
    exact ⟨rfl, hh.symm⟩
  · exact ⟨rfl, rfl⟩

theorem tryGroup_no_entry (recur : List BaseTile → TileSplitter → SearchResult)
    (hrec : ∀ l ts, (l.length % 3 = 1 ∨ (ts.hasHead = true ∧ l.length % 3 = 2)) →
      (recur l ts).1 = [] ∧ (recur l ts).2.hasHead = ts.hasHead)
    (tiles tmpTiles : List BaseTile) (grp : TileGroup) (acc : SearchResult)
    (hlen : tmpTiles.length + 3 = tiles.length)
    (hbad : tiles.length % 3 = 1 ∨ (acc.2.hasHead = true ∧ tiles.length % 3 = 2)) :
    (tryGroup recur tmpTiles grp acc).1 = acc.1 ∧
      (tryGroup recur tmpTiles grp acc).2.hasHead = acc.2.hasHead := by
  unfold tryGroup
  simp only []
  have := hrec tmpTiles
    { acc.2 with
      completedTiles := ⟨acc.2.completedTiles.Head,
        (appendGroup acc.2.heap acc.2.completedTiles.Body grp).2⟩,
      heap := (appendGroup acc.2.heap acc.2.completedTiles.Body grp).1 }
    (by
      rcases hbad with h | ⟨h1, h2⟩
      · exact Or.inl (by omega)
      · exact Or.inr ⟨h1, by omega⟩)
  rw [this.1, List.append_nil]
  exact ⟨rfl, this.2⟩

theorem searchLoop_no_entry (recur : List BaseTile → TileSplitter → SearchResult)
    (hrec : ∀ l ts, (l.length % 3 = 1 ∨ (ts.hasHead = true ∧ l.length % 3 = 2)) →
      (recur l ts).1 = [] ∧ (recur l ts).2.hasHead = ts.hasHead)
    (tiles : List BaseTile) (hh : Bool)
    (hbad : tiles.length % 3 = 1 ∨ (hh = true ∧ tiles.length % 3 = 2)) :
    ∀ (rest processed : List BaseTile) (acc : SearchResult), (∀ x ∈ rest, x ∈ tiles) →
      acc.2.hasHead = hh →
      (searchLoop recur tiles rest processed acc).1 = acc.1 ∧
        (searchLoop recur tiles rest processed acc).2.hasHead = hh := by
  intro rest
  induction rest with
  | nil => intro processed acc _ hacc; exact ⟨rfl, hacc⟩
  | cons tile rest ih =>
    intro processed acc hmem hacc
    have hrest : ∀ x ∈ rest, x ∈ tiles := fun x hx => hmem x (List.mem_cons_of_mem _ hx)
    unfold searchLoop
    split_ifs with hp
    · exact ih processed acc hrest hacc
    · have h1 := tryHead_no_entry recur hrec tiles tile acc (by rw [hacc]; exact hbad)
      have h2 : (tryKoutsu recur tiles tile (tryHead recur tiles tile acc)).1 = acc.1 ∧
          (tryKoutsu recur tiles tile (tryHead recur tiles tile acc)).2.hasHead = hh := by
        unfold tryKoutsu
        split_ifs with hc
        · have hlen := removeFromSlice_length tiles tile 3
          have hmin : min 3 (countInSlice tiles tile) = 3 := by omega
          rw [hmin] at hlen
          have := tryGroup_no_entry recur hrec tiles (removeFromSlice tiles tile 3)
            ⟨TileGroupType.Koutsu, [tile, tile, tile]⟩ (tryHead recur tiles tile acc) hlen
            (by rw [h1.2, hacc]; exact hbad)
          exact ⟨this.1.trans h1.1, this.2.trans (h1.2.trans hacc)⟩
        · exact ⟨h1.1, h1.2.trans hacc⟩
      have h3 : (tryShuntsu recur tiles tile
            (tryKoutsu recur tiles tile (tryHead recur tiles tile acc))).1 = acc.1 ∧
          (tryShuntsu recur tiles tile
            (tryKoutsu recur tiles tile (tryHead recur tiles tile acc))).2.hasHead = hh := by
        unfold tryShuntsu
        split_ifs with hc
        · simp only [Bool.and_eq_true] at hc
          have hlen := removeFromSlice_sequence_length tiles tile
            (hmem tile (List.mem_cons_self _ _)) hc.1.2 hc.2
          have := tryGroup_no_entry recur hrec tiles _
            ⟨TileGroupType.Shuntsu, [tile, tile + 1, tile + 2]⟩
            (tryKoutsu recur tiles tile (tryHead recur tiles tile acc)) hlen
            (by rw [h2.2]; exact hbad)
          exact ⟨this.1.trans h2.1, this.2.trans h2.2⟩
        · exact h2
      have := ih (tile :: processed) _ hrest h3.2
      exact ⟨this.1.trans h3.1, this.2⟩

/-- The search finds no entry for tiles whose number leaves the remainder 1 on
division by 3, nor, once a head is chosen, the remainder 2. -/
theorem search_no_entry (fuel : Nat) :
    ∀ (l : List BaseTile) (ts : TileSplitter),
      (l.length % 3 = 1 ∨ (ts.hasHead = true ∧ l.length % 3 = 2)) →
      (getAllCompletedTilesRecursive fuel l ts).1 = [] ∧
        (getAllCompletedTilesRecursive fuel l ts).2.hasHead = ts.hasHead := by
  induction fuel with
  | zero => intro l ts _; exact ⟨rfl, rfl⟩
  | succ fuel ih =>
    intro l ts hbad
    unfold getAllCompletedTilesRecursive
    have hne : ¬ l.length = 0 := by omega
    rw [if_neg hne]
    exact searchLoop_no_entry _ ih l ts.hasHead hbad l [] ([], ts) (fun _ hx => hx) rfl

/-- For thirteen tiles `GetAllCompletedTiles` returns no entry. -/
theorem GetAllCompletedTiles_thirteen (tiles : List BaseTile) (h : tiles.length = 13) :
    GetAllCompletedTiles tiles = [] := by
  unfold GetAllCompletedTiles
  simp only []
  rw [if_neg (by omega)]
  have := (search_no_entry (tiles.length + 1) (sortTiles tiles)
    (TileSplitter.Reset ⟨⟨TileGroup.zero, GroupSlice.nil⟩, false, []⟩)
    (Or.inl (by rw [sortTiles_length, h]))).1
  rw [this]
  rfl

/-- For a hand of 14 tiles and a kind of the hand `IsTenpaiAfterDiscard` is
false. -/
theorem IsTenpaiAfterDiscard_fourteen (p : Player) (tile : BaseTile)
    (h14 : p.Hand.length = 14) (hmem : tile ∈ p.Hand.map (fun t => t.Tile)) :
    p.IsTenpaiAfterDiscard tile = false := by
  unfold Player.IsTenpaiAfterDiscard
  simp only []
  rw [GetAllCompletedTiles_thirteen]
  · rfl
  · rw [List.length_erase_of_mem hmem, List.length_map, h14]

/-- C40: the closed hand 2m2m 3m3m 4m4m 6p6p 7p7p 8p 5s5s with a drawn east wind
is tenpai after the discard of the east wind (a second 8p completes it), and
`IsTenpaiAfterDiscard` returns false for it, as it does for every hand of 14
tiles and every kind of the hand. -/
theorem IsTenpaiAfterDiscard_rejects_tenpai :
    poorPlayer.Hand.length = 14 ∧
    (poorPlayer.Hand.map (fun t => t.Tile)).erase _1z = pinfuWaitHand.map (fun t => t.Tile) ∧
    (∃ ct, isDecompositionOf ct (pinfuWaitHand.map (fun t => t.Tile) ++ [_8p])) ∧
    poorPlayer.IsTenpaiAfterDiscard _1z = false ∧
    (∀ (p : Player) (tile : BaseTile), p.Hand.length = 14 →
      tile ∈ p.Hand.map (fun t => t.Tile) → p.IsTenpaiAfterDiscard tile = false) := by
  refine ⟨by decide, by decide, ⟨pinfuReturned, by decide, by decide, by decide, ?_⟩, ?_,
    IsTenpaiAfterDiscard_fourteen⟩
  · decide
  · exact IsTenpaiAfterDiscard_fourteen poorPlayer _1z (by decide) (by decide)

/-! ## The riichi declaration in `MakeSelection` -/

theorem logAction_kyoutaku (t : FullTable) (p1 p2 : Int) (action : LogAction)
    (tile : Option Tile) : (t.logAction p1 p2 action tile).Kyoutaku = t.Kyoutaku := by
  unfold FullTable.logAction
  split <;> rfl

/-- C38, as the code has it: a Riichi self-action applied by `MakeSelection`
sets the flags `Riichi` and `Ippatsu` of the player to move and leaves the four
scores and `Kyoutaku` as they are; the sum of the four scores plus 1000 times
`Kyoutaku` is unchanged. -/
theorem MakeSelection_riichi_keeps_scores (t : FullTable) (selection : Int)
    (actions : List SelfAction) (act : SelfAction) (hphase : t.GetPhase ≤ 3)
    (hactions : t.selfActions (t.Players (seatOf t.Turn)) = some actions)
    (hsel : 0 ≤ selection) (hget : actions.get? selection.toNat = some act)
    (hact : act.Action = BaseAction.Riichi) :
    ∃ t2, t.MakeSelection selection = some (true, t2) ∧
      (∀ i, (t2.Players i).Score = (t.Players i).Score) ∧ t2.Kyoutaku = t.Kyoutaku ∧
      (t2.Players (seatOf t.Turn)).Riichi = true ∧
      (t2.Players (seatOf t.Turn)).Ippatsu = true ∧
      (t2.Players 0).Score + (t2.Players 1).Score + (t2.Players 2).Score +
          (t2.Players 3).Score + 1000 * t2.Kyoutaku =
        (t.Players 0).Score + (t.Players 1).Score + (t.Players 2).Score +
          (t.Players 3).Score + 1000 * t.Kyoutaku := by
  have hturn : t.Turn < 4 := by
    rw [GetPhase_self t hphase]
    omega
  have hlt : selection.toNat < actions.length := by
    rw [List.get?_eq_some] at hget
    exact hget.1
  have hnot : ¬ (selection < 0 ∨ selection ≥ actions.length) := by omega
  have hseat : seatOf t.Turn = ⟨t.Turn, hturn⟩ := seatOf_of_lt t.Turn hturn
  have hscore : ∀ (p : Player) (i : Fin 4),
      (Function.update t.Players ⟨t.Turn, hturn⟩
        { p with Riichi := true, Ippatsu := true } i).Score =
      (Function.update t.Players ⟨t.Turn, hturn⟩ p i).Score := by
    intro p i
    by_cases h : i = ⟨t.Turn, hturn⟩
    · subst h; simp
    · simp [Function.update_noteq h]
  unfold FullTable.MakeSelection
  simp only []
  rw [if_pos hphase]
  unfold FullTable.selfActionPhase
  rw [dif_pos hturn]
  simp only []
  rw [← hseat, hactions]
  simp only []
  rw [if_neg hnot, hget]
  simp only []
  unfold FullTable.execSelfAction
  simp only [hact]
  refine ⟨_, rfl, ?_⟩
  rw [(logAction_players _ _ _ _ _).1, logAction_kyoutaku]
  dsimp only
  have hsc : ∀ i, (Function.update t.Players (seatOf t.Turn)
      { t.Players (seatOf t.Turn) with Riichi := true, Ippatsu := true } i).Score =
      (t.Players i).Score := by
    intro i
    by_cases h : i = seatOf t.Turn
    · subst h; simp
    · simp [Function.update_noteq h]
  refine ⟨hsc, rfl, ?_, ?_, ?_⟩
  · simp
  · simp
  · rw [hsc 0, hsc 1, hsc 2, hsc 3]

theorem MakeSelection_riichi_keeps_scores_witness :
    riichiTable.GetPhase ≤ 3 ∧
    riichiTable.selfActions (riichiTable.Players (seatOf riichiTable.Turn)) =
      some riichiTableActions ∧
    riichiTableActions.get? (15 : Int).toNat = some ⟨⟨BaseAction.Riichi, [⟨_1z, false, 108⟩]⟩⟩ ∧
    ∃ t2, riichiTable.MakeSelection 15 = some (true, t2) ∧
      (∀ i, (t2.Players i).Score = (riichiTable.Players i).Score) ∧
      t2.Kyoutaku = riichiTable.Kyoutaku ∧
      (t2.Players (seatOf riichiTable.Turn)).Riichi = true ∧
      (t2.Players (seatOf riichiTable.Turn)).Ippatsu = true ∧
      (t2.Players 0).Score + (t2.Players 1).Score + (t2.Players 2).Score +
          (t2.Players 3).Score + 1000 * t2.Kyoutaku =
        (riichiTable.Players 0).Score + (riichiTable.Players 1).Score +
          (riichiTable.Players 2).Score + (riichiTable.Players 3).Score +
          1000 * riichiTable.Kyoutaku :=
  ⟨by decide, by set_option maxRecDepth 100000 in decide, by decide,
    MakeSelection_riichi_keeps_scores riichiTable 15 riichiTableActions
      ⟨⟨BaseAction.Riichi, [⟨_1z, false, 108⟩]⟩⟩ (by decide)
      (by set_option maxRecDepth 100000 in decide) (by decide) (by decide) rfl⟩

/-- C38, counterexample: player 0 of `riichiTable`, closed and waiting with
25000 points, selects the riichi on the east wind; `MakeSelection` returns
true, the player is in riichi, the score is still 25000 and `Kyoutaku` is still
0. -/
theorem MakeSelection_riichi_no_deposit :
    riichiTableActions.get? 15 = some ⟨⟨BaseAction.Riichi, [⟨_1z, false, 108⟩]⟩⟩ ∧
    (riichiTable.Players 0).Score = 25000 ∧ riichiTable.Kyoutaku = 0 ∧
    (riichiTable.MakeSelection 15).map (fun r =>
        (r.1, (r.2.Players 0).Riichi, (r.2.Players 0).Score, r.2.Kyoutaku)) =
      some (true, true, 25000, 0) := by
  refine ⟨by decide, by decide, by decide, ?_⟩
  set_option maxRecDepth 100000 in decide

/-! ## The number of steps to a win is not negative -/

theorem adjustAndCount_pos (ptm ptt n : Int) (h : 0 ≤ ptt) : 1 ≤ adjustAndCount ptm ptt n := by
  rw [adjustAndCount_eq]
  unfold clampedMelds clampedPairs
  omega

theorem honorLoop_snd_nonneg (code : Nat) (pair : Int → Int) (hp : ∀ x, 0 ≤ x → 0 ≤ pair x)
    (l : List Nat) : ∀ c : Int × Int, 0 ≤ c.2 → 0 ≤ (l.foldl (honorStep code pair) c).2 := by
  induction l with
  | nil => intro c hc; exact hc
  | cons i rest ih =>
    intro c hc
    rw [List.foldl_cons]
    apply ih
    unfold honorStep
    simp only []
    split_ifs
    · exact hc
    · exact hp _ hc
    · exact hc

theorem honorCounts_snd_nonneg (code : Nat) (ptm ptt : Int) (pair : Int → Int)
    (hp : ∀ x, 0 ≤ x → 0 ≤ pair x) (h : 0 ≤ ptt) : 0 ≤ (honorCounts code ptm ptt pair).2 :=
  honorLoop_snd_nonneg code pair hp _ (ptm, ptt) h

theorem mem_of_lookup {α : Type} (l : List (Nat × α)) (k : Nat) (v : α)
    (h : l.lookup k = some v) : (k, v) ∈ l := by
  induction l with
  | nil => simp at h
  | cons a rest ih =>
    obtain ⟨k2, v2⟩ := a
    rw [List.lookup_cons] at h
    by_cases hk : k = k2
    · subst hk
      simp at h
      subst h
      exact List.mem_cons_self _ _
    · have : (k == k2) = false := by simpa using hk
      rw [this] at h
      exact List.mem_cons_of_mem _ (ih h)

theorem addSuit_snd_nonneg (s : Syanten) (hs : s.nonNegative) (c : Int × Int) (code : Nat)
    (hc : 0 ≤ c.2) : 0 ≤ (s.addSuit c code).2 := by
  unfold Syanten.addSuit
  cases hl : s.syanten_map.lookup code with
  | none => exact hc
  | some e =>
    obtain ⟨a, b, c2, d⟩ := e
    have hm := hs _ (mem_of_lookup _ _ _ hl)
    simp only [] at hm ⊢
    split_ifs
    · show 0 ≤ c.2 + b
      omega
    · show 0 ≤ c.2 + d
      omega

theorem suitLoop_without_map_nonneg (handCode : Fin 4 → Nat) (l : List (Fin 4)) :
    ∀ c : Int × Int, 0 ≤ c.2 →
      0 ≤ (l.foldl (fun (c : Int × Int) j =>
        let code := handCode j
        let group := (List.range 9).foldl (fun (g : Int × Int) i =>
          let count : Int := codeCount code i
          let g1 := if count ≥ 3 then (g.1 + count / 3, count % 3) else (g.1, count)
          let groupPtm := g1.1
          let count := g1.2
          if count ≥ 2 then (groupPtm, g.2 + count / 2) else (groupPtm, g.2)) ((0 : Int), (0 : Int))
        (c.1 + group.1, if group.2 > 0 then group.2 else c.2)) c).2 := by
  induction l with
  | nil => intro c hc; exact hc
  | cons j rest ih =>
    intro c hc
    rw [List.foldl_cons]
    apply ih
    simp only []
    split_ifs with h
    · omega
    · exact hc

/-- `CheckNormal` returns a number from 1 up for a table without negative
counts, loaded or not. -/
theorem CheckNormal_pos (s : Syanten) (hs : s.nonNegative) (handCode : Fin 4 → Nat) (n : Int) :
    1 ≤ s.CheckNormal handCode n := by
  unfold Syanten.CheckNormal
  split_ifs
  · unfold Syanten.checkNormalWithoutMap
    simp only []
    apply adjustAndCount_pos
    apply honorCounts_snd_nonneg
    · intro _ _; decide
    · exact suitLoop_without_map_nonneg handCode _ _ (le_refl _)
  · simp only []
    apply adjustAndCount_pos
    apply honorCounts_snd_nonneg
    · intro x hx; omega
    · simp only [List.foldl_cons, List.foldl_nil]
      apply addSuit_snd_nonneg s hs
      apply addSuit_snd_nonneg s hs
      apply addSuit_snd_nonneg s hs
      exact le_refl _

theorem HandToCode_loop_isSome (hand : List Tile) (h : ∀ t ∈ hand, t.Tile < 34) :
    ∀ code : Fin 4 → Nat, ∃ code2 : Fin 4 → Nat,
      hand.foldl handToCodeStep (some code) = some code2 := by
  induction hand with
  | nil => intro code; exact ⟨code, rfl⟩
  | cons t rest ih =>
    intro code
    rw [List.foldl_cons]
    have ht : t.Tile / 9 < 4 :=
      Nat.div_lt_of_lt_mul (lt_of_lt_of_le (h t (List.mem_cons_self _ _)) (by decide))
    have hstep : handToCodeStep (some code) t =
        some (Function.update code ⟨t.Tile / 9, ht⟩
          ((code ⟨t.Tile / 9, ht⟩ + (1 <<< (t.Tile % 9 * 3))) % 4294967296)) := by
      unfold handToCodeStep
      simp only [dif_pos ht]
    rw [hstep]
    exact ih (fun x hx => h x (List.mem_cons_of_mem _ hx)) _

/-- C31: for a table whose counts are not negative and a hand of tiles of the
kinds 0 to 33, `CalculateRoundToWin` returns a number, and the number is not
negative, whatever the number of called melds. -/
theorem CalculateRoundToWin_nonneg (syanten : Syanten) (hand : List Tile)
    (callGroupCount : Int) (hs : syanten.nonNegative) (hk : ∀ t ∈ hand, t.Tile < 34) :
    ∃ r, CalculateRoundToWin syanten hand callGroupCount = some r ∧ 0 ≤ r := by
  obtain ⟨code, hcode⟩ := HandToCode_loop_isSome hand hk (fun _ => 0)
  refine ⟨syanten.CheckNormal code callGroupCount, ?_, ?_⟩
  · unfold CalculateRoundToWin Syanten.NormalRoundToWin Syanten.HandToCode
    rw [hcode]
    rfl
  · have := CheckNormal_pos syanten hs code callGroupCount
    omega

theorem CalculateRoundToWin_nonneg_witness :
    loadTestTable.nonNegative ∧ (∀ t ∈ loadTestHand, t.Tile < 34) ∧
      ∃ r, CalculateRoundToWin loadTestTable loadTestHand 0 = some r ∧ 0 ≤ r :=
  ⟨by unfold Syanten.nonNegative; decide, by decide,
    CalculateRoundToWin_nonneg loadTestTable loadTestHand 0
      (by unfold Syanten.nonNegative; decide) (by decide)⟩

/-! ## The Tenhou wall: a permutation, and a function of the seed alone -/

theorem initGenrand_loop_congr (n : Nat) :
    ∀ (m : Nat) (a b : List Nat), 1 ≤ m → a.length = b.length →
      (∀ j, j < m → a[j]? = b[j]?) →
      ((List.range' m n).foldl initGenrandStep a).length =
          ((List.range' m n).foldl initGenrandStep b).length ∧
        ∀ j, j < m + n →
          ((List.range' m n).foldl initGenrandStep a)[j]? =
            ((List.range' m n).foldl initGenrandStep b)[j]? := by
  induction n with
  | zero =>
    intro m a b _ hl h
    exact ⟨hl, fun j hj => h j (by omega)⟩
  | succ n ih =>
    intro m a b hm hl h
    rw [List.range'_succ, List.foldl_cons, List.foldl_cons]
    have hprev : a.getD (m - 1) 0 = b.getD (m - 1) 0 := by
      rw [List.getD_eq_getElem?_getD, List.getD_eq_getElem?_getD, h (m - 1) (by omega)]
    have hstep := ih (m + 1) (initGenrandStep a m) (initGenrandStep b m) (by omega)
      (by unfold initGenrandStep; simp only [List.length_set]; exact hl)
      (by
        intro j hj
        unfold initGenrandStep
        simp only [List.getElem?_set, hprev, hl]
        by_cases hjm : m = j
        · simp only [hjm, if_true]
        · simp only [hjm, if_false]
          exact h j (by omega))
    refine ⟨hstep.1, fun j hj => hstep.2 j (by omega)⟩

/-- The function `initGenrand` writes all of `mt` and `mtIdx`: the variables
after the call do not depend on their values before it. -/
theorem initGenrand_congr (st1 st2 : MTState) (s : Nat) (h1 : st1.mt.length = mtN)
    (h2 : st2.mt.length = mtN) : initGenrand st1 s = initGenrand st2 s := by
  unfold initGenrand
  simp only []
  have hl : (st1.mt.set 0 s).length = (st2.mt.set 0 s).length := by
    simp only [List.length_set, h1, h2]
  have h0 : ∀ j, j < 1 → (st1.mt.set 0 s)[j]? = (st2.mt.set 0 s)[j]? := by
    intro j hj
    have : j = 0 := by omega
    subst this
    simp only [List.getElem?_set, h1, h2, if_true]
  obtain ⟨hlen, hget⟩ := initGenrand_loop_congr (mtN - 1) 1 _ _ (le_refl 1) hl h0
  have hlen1 : ((List.range' 1 (mtN - 1)).foldl initGenrandStep (st1.mt.set 0 s)).length
      = mtN := by
    have := (initGenrand_loop_congr (mtN - 1) 1 (st1.mt.set 0 s) (st1.mt.set 0 s) (le_refl 1)
      rfl (fun _ _ => rfl)).1
    have hfold : ∀ (l : List Nat) (a : List Nat),
        (l.foldl initGenrandStep a).length = a.length := by
      intro l
      induction l with
      | nil => intro a; rfl
      | cons i rest ih =>
        intro a
        rw [List.foldl_cons, ih]
        unfold initGenrandStep
        simp only [List.length_set]
    rw [hfold, List.length_set, h1]
  have heq : (List.range' 1 (mtN - 1)).foldl initGenrandStep (st1.mt.set 0 s) =
      (List.range' 1 (mtN - 1)).foldl initGenrandStep (st2.mt.set 0 s) := by
    apply List.ext_getElem?
    intro j
    by_cases hj : j < 1 + (mtN - 1)
    · exact hget j hj
    · have hj2 : mtN ≤ j := by unfold mtN at hj ⊢; omega
      rw [List.getElem?_eq_none (by rw [hlen1]; exact hj2),
        List.getElem?_eq_none (by rw [← hlen, hlen1]; exact hj2)]
  rw [heq]

/-- C33: the wall that `TenhouYamaFromSeed` returns for a seed does not depend
on the values that the package variables `mt` and `mtIdx` hold before the
call. -/
theorem TenhouYamaFromSeed_pure (decodeString : String → Option (List Nat))
    (sum512 : List Nat → List Nat) (st1 st2 : MTState) (mtseedB64 : String)
    (h1 : st1.mt.length = mtN) (h2 : st2.mt.length = mtN) :
    (TenhouYamaFromSeed decodeString sum512 st1 mtseedB64).1 =
      (TenhouYamaFromSeed decodeString sum512 st2 mtseedB64).1 := by
  unfold TenhouYamaFromSeed
  cases decodeString mtseedB64 with
  | none => rfl
  | some seedBytes =>
    simp only []
    split_ifs
    · rfl
    · simp only [initByArray, initGenrand_congr st1 st2 19650218 h1 h2]

theorem TenhouYamaFromSeed_pure_witness :
    MTState.initial.mt.length = mtN ∧ (⟨List.replicate 624 7, 3⟩ : MTState).mt.length = mtN ∧
      (TenhouYamaFromSeed (fun _ => some (List.replicate 2496 65)) (fun l => l.take 64)
          MTState.initial "").1 =
        (TenhouYamaFromSeed (fun _ => some (List.replicate 2496 65)) (fun l => l.take 64)
          ⟨List.replicate 624 7, 3⟩ "").1 :=
  ⟨List.length_replicate _ _, List.length_replicate _ _,
    TenhouYamaFromSeed_pure _ _ MTState.initial ⟨List.replicate 624 7, 3⟩ ""
      (List.length_replicate _ _) (List.length_replicate _ _)⟩

theorem perm_cons_set {α : Type} (t : List α) :
    ∀ (j : Nat) (a b : α), t.get? j = some b → (b :: t.set j a).Perm (a :: t) := by
  induction t with
  | nil => intro j a b h; simp at h
  | cons c t ih =>
    intro j a b h
    cases j with
    | zero =>
      simp only [List.get?_cons_zero, Option.some.injEq] at h
      subst h
      exact List.Perm.swap _ _ _
    | succ j =>
      simp only [List.get?_cons_succ] at h
      rw [List.set_cons_succ]
      exact (List.Perm.swap _ _ _).trans (((ih j a b h).cons c).trans (List.Perm.swap _ _ _))

/-- The exchange of two entries of a list gives a permutation of the list. -/
theorem swap_perm {α : Type} (l : List α) :
    ∀ (i j : Nat) (a b : α), l.get? i = some a → l.get? j = some b →
      ((l.set i b).set j a).Perm l := by
  induction l with
  | nil => intro i j a b h; simp at h
  | cons c t ih =>
    intro i j a b hi hj
    cases i with
    | zero =>
      simp only [List.get?_cons_zero, Option.some.injEq] at hi
      subst hi
      cases j with
      | zero =>
        simp only [List.get?_cons_zero, Option.some.injEq] at hj
        subst hj
        simp only [List.set_cons_zero]
        exact List.Perm.refl _
      | succ j =>
        simp only [List.get?_cons_succ] at hj
        simp only [List.set_cons_zero, List.set_cons_succ]
        exact perm_cons_set t j c b hj
    | succ i =>
      simp only [List.get?_cons_succ] at hi
      cases j with
      | zero =>
        simp only [List.get?_cons_zero, Option.some.injEq] at hj
        subst hj
        simp only [List.set_cons_zero, List.set_cons_succ]
        exact perm_cons_set t i c a hi
      | succ j =>
        simp only [List.get?_cons_succ] at hj
        simp only [List.set_cons_succ]
        exact (ih i j a b hi hj).cons c

theorem rndBlock_length (sum512 : List Nat → List Nat) (src rnd : List Nat) (bi : Nat) :
    (rndBlock sum512 src rnd bi).length = rnd.length := by
  unfold rndBlock
  simp only []
  generalize List.range 16 = ks
  induction ks generalizing rnd with
  | nil => rfl
  | cons k rest ih => rw [List.foldl_cons, ih, List.length_set]

theorem tenhouRnd_length (sum512 : List Nat → List Nat) (src : List Nat) :
    (tenhouRnd sum512 src).length = 144 := by
  unfold tenhouRnd
  have : ∀ (l : List Nat) (rnd : List Nat),
      (l.foldl (rndBlock sum512 src) rnd).length = rnd.length := by
    intro l
    induction l with
    | nil => intro rnd; rfl
    | cons bi rest ih => intro rnd; rw [List.foldl_cons, ih, rndBlock_length]
  rw [this, List.length_replicate]

/-- One step of the shuffle: the two indices are in range, and the wall after
the step is a permutation of the wall before. -/
theorem tenhouSwap_perm (rnd : List Nat) (yama : List Int) (i : Nat) (hr : i < rnd.length)
    (hy : yama.length = 136) (hi : i < 135) :
    ∃ yama2, tenhouSwap rnd yama i = some yama2 ∧ yama2.length = 136 ∧ yama2.Perm yama := by
  unfold tenhouSwap
  obtain ⟨r, hrget⟩ : ∃ r, rnd.get? i = some r :=
    ⟨rnd.get ⟨i, hr⟩, List.get?_eq_get hr⟩
  rw [hrget]
  simp only []
  have hmod : (136 - i) % 4294967296 = 136 - i := by omega
  rw [hmod]
  have hlt : r % (136 - i) < 136 - i := Nat.mod_lt _ (by omega)
  have hj : i + r % (136 - i) < yama.length := by omega
  have hi2 : i < yama.length := by omega
  rw [List.get?_eq_get hi2, List.get?_eq_get hj]
  simp only []
  refine ⟨_, rfl, ?_, ?_⟩
  · rw [List.length_set, List.length_set, hy]
  · exact swap_perm yama i _ _ _ (List.get?_eq_get hi2) (List.get?_eq_get hj)

theorem tenhouShuffle_perm (rnd : List Nat) (hr : 135 ≤ rnd.length) (order : List Nat)
    (ho : ∀ i ∈ order, i < 135) :
    ∀ yama : List Int, yama.length = 136 →
      ∃ yama2, tenhouShuffle rnd order yama = some yama2 ∧ yama2.length = 136 ∧
        yama2.Perm yama := by
  unfold tenhouShuffle
  induction order with
  | nil => intro yama hy; exact ⟨yama, rfl, hy, List.Perm.refl _⟩
  | cons i rest ih =>
    intro yama hy
    have hi := ho i (List.mem_cons_self _ _)
    obtain ⟨y1, h1, hl1, hp1⟩ := tenhouSwap_perm rnd yama i (by omega) hy hi
    rw [List.foldl_cons]
    simp only [Option.bind, h1]
    obtain ⟨y2, h2, hl2, hp2⟩ := ih (fun x hx => ho x (List.mem_cons_of_mem _ hx)) y1 hl1
    exact ⟨y2, h2, hl2, hp2.trans hp1⟩

/-- C32: for a seed that decodes to at least 2496 bytes `TenhouYamaFromSeed`
returns a wall, without an error and without an index out of range; the wall
has 136 entries, is a permutation of 0..135 and holds no number twice. -/
theorem TenhouYamaFromSeed_permutation (decodeString : String → Option (List Nat))
    (sum512 : List Nat → List Nat) (st : MTState) (mtseedB64 : String) (seedBytes : List Nat)
    (hdec : decodeString mtseedB64 = some seedBytes) (hlen : 2496 ≤ seedBytes.length) :
    ∃ yama, (TenhouYamaFromSeed decodeString sum512 st mtseedB64).1 = some yama ∧
      yama.length = 136 ∧ yama.Perm ((List.range 136).map (fun (i : Nat) => (i : Int))) ∧
      yama.Nodup := by
  unfold TenhouYamaFromSeed
  rw [hdec]
  simp only []
  rw [if_neg (by unfold mtN; omega)]
  simp only []
  have hwall : ((List.range 136).map (fun (i : Nat) => (i : Int))).length = 136 := by
    rw [List.length_map, List.length_range]
  obtain ⟨yama, h1, h2, h3⟩ := tenhouShuffle_perm
    (tenhouRnd sum512 (genrandLoop 288
      (initByArray st ((List.range mtN).map (rtseedEntry seedBytes)))).1)
    (by rw [tenhouRnd_length]; decide) (List.range 135)
    (fun i hi => List.mem_range.1 hi) _ hwall
  refine ⟨yama, h1, h2, h3, ?_⟩
  have hnd : ((List.range 136).map (fun (i : Nat) => (i : Int))).Nodup :=
    List.Nodup.map (fun a b h => by exact_mod_cast h) (List.nodup_range 136)
  exact (List.Perm.nodup_iff h3).2 hnd

theorem TenhouYamaFromSeed_permutation_witness :
    (fun _ : String => some (List.replicate 2496 65)) "" = some (List.replicate 2496 65) ∧
    2496 ≤ (List.replicate 2496 65).length ∧
    ∃ yama, (TenhouYamaFromSeed (fun _ => some (List.replicate 2496 65)) (fun l => l.take 64)
        MTState.initial "").1 = some yama ∧
      yama.length = 136 ∧ yama.Perm ((List.range 136).map (fun (i : Nat) => (i : Int))) ∧
      yama.Nodup :=
  ⟨rfl, (List.length_replicate _ _).ge,
    TenhouYamaFromSeed_permutation (fun _ => some (List.replicate 2496 65)) (fun l => l.take 64)
      MTState.initial "" (List.replicate 2496 65) rfl (List.length_replicate _ _).ge⟩

/-! ## `SimulateToCompletion` ends with the exhaustive draw -/

theorem GetTsumo_isSome (p : Player) (table : Option Table) (h : p.Hand ≠ []) :
    ∃ a, p.GetTsumo table = some a := by
  unfold Player.GetTsumo
  split_ifs
  · have hlast : ∃ w, (ConvertTilesToBaseTiles p.Hand).getLast? = some w := by
      cases hl : (ConvertTilesToBaseTiles p.Hand).getLast? with
      | some w => exact ⟨w, rfl⟩
      | none =>
        rw [List.getLast?_eq_none_iff] at hl
        have hlen := congrArg List.length hl
        unfold ConvertTilesToBaseTiles sortTiles at hlen
        rw [List.length_insertionSort, List.length_map] at hlen
        exact absurd (List.length_eq_zero.1 hlen) h
    obtain ⟨w, hw⟩ := hlast
    simp only [hw]
    cases CalculateScore table p (ConvertTilesToBaseTiles p.Hand) p.CallGroups w
      (IsSevenPairPattern (ConvertTilesToBaseTiles p.Hand)) <;> exact ⟨_, rfl⟩
  · exact ⟨_, rfl⟩

theorem GetDiscard_head (p : Player) (h : p.Hand ≠ []) :
    ∃ tile rest, (p.GetDiscard false).1 = (⟨⟨BaseAction.Discard, [tile]⟩⟩ : SelfAction) :: rest := by
  unfold Player.GetDiscard
  simp only []
  cases hs : sortHandTiles p.Hand with
  | nil =>
    have hlen := congrArg List.length hs
    unfold sortHandTiles at hlen
    rw [List.length_insertionSort] at hlen
    exact absurd (List.length_eq_zero.1 hlen) h
  | cons t ts => exact ⟨t, discardLoop ts [t.Tile], rfl⟩

/-- The first self-action of a player with a tile in hand is a discard. -/
theorem GetSelfActions_head (pr : PaipuReplayer) (idx : Fin 4)
    (h : (pr.Table.Players idx).Hand ≠ []) :
    ∃ tile rest, pr.GetSelfActions idx =
      some ((⟨⟨BaseAction.Discard, [tile]⟩⟩ : SelfAction) :: rest) := by
  obtain ⟨tile, rest, hd⟩ := GetDiscard_head _ h
  obtain ⟨a, ha⟩ := GetTsumo_isSome (pr.Table.Players idx) (some pr.Table.toTable) h
  unfold PaipuReplayer.GetSelfActions
  simp only [hd, ha, List.cons_append, Option.map_some']
  refine ⟨tile, ?_⟩
  split_ifs <;> simp only [Option.map_some', List.cons_append] <;> exact ⟨_, rfl⟩

theorem logAction_turn (t : FullTable) (p1 p2 : Int) (action : LogAction)
    (tile : Option Tile) : (t.logAction p1 p2 action tile).Turn = t.Turn := by
  unfold FullTable.logAction
  split <;> rfl

/-- The discard of `ExecuteAction` leaves the wall, the turn, the state of the
game, the round and the results as they are. -/
theorem ExecuteAction_discard (pr : PaipuReplayer) (idx : Fin 4) (tile : Tile) :
    ∃ pr2, pr.ExecuteAction idx ⟨BaseAction.Discard, [tile]⟩ = some pr2 ∧
      pr2.GameState = pr.GameState ∧ pr2.CurrentRound = pr.CurrentRound ∧
      pr2.ResultLog = pr.ResultLog ∧ pr2.Table.Turn = pr.Table.Turn ∧
      pr2.Table.Yama = pr.Table.Yama := by
  unfold PaipuReplayer.ExecuteAction
  simp only [Option.map_some']
  refine ⟨_, rfl, rfl, rfl, rfl, ?_, ?_⟩
  · unfold PaipuReplayer.executeDiscard
    simp only []
    rw [logAction_turn]
  · unfold PaipuReplayer.executeDiscard
    simp only []
    rw [(logAction_players _ _ _ _ _).2.1]

theorem drawLogged_turn (t : FullTable) (idx : Fin 4) : (t.drawLogged idx).Turn = t.Turn := by
  unfold FullTable.drawLogged
  cases t.Yama.getLast? <;> rfl

/-- A draw from a wall that is not empty: the wall loses a tile, the player has
a tile in hand, the turn is as before. -/
theorem DrawNormal_fields (t : FullTable) (idx : Fin 4) (h : 0 < t.Yama.length) :
    (t.DrawNormal idx).Yama.length = t.Yama.length - 1 ∧ (t.DrawNormal idx).Turn = t.Turn ∧
      ((t.DrawNormal idx).Players idx).Hand ≠ [] := by
  obtain ⟨l1, l2, _⟩ := drawLogged_lengths t idx h
  unfold FullTable.DrawNormal
  cases hl : t.Yama.getLast? with
  | none =>
    rw [List.getLast?_eq_none_iff] at hl
    rw [hl] at h
    cases h
  | some tile =>
    simp only []
    rw [(logAction_players _ _ _ _ _).2.1, (logAction_players _ _ _ _ _).1, logAction_turn,
      drawLogged_turn]
    refine ⟨l1, rfl, ?_⟩
    intro hnil
    have := l2 idx
    rw [hnil] at this
    simp at this

/-- The draw at the start of the loop body. -/
theorem drawForTurn_fields (pr : PaipuReplayer) (turn : Fin 4) (hy : 0 < pr.Table.Yama.length)
    (hhand : pr.CurrentRound = 0 → (pr.Table.Players turn).Hand ≠ [])
    (hcr : 0 ≤ pr.CurrentRound) :
    (pr.drawForTurn turn).GameState = pr.GameState ∧
      (pr.drawForTurn turn).CurrentRound = pr.CurrentRound ∧
      (pr.drawForTurn turn).ResultLog = pr.ResultLog ∧
      (pr.drawForTurn turn).Table.Turn = pr.Table.Turn ∧
      (pr.drawForTurn turn).Table.Yama.length =
        pr.Table.Yama.length - (if 0 < pr.CurrentRound then 1 else 0) ∧
      ((pr.drawForTurn turn).Table.Players turn).Hand ≠ [] := by
  unfold PaipuReplayer.drawForTurn
  by_cases hc : pr.CurrentRound > 0
  · obtain ⟨d1, d2, d3⟩ := DrawNormal_fields pr.Table turn hy
    rw [if_pos hc]
    refine ⟨rfl, rfl, rfl, d2, d1.trans (by rw [if_pos hc]), ?_⟩
    show (Function.update (pr.Table.DrawNormal turn).Players turn
      ((pr.Table.DrawNormal turn).Players turn).UpdateAtariTiles turn).Hand ≠ []
    rw [Function.update_same]
    exact d3
  · rw [if_neg hc]
    refine ⟨rfl, rfl, rfl, rfl, ?_, hhand (by omega)⟩
    rw [if_neg hc]
    rfl

/-- One iteration of the loop of `SimulateToCompletion` on a game that is going
on: it does not panic, the game still goes on, and from the second iteration on
the wall has lost a tile. -/
theorem simulateStep_spec (pr : PaipuReplayer) (hturn : pr.Table.Turn < 4)
    (hgs : pr.GameState = 0) (hcr : 0 ≤ pr.CurrentRound) (hy : 0 < pr.Table.Yama.length)
    (hhand : pr.CurrentRound = 0 → (pr.Table.Players (seatOf pr.Table.Turn)).Hand ≠ []) :
    ∃ pr2, pr.simulateStep = some pr2 ∧ pr2.Table.Turn < 4 ∧ pr2.GameState = 0 ∧
      0 < pr2.CurrentRound ∧ pr2.ResultLog = pr.ResultLog ∧
      pr2.Table.Yama.length = pr.Table.Yama.length - (if 0 < pr.CurrentRound then 1 else 0) := by
  rw [seatOf_of_lt _ hturn] at hhand
  obtain ⟨f1, f2, f3, f4, f5, f6⟩ := drawForTurn_fields pr ⟨pr.Table.Turn, hturn⟩ hy hhand hcr
  unfold PaipuReplayer.simulateStep
  rw [dif_pos hturn]
  simp only []
  generalize pr.drawForTurn ⟨pr.Table.Turn, hturn⟩ = pr1 at f1 f2 f3 f4 f5 f6 ⊢
  obtain ⟨tile, rest, hact⟩ := GetSelfActions_head
    { pr1 with CurrentRound := pr1.CurrentRound + 1 } ⟨pr.Table.Turn, hturn⟩ f6
  unfold PaipuReplayer.actForTurn
  rw [hact]
  simp only []
  obtain ⟨pr2, e1, e2, e3, e4, e5, e6⟩ := ExecuteAction_discard
    { pr1 with CurrentRound := pr1.CurrentRound + 1 } ⟨pr.Table.Turn, hturn⟩ tile
  rw [e1]
  simp only [Option.map_some']
  refine ⟨_, rfl, ?_, ?_, ?_, ?_, ?_⟩
  · exact Nat.mod_lt _ (by decide)
  · show pr2.GameState = 0
    rw [e2]
    exact f1.trans hgs
  · show 0 < pr2.CurrentRound
    rw [e3]
    show 0 < pr1.CurrentRound + 1
    omega
  · show pr2.ResultLog = pr.ResultLog
    rw [e4]
    exact f3
  · show pr2.Table.Yama.length = _
    rw [e6]
    exact f5

/-- The loop of `SimulateToCompletion` ends when its budget is above the number
of tiles that the wall has over 14, by one more before the first iteration:
the game is still going on and the results are as before. -/
theorem simulateLoop_spec (fuel : Nat) :
    ∀ pr : PaipuReplayer, pr.Table.Turn < 4 → pr.GameState = 0 → 0 ≤ pr.CurrentRound →
      (pr.CurrentRound = 0 → (pr.Table.Players (seatOf pr.Table.Turn)).Hand ≠ []) →
      pr.Table.Yama.length - 14 + (if 0 < pr.CurrentRound then 0 else 1) < fuel →
      ∃ pr2, pr.simulateLoop fuel = some pr2 ∧ pr2.GameState = 0 ∧
        pr2.ResultLog = pr.ResultLog ∧ pr2.Table.Yama.length ≤ 14 ∧
        (14 ≤ pr.Table.Yama.length → pr2.Table.Yama.length = 14) := by
  induction fuel with
  | zero => intro pr _ _ _ _ hf; omega
  | succ fuel ih =>
    intro pr hturn hgs hcr hhand hf
    unfold PaipuReplayer.simulateLoop
    by_cases hy : pr.Table.Yama.length > 14
    · rw [if_pos ⟨hgs, hy⟩]
      obtain ⟨pr1, s1, s2, s3, s4, s5, s6⟩ :=
        simulateStep_spec pr hturn hgs hcr (by omega) hhand
      rw [s1]
      simp only []
      obtain ⟨pr2, t1, t2, t3, t4, t5⟩ := ih pr1 s2 s3 (by omega) (fun h => by omega)
        (by
          rw [s6, if_pos s4]
          split_ifs at hf ⊢ <;> omega)
      refine ⟨pr2, t1, t2, t3.trans s5, t4, fun _ => t5 ?_⟩
      rw [s6]
      split_ifs <;> omega
    · rw [if_neg (fun h => hy h.2)]
      exact ⟨pr, rfl, hgs, rfl, by omega, fun h => by omega⟩

theorem SortHand_length (p : Player) : p.SortHand.Hand.length = p.Hand.length := by
  unfold Player.SortHand
  exact List.length_insertionSort _ _

/-- The table after `Init`: 123 tiles in the wall, at least three tiles in
every hand, the turn as before. -/
theorem Init_fields (pr : PaipuReplayer) (intn4 intn : Nat → Nat) :
    (pr.Init intn4 intn).Table.Yama.length = 123 ∧
      (pr.Init intn4 intn).Table.Turn = pr.Table.Turn ∧
      (pr.Init intn4 intn).GameState = 0 ∧ (pr.Init intn4 intn).CurrentRound = 0 ∧
      (pr.Init intn4 intn).ResultLog = [] ∧
      ∀ j, ((pr.Init intn4 intn).Table.Players j).Hand ≠ [] := by
  obtain ⟨w1, _, _⟩ := InitBeforePlaying_wall pr.Table intn4 intn
  obtain ⟨d1, d2, _⟩ := DrawTenhouStyle_lengths (pr.Table.InitBeforePlaying intn4 intn)
    (by omega)
  have hturn0 : (pr.Table.InitBeforePlaying intn4 intn).Turn = pr.Table.Turn := by
    have e1 : ∀ t : FullTable, t.InitTiles.Turn = t.Turn := fun _ => rfl
    have e2 : ∀ t : FullTable, (t.InitRedDora3 intn4).Turn = t.Turn := fun _ => rfl
    have e3 : ∀ t : FullTable, (t.ShuffleTiles intn).Turn = t.Turn := by
      intro t
      simp only [FullTable.ShuffleTiles]
    have e4 : ∀ t : FullTable, t.InitYama.Turn = t.Turn := fun _ => rfl
    have e5 : ∀ t : FullTable, t.InitDora.Turn = t.Turn := fun _ => rfl
    unfold FullTable.InitBeforePlaying
    rw [e5, e4, e3, e2, e1]
  have hturn1 : ∀ (l : List (Fin 4)) (t : FullTable),
      (l.foldl FullTable.drawLogged t).Turn = t.Turn := by
    intro l
    induction l with
    | nil => intro t; rfl
    | cons i rest ih => intro t; rw [List.foldl_cons, ih, drawLogged_turn]
  have hsort : ∀ t : FullTable, t.SortPlayerHands.Yama = t.Yama ∧
      t.SortPlayerHands.Turn = t.Turn ∧
      ∀ j, t.SortPlayerHands.Players j = (t.Players j).SortHand :=
    fun _ => ⟨rfl, rfl, fun _ => rfl⟩
  have hT : (pr.Init intn4 intn).Table =
      ((pr.Table.InitBeforePlaying intn4 intn).DrawTenhouStyle).SortPlayerHands := rfl
  refine ⟨?_, ?_, rfl, rfl, rfl, ?_⟩
  · rw [hT, (hsort _).1, d1, w1]
  · rw [hT, (hsort _).2.1, DrawTenhouStyle_eq_list, hturn1, hturn0]
  · intro j hnil
    rw [hT, (hsort _).2.2] at hnil
    have hl := congrArg List.length hnil
    rw [SortHand_length, d2 j] at hl
    simp only [List.length_nil] at hl
    split_ifs at hl

/-- C34: on a replayer prepared by `Init`, the turn being one of 0..3,
`SimulateToCompletion` returns once its loop may run 111 times or more: the
wall has 123 tiles, the first iteration draws no tile and each later one draws
one, and no iteration ends the game.  The result returned is not nil; its type
is `RyukyokuNotile`, which is not `NoResult`. -/
theorem SimulateToCompletion_terminates (pr : PaipuReplayer) (intn4 intn : Nat → Nat)
    (fuel : Nat) (hturn : pr.Table.Turn < 4) (hfuel : 111 ≤ fuel) :
    ∃ result pr2, (pr.Init intn4 intn).SimulateToCompletion fuel = some (some result, pr2) ∧
      result.ResultType = ResultType.RyukyokuNotile ∧
      result.ResultType ≠ ResultType.NoResult ∧
      pr2.GameState = 1 ∧ pr2.ResultLog = [result] ∧ pr2.Table.Yama.length = 14 := by
  obtain ⟨i1, i2, i3, i4, i5, i6⟩ := Init_fields pr intn4 intn
  obtain ⟨pr2, t1, t2, t3, _, t5⟩ := simulateLoop_spec fuel (pr.Init intn4 intn)
    (by rw [i2]; exact hturn) i3 (by rw [i4]) (fun _ => i6 _)
    (by rw [i1, i4]; simp only [lt_self_iff_false, if_false]; omega)
  unfold PaipuReplayer.SimulateToCompletion
  rw [t1]
  simp only [Option.map_some', t2, if_true]
  refine ⟨GenerateResultNotile, _, rfl, rfl, by decide, rfl, ?_, t5 (by omega)⟩
  show pr2.ResultLog ++ [GenerateResultNotile] = [GenerateResultNotile]
  rw [t3, i5]
  rfl

theorem SimulateToCompletion_terminates_witness :
    (NewPaipuReplayer NewTable).Table.Turn < 4 ∧ 111 ≤ 200 ∧
    ∃ result pr2, ((NewPaipuReplayer NewTable).Init (fun _ => 1)
        (fun i => i * 7 + 3)).SimulateToCompletion 200 = some (some result, pr2) ∧
      result.ResultType = ResultType.RyukyokuNotile ∧
      result.ResultType ≠ ResultType.NoResult ∧
      pr2.GameState = 1 ∧ pr2.ResultLog = [result] ∧ pr2.Table.Yama.length = 14 :=
  ⟨by decide, by decide,
    SimulateToCompletion_terminates (NewPaipuReplayer NewTable) (fun _ => 1)
      (fun i => i * 7 + 3) 200 (by decide) (by decide)⟩

end Mahjong
